import Mathlib

/-! MazeGame: the maze generator and the wall-rotation engine

A shallow embedding of `src/cell.js`, `src/maze.js` and the parts of
`src/game.js` that drive them.

* A JavaScript object reference to a `Cell` stored in the grid is a pair of
  grid indices (`Ref`); the cell's own `rowNumber` / `columnNumber` fields are
  kept as data and the methods use them exactly where the source does.
* A `TypeError` (reading a property of `undefined`) is `none`.
* `Math.floor(Math.random() * n)` is some index below `n` (and `0` when `n` is `0`);
  the draw is an argument `rnd` and the index is `randomIndex rnd n`.
* Canvas drawing, audio and DOM calls read state only and are left out.
-/

namespace MazeGame

/-! ## Data model (`Cell` constructor, `Maze` constructor) -/

/-- One wall record of a cell: `isShown`, `theta`, `maxTheta`. -/
structure Wall where
  isShown : Bool
  theta : Nat
  maxTheta : Nat
deriving DecidableEq

/-- The `walls` object of a cell. -/
structure Walls where
  topWall : Wall
  bottomWall : Wall
  leftWall : Wall
  rightWall : Wall
deriving DecidableEq

/-- A `Cell` object (the pixel fields `parentSize`, `wallLength` are only used for drawing). -/
structure Cell where
  rowNumber : Nat
  columnNumber : Nat
  visited : Bool
  isRotating : Bool
  isGoal : Bool
  wallToRotate : Option Nat
  walls : Walls
deriving DecidableEq

/-- The 2D grid array: a list of rows. -/
abbrev Grid := List (List Cell)

/-- A reference to a cell object held in the grid: its two grid indices. -/
abbrev Ref := Nat × Nat

/-- The `Cell` constructor: nothing visited, all four walls shown, walls at their resting angle. -/
def Cell.mk0 (rowNumber columnNumber : Nat) : Cell :=
  { rowNumber := rowNumber
    columnNumber := columnNumber
    visited := false
    isRotating := false
    isGoal := false
    wallToRotate := some 0
    walls :=
      { topWall := { isShown := true, theta := 0, maxTheta := 90 }
        bottomWall := { isShown := true, theta := 180, maxTheta := 270 }
        leftWall := { isShown := true, theta := 270, maxTheta := 360 }
        rightWall := { isShown := true, theta := 90, maxTheta := 180 } } }

/-- The `Maze` object. The stack is kept with its top at the head of the list. -/
structure Maze where
  rows : Nat
  columns : Nat
  grid : Grid
  stack : List Ref
  cellsToRotate : List Ref
  isRotating : Bool
  currentCell : Option Ref
deriving DecidableEq

/-- The program state the core reads and writes: the maze, the module-level flag
`generation` of `maze.js`, and the fields of `Game` touched by the maze
(`mazeGenerationComplete`, `isGameOver`, the number of `gameOver()` calls, and the
player position `(x, y)` in units of the cell size `parentSize / columns`). -/
structure State where
  maze : Maze
  generation : Bool
  mazeGenerationComplete : Bool
  isGameOver : Bool
  gameOverCalls : Nat
  playerPos : Nat × Nat
deriving DecidableEq

/-- The `Maze` constructor: empty grid, empty stack, no current cell. -/
def Maze.mk0 (rows columns : Nat) : Maze :=
  { rows := rows, columns := columns, grid := [], stack := [], cellsToRotate := [],
    isRotating := false, currentCell := none }

/-! ## Grid access -/

/-- The cell a reference points to, `none` when there is no such cell (`undefined`). -/
def cellAt (grid : Grid) (p : Ref) : Option Cell :=
  match grid[p.1]? with
  | none => none
  | some row => row[p.2]?

/-- JavaScript read `grid[i][j]`: `none` is the TypeError raised when row `i` is
missing, `some none` is `undefined` (row present, column missing), otherwise the reference. -/
def readRef (grid : Grid) (i j : Nat) : Option (Option Ref) :=
  match grid[i]? with
  | none => none
  | some row => some (if j < row.length then some (i, j) else none)

/-- In-place update of the cell object at a reference. -/
def modifyCell (grid : Grid) (p : Ref) (f : Cell → Cell) : Grid :=
  List.modify (List.modify f p.2) p.1 grid

/-- An assignment through `grid[i][j]`: a TypeError when that cell is `undefined`. -/
def writeCell (grid : Grid) (p : Ref) (f : Cell → Cell) : Option Grid :=
  match cellAt grid p with
  | none => none
  | some _ => some (modifyCell grid p f)

/-! Field setters used by the assignments of the source. -/

def Cell.setVisited (c : Cell) : Cell := { c with visited := true }

def Cell.setTopShown (b : Bool) (c : Cell) : Cell :=
  { c with walls := { c.walls with topWall := { c.walls.topWall with isShown := b } } }

def Cell.setBottomShown (b : Bool) (c : Cell) : Cell :=
  { c with walls := { c.walls with bottomWall := { c.walls.bottomWall with isShown := b } } }

def Cell.setLeftShown (b : Bool) (c : Cell) : Cell :=
  { c with walls := { c.walls with leftWall := { c.walls.leftWall with isShown := b } } }

def Cell.setRightShown (b : Bool) (c : Cell) : Cell :=
  { c with walls := { c.walls with rightWall := { c.walls.rightWall with isShown := b } } }

def Cell.setTopTheta (t : Nat) (c : Cell) : Cell :=
  { c with walls := { c.walls with topWall := { c.walls.topWall with theta := t } } }

def Cell.setBottomTheta (t : Nat) (c : Cell) : Cell :=
  { c with walls := { c.walls with bottomWall := { c.walls.bottomWall with theta := t } } }

def Cell.setLeftTheta (t : Nat) (c : Cell) : Cell :=
  { c with walls := { c.walls with leftWall := { c.walls.leftWall with theta := t } } }

def Cell.setRightTheta (t : Nat) (c : Cell) : Cell :=
  { c with walls := { c.walls with rightWall := { c.walls.rightWall with theta := t } } }

def Cell.setIsRotating (b : Bool) (c : Cell) : Cell := { c with isRotating := b }

def Cell.setWallToRotate (w : Option Nat) (c : Cell) : Cell := { c with wallToRotate := w }

def Cell.setIsGoal (b : Bool) (c : Cell) : Cell := { c with isGoal := b }

/-! ## `Maze.setupMaze` -/

/-- One row built by the inner loop of `setupMaze`. -/
def newRow (row columns : Nat) : List Cell :=
  (List.range columns).map (fun column => Cell.mk0 row column)

/-- `Maze.setupMaze`: pushes `rows` new rows of `columns` new cells onto `grid`, sets
`currentCell = grid[0][0]` and marks `grid[rows-1][columns-1]` as the goal.
`grid[0][0]` may be `undefined` (then `currentCell` is); the goal assignment raises a
TypeError when that cell does not exist. -/
def setupMaze (m : Maze) : Option Maze :=
  let grid1 := m.grid ++ (List.range m.rows).map (fun row => newRow row m.columns)
  match readRef grid1 0 0 with
  | none => none
  | some cur =>
    if m.rows = 0 ∨ m.columns = 0 then none
    else
      match writeCell grid1 (m.rows - 1, m.columns - 1) (Cell.setIsGoal true) with
      | none => none
      | some grid2 => some { m with grid := grid2, currentCell := cur }

/-- The state right after `new Maze(game, size, rows, columns, wallColor)` followed by
`setupMaze()`, in a page where no maze has finished generating yet. -/
def freshState (rows columns : Nat) : Option State :=
  match setupMaze (Maze.mk0 rows columns) with
  | none => none
  | some m => some
    { maze := m, generation := false, mazeGenerationComplete := false,
      isGameOver := false, gameOverCalls := 0, playerPos := (0, 0) }

/-! ## `Cell.checkNeighbors`, `Cell.removeWalls`, `Maze.draw` -/

/-- The value of `Math.floor(Math.random() * n)` for the draw `rnd`. -/
def randomIndex (rnd n : Nat) : Nat := if n = 0 then 0 else rnd % n

/-- The guard `if (n && !n.visited) neighbors.push(n)`. -/
def pushUnvisited (grid : Grid) (neighbors : List Ref) (n : Option Ref) : List Ref :=
  match n with
  | none => neighbors
  | some p =>
    match cellAt grid p with
    | none => neighbors
    | some c => if c.visited then neighbors else neighbors ++ [p]

/-- `Cell.checkNeighbors` of the cell `this` whose `parentGrid` is `grid`:
`none` is a TypeError, `some none` is `undefined`. Both bounds use `grid.length`. -/
def checkNeighbors (grid : Grid) (this : Cell) (rnd : Nat) : Option (Option Ref) :=
  let row := this.rowNumber
  let column := this.columnNumber
  match (if row ≠ 0 then readRef grid (row - 1) column else some none) with
  | none => none
  | some top =>
  match (if row + 1 ≠ grid.length then readRef grid (row + 1) column else some none) with
  | none => none
  | some bottom =>
  match (if column + 1 ≠ grid.length then readRef grid row (column + 1) else some none) with
  | none => none
  | some right =>
  match (if column ≠ 0 then readRef grid row (column - 1) else some none) with
  | none => none
  | some left =>
    let neighbors :=
      pushUnvisited grid (pushUnvisited grid (pushUnvisited grid (pushUnvisited grid [] top)
        bottom) right) left
    if neighbors.length ≠ 0 then some (neighbors[randomIndex rnd neighbors.length]?) else some none

/-- `Cell.removeWalls(cell1, cell2)`; the differences are signed. -/
def removeWalls (grid : Grid) (p1 p2 : Ref) : Option Grid :=
  match cellAt grid p1, cellAt grid p2 with
  | some cell1, some cell2 =>
    let x : Int := (cell1.columnNumber : Int) - (cell2.columnNumber : Int)
    let g1 :=
      if x = 1 then modifyCell (modifyCell grid p1 (Cell.setLeftShown false)) p2 (Cell.setRightShown false)
      else if x = -1 then
        modifyCell (modifyCell grid p1 (Cell.setRightShown false)) p2 (Cell.setLeftShown false)
      else grid
    let y : Int := (cell1.rowNumber : Int) - (cell2.rowNumber : Int)
    let g2 :=
      if y = 1 then modifyCell (modifyCell g1 p1 (Cell.setTopShown false)) p2 (Cell.setBottomShown false)
      else if y = -1 then
        modifyCell (modifyCell g1 p1 (Cell.setBottomShown false)) p2 (Cell.setTopShown false)
      else g1
    some g2
  | _, _ => none

/-- The tail of `Maze.draw`: `if (this.stack.length === 0)` sets both completion flags. -/
def finishDraw (s : State) (m : Maze) : State :=
  if m.stack.length = 0 then
    { s with maze := m, mazeGenerationComplete := true, generation := true }
  else { s with maze := m }

/-- One generation step, `Maze.draw`. -/
def draw (s : State) (rnd : Nat) : Option State :=
  match s.maze.currentCell with
  | none => none
  | some cur =>
    match writeCell s.maze.grid cur Cell.setVisited with
    | none => none
    | some grid1 =>
      match cellAt grid1 cur with
      | none => none
      | some this =>
        match checkNeighbors grid1 this rnd with
        | none => none
        | some (some next) =>
          match writeCell grid1 next Cell.setVisited with
          | none => none
          | some grid2 =>
            match removeWalls grid2 cur next with
            | none => none
            | some grid3 =>
              some (finishDraw s
                { s.maze with grid := grid3, stack := cur :: s.maze.stack, currentCell := some next })
        | some none =>
          match s.maze.stack with
          | cell :: rest =>
            some (finishDraw s { s.maze with grid := grid1, stack := rest, currentCell := some cell })
          | [] => some (finishDraw s { s.maze with grid := grid1 })

/-! ## Scramble selection (`maze.js`) -/

/-- `Cell.getShownWalls`: the flags in the order `[top, right, bottom, left]`. -/
def Cell.getShownWalls (c : Cell) : List Bool :=
  [c.walls.topWall.isShown, c.walls.rightWall.isShown, c.walls.bottomWall.isShown,
    c.walls.leftWall.isShown]

/-- `Cell.equals`. -/
def Cell.equals (this otherCell : Cell) : Bool :=
  this.rowNumber == otherCell.rowNumber && this.columnNumber == otherCell.columnNumber

/-- `Array.prototype.forEach`: runs the callback on every element; whatever the callback
returns is discarded. -/
def forEachDiscard {α β : Type} (l : List α) (callback : α → Option β) : Unit :=
  l.foldl (fun _ a => match callback a with | _ => ()) ()

/-- `Maze.verifyUniqueRandomCell`. The `return false` sits inside the `forEach` callback. -/
def verifyUniqueRandomCell (m : Maze) (randomCell : Cell) : Bool :=
  if m.cellsToRotate.length = 0 then true
  else
    match forEachDiscard (m.cellsToRotate.filterMap (cellAt m.grid))
        (fun cell => if randomCell.equals cell then some false else none) with
    | () => true

/-- The number of `true` entries (the first `forEach` of `verifyNonBorderWallsExist`). -/
def countTrue (l : List Bool) : Nat := (l.filter (fun b => b)).length

/-- `Maze.verifyNonBorderWallsExist`; every border test uses `this.grid.length`. -/
def verifyNonBorderWallsExist (m : Maze) (randomCell : Cell) : Bool :=
  let numberOfAvailableWalls := countTrue randomCell.getShownWalls
  let b0 := if randomCell.walls.topWall.isShown ∧ randomCell.rowNumber = 0 then 1 else 0
  let b1 :=
    if randomCell.walls.rightWall.isShown ∧ randomCell.columnNumber + 1 = m.grid.length then 1 else 0
  let b2 :=
    if randomCell.walls.bottomWall.isShown ∧ randomCell.rowNumber + 1 = m.grid.length then 1 else 0
  let b3 := if randomCell.walls.leftWall.isShown ∧ randomCell.columnNumber = 0 then 1 else 0
  let numberOfBorderWalls := b0 + b1 + b2 + b3
  decide (numberOfAvailableWalls > numberOfBorderWalls)

/-- `Maze.verifyCellIsNotGoal`. -/
def verifyCellIsNotGoal (randomCell : Cell) : Bool := !randomCell.isGoal

/-- `Maze.getRandomCell`, run on a finite supply of draws (one pair per call: the row draw and
the column draw). `none` when a TypeError is raised or when the supply runs out before a cell
is accepted; otherwise the accepted cell and the draws left over. The depth of the recursion
is not counted here: this is what a call returns when the call stack suffices, and
`getRandomCellNested` is the same function with the call stack counted. -/
def getRandomCell (m : Maze) : List (Nat × Nat) → Option (Ref × List (Nat × Nat))
  | [] => none
  | d :: ds =>
    match readRef m.grid (randomIndex d.1 m.rows) (randomIndex d.2 m.columns) with
    | none => none
    | some none => none
    | some (some p) =>
      match cellAt m.grid p with
      | none => none
      | some randomCell =>
        if !verifyCellIsNotGoal randomCell || !verifyUniqueRandomCell m randomCell
            || !verifyNonBorderWallsExist m randomCell then
          getRandomCell m ds
        else some (p, ds)

/-- The loop of `selectCellsToRotate`: `count` calls of `getRandomCell`, each result pushed. -/
def selectLoop : Nat → Maze → List (Nat × Nat) → Option (Maze × List (Nat × Nat))
  | 0, m, ds => some (m, ds)
  | count + 1, m, ds =>
    match getRandomCell m ds with
    | none => none
    | some (p, ds1) => selectLoop count { m with cellsToRotate := m.cellsToRotate ++ [p] } ds1

/-- `Maze.selectCellsToRotate`; `dimRows` is `DifficultyDimensions[this.game.difficulty][0]`
(the table lives in `utilities.js`). -/
def selectCellsToRotate (dimRows : Nat) (m : Maze) (ds : List (Nat × Nat)) :
    Option (Maze × List (Nat × Nat)) :=
  selectLoop (dimRows * 2) { m with cellsToRotate := [] } ds

/-- How a call ends: with a value, with a TypeError, with a RangeError (the engine's call
stack is exhausted), or not within the finite supply of draws (`pending`). -/
inductive Outcome (α : Type) where
  | returned (a : α)
  | typeError
  | rangeError
  | pending
deriving DecidableEq

/-- `Maze.getRandomCell` with the call stack counted. The recursive call sits inside the
`if` and its result is assigned before the `return`, so every rejected sample nests one call
deeper; `depth` is the number of nested calls of `getRandomCell` the engine still allows, and
a call made when none is left raises a RangeError. One pair of draws per call. -/
def getRandomCellNested (m : Maze) :
    Nat → List (Nat × Nat) → Outcome (Ref × List (Nat × Nat))
  | 0, _ => Outcome.rangeError
  | _ + 1, [] => Outcome.pending
  | depth + 1, d :: ds =>
    match readRef m.grid (randomIndex d.1 m.rows) (randomIndex d.2 m.columns) with
    | none => Outcome.typeError
    | some none => Outcome.typeError
    | some (some p) =>
      match cellAt m.grid p with
      | none => Outcome.typeError
      | some randomCell =>
        if !verifyCellIsNotGoal randomCell || !verifyUniqueRandomCell m randomCell
            || !verifyNonBorderWallsExist m randomCell then
          getRandomCellNested m depth ds
        else Outcome.returned (p, ds)

/-- The loop of `selectCellsToRotate` with the call stack counted: every call of
`getRandomCell` starts with the same `depth` of stack left; an exception ends the loop. -/
def selectLoopNested (depth : Nat) :
    Nat → Maze → List (Nat × Nat) → Outcome (Maze × List (Nat × Nat))
  | 0, m, ds => Outcome.returned (m, ds)
  | count + 1, m, ds =>
    match getRandomCellNested m depth ds with
    | Outcome.returned (p, ds1) =>
      selectLoopNested depth count { m with cellsToRotate := m.cellsToRotate ++ [p] } ds1
    | Outcome.typeError => Outcome.typeError
    | Outcome.rangeError => Outcome.rangeError
    | Outcome.pending => Outcome.pending

/-- `Maze.selectCellsToRotate` with the call stack counted. -/
def selectCellsToRotateNested (depth dimRows : Nat) (m : Maze) (ds : List (Nat × Nat)) :
    Outcome (Maze × List (Nat × Nat)) :=
  selectLoopNested depth (dimRows * 2) { m with cellsToRotate := [] } ds

/-- `Maze.selectRandomWallToRotate`: `none` is `undefined`. -/
def selectRandomWallToRotate (grid : Grid) (randomCell : Cell) : Option Nat :=
  if randomCell.walls.topWall.isShown ∧ ¬ randomCell.walls.leftWall.isShown
      ∧ randomCell.rowNumber ≠ 0 then some 0
  else if randomCell.walls.rightWall.isShown ∧ ¬ randomCell.walls.topWall.isShown
      ∧ randomCell.columnNumber + 1 ≠ grid.length then some 1
  else if randomCell.walls.bottomWall.isShown ∧ ¬ randomCell.walls.rightWall.isShown
      ∧ randomCell.rowNumber + 1 ≠ grid.length then some 2
  else if randomCell.walls.leftWall.isShown ∧ ¬ randomCell.walls.bottomWall.isShown
      ∧ randomCell.columnNumber ≠ 0 then some 3
  else none

/-! ## Wall rotation (`cell.js`) -/

/-- The `else` branch of `rotateTopWall` on the cell itself, before the neighbour is touched. -/
def Cell.finishTop (c : Cell) : Cell :=
  Cell.setLeftShown true (Cell.setLeftTheta 270 (Cell.setTopTheta 0 (Cell.setTopShown false c)))

/-- The `else` branch of `rotateRightWall` on the cell itself. -/
def Cell.finishRight (c : Cell) : Cell :=
  Cell.setTopShown true (Cell.setTopTheta 0 (Cell.setRightTheta 90 (Cell.setRightShown false c)))

/-- The `else` branch of `rotateBottomWall` on the cell itself. -/
def Cell.finishBottom (c : Cell) : Cell :=
  Cell.setRightShown true
    (Cell.setRightTheta 90 (Cell.setBottomTheta 180 (Cell.setBottomShown false c)))

/-- The `else` branch of `rotateLeftWall` on the cell itself. -/
def Cell.finishLeft (c : Cell) : Cell :=
  Cell.setBottomShown true
    (Cell.setBottomTheta 180 (Cell.setLeftTheta 270 (Cell.setLeftShown false c)))

/-- `Cell.rotateTopWall` of the cell object at `p`. -/
def rotateTopWall (grid : Grid) (p : Ref) : Option Grid :=
  match cellAt grid p with
  | none => none
  | some this =>
    if this.rowNumber = 0 then none
    else
      match writeCell grid (this.rowNumber - 1, this.columnNumber) (Cell.setBottomShown false) with
      | none => none
      | some g1 =>
        match cellAt g1 p with
        | none => none
        | some this1 =>
          if this1.walls.topWall.theta < this1.walls.topWall.maxTheta then
            some (modifyCell g1 p (fun c => Cell.setTopTheta (c.walls.topWall.theta + 2) c))
          else
            let g2 := modifyCell g1 p Cell.finishTop
            if this.columnNumber ≠ 0 then
              match writeCell g2 (this.rowNumber, this.columnNumber - 1) (Cell.setRightShown true) with
              | none => none
              | some g3 => some (modifyCell g3 p (Cell.setIsRotating false))
            else some (modifyCell g2 p (Cell.setIsRotating false))

/-- `Cell.rotateRightWall` of the cell object at `p`. -/
def rotateRightWall (grid : Grid) (p : Ref) : Option Grid :=
  match cellAt grid p with
  | none => none
  | some this =>
    match writeCell grid (this.rowNumber, this.columnNumber + 1) (Cell.setLeftShown false) with
    | none => none
    | some g1 =>
      match cellAt g1 p with
      | none => none
      | some this1 =>
        if this1.walls.rightWall.theta < this1.walls.rightWall.maxTheta then
          some (modifyCell g1 p (fun c => Cell.setRightTheta (c.walls.rightWall.theta + 2) c))
        else
          let g2 := modifyCell g1 p Cell.finishRight
          if this.rowNumber ≠ 0 then
            match writeCell g2 (this.rowNumber - 1, this.columnNumber) (Cell.setBottomShown true) with
            | none => none
            | some g3 => some (modifyCell g3 p (Cell.setIsRotating false))
          else some (modifyCell g2 p (Cell.setIsRotating false))

/-- `Cell.rotateBottomWall` of the cell object at `p`. -/
def rotateBottomWall (grid : Grid) (p : Ref) : Option Grid :=
  match cellAt grid p with
  | none => none
  | some this =>
    match writeCell grid (this.rowNumber + 1, this.columnNumber) (Cell.setTopShown false) with
    | none => none
    | some g1 =>
      match cellAt g1 p with
      | none => none
      | some this1 =>
        if this1.walls.bottomWall.theta < this1.walls.bottomWall.maxTheta then
          some (modifyCell g1 p (fun c => Cell.setBottomTheta (c.walls.bottomWall.theta + 2) c))
        else
          let g2 := modifyCell g1 p Cell.finishBottom
          if this.columnNumber + 1 ≠ grid.length then
            match writeCell g2 (this.rowNumber, this.columnNumber + 1) (Cell.setLeftShown true) with
            | none => none
            | some g3 => some (modifyCell g3 p (Cell.setIsRotating false))
          else some (modifyCell g2 p (Cell.setIsRotating false))

/-- `Cell.rotateLeftWall` of the cell object at `p`. -/
def rotateLeftWall (grid : Grid) (p : Ref) : Option Grid :=
  match cellAt grid p with
  | none => none
  | some this =>
    if this.columnNumber = 0 then none
    else
      match writeCell grid (this.rowNumber, this.columnNumber - 1) (Cell.setRightShown false) with
      | none => none
      | some g1 =>
        match cellAt g1 p with
        | none => none
        | some this1 =>
          if this1.walls.leftWall.theta < this1.walls.leftWall.maxTheta then
            some (modifyCell g1 p (fun c => Cell.setLeftTheta (c.walls.leftWall.theta + 2) c))
          else
            let g2 := modifyCell g1 p Cell.finishLeft
            if this.rowNumber + 1 ≠ grid.length then
              match writeCell g2 (this.rowNumber + 1, this.columnNumber) (Cell.setTopShown true) with
              | none => none
              | some g3 => some (modifyCell g3 p (Cell.setIsRotating false))
            else some (modifyCell g2 p (Cell.setIsRotating false))

/-- The `switch (cell.wallToRotate)` of `rotateCellWalls`. -/
def rotateSwitch (grid : Grid) (p : Ref) (wallToRotate : Option Nat) : Option Grid :=
  match wallToRotate with
  | some 0 => rotateTopWall grid p
  | some 1 => rotateRightWall grid p
  | some 2 => rotateBottomWall grid p
  | some 3 => rotateLeftWall grid p
  | _ => some grid

/-- The body of the `forEach` callback of `rotateCellWalls(index)` for the cell at `p`. -/
def rotateCell (index : Nat) (grid : Grid) (p : Ref) : Option Grid :=
  match cellAt grid p with
  | none => none
  | some cell =>
    let g1 :=
      if index = 0 then
        modifyCell (modifyCell grid p (Cell.setWallToRotate (selectRandomWallToRotate grid cell))) p
          (Cell.setIsRotating true)
      else grid
    match cellAt g1 p with
    | none => none
    | some cell1 =>
      match rotateSwitch g1 p cell1.wallToRotate with
      | none => none
      | some g2 => if index > 44 then some (modifyCell g2 p (Cell.setIsRotating false)) else some g2

/-- The `forEach` of `rotateCellWalls` over the remaining cells. -/
def rotateCells (index : Nat) : List Ref → Grid → Option Grid
  | [], grid => some grid
  | p :: ps, grid =>
    match rotateCell index grid p with
    | none => none
    | some g1 => rotateCells index ps g1

/-- `Maze.rotateCellWalls(index)`. -/
def rotateCellWalls (m : Maze) (index : Nat) : Option Maze :=
  match rotateCells index m.cellsToRotate m.grid with
  | none => none
  | some g => some { m with grid := g }

/-- The calls `rotateCellWalls(0)`, `rotateCellWalls(1)`, ..., `rotateCellWalls(n - 1)` in a row. -/
def rotateTicks : Nat → Maze → Option Maze
  | 0, m => some m
  | n + 1, m =>
    match rotateTicks n m with
    | none => none
    | some m1 => rotateCellWalls m1 n

/-! ## Navigation (`Maze.move`) -/

/-- The `key` of a keyboard event, as far as `move` tells keys apart. -/
inductive Key where
  | arrowUp
  | arrowRight
  | arrowDown
  | arrowLeft
  | other
deriving DecidableEq

/-- `Game.gameOver` on the fields kept in `State`. -/
def gameOver (s : State) : State :=
  { s with isGameOver := true, gameOverCalls := s.gameOverCalls + 1 }

/-- The body shared by the four arrow cases of `move` once `next = grid[i][j]` is read. -/
def moveTo (s : State) (next : Option (Option Ref)) : Option State :=
  match next with
  | some (some nx) =>
    match cellAt s.maze.grid nx with
    | none => none
    | some nextCell =>
      let s1 := if nextCell.isGoal then gameOver s else s
      let cur := if nextCell.isRotating then s1.maze.currentCell else some nx
      match cur with
      | none => none
      | some c =>
        match cellAt s1.maze.grid c with
        | none => none
        | some cc =>
          some { s1 with maze := { s1.maze with currentCell := some c },
                         playerPos := (cc.columnNumber, cc.rowNumber) }
  | _ => none

/-- `Maze.move(e)`. -/
def move (s : State) (key : Key) : Option State :=
  if !s.generation || s.isGameOver then some s
  else
    match s.maze.currentCell with
    | none => none
    | some cur =>
      match cellAt s.maze.grid cur with
      | none => none
      | some c =>
        let row := c.rowNumber
        let col := c.columnNumber
        match key with
        | Key.arrowUp =>
          if !c.walls.topWall.isShown then
            moveTo s (if row = 0 then none else readRef s.maze.grid (row - 1) col)
          else some s
        | Key.arrowRight =>
          if !c.walls.rightWall.isShown then moveTo s (readRef s.maze.grid row (col + 1))
          else some s
        | Key.arrowDown =>
          if !c.walls.bottomWall.isShown then moveTo s (readRef s.maze.grid (row + 1) col)
          else some s
        | Key.arrowLeft =>
          if !c.walls.leftWall.isShown then
            moveTo s (if col = 0 then some none else readRef s.maze.grid row (col - 1))
          else some s
        | Key.other => some s

/-! ## Well-formed grids and the open-wall graph -/

/-- The grid is `R` rows of `C` cells and the cell at `(i, j)` carries the coordinates `(i, j)`. -/
def GridOK (R C : Nat) (g : Grid) : Prop :=
  g.length = R ∧ (∀ i, i < R → (g[i]?).map List.length = some C) ∧
    ∀ i, i < R → ∀ j, j < C →
      (cellAt g (i, j)).map (fun c => (c.rowNumber, c.columnNumber)) = some (i, j)

instance (R C : Nat) (g : Grid) : Decidable (GridOK R C g) := by
  unfold GridOK; infer_instance

/-- A field of the cell at a reference (`none` outside the grid). -/
def fieldAt {β : Type} (g : Grid) (p : Ref) (proj : Cell → β) : Option β :=
  (cellAt g p).map proj

/-- The shared wall between `(r, c)` and `(r, c + 1)` has the same `isShown` on both sides. -/
def hAgree (g : Grid) (r c : Nat) : Prop :=
  fieldAt g (r, c) (fun x => x.walls.rightWall.isShown)
    = fieldAt g (r, c + 1) (fun x => x.walls.leftWall.isShown)

/-- The shared wall between `(r, c)` and `(r + 1, c)` has the same `isShown` on both sides. -/
def vAgree (g : Grid) (r c : Nat) : Prop :=
  fieldAt g (r, c) (fun x => x.walls.bottomWall.isShown)
    = fieldAt g (r + 1, c) (fun x => x.walls.topWall.isShown)

/-- Wall symmetry of an `R x C` grid: every pair of orthogonally adjacent cells agrees on
the `isShown` flag of the wall between them. -/
def Symmetric (R C : Nat) (g : Grid) : Prop :=
  ∀ r, r < R → ∀ c, c < C → (c + 1 < C → hAgree g r c) ∧ (r + 1 < R → vAgree g r c)

instance (g : Grid) (r c : Nat) : Decidable (hAgree g r c) := by
  unfold hAgree; infer_instance

instance (g : Grid) (r c : Nat) : Decidable (vAgree g r c) := by
  unfold vAgree; infer_instance

instance (R C : Nat) (g : Grid) : Decidable (Symmetric R C g) := by
  unfold Symmetric; infer_instance

/-- Runs `Maze.draw` once per draw of the list, in order. -/
def runDraws : State → List Nat → Option State
  | s, [] => some s
  | s, rnd :: rnds =>
    match draw s rnd with
    | none => none
    | some s1 => runDraws s1 rnds

/-- Two references are orthogonal neighbours: `q` is above, below, right of or left of `p`. -/
def adjacent (p q : Ref) : Prop :=
  (q.1 + 1 = p.1 ∧ q.2 = p.2) ∨ (q.1 = p.1 + 1 ∧ q.2 = p.2) ∨
    (q.1 = p.1 ∧ q.2 = p.2 + 1) ∨ (q.1 = p.1 ∧ q.2 + 1 = p.2)

instance (p q : Ref) : Decidable (adjacent p q) := by
  unfold adjacent; infer_instance

/-- The invariant of generation that holds on every grid shape: the grid is well formed and
symmetric, and the current cell and the stack entries lie inside it. -/
structure BasicInv (R C : Nat) (s : State) : Prop where
  rows : s.maze.rows = R
  cols : s.maze.columns = C
  grid : GridOK R C s.maze.grid
  sym : Symmetric R C s.maze.grid
  cur : ∃ p, s.maze.currentCell = some p ∧ p.1 < R ∧ p.2 < C
  stack : ∀ q, q ∈ s.maze.stack → q.1 < R ∧ q.2 < C

/-- The grid `setupMaze` builds on a new maze. -/
def freshGrid (R C : Nat) : Grid :=
  modifyCell ((List.range R).map (fun row => newRow row C)) (R - 1, C - 1) (Cell.setIsGoal true)

/-- The state `freshState` produces for `R, C >= 1`: the new grid with the goal marked,
the current cell `(0, 0)`, empty stack, all flags cleared. -/
def initialState (R C : Nat) : State :=
  { maze := { rows := R, columns := C, grid := freshGrid R C, stack := [],
              cellsToRotate := [], isRotating := false, currentCell := some (0, 0) },
    generation := false, mazeGenerationComplete := false, isGameOver := false,
    gameOverCalls := 0, playerPos := (0, 0) }

/-- The cell at `p` exists and has `visited = true`. -/
def visitedAt (g : Grid) (p : Ref) : Prop := fieldAt g p (fun c => c.visited) = some true

instance (g : Grid) (p : Ref) : Decidable (visitedAt g p) := by
  unfold visitedAt; infer_instance

/-- Every cell of the `R x C` grid has `visited = true`. -/
def AllVisited (R C : Nat) (g : Grid) : Prop := ∀ r, r < R → ∀ c, c < C → visitedAt g (r, c)

instance (R C : Nat) (g : Grid) : Decidable (AllVisited R C g) := by
  unfold AllVisited; infer_instance

/-- The reference lies inside the `R x C` grid. -/
def inGrid (R C : Nat) (p : Ref) : Prop := p.1 < R ∧ p.2 < C

instance (R C : Nat) (p : Ref) : Decidable (inGrid R C p) := by
  unfold inGrid; infer_instance

/-- The depth-first-search invariant over the set `V` of visited cells, the current cell and
the stack: the current cell and the stack cells are visited and pairwise distinct, the bottom
of the stack (the current cell when the stack is empty) is `(0, 0)`, every other visited cell
has all its neighbours visited, and with an empty stack either everything is visited or
nothing but `(0, 0)` is. -/
structure DfsInv (R C : Nat) (V : Ref → Prop) (cur : Ref) (stack : List Ref) : Prop where
  curV : V cur
  stackV : ∀ q, q ∈ stack → V q
  nodup : (cur :: stack).Nodup
  bottom : (cur :: stack).getLast? = some (0, 0)
  finished : ∀ w, inGrid R C w → V w → w ≠ cur → w ∉ stack →
    ∀ q, adjacent w q → inGrid R C q → V q
  start : stack = [] → (∀ w, inGrid R C w → V w) ∨ (∀ w, V w → w = (0, 0))

/-- The grid as `draw` sees it after its first statement `this.currentCell.visited = true`. -/
def markedGrid (m : Maze) : Grid :=
  match m.currentCell with
  | none => m.grid
  | some p => modifyCell m.grid p Cell.setVisited

/-- The invariant of generation on grids with at most as many columns as rows. -/
structure GenInv (R C : Nat) (s : State) : Prop where
  basic : BasicInv R C s
  dfs : ∃ p, s.maze.currentCell = some p ∧
    DfsInv R C (visitedAt (markedGrid s.maze)) p s.maze.stack
  flag : s.mazeGenerationComplete = true →
    s.maze.stack = [] ∧ AllVisited R C s.maze.grid

/-- There is an open passage between `p` and `q`: `q` is the right, left, lower or upper
neighbour of `p` and the wall between them has `isShown = false` on both cells. -/
def passage (g : Grid) (p q : Ref) : Prop :=
  (q.1 = p.1 ∧ q.2 = p.2 + 1 ∧ fieldAt g p (fun x => x.walls.rightWall.isShown) = some false ∧
      fieldAt g q (fun x => x.walls.leftWall.isShown) = some false) ∨
  (q.1 = p.1 ∧ q.2 + 1 = p.2 ∧ fieldAt g p (fun x => x.walls.leftWall.isShown) = some false ∧
      fieldAt g q (fun x => x.walls.rightWall.isShown) = some false) ∨
  (q.1 = p.1 + 1 ∧ q.2 = p.2 ∧ fieldAt g p (fun x => x.walls.bottomWall.isShown) = some false ∧
      fieldAt g q (fun x => x.walls.topWall.isShown) = some false) ∨
  (q.1 + 1 = p.1 ∧ q.2 = p.2 ∧ fieldAt g p (fun x => x.walls.topWall.isShown) = some false ∧
      fieldAt g q (fun x => x.walls.bottomWall.isShown) = some false)

instance (g : Grid) (p q : Ref) : Decidable (passage g p q) := by
  unfold passage; infer_instance

/-- All references of an `R x C` grid, row by row. -/
def cells (R C : Nat) : List Ref :=
  (List.range R).flatMap (fun r => (List.range C).map (fun c => (r, c)))

/-- The number of shared walls that are removed (open passages), counted once each: the
passages to the right neighbour plus the passages to the lower neighbour. -/
def removedWalls (R C : Nat) (g : Grid) : Nat :=
  (cells R C).countP (fun p => decide (passage g p (p.1, p.2 + 1)))
    + (cells R C).countP (fun p => decide (passage g p (p.1 + 1, p.2)))

/-- The number of cells with `visited = true`. -/
def visitedCount (R C : Nat) (g : Grid) : Nat :=
  (cells R C).countP (fun p => decide (visitedAt g p))

/-- `q` can be reached from `p` through open passages. -/
def Reach (g : Grid) (p q : Ref) : Prop := Relation.ReflTransGen (passage g) p q

/-- The open-wall graph over all cells of the `R x C` grid is connected. -/
def Connected (R C : Nat) (g : Grid) : Prop :=
  ∀ p q, inGrid R C p → inGrid R C q → Reach g p q

/-- A cycle of the open-wall graph: at least three pairwise distinct cells, each joined to the
next by a passage and the last joined to the first. -/
def IsCycle (g : Grid) (l : List Ref) : Prop :=
  3 ≤ l.length ∧ l.Nodup ∧ List.Chain' (passage g) l ∧
    ∃ a b, l.head? = some a ∧ l.getLast? = some b ∧ passage g b a

/-- The open-wall graph contains no cycle. -/
def Acyclic (g : Grid) : Prop := ∀ l, ¬ IsCycle g l

/-- All four walls of the cell at `p` are shown. -/
def allWallsShown (g : Grid) (p : Ref) : Prop :=
  fieldAt g p (fun x => x.getShownWalls) = some [true, true, true, true]

instance (g : Grid) (p : Ref) : Decidable (allWallsShown g p) := by
  unfold allWallsShown; infer_instance

/-- The tree invariant over the set `V` of visited cells and the passage relation `E`, with
the number of removed walls and of visited cells: `(0, 0)` is visited, passages join visited
cells only, the removed walls number one less than the visited cells, every visited cell is
joined to `(0, 0)`, and every passage joins a cell to its parent in a discovery order. -/
structure TreeCore (V : Ref → Prop) (E : Ref → Ref → Prop) (removed visited : Nat) : Prop where
  origin : V (0, 0)
  ends : ∀ x y, E x y → V x ∧ V y
  count : removed + 1 = visited
  joined : ∀ w, V w → Relation.ReflTransGen E (0, 0) w
  parents : ∃ (ord : Ref → Nat) (par : Ref → Ref) (bound : Nat),
    (∀ w, V w → ord w < bound) ∧
    ∀ x y, E x y → (par y = x ∧ ord x < ord y) ∨ (par x = y ∧ ord y < ord x)

/-- The partial-maze invariant of generation (on every grid shape), over the visited flags
as `draw` sees them after marking the current cell: the stack cells are visited, unvisited
cells keep all four walls, and the passages form a tree on the visited cells. -/
structure TreeInv (R C : Nat) (s : State) : Prop where
  basic : BasicInv R C s
  stackVisited : ∀ q, q ∈ s.maze.stack → visitedAt (markedGrid s.maze) q
  closedWalls : ∀ w, inGrid R C w → ¬ visitedAt (markedGrid s.maze) w →
    allWallsShown s.maze.grid w
  core : TreeCore (visitedAt (markedGrid s.maze)) (passage s.maze.grid)
    (removedWalls R C s.maze.grid) (visitedCount R C (markedGrid s.maze))

/-- The states the core can reach from a freshly set-up `R x C` maze by generation steps,
scramble selections, rotation ticks and moves (each with arbitrary random draws, tick index
or key), as long as no TypeError is raised. -/
inductive Reachable (R C : Nat) : State → Prop where
  | fresh {s : State} : freshState R C = some s → Reachable R C s
  | byDraw {s s' : State} (rnd : Nat) : Reachable R C s → draw s rnd = some s' → Reachable R C s'
  | bySelect {s : State} {m' : Maze} {ds' : List (Nat × Nat)} (dimRows : Nat)
      (ds : List (Nat × Nat)) : Reachable R C s →
      selectCellsToRotate dimRows s.maze ds = some (m', ds') → Reachable R C { s with maze := m' }
  | byRotate {s : State} {m' : Maze} (index : Nat) : Reachable R C s →
      rotateCellWalls s.maze index = some m' → Reachable R C { s with maze := m' }
  | byMove {s s' : State} (key : Key) : Reachable R C s → move s key = some s' → Reachable R C s'

/-! ### A wall-indexed view of the four rotation operations

Walls are numbered as in the source: `0` top, `1` right, `2` bottom, `3` left. -/

/-- The wall record with index `w`. -/
def Cell.wall (c : Cell) : Nat → Wall
  | 0 => c.walls.topWall
  | 1 => c.walls.rightWall
  | 2 => c.walls.bottomWall
  | _ => c.walls.leftWall

/-- The resting angle of wall `w` (the `theta` the constructor gives it). -/
def restTheta : Nat → Nat
  | 0 => 0
  | 1 => 90
  | 2 => 180
  | _ => 270

/-- The wall that wall `w` rotates into: top into left, right into top, bottom into right,
left into bottom. -/
def intoWall : Nat → Nat
  | 0 => 3
  | 1 => 0
  | 2 => 1
  | _ => 2

/-- The neighbour's copy of wall `w`: the wall on the opposite side. -/
def facingWall : Nat → Nat
  | 0 => 2
  | 1 => 3
  | 2 => 0
  | _ => 1

/-- The reference of the neighbour on side `w` (meaningful when `hasNbr` holds). -/
def nbrRef (p : Ref) : Nat → Ref
  | 0 => (p.1 - 1, p.2)
  | 1 => (p.1, p.2 + 1)
  | 2 => (p.1 + 1, p.2)
  | _ => (p.1, p.2 - 1)

/-- The cell at `p` of an `n x n` grid has a neighbour on side `w`. -/
def hasNbr (n : Nat) (p : Ref) : Nat → Prop
  | 0 => p.1 ≠ 0
  | 1 => p.2 + 1 < n
  | 2 => p.1 + 1 < n
  | _ => p.2 ≠ 0

instance (n : Nat) (p : Ref) (w : Nat) : Decidable (hasNbr n p w) := by
  unfold hasNbr; split <;> infer_instance

/-- Sets `isShown` of wall `w`. -/
def Cell.setShown : Nat → Bool → Cell → Cell
  | 0 => Cell.setTopShown
  | 1 => Cell.setRightShown
  | 2 => Cell.setBottomShown
  | _ => Cell.setLeftShown

/-- The `theta += 2` of the rotation operation for wall `w`. -/
def Cell.advance : Nat → Cell → Cell
  | 0 => fun c => Cell.setTopTheta (c.walls.topWall.theta + 2) c
  | 1 => fun c => Cell.setRightTheta (c.walls.rightWall.theta + 2) c
  | 2 => fun c => Cell.setBottomTheta (c.walls.bottomWall.theta + 2) c
  | _ => fun c => Cell.setLeftTheta (c.walls.leftWall.theta + 2) c

/-- The `else` branch of the rotation operation for wall `w` on the cell itself. -/
def Cell.finish : Nat → Cell → Cell
  | 0 => Cell.finishTop
  | 1 => Cell.finishRight
  | 2 => Cell.finishBottom
  | _ => Cell.finishLeft

/-- One call of the rotation operation for wall `w` of the cell `cp` at `p`, written once for
all four walls, on an `n x n` grid where the neighbour on side `w` exists. -/
def stepGrid (n : Nat) (g : Grid) (p : Ref) (w : Nat) (cp : Cell) : Grid :=
  let g1 := modifyCell g (nbrRef p w) (Cell.setShown (facingWall w) false)
  if (cp.wall w).theta < (cp.wall w).maxTheta then modifyCell g1 p (Cell.advance w)
  else
    let g2 := modifyCell g1 p (Cell.finish w)
    let g3 :=
      if hasNbr n p (intoWall w) then
        modifyCell g2 (nbrRef p (intoWall w)) (Cell.setShown (facingWall (intoWall w)) true)
      else g2
    modifyCell g3 p (Cell.setIsRotating false)

/-- What one run of the `forEach` body of `rotateCellWalls(index)` does to the selected cell
itself, as a function of that cell alone (`grid` is only read for its length): the wall choice
and `isRotating = true` at index 0, then the advance or the completion of the chosen wall, then
`isRotating = false` past index 44. -/
def ownStep (grid : Grid) (index : Nat) (c : Cell) : Cell :=
  let c1 :=
    if index = 0 then
      Cell.setIsRotating true (Cell.setWallToRotate (selectRandomWallToRotate grid c) c)
    else c
  let c2 :=
    match c1.wallToRotate with
    | some w =>
      if w < 4 then
        if (c1.wall w).theta < (c1.wall w).maxTheta then Cell.advance w c1
        else Cell.setIsRotating false (Cell.finish w c1)
      else c1
    | none => c1
  if index > 44 then Cell.setIsRotating false c2 else c2

/-- The wall a cell is set to rotate has a neighbour behind it (on an `n x n` grid). -/
def validWall (n : Nat) (p : Ref) (wallToRotate : Option Nat) : Prop :=
  ∀ w, wallToRotate = some w → w < 4 → hasNbr n p w

/-- The number of walls of a cell with `isShown = false`. -/
def Cell.openWalls (c : Cell) : Nat := countTrue (c.getShownWalls.map (fun b => !b))

/-- The cell as the `forEach` body of `rotateCellWalls(index)` sees it after its index-0
block: the wall is chosen and `isRotating` set when `index` is 0. -/
def chosen (grid : Grid) (index : Nat) (c : Cell) : Cell :=
  if index = 0 then
    Cell.setIsRotating true (Cell.setWallToRotate (selectRandomWallToRotate grid c) c)
  else c

/-- What one call of the rotation operation for the cell `c1` at `p` does to another cell `x`
of an `n x n` grid: the neighbour behind the rotating wall loses its copy of that wall, and on
the completing call the neighbour behind the wall rotated into gains its copy. -/
def nbrEffect (n : Nat) (p : Ref) (c1 : Cell) (x : Ref) : Cell → Cell :=
  match c1.wallToRotate with
  | some w =>
    if w < 4 then
      if x = nbrRef p w then Cell.setShown (facingWall w) false
      else if ¬ (c1.wall w).theta < (c1.wall w).maxTheta ∧ x = nbrRef p (intoWall w)
          ∧ hasNbr n p (intoWall w) then
        Cell.setShown (facingWall (intoWall w)) true
      else id
    else id
  | none => id

/-- The cell `c` after `ticks` calls `rotateCellWalls(0)`, ..., `rotateCellWalls(ticks - 1)`
when it is selected `cnt` times and no other selected cell touches it. -/
def ownTicks (grid : Grid) (cnt : Nat) : Nat → Cell → Cell
  | 0, c => c
  | k + 1, c => (ownStep grid k)^[cnt] (ownTicks grid cnt k c)

/-- Of the wall a cell is set to rotate and the wall it rotates into, exactly one is shown. -/
def Cell.oneShown (c : Cell) : Prop :=
  ∀ w, c.wallToRotate = some w → w < 4 → (c.wall w).isShown ≠ (c.wall (intoWall w)).isShown

/-- The selected cell `c` after `k` advancing calls for its wall `w`: the wall is chosen,
`isRotating` is set, and `theta` of the wall has been raised `k` times. -/
def Cell.turned (w k : Nat) (c : Cell) : Cell :=
  (Cell.advance w)^[k] (Cell.setIsRotating true (Cell.setWallToRotate (some w) c))

/-- The selected cell `c` after the 45 advancing calls and the completing call at index 45. -/
def Cell.completed (w : Nat) (c : Cell) : Cell :=
  Cell.setIsRotating false (Cell.setIsRotating false (Cell.finish w (Cell.turned w 45 c)))

/-- The walls of the cell are at rest: every `theta` has the value the constructor gave it,
and `maxTheta` is a quarter turn further. -/
def Cell.atRest (c : Cell) : Prop :=
  ∀ v, v < 4 → (c.wall v).theta = restTheta v ∧ (c.wall v).maxTheta = restTheta v + 90

/-- The `isShown` flag of wall `v` of the cell at `x` (`none` outside the grid). -/
def shownAt (g : Grid) (x : Ref) (v : Nat) : Option Bool :=
  fieldAt g x (fun d => (d.wall v).isShown)

instance (c : Cell) : Decidable c.atRest := by
  unfold Cell.atRest; infer_instance

/-- The `isShown` flags after the completed rotation of wall `w` of the cell at `p`, from the
flags `old` before it: the wall and the neighbour's copy hidden, the wall rotated into and the
copy of the neighbour on that side (if there is one) shown. -/
def shownAfter (n : Nat) (p : Ref) (w : Nat) (old : Ref → Nat → Option Bool)
    (x : Ref) (v : Nat) : Option Bool :=
  if x = p ∧ v = w then some false
  else if x = p ∧ v = intoWall w then some true
  else if x = nbrRef p w ∧ v = facingWall w then some false
  else if hasNbr n p (intoWall w) ∧ x = nbrRef p (intoWall w) ∧ v = facingWall (intoWall w) then
    some true
  else old x v

/-- Every adjacent pair of cells agrees on the wall between them, wall by wall. -/
def PairsAgree (n : Nat) (shown : Ref → Nat → Option Bool) : Prop :=
  ∀ x v, v < 4 → inGrid n n x → hasNbr n x v → shown x v = shown (nbrRef x v) (facingWall v)

/-- The wall choice as the specification words it, for a grid of `R` rows and `C` columns:
top if shown, left not shown and not in row 0; else right if shown, top not shown and not in
the last column `C - 1`; else bottom if shown, right not shown and not in the last row
`R - 1`; else left if shown, bottom not shown and not in column 0; else none. -/
def wallChoiceSpec (R C : Nat) (c : Cell) : Option Nat :=
  if c.walls.topWall.isShown = true ∧ c.walls.leftWall.isShown = false ∧ c.rowNumber ≠ 0 then
    some 0
  else if c.walls.rightWall.isShown = true ∧ c.walls.topWall.isShown = false
      ∧ c.columnNumber ≠ C - 1 then some 1
  else if c.walls.bottomWall.isShown = true ∧ c.walls.rightWall.isShown = false
      ∧ c.rowNumber ≠ R - 1 then some 2
  else if c.walls.leftWall.isShown = true ∧ c.walls.bottomWall.isShown = false
      ∧ c.columnNumber ≠ 0 then some 3
  else none

/-- `Game.updateMaze`: clears `mazeGenerationComplete` and replaces the maze by a new `Maze`
object (not yet set up) with the dimensions `DifficultyDimensions[this.difficulty]`, here the
arguments `rows` and `columns`. The module-level flag `generation` of `maze.js` is not touched. -/
def updateMaze (s : State) (rows columns : Nat) : State :=
  { s with mazeGenerationComplete := false, maze := Maze.mk0 rows columns }

/-- The wall an arrow key asks to cross (`0` top, `1` right, `2` bottom, `3` left). -/
def Key.wall : Key → Option Nat
  | Key.arrowUp => some 0
  | Key.arrowRight => some 1
  | Key.arrowDown => some 2
  | Key.arrowLeft => some 3
  | Key.other => none

/-- The loop of `Game.setupMaze` that follows `this.maze.setupMaze()`:
`while (!this.mazeGenerationComplete) this.maze.draw(context)`, run on a finite supply of
random draws. It returns the final state and the number of `draw` calls made; `none` is a
TypeError, or a supply that runs out before the flag is set. -/
def generateLoop : State → List Nat → Option (State × Nat)
  | s, [] => if s.mazeGenerationComplete then some (s, 0) else none
  | s, rnd :: rnds =>
    if s.mazeGenerationComplete then some (s, 0)
    else
      match draw s rnd with
      | none => none
      | some s1 => (generateLoop s1 rnds).map (fun r => (r.1, r.2 + 1))

/-- The quantity that every generation step before completion lowers by one: twice the number
of cells not yet visited, plus the height of the stack. -/
def genMeasure (R C : Nat) (s : State) : Nat :=
  2 * (R * C - visitedCount R C (markedGrid s.maze)) + s.maze.stack.length

/-- The invariant of generation on every grid shape. The lookup of `checkNeighbors` never
leaves the first `min C R` columns, so the search runs on the `R x min C R` part of the grid:
the depth-first-search invariant holds there, no cell outside it is visited, and with the
completion flag set the stack is empty and every cell of that part is visited. -/
structure WideInv (R C : Nat) (s : State) : Prop where
  basic : BasicInv R C s
  dfs : ∃ p, s.maze.currentCell = some p ∧
    DfsInv R (min C R) (visitedAt (markedGrid s.maze)) p s.maze.stack
  narrow : ∀ w, visitedAt (markedGrid s.maze) w → w.2 < min C R
  flag : s.mazeGenerationComplete = true →
    s.maze.stack = [] ∧ ∀ w, inGrid R (min C R) w → visitedAt s.maze.grid w

/-- The number of walls of the cell `c` at `p` that are shown and lie on the outer boundary of
an `n x n` grid (no neighbour behind them), as the specification words the count. -/
def shownBoundaryWalls (n : Nat) (p : Ref) (c : Cell) : Nat :=
  ((List.range 4).filter (fun w => (c.wall w).isShown && decide (¬ hasNbr n p w))).length

/-! ## `Game.setupMaze`, `Game.restartGame` and the frame state machine (`game.js`) -/

/-- `Game.setupMaze`: `this.maze.setupMaze()` followed by the generation loop. -/
def Game.setupMaze (s : State) (rnds : List Nat) : Option (State × Nat) :=
  match MazeGame.setupMaze s.maze with
  | none => none
  | some m => generateLoop { s with maze := m } rnds

/-- `Game.restartGame` on the fields kept in `State`: `endGame()` only stops the timer and
clears `isPaused` and `isPlaying`; `setupMaze(context)` runs on the maze the game already has;
`startGame()` puts the player at `(0, 0)` and clears `isGameOver`. -/
def Game.restartGame (s : State) (rnds : List Nat) : Option State :=
  match Game.setupMaze s rnds with
  | none => none
  | some (s1, _) => some { s1 with playerPos := (0, 0), isGameOver := false }

/-- The game modes `Game.render` tells apart (the keys of the table `GameModes`, which lives
in `utilities.js`). -/
inductive GameMode where
  | defaultMode
  | memoryMode
  | franticMode
deriving DecidableEq

/-- The part of the game the frame state machine of `Game.render` reads and writes: the core
state, the module-level call counter `index` of `game.js`, the frame timer (whole
milliseconds), `isPlaying`, `gameMode`, `gameDuration`, and `dimRows`, which is
`DifficultyDimensions[this.difficulty][0]`. The list `rotateCalls` is not a field of the
source: it records the arguments of the calls `rotateCellWalls(index)` made so far, latest
first. -/
structure Game where
  core : State
  index : Nat
  timer : Nat
  isPlaying : Bool
  gameMode : GameMode
  gameDuration : Nat
  dimRows : Nat
  rotateCalls : List Nat
deriving DecidableEq

/-- `Game.renderFranticMode` (the drawing call `renderMazeAndPlayer` left out), with the supply
of random draws for `selectCellsToRotate`. -/
def renderFranticMode (g : Game) (ds : List (Nat × Nat)) : Option (Game × List (Nat × Nat)) :=
  let m0 : Maze := { g.core.maze with isRotating := true }
  if g.gameDuration ≠ 0 ∧ g.gameDuration % 3 = 0 then
    if g.index ≤ 45 then
      match (if g.index = 0 then selectCellsToRotate g.dimRows m0 ds else some (m0, ds)) with
      | none => none
      | some (m1, ds1) =>
        match rotateCellWalls m1 g.index with
        | none => none
        | some m2 =>
          some ({ g with core := { g.core with maze := m2 }, index := g.index + 1,
                         rotateCalls := g.index :: g.rotateCalls }, ds1)
    else some ({ g with core := { g.core with maze := { m0 with isRotating := false } } }, ds)
  else some ({ g with core := { g.core with maze := m0 }, index := 0 }, ds)

/-- `Game.render(context, deltaTime)`: a frame is rendered when `timer > interval`, with
`interval = 1000 / fps` and `fps = 90`, and the game is playing; `renderMemoryMode` and
`renderMazeAndPlayer` only draw. -/
def Game.render (g : Game) (deltaTime : Nat) (ds : List (Nat × Nat)) :
    Option (Game × List (Nat × Nat)) :=
  let r :=
    if g.timer * 90 > 1000 ∧ g.isPlaying = true then
      let g1 := { g with timer := 0 }
      match g1.gameMode with
      | GameMode.memoryMode => some (g1, ds)
      | GameMode.franticMode => renderFranticMode g1 ds
      | GameMode.defaultMode => some (g1, ds)
    else some (g, ds)
  match r with
  | none => none
  | some (g2, ds2) => some ({ g2 with timer := g2.timer + deltaTime }, ds2)

/-- What one pass of the game loop sees: the value `update()` gives `gameDuration`, the game
mode in force (`changeGameMode`), and the `deltaTime` passed to `render`. -/
structure Frame where
  gameDuration : Nat
  gameMode : GameMode
  deltaTime : Nat

/-- The game loop over a list of frames: `gameDuration` and `gameMode` take the values of the
frame, then `render` is called. -/
def runFrames : Game → List Frame → List (Nat × Nat) → Option (Game × List (Nat × Nat))
  | g, [], ds => some (g, ds)
  | g, f :: fs, ds =>
    match Game.render { g with gameDuration := f.gameDuration, gameMode := f.gameMode }
        f.deltaTime ds with
    | none => none
    | some (g1, ds1) => runFrames g1 fs ds1

/-- The first `k` calls of the rotation operation of wall `w` of the cell at `p`
(`rotateTopWall()` for 0, `rotateRightWall()` for 1, `rotateBottomWall()` for 2,
`rotateLeftWall()` for 3), one after the other. -/
def rotateCallsOf (w : Nat) (p : Ref) : Nat → Grid → Option Grid
  | 0, g => some g
  | k + 1, g =>
    match rotateCallsOf w p k g with
    | none => none
    | some g1 => rotateSwitch g1 p (some w)

/-- The angles of the cell are in range: for every wall, `maxTheta` is a quarter turn past the
resting angle, `theta` lies between the resting angle and `maxTheta`, and `theta` is even. -/
def Cell.anglesOK (c : Cell) : Prop :=
  ∀ v, v < 4 → (c.wall v).maxTheta = restTheta v + 90 ∧ restTheta v ≤ (c.wall v).theta ∧
    (c.wall v).theta ≤ (c.wall v).maxTheta ∧ (c.wall v).theta % 2 = 0

instance (c : Cell) : Decidable c.anglesOK := by
  unfold Cell.anglesOK; infer_instance

/-- The two angles of each wall of a cell, by wall index. -/
def Cell.angles (c : Cell) (v : Nat) : Nat × Nat := ((c.wall v).theta, (c.wall v).maxTheta)

/-- Every wall on the outer boundary of the `n x n` grid (a wall of a cell that has no
neighbour on that side) has `isShown = true`. -/
def BorderShown (n : Nat) (g : Grid) : Prop :=
  ∀ p c w, cellAt g p = some c → w < 4 → ¬ hasNbr n p w → (c.wall w).isShown = true

/-! ## The stack operations of generation -/

/-- What one call of `Maze.draw` does to the backtracking stack: `this.stack.push(this.currentCell)`
on the way to the unvisited neighbour `next`, `this.stack.pop()`, or nothing (no unvisited
neighbour and an empty stack). -/
inductive StackOp where
  | push (cell next : Ref)
  | pop (cell : Ref)
  | idle
deriving DecidableEq

/-- The stack operation of the generation step `Maze.draw` in state `s` with the random draw
`rnd`, read off the branches of `draw`: a push of the current cell when `checkNeighbors`
returns a cell, else a pop when the stack is not empty. `none` is a TypeError. -/
def drawOp (s : State) (rnd : Nat) : Option StackOp :=
  match s.maze.currentCell with
  | none => none
  | some cur =>
    match writeCell s.maze.grid cur Cell.setVisited with
    | none => none
    | some grid1 =>
      match cellAt grid1 cur with
      | none => none
      | some this =>
        match checkNeighbors grid1 this rnd with
        | none => none
        | some (some next) => some (StackOp.push cur next)
        | some none =>
          match s.maze.stack with
          | cell :: _ => some (StackOp.pop cell)
          | [] => some StackOp.idle

/-- The loop of `Game.setupMaze` as in `generateLoop`, recording the stack operation of
every `draw` call it makes. -/
def generateOps : State → List Nat → Option (State × List StackOp)
  | s, [] => if s.mazeGenerationComplete then some (s, []) else none
  | s, rnd :: rnds =>
    if s.mazeGenerationComplete then some (s, [])
    else
      match drawOp s rnd, draw s rnd with
      | some op, some s1 => (generateOps s1 rnds).map (fun r => (r.1, op :: r.2))
      | _, _ => none

/-- How often the cell `x` is pushed onto the stack. -/
def pushCount (x : Ref) : List StackOp → Nat
  | [] => 0
  | StackOp.push c _ :: ops => (if c = x then 1 else 0) + pushCount x ops
  | StackOp.pop _ :: ops => pushCount x ops
  | StackOp.idle :: ops => pushCount x ops

/-- How often the cell `x` is popped from the stack. -/
def popCount (x : Ref) : List StackOp → Nat
  | [] => 0
  | StackOp.push _ _ :: ops => popCount x ops
  | StackOp.pop c :: ops => (if c = x then 1 else 0) + popCount x ops
  | StackOp.idle :: ops => popCount x ops

/-- How often the walk advances to the cell `y` (a forward step with `next = y`). -/
def enterCount (y : Ref) : List StackOp → Nat
  | [] => 0
  | StackOp.push _ n :: ops => (if n = y then 1 else 0) + enterCount y ops
  | StackOp.pop _ :: ops => enterCount y ops
  | StackOp.idle :: ops => enterCount y ops

/-- The walls of a cell that is `k` advancing calls into the rotation of the wall it is set
to rotate: every `maxTheta` is a quarter turn past the resting angle, the `theta` of the wall
being rotated is `2 * k` past its resting angle, and every other `theta` is at rest. A cell
with `k = 0`, or with no wall to rotate, has all walls at rest. -/
def Cell.turning (k : Nat) (c : Cell) : Prop :=
  ∀ v, v < 4 → (c.wall v).maxTheta = restTheta v + 90 ∧
    (c.wall v).theta = restTheta v + (if c.wallToRotate = some v then 2 * k else 0)

/-- The number of advancing calls a cell selected once has behind it after its run in the
tick with the given index: one more than before, and none after the completing tick 45. -/
def afterTick (index : Nat) : Nat := if index = 45 then 0 else index + 1

/-- The wall pair at `(x, v)` is the one the cell at `y` is set to rotate: `x` is `y` and `v`
its wall, or `x` is the neighbour behind that wall and `v` the neighbour's copy. -/
def Owns (n : Nat) (g : Grid) (y x : Ref) (v : Nat) : Prop :=
  ∃ cy w, cellAt g y = some cy ∧ cy.wallToRotate = some w ∧ w < 4 ∧ hasNbr n y w ∧
    ((x = y ∧ v = w) ∨ (x = nbrRef y w ∧ v = facingWall w))

/-- The grid inside the tick `index` of a cycle over pairwise different cells that started
symmetric and at rest, when the cells `done` have had their run in this tick and the cells
`todo` have not: cells still to run are `index` calls into their rotation, cells that have
run one call further (at rest again after tick 45), all other cells at rest; the walls set to
rotate have a neighbour behind them; and an adjacent wall pair disagrees only while a
selected cell is rotating it. -/
structure TickInv (n index : Nat) (done todo : List Ref) (g : Grid) : Prop where
  grid : GridOK n n g
  todoTurn : ∀ y, y ∈ todo → ∀ c, cellAt g y = some c → c.turning index
  doneTurn : ∀ y, y ∈ done → ∀ c, cellAt g y = some c → c.turning (afterTick index)
  restTurn : ∀ y, y ∉ done → y ∉ todo → ∀ c, cellAt g y = some c → c.turning 0
  todoValid : index ≠ 0 → ∀ y, y ∈ todo → ∀ c, cellAt g y = some c →
    validWall n y c.wallToRotate
  doneValid : ∀ y, y ∈ done → ∀ c, cellAt g y = some c → validWall n y c.wallToRotate
  pairs : ∀ x v, v < 4 → inGrid n n x → hasNbr n x v →
    shownAt g x v = shownAt g (nbrRef x v) (facingWall v) ∨
    (index ≠ 0 ∧ ∃ y, y ∈ todo ∧ Owns n g y x v) ∨
    (index ≠ 45 ∧ ∃ y, y ∈ done ∧ Owns n g y x v)

/-- The wall at `(a, b)` is one of the four that the completing call of the rotation of wall
`w` of the cell at `p` writes (on an `n x n` grid). -/
def Touched (n : Nat) (p : Ref) (w : Nat) (a : Ref) (b : Nat) : Prop :=
  (a = p ∧ b = w) ∨ (a = p ∧ b = intoWall w) ∨ (a = nbrRef p w ∧ b = facingWall w) ∨
    (hasNbr n p (intoWall w) ∧ a = nbrRef p (intoWall w) ∧ b = facingWall (intoWall w))

/-! # Theorems -/

/-! ## Basic facts about grid reads and writes -/

theorem cellAt_modifyCell (g : Grid) (p q : Ref) (f : Cell → Cell) :
    cellAt (modifyCell g p f) q = if q = p then (cellAt g q).map f else cellAt g q := by
  obtain ⟨p1, p2⟩ := p
  obtain ⟨q1, q2⟩ := q
  simp only [cellAt, modifyCell, List.getElem?_modify]
  by_cases h1 : p1 = q1
  · subst h1
    cases hrow : g[p1]? with
    | none => simp
    | some row =>
      simp only [Option.map_eq_map, Option.map_some', if_true, List.getElem?_modify]
      by_cases h2 : p2 = q2
      · subst h2; simp
      · have : ¬ ((p1, q2) = (p1, p2)) := by
          intro h; exact h2 (by simpa using h.symm)
        simp [h2, this]
  · have : ¬ ((q1, q2) = (p1, p2)) := by
      intro h; exact h1 (by simpa using (congrArg Prod.fst h).symm)
    cases hrow : g[q1]? with
    | none => simp [this]
    | some row => simp [h1, this]

theorem length_modifyCell (g : Grid) (p : Ref) (f : Cell → Cell) :
    (modifyCell g p f).length = g.length := by
  simp [modifyCell]

theorem rowLength_modifyCell (g : Grid) (p : Ref) (f : Cell → Cell) (i : Nat) :
    ((modifyCell g p f)[i]?).map List.length = (g[i]?).map List.length := by
  simp only [modifyCell, List.getElem?_modify]
  cases g[i]? with
  | none => simp
  | some row => by_cases h : p.1 = i <;> simp [h]

theorem readRef_eq (g : Grid) (i j : Nat) :
    readRef g i j = (g[i]?).map (fun row => if j < row.length then some (i, j) else none) := by
  unfold readRef; cases g[i]? <;> rfl

theorem readRef_modifyCell (g : Grid) (p : Ref) (f : Cell → Cell) (i j : Nat) :
    readRef (modifyCell g p f) i j = readRef g i j := by
  have h := rowLength_modifyCell g p f i
  rw [readRef_eq, readRef_eq]
  cases h1 : (modifyCell g p f)[i]? <;> cases h2 : g[i]? <;> simp_all

theorem fieldAt_modifyCell {β : Type} (g : Grid) (p q : Ref) (f : Cell → Cell) (proj : Cell → β) :
    fieldAt (modifyCell g p f) q proj
      = if q = p then fieldAt g q (fun c => proj (f c)) else fieldAt g q proj := by
  unfold fieldAt
  rw [cellAt_modifyCell]
  split
  · simp [Option.map_map, Function.comp_def]
  · rfl

theorem GridOK.modifyCell {R C : Nat} {g : Grid} (h : GridOK R C g) (p : Ref) (f : Cell → Cell)
    (hf : ∀ c, (f c).rowNumber = c.rowNumber ∧ (f c).columnNumber = c.columnNumber) :
    GridOK R C (modifyCell g p f) := by
  obtain ⟨h1, h2, h3⟩ := h
  refine ⟨by rw [length_modifyCell]; exact h1, ?_, ?_⟩
  · intro i hi
    rw [rowLength_modifyCell]; exact h2 i hi
  · intro i hi j hj
    rw [cellAt_modifyCell]
    have := h3 i hi j hj
    split
    · cases hc : cellAt g (i, j) with
      | none => simp [hc] at this
      | some c =>
        simp only [hc, Option.map_some', Option.some.injEq, Prod.mk.injEq] at this ⊢
        rw [(hf c).1, (hf c).2]; exact this
    · exact this

theorem GridOK.cellAt_some {R C : Nat} {g : Grid} (h : GridOK R C g) {i j : Nat}
    (hi : i < R) (hj : j < C) :
    ∃ c, cellAt g (i, j) = some c ∧ c.rowNumber = i ∧ c.columnNumber = j := by
  have := h.2.2 i hi j hj
  cases hc : cellAt g (i, j) with
  | none => simp [hc] at this
  | some c =>
    simp only [hc, Option.map_some', Option.some.injEq, Prod.mk.injEq] at this
    exact ⟨c, rfl, this.1, this.2⟩

theorem GridOK.cellAt_bound {R C : Nat} {g : Grid} (h : GridOK R C g) {p : Ref} {c : Cell}
    (hc : cellAt g p = some c) : p.1 < R ∧ p.2 < C ∧ c.rowNumber = p.1 ∧ c.columnNumber = p.2 := by
  obtain ⟨h1, h2, h3⟩ := h
  unfold cellAt at hc
  cases hrow : g[p.1]? with
  | none => simp [hrow] at hc
  | some row =>
    simp only [hrow] at hc
    have hp1 : p.1 < R := by
      rw [← h1]; exact (List.getElem?_eq_some_iff.mp hrow).1
    have hlen := h2 p.1 hp1
    simp only [hrow, Option.map_some', Option.some.injEq] at hlen
    have hp2 : p.2 < C := by
      rw [← hlen]; exact (List.getElem?_eq_some_iff.mp hc).1
    have := h3 p.1 hp1 p.2 hp2
    have hc2 : cellAt g (p.1, p.2) = some c := by
      unfold cellAt; simp only [hrow]; exact hc
    simp only [hc2, Option.map_some', Option.some.injEq, Prod.mk.injEq] at this
    exact ⟨hp1, hp2, this.1, this.2⟩

theorem GridOK.readRef {R C : Nat} {g : Grid} (h : GridOK R C g) {i : Nat} (hi : i < R) (j : Nat) :
    readRef g i j = some (if j < C then some (i, j) else none) := by
  have hlen := h.2.1 i hi
  rw [readRef_eq]
  cases hrow : g[i]? with
  | none => simp [hrow] at hlen
  | some row =>
    simp only [hrow, Option.map_some', Option.some.injEq] at hlen
    simp [hlen]

/-! ## The neighbour lookup -/

theorem mem_pushUnvisited (g : Grid) (l : List Ref) (n : Option Ref) (q : Ref) :
    q ∈ pushUnvisited g l n ↔ q ∈ l ∨ (n = some q ∧ fieldAt g q (fun c => c.visited) = some false) := by
  cases n with
  | none => simp [pushUnvisited]
  | some p =>
    cases hc : cellAt g p with
    | none =>
      simp only [pushUnvisited, hc, fieldAt, Option.some.injEq, iff_self_or]
      rintro ⟨rfl, h⟩; simp [hc] at h
    | some c =>
      by_cases hv : c.visited = true
      · simp only [pushUnvisited, hc, fieldAt, hv, if_true, Option.some.injEq, iff_self_or]
        rintro ⟨rfl, h⟩; simp [hc, hv] at h
      · simp only [pushUnvisited, hc, fieldAt, hv, Bool.false_eq_true, if_false, List.mem_append,
          List.mem_singleton, Option.some.injEq]
        constructor
        · rintro (h | rfl)
          · exact Or.inl h
          · right; simp [hc]; simpa using hv
        · rintro (h | ⟨rfl, _⟩)
          · exact Or.inl h
          · exact Or.inr rfl

/-- Under a well-formed grid `checkNeighbors` raises no TypeError; what it returns is an
unvisited orthogonal neighbour inside the grid, and it returns `undefined` only when the
neighbours it looks at (the right one only when `column !== grid.length - 1`) are all visited. -/
theorem checkNeighbors_spec {R C : Nat} {g : Grid} (hg : GridOK R C g) {p : Ref} {this : Cell}
    (hthis : cellAt g p = some this) (rnd : Nat) :
    ∃ res, checkNeighbors g this rnd = some res ∧
      (∀ q, res = some q → adjacent p q ∧ q.1 < R ∧ q.2 < C ∧
        fieldAt g q (fun c => c.visited) = some false) ∧
      (res = none → ∀ q, adjacent p q → q.1 < R → q.2 < C → (q.2 = p.2 + 1 → p.2 + 1 ≠ R) →
        fieldAt g q (fun c => c.visited) = some true) := by
  obtain ⟨hp1, hp2, hr, hc⟩ := hg.cellAt_bound hthis
  obtain ⟨p1, p2⟩ := p
  simp only at hp1 hp2 hr hc
  have hlen : g.length = R := hg.1
  unfold checkNeighbors
  simp only [hr, hc, hlen]
  have htop : (if p1 ≠ 0 then readRef g (p1 - 1) p2 else some none)
      = some (if p1 ≠ 0 then some (p1 - 1, p2) else none) := by
    split
    · rw [hg.readRef (by omega)]; simp [hp2]
    · rfl
  have hbot : (if p1 + 1 ≠ R then readRef g (p1 + 1) p2 else some none)
      = some (if p1 + 1 ≠ R then some (p1 + 1, p2) else none) := by
    split
    · rw [hg.readRef (by omega)]; simp [hp2]
    · rfl
  have hright : (if p2 + 1 ≠ R then readRef g p1 (p2 + 1) else some none)
      = some (if p2 + 1 ≠ R ∧ p2 + 1 < C then some (p1, p2 + 1) else none) := by
    split
    · rw [hg.readRef hp1]; simp [*]
    · simp [*]
  have hleft : (if p2 ≠ 0 then readRef g p1 (p2 - 1) else some none)
      = some (if p2 ≠ 0 then some (p1, p2 - 1) else none) := by
    split
    · rw [hg.readRef hp1]
      have : p2 - 1 < C := by omega
      simp [this]
    · rfl
  rw [htop, hbot, hright, hleft]
  simp only [ne_eq]
  generalize hN : pushUnvisited g _ _ = neighbors
  have hmem : ∀ q, q ∈ neighbors ↔
      fieldAt g q (fun c => c.visited) = some false ∧
        ((p1 ≠ 0 ∧ q = (p1 - 1, p2)) ∨ (p1 + 1 ≠ R ∧ q = (p1 + 1, p2)) ∨
          ((p2 + 1 ≠ R ∧ p2 + 1 < C) ∧ q = (p1, p2 + 1)) ∨ (p2 ≠ 0 ∧ q = (p1, p2 - 1))) := by
    intro q
    rw [← hN]
    simp only [mem_pushUnvisited, List.not_mem_nil, false_or, ite_eq_iff, Option.some.injEq,
      reduceCtorEq, and_false, or_false]
    constructor
    · rintro (((⟨⟨h1, h2⟩, h3⟩ | ⟨⟨h1, h2⟩, h3⟩) | ⟨⟨h1, h2⟩, h3⟩) | ⟨⟨h1, h2⟩, h3⟩)
      · exact ⟨h3, Or.inl ⟨h1, h2.symm⟩⟩
      · exact ⟨h3, Or.inr (Or.inl ⟨h1, h2.symm⟩)⟩
      · exact ⟨h3, Or.inr (Or.inr (Or.inl ⟨h1, h2.symm⟩))⟩
      · exact ⟨h3, Or.inr (Or.inr (Or.inr ⟨h1, h2.symm⟩))⟩
    · rintro ⟨h3, (⟨h1, h2⟩ | ⟨h1, h2⟩ | ⟨h1, h2⟩ | ⟨h1, h2⟩)⟩
      · exact Or.inl (Or.inl (Or.inl ⟨⟨h1, h2.symm⟩, h3⟩))
      · exact Or.inl (Or.inl (Or.inr ⟨⟨h1, h2.symm⟩, h3⟩))
      · exact Or.inl (Or.inr ⟨⟨h1, h2.symm⟩, h3⟩)
      · exact Or.inr ⟨⟨h1, h2.symm⟩, h3⟩
  by_cases hne : neighbors.length ≠ 0
  · simp only [hne, if_true]
    refine ⟨_, rfl, ?_, ?_⟩
    · intro q hq
      have hq2 : q ∈ neighbors := List.getElem?_mem hq
      obtain ⟨hv, hcase⟩ := (hmem q).mp hq2
      refine ⟨?_, ?_, ?_, hv⟩
      · unfold adjacent
        rcases hcase with ⟨h1, rfl⟩ | ⟨h1, rfl⟩ | ⟨h1, rfl⟩ | ⟨h1, rfl⟩ <;> simp <;> omega
      · rcases hcase with ⟨h1, rfl⟩ | ⟨h1, rfl⟩ | ⟨h1, rfl⟩ | ⟨h1, rfl⟩ <;> simp <;> omega
      · rcases hcase with ⟨h1, rfl⟩ | ⟨h1, rfl⟩ | ⟨h1, rfl⟩ | ⟨h1, rfl⟩ <;> simp <;> omega
    · intro hnone
      exfalso
      have hlt : randomIndex rnd neighbors.length < neighbors.length := by
        unfold randomIndex
        rw [if_neg hne]
        exact Nat.mod_lt _ (Nat.pos_of_ne_zero hne)
      rw [List.getElem?_eq_getElem hlt] at hnone
      exact absurd hnone (by simp)
  · simp only [hne, if_false]
    refine ⟨none, rfl, ?_, ?_⟩
    · intro q hq; exact absurd hq (by simp)
    · intro _ q hadj hq1 hq2 hcol
      have hnil : neighbors = [] := by
        apply List.eq_nil_of_length_eq_zero; simpa using hne
      obtain ⟨c, hcq, _, _⟩ := hg.cellAt_some hq1 hq2
      have hnot : ¬ q ∈ neighbors := by rw [hnil]; simp
      rw [hmem q] at hnot
      have hcase : (p1 ≠ 0 ∧ q = (p1 - 1, p2)) ∨ (p1 + 1 ≠ R ∧ q = (p1 + 1, p2)) ∨
          ((p2 + 1 ≠ R ∧ p2 + 1 < C) ∧ q = (p1, p2 + 1)) ∨ (p2 ≠ 0 ∧ q = (p1, p2 - 1)) := by
        obtain ⟨q1, q2⟩ := q
        unfold adjacent at hadj
        simp only at hadj hq1 hq2 hcol
        simp only [Prod.mk.injEq]
        rcases hadj with h | h | h | h
        · left; omega
        · right; left; omega
        · right; right; left
          have := hcol h.2
          omega
        · right; right; right; omega
      have hv : fieldAt g q (fun c => c.visited) ≠ some false := fun h => hnot ⟨h, hcase⟩
      unfold fieldAt at hv ⊢
      rw [hcq] at hv ⊢
      simp only [Option.map_some', ne_eq, Option.some.injEq] at hv ⊢
      simpa using hv

theorem map_const_of_map_eq {α β γ δ : Type} {x : Option α} {y : Option β} {f : α → γ} {k : β → γ}
    (h : x.map f = y.map k) (d : δ) : x.map (fun _ => d) = y.map (fun _ => d) := by
  cases x <;> cases y <;> simp_all

theorem Symmetric.setH {R C : Nat} {g : Grid} (h : Symmetric R C g) (r c : Nat) (b : Bool) :
    Symmetric R C (modifyCell (modifyCell g (r, c) (Cell.setRightShown b)) (r, c + 1)
      (Cell.setLeftShown b)) := by
  intro r' hr' c' hc'
  have h0 := h r' hr' c' hc'
  unfold hAgree vAgree at *
  simp only [fieldAt_modifyCell, Prod.mk.injEq, Cell.setRightShown, Cell.setLeftShown]
  constructor
  · intro hc1
    have h1 := h0.1 hc1
    have h2 := map_const_of_map_eq h1 b
    split_ifs <;> simp_all [fieldAt]
  · intro hr1
    have h1 := h0.2 hr1
    split_ifs <;> simp_all [fieldAt]

theorem Symmetric.setH' {R C : Nat} {g : Grid} (h : Symmetric R C g) (r c : Nat) (b : Bool) :
    Symmetric R C (modifyCell (modifyCell g (r, c + 1) (Cell.setLeftShown b)) (r, c)
      (Cell.setRightShown b)) := by
  intro r' hr' c' hc'
  have h0 := h r' hr' c' hc'
  unfold hAgree vAgree at *
  simp only [fieldAt_modifyCell, Prod.mk.injEq, Cell.setRightShown, Cell.setLeftShown]
  constructor
  · intro hc1
    have h1 := h0.1 hc1
    have h2 := map_const_of_map_eq h1 b
    split_ifs <;> simp_all [fieldAt]
  · intro hr1
    have h1 := h0.2 hr1
    split_ifs <;> simp_all [fieldAt]

theorem Symmetric.setV {R C : Nat} {g : Grid} (h : Symmetric R C g) (r c : Nat) (b : Bool) :
    Symmetric R C (modifyCell (modifyCell g (r, c) (Cell.setBottomShown b)) (r + 1, c)
      (Cell.setTopShown b)) := by
  intro r' hr' c' hc'
  have h0 := h r' hr' c' hc'
  unfold hAgree vAgree at *
  simp only [fieldAt_modifyCell, Prod.mk.injEq, Cell.setBottomShown, Cell.setTopShown]
  constructor
  · intro hc1
    have h1 := h0.1 hc1
    split_ifs <;> simp_all [fieldAt]
  · intro hr1
    have h1 := h0.2 hr1
    have h2 := map_const_of_map_eq h1 b
    split_ifs <;> simp_all [fieldAt]

theorem Symmetric.setV' {R C : Nat} {g : Grid} (h : Symmetric R C g) (r c : Nat) (b : Bool) :
    Symmetric R C (modifyCell (modifyCell g (r + 1, c) (Cell.setTopShown b)) (r, c)
      (Cell.setBottomShown b)) := by
  intro r' hr' c' hc'
  have h0 := h r' hr' c' hc'
  unfold hAgree vAgree at *
  simp only [fieldAt_modifyCell, Prod.mk.injEq, Cell.setBottomShown, Cell.setTopShown]
  constructor
  · intro hc1
    have h1 := h0.1 hc1
    split_ifs <;> simp_all [fieldAt]
  · intro hr1
    have h1 := h0.2 hr1
    have h2 := map_const_of_map_eq h1 b
    split_ifs <;> simp_all [fieldAt]

/-! ## Wall removal between neighbours -/

/-- The grid after `removeWalls(p, q)` for orthogonal neighbours. -/
theorem removeWalls_eq {R C : Nat} {g : Grid} (hg : GridOK R C g) {p q : Ref} {a b : Cell}
    (hp : cellAt g p = some a) (hq : cellAt g q = some b) (hadj : adjacent p q) :
    removeWalls g p q = some
      (if q.2 + 1 = p.2 then
        modifyCell (modifyCell g p (Cell.setLeftShown false)) q (Cell.setRightShown false)
      else if q.2 = p.2 + 1 then
        modifyCell (modifyCell g p (Cell.setRightShown false)) q (Cell.setLeftShown false)
      else if q.1 + 1 = p.1 then
        modifyCell (modifyCell g p (Cell.setTopShown false)) q (Cell.setBottomShown false)
      else modifyCell (modifyCell g p (Cell.setBottomShown false)) q (Cell.setTopShown false)) := by
  obtain ⟨-, -, ha1, ha2⟩ := hg.cellAt_bound hp
  obtain ⟨-, -, hb1, hb2⟩ := hg.cellAt_bound hq
  unfold removeWalls
  simp only [hp, hq, ha1, ha2, hb1, hb2]
  unfold adjacent at hadj
  rcases hadj with h | h | h | h
  · have e1 : ¬ (q.2 + 1 = p.2) := by omega
    have e2 : ¬ (q.2 = p.2 + 1) := by omega
    have e3 : ¬ ((p.2 : Int) - (q.2 : Int) = 1) := by omega
    have e4 : ¬ ((p.2 : Int) - (q.2 : Int) = -1) := by omega
    have e5 : (p.1 : Int) - (q.1 : Int) = 1 := by omega
    rw [if_neg e1, if_neg e2, if_pos h.1]
    simp only [e3, e4, e5, if_false, if_true]
  · have e1 : ¬ (q.2 + 1 = p.2) := by omega
    have e2 : ¬ (q.2 = p.2 + 1) := by omega
    have e3 : ¬ ((p.2 : Int) - (q.2 : Int) = 1) := by omega
    have e4 : ¬ ((p.2 : Int) - (q.2 : Int) = -1) := by omega
    have e5 : ¬ ((p.1 : Int) - (q.1 : Int) = 1) := by omega
    have e6 : (p.1 : Int) - (q.1 : Int) = -1 := by omega
    have e7 : ¬ (q.1 + 1 = p.1) := by omega
    rw [if_neg e1, if_neg e2, if_neg e7]
    simp [e3, e4, e5, e6]
  · have e1 : ¬ (q.2 + 1 = p.2) := by omega
    have e3 : ¬ ((p.2 : Int) - (q.2 : Int) = 1) := by omega
    have e4 : (p.2 : Int) - (q.2 : Int) = -1 := by omega
    have e5 : ¬ ((p.1 : Int) - (q.1 : Int) = 1) := by omega
    have e6 : ¬ ((p.1 : Int) - (q.1 : Int) = -1) := by omega
    rw [if_neg e1, if_pos h.2]
    simp [e3, e4, e5, e6]
  · have e3 : (p.2 : Int) - (q.2 : Int) = 1 := by omega
    have e5 : ¬ ((p.1 : Int) - (q.1 : Int) = 1) := by omega
    have e6 : ¬ ((p.1 : Int) - (q.1 : Int) = -1) := by omega
    rw [if_pos h.2]
    simp only [e3, e5, e6, if_false, if_true]

theorem setShown_coords (b : Bool) (c : Cell) :
    ((Cell.setTopShown b c).rowNumber = c.rowNumber ∧ (Cell.setTopShown b c).columnNumber = c.columnNumber)
    ∧ ((Cell.setBottomShown b c).rowNumber = c.rowNumber ∧ (Cell.setBottomShown b c).columnNumber = c.columnNumber)
    ∧ ((Cell.setLeftShown b c).rowNumber = c.rowNumber ∧ (Cell.setLeftShown b c).columnNumber = c.columnNumber)
    ∧ ((Cell.setRightShown b c).rowNumber = c.rowNumber ∧ (Cell.setRightShown b c).columnNumber = c.columnNumber) :=
  ⟨⟨rfl, rfl⟩, ⟨rfl, rfl⟩, ⟨rfl, rfl⟩, ⟨rfl, rfl⟩⟩

/-- `removeWalls` on neighbours keeps the grid well formed and symmetric and touches no
field other than the wall flags. -/
theorem removeWalls_basic {R C : Nat} {g : Grid} (hg : GridOK R C g) {p q : Ref} {a b : Cell}
    (hp : cellAt g p = some a) (hq : cellAt g q = some b) (hadj : adjacent p q) :
    ∃ g', removeWalls g p q = some g' ∧ GridOK R C g' ∧
      (Symmetric R C g → Symmetric R C g') ∧
      (∀ x, fieldAt g' x (fun c => c.visited) = fieldAt g x (fun c => c.visited)) := by
  refine ⟨_, removeWalls_eq hg hp hq hadj, ?_, ?_, ?_⟩
  · split_ifs <;>
      exact (hg.modifyCell _ _ (fun c => by first
        | exact (setShown_coords _ c).1 | exact (setShown_coords _ c).2.1
        | exact (setShown_coords _ c).2.2.1 | exact (setShown_coords _ c).2.2.2)).modifyCell _ _
        (fun c => by first
        | exact (setShown_coords _ c).1 | exact (setShown_coords _ c).2.1
        | exact (setShown_coords _ c).2.2.1 | exact (setShown_coords _ c).2.2.2)
  · intro hs
    obtain ⟨p1, p2⟩ := p
    obtain ⟨q1, q2⟩ := q
    unfold adjacent at hadj
    simp only at hadj ⊢
    split_ifs with h1 h2 h3
    · have : (p1, p2) = (q1, q2 + 1) := by simp; omega
      rw [this]; exact hs.setH' q1 q2 false
    · have : (q1, q2) = (p1, p2 + 1) := by simp; omega
      rw [this]; exact hs.setH p1 p2 false
    · have : (p1, p2) = (q1 + 1, q2) := by simp; omega
      rw [this]; exact hs.setV' q1 q2 false
    · have : (q1, q2) = (p1 + 1, p2) := by simp; omega
      rw [this]; exact hs.setV p1 p2 false
  · intro x
    split_ifs <;> simp only [fieldAt_modifyCell] <;> split_ifs <;> rfl

/-! ## One generation step -/

theorem Symmetric.modify_walls {R C : Nat} {g : Grid} (h : Symmetric R C g) (p : Ref)
    (f : Cell → Cell) (hf : ∀ c, (f c).walls = c.walls) :
    Symmetric R C (modifyCell g p f) := by
  intro r hr c hc
  have h0 := h r hr c hc
  unfold hAgree vAgree at *
  simp only [fieldAt_modifyCell, hf]
  constructor
  · intro h1; have := h0.1 h1; split_ifs <;> exact this
  · intro h1; have := h0.2 h1; split_ifs <;> exact this

theorem writeCell_eq {g : Grid} {p : Ref} {c : Cell} (h : cellAt g p = some c) (f : Cell → Cell) :
    writeCell g p f = some (modifyCell g p f) := by
  unfold writeCell; rw [h]

theorem finishDraw_maze (s : State) (m : Maze) : (finishDraw s m).maze = m := by
  unfold finishDraw; split <;> rfl

/-- The three ways a generation step can go from a well-formed state whose current cell is
`p`: advance to an unvisited neighbour, backtrack, or stay (empty stack). -/
theorem draw_cases {R C : Nat} {s : State} (h : BasicInv R C s) {p : Ref}
    (hp : s.maze.currentCell = some p) (rnd : Nat) :
    (∃ next g3, adjacent p next ∧ next.1 < R ∧ next.2 < C ∧
        fieldAt (modifyCell s.maze.grid p Cell.setVisited) next (fun c => c.visited) = some false ∧
        removeWalls (modifyCell (modifyCell s.maze.grid p Cell.setVisited) next Cell.setVisited)
          p next = some g3 ∧
        draw s rnd = some (finishDraw s
          { s.maze with grid := g3, stack := p :: s.maze.stack, currentCell := some next })) ∨
    ((∀ q, adjacent p q → q.1 < R → q.2 < C → (q.2 = p.2 + 1 → p.2 + 1 ≠ R) →
        fieldAt (modifyCell s.maze.grid p Cell.setVisited) q (fun c => c.visited) = some true) ∧
      ((∃ cell rest, s.maze.stack = cell :: rest ∧
          draw s rnd = some (finishDraw s
            { s.maze with grid := modifyCell s.maze.grid p Cell.setVisited, stack := rest,
                          currentCell := some cell })) ∨
        (s.maze.stack = [] ∧
          draw s rnd = some (finishDraw s
            { s.maze with grid := modifyCell s.maze.grid p Cell.setVisited })))) := by
  obtain ⟨p', hp', hb1, hb2⟩ := h.cur
  rw [hp] at hp'
  cases Option.some.inj hp'
  obtain ⟨c0, hc0, -, -⟩ := h.grid.cellAt_some hb1 hb2
  have hg1 : GridOK R C (modifyCell s.maze.grid p Cell.setVisited) :=
    h.grid.modifyCell _ _ (fun c => ⟨rfl, rfl⟩)
  obtain ⟨this, hthis, -, -⟩ := hg1.cellAt_some hb1 hb2
  obtain ⟨res, hres, hsome, hnone⟩ := checkNeighbors_spec hg1 hthis rnd
  unfold draw
  simp only [hp, writeCell_eq hc0, hthis, hres]
  cases res with
  | some next =>
    left
    obtain ⟨hadj, hn1, hn2, hv⟩ := hsome next rfl
    obtain ⟨cn, hcn, -, -⟩ := hg1.cellAt_some hn1 hn2
    have hg2 : GridOK R C (modifyCell (modifyCell s.maze.grid p Cell.setVisited) next
        Cell.setVisited) := hg1.modifyCell _ _ (fun c => ⟨rfl, rfl⟩)
    obtain ⟨a, ha, -, -⟩ := hg2.cellAt_some hb1 hb2
    obtain ⟨b, hb, -, -⟩ := hg2.cellAt_some hn1 hn2
    obtain ⟨g3, hg3, -⟩ := removeWalls_basic hg2 ha hb hadj
    refine ⟨next, g3, hadj, hn1, hn2, hv, hg3, ?_⟩
    simp only [writeCell_eq hcn, hg3]
  | none =>
    right
    refine ⟨hnone rfl, ?_⟩
    cases hst : s.maze.stack with
    | nil => right; exact ⟨rfl, rfl⟩
    | cons cell rest => left; exact ⟨cell, rest, rfl, rfl⟩

theorem finishDraw_basic {R C : Nat} {s : State} {m : Maze} (hr : m.rows = R) (hc : m.columns = C)
    (hg : GridOK R C m.grid) (hs : Symmetric R C m.grid)
    (hcur : ∃ p, m.currentCell = some p ∧ p.1 < R ∧ p.2 < C)
    (hst : ∀ q, q ∈ m.stack → q.1 < R ∧ q.2 < C) : BasicInv R C (finishDraw s m) := by
  constructor <;> rw [finishDraw_maze] <;> assumption

/-- A generation step from a well-formed state raises no TypeError and ends in a
well-formed state. -/
theorem draw_basic {R C : Nat} {s : State} (h : BasicInv R C s) (rnd : Nat) :
    ∃ s', draw s rnd = some s' ∧ BasicInv R C s' := by
  obtain ⟨p, hp, hb1, hb2⟩ := h.cur
  have hg1 : GridOK R C (modifyCell s.maze.grid p Cell.setVisited) :=
    h.grid.modifyCell _ _ (fun c => ⟨rfl, rfl⟩)
  have hs1 : Symmetric R C (modifyCell s.maze.grid p Cell.setVisited) :=
    h.sym.modify_walls _ _ (fun c => rfl)
  rcases draw_cases h hp rnd with ⟨next, g3, hadj, hn1, hn2, -, hrem, hd⟩ |
      ⟨-, ⟨cell, rest, hst, hd⟩ | ⟨hst, hd⟩⟩
  · refine ⟨_, hd, ?_⟩
    have hg2 : GridOK R C (modifyCell (modifyCell s.maze.grid p Cell.setVisited) next
        Cell.setVisited) := hg1.modifyCell _ _ (fun c => ⟨rfl, rfl⟩)
    have hs2 : Symmetric R C (modifyCell (modifyCell s.maze.grid p Cell.setVisited) next
        Cell.setVisited) := hs1.modify_walls _ _ (fun c => rfl)
    obtain ⟨a, ha, -, -⟩ := hg2.cellAt_some hb1 hb2
    obtain ⟨b, hb, -, -⟩ := hg2.cellAt_some hn1 hn2
    obtain ⟨g3', hg3', hok, hsym, -⟩ := removeWalls_basic hg2 ha hb hadj
    rw [hrem] at hg3'
    cases Option.some.inj hg3'
    refine finishDraw_basic h.rows h.cols hok (hsym hs2) ⟨next, rfl, hn1, hn2⟩ ?_
    intro q hq
    rcases List.mem_cons.mp hq with rfl | hq
    · exact ⟨hb1, hb2⟩
    · exact h.stack q hq
  · refine ⟨_, hd, ?_⟩
    have hc := h.stack cell (by rw [hst]; exact List.mem_cons_self _ _)
    refine finishDraw_basic h.rows h.cols hg1 hs1 ⟨cell, rfl, hc.1, hc.2⟩ ?_
    intro q hq
    exact h.stack q (by rw [hst]; exact List.mem_cons_of_mem _ hq)
  · refine ⟨_, hd, ?_⟩
    exact finishDraw_basic h.rows h.cols hg1 hs1 ⟨p, hp, hb1, hb2⟩ h.stack

theorem runDraws_basic {R C : Nat} (rnds : List Nat) {s : State} (h : BasicInv R C s) :
    ∃ s', runDraws s rnds = some s' ∧ BasicInv R C s' := by
  induction rnds generalizing s with
  | nil => exact ⟨s, rfl, h⟩
  | cons rnd rnds ih =>
    obtain ⟨s1, h1, hb1⟩ := draw_basic h rnd
    obtain ⟨s2, h2, hb2⟩ := ih hb1
    refine ⟨s2, ?_, hb2⟩
    simp only [runDraws, h1, h2]

/-! ## The freshly set-up maze -/

theorem cellAt_newRows (R C : Nat) (p : Ref) :
    cellAt ((List.range R).map (fun row => newRow row C)) p
      = if p.1 < R ∧ p.2 < C then some (Cell.mk0 p.1 p.2) else none := by
  unfold cellAt newRow
  by_cases h1 : p.1 < R
  · by_cases h2 : p.2 < C
    · simp [h1, h2, List.getElem?_range]
    · simp [h1, h2, List.getElem?_range]
      omega
  · have : (List.range R)[p.1]? = none := List.getElem?_eq_none (by simp; omega)
    simp [h1, this]

theorem gridOK_newRows (R C : Nat) : GridOK R C ((List.range R).map (fun row => newRow row C)) := by
  refine ⟨by simp, ?_, ?_⟩
  · intro i hi
    simp [hi, List.getElem?_range, newRow]
  · intro i hi j hj
    rw [cellAt_newRows]
    simp [hi, hj, Cell.mk0]

theorem symmetric_newRows (R C : Nat) :
    Symmetric R C ((List.range R).map (fun row => newRow row C)) := by
  intro r hr c hc
  unfold hAgree vAgree fieldAt
  simp only [cellAt_newRows]
  constructor
  · intro h; simp [hr, hc, h, Cell.mk0]
  · intro h; simp [hr, hc, h, Cell.mk0]

theorem freshState_eq {R C : Nat} (hR : 1 ≤ R) (hC : 1 ≤ C) :
    freshState R C = some (initialState R C) := by
  have hg := gridOK_newRows R C
  have h00 : readRef ((List.range R).map (fun row => newRow row C)) 0 0 = some (some (0, 0)) := by
    rw [hg.readRef (by omega)]; simp; omega
  obtain ⟨c, hc, -, -⟩ := hg.cellAt_some (show R - 1 < R by omega) (show C - 1 < C by omega)
  have hne : ¬ (R = 0 ∨ C = 0) := by omega
  simp only [freshState, setupMaze, Maze.mk0, List.nil_append, h00, hne, if_false,
    writeCell_eq hc, freshGrid, initialState]

theorem freshState_pos {R C : Nat} {s : State} (h : freshState R C = some s) : 1 ≤ R ∧ 1 ≤ C := by
  by_contra hne
  have h0 : R = 0 ∨ C = 0 := by omega
  unfold freshState setupMaze at h
  simp only [Maze.mk0, List.nil_append] at h
  cases hr : readRef ((List.range R).map (fun row => newRow row C)) 0 0 with
  | none => simp [hr] at h
  | some cur => simp [hr, h0] at h

theorem freshState_basic {R C : Nat} {s : State} (h : freshState R C = some s) :
    BasicInv R C s := by
  obtain ⟨hR, hC⟩ := freshState_pos h
  rw [freshState_eq hR hC] at h
  cases Option.some.inj h
  refine ⟨rfl, rfl, ?_, ?_, ⟨(0, 0), rfl, by simpa using hR, by simpa using hC⟩, ?_⟩
  · exact (gridOK_newRows R C).modifyCell _ _ (fun c => ⟨rfl, rfl⟩)
  · exact (symmetric_newRows R C).modify_walls _ _ (fun c => rfl)
  · intro q hq; simp [initialState] at hq

/-- C3. For every grid size and every sequence of random draws, every generation step from
a freshly set-up maze succeeds, and after every step each pair of orthogonally adjacent cells
agrees on the `isShown` flag of the wall they share. -/
theorem generation_keeps_walls_symmetric (R C : Nat) (s0 : State)
    (h : freshState R C = some s0) (rnds : List Nat) :
    ∃ s, runDraws s0 rnds = some s ∧ Symmetric R C s.maze.grid := by
  obtain ⟨s, hs, hb⟩ := runDraws_basic rnds (freshState_basic h)
  exact ⟨s, hs, hb.sym⟩

theorem generation_keeps_walls_symmetric_witness :
    freshState 2 2 = some (initialState 2 2) ∧
      ∃ s, runDraws (initialState 2 2) [1, 0, 2, 0] = some s ∧ Symmetric 2 2 s.maze.grid :=
  ⟨freshState_eq (by decide) (by decide),
    generation_keeps_walls_symmetric 2 2 (initialState 2 2)
      (freshState_eq (by decide) (by decide)) [1, 0, 2, 0]⟩

/-! ## The grid without its corner `(0, 0)` is connected -/

section Closure

variable {R C : Nat} {V : Ref → Prop}

theorem closure_right
    (hcl : ∀ w, inGrid R C w → V w → w ≠ (0, 0) → ∀ q, adjacent w q → inGrid R C q → V q)
    (k : Nat) : ∀ r c, V (r, c) → r < R → (r, c) ≠ (0, 0) → c + k < C → V (r, c + k) := by
  induction k with
  | zero => intro r c h _ _ _; exact h
  | succ k ih =>
    intro r c h hr hne hk
    have h1 := ih r c h hr hne (by omega)
    have hne1 : (r, c + k) ≠ (0, 0) := by
      intro e; apply hne; simp only [Prod.mk.injEq] at e ⊢; omega
    exact hcl (r, c + k) ⟨hr, by simp only; omega⟩ h1 hne1 (r, c + (k + 1))
      (by unfold adjacent; simp; omega) ⟨hr, hk⟩

theorem closure_left
    (hcl : ∀ w, inGrid R C w → V w → w ≠ (0, 0) → ∀ q, adjacent w q → inGrid R C q → V q)
    (k : Nat) : ∀ r c, V (r, c + k) → r < R → c + k < C → V (r, c) := by
  induction k with
  | zero => intro r c h _ _; exact h
  | succ k ih =>
    intro r c h hr hk
    apply ih r c _ hr (by omega)
    have hne1 : (r, c + (k + 1)) ≠ (0, 0) := by
      intro e; simp only [Prod.mk.injEq] at e; omega
    exact hcl (r, c + (k + 1)) ⟨hr, hk⟩ h hne1 (r, c + k)
      (by unfold adjacent; simp; omega) ⟨hr, by simp only; omega⟩

theorem closure_down
    (hcl : ∀ w, inGrid R C w → V w → w ≠ (0, 0) → ∀ q, adjacent w q → inGrid R C q → V q)
    (k : Nat) : ∀ r c, V (r, c) → c < C → (r, c) ≠ (0, 0) → r + k < R → V (r + k, c) := by
  induction k with
  | zero => intro r c h _ _ _; exact h
  | succ k ih =>
    intro r c h hc hne hk
    have h1 := ih r c h hc hne (by omega)
    have hne1 : (r + k, c) ≠ (0, 0) := by
      intro e; apply hne; simp only [Prod.mk.injEq] at e ⊢; omega
    exact hcl (r + k, c) ⟨by simp only; omega, hc⟩ h1 hne1 (r + (k + 1), c)
      (by unfold adjacent; simp; omega) ⟨hk, hc⟩

theorem closure_up
    (hcl : ∀ w, inGrid R C w → V w → w ≠ (0, 0) → ∀ q, adjacent w q → inGrid R C q → V q)
    (k : Nat) : ∀ r c, V (r + k, c) → c < C → r + k < R → V (r, c) := by
  induction k with
  | zero => intro r c h _ _; exact h
  | succ k ih =>
    intro r c h hc hk
    apply ih r c _ hc (by omega)
    have hne1 : (r + (k + 1), c) ≠ (0, 0) := by
      intro e; simp only [Prod.mk.injEq] at e; omega
    exact hcl (r + (k + 1), c) ⟨hk, hc⟩ h hne1 (r + k, c)
      (by unfold adjacent; simp; omega) ⟨by simp only; omega, hc⟩

/-- A set of cells that contains `(0, 0)` and one more cell, and that is closed under stepping
from any of its cells other than `(0, 0)` to a neighbour, is the whole grid. -/
theorem closure_all
    (hcl : ∀ w, inGrid R C w → V w → w ≠ (0, 0) → ∀ q, adjacent w q → inGrid R C q → V q)
    {w0 : Ref} (hw0 : V w0) (hin0 : inGrid R C w0) (hne0 : w0 ≠ (0, 0)) :
    ∀ w, inGrid R C w → V w := by
  obtain ⟨r0, c0⟩ := w0
  rintro ⟨r, c⟩ ⟨hr, hc⟩
  simp only at hr hc
  obtain ⟨hr0, hc0⟩ := hin0
  simp only at hr0 hc0
  -- a vertical move from column `c'` between rows `r0` and `r`
  have vert : ∀ c', c' < C → V (r0, c') → (r0, c') ≠ (0, 0) → V (r, c') := by
    intro c' hc' h hne
    by_cases hle : r0 ≤ r
    · have := closure_down hcl (r - r0) r0 c' h hc' hne (by omega)
      rwa [show r0 + (r - r0) = r by omega] at this
    · have h' : V (r + (r0 - r), c') := by rwa [show r + (r0 - r) = r0 by omega]
      exact closure_up hcl (r0 - r) r c' h' hc' (by omega)
  by_cases hcc : c ≤ c0
  · have h1 : V (r, c0) := vert c0 hc0 hw0 hne0
    have h' : V (r, c + (c0 - c)) := by rwa [show c + (c0 - c) = c0 by omega]
    exact closure_left hcl (c0 - c) r c h' hr (by omega)
  · have h1 : V (r0, c) := by
      have := closure_right hcl (c - c0) r0 c0 hw0 hr0 hne0 (by omega)
      rwa [show c0 + (c - c0) = c by omega] at this
    exact vert c hc h1 (by intro e; simp only [Prod.mk.injEq] at e; omega)

end Closure

/-! ## The depth-first-search invariant -/

theorem DfsInv.congrV {R C : Nat} {V V' : Ref → Prop} {cur : Ref} {stack : List Ref}
    (h : DfsInv R C V cur stack) (hV : ∀ q, V' q ↔ V q) : DfsInv R C V' cur stack := by
  have e : V' = V := funext (fun q => propext (hV q))
  rw [e]; exact h

theorem DfsInv.cur_eq_of_nil {R C : Nat} {V : Ref → Prop} {cur : Ref}
    (h : DfsInv R C V cur []) : cur = (0, 0) := by
  have := h.bottom
  simpa using this

theorem DfsInv.pushCell {R C : Nat} {V V' : Ref → Prop} {p next : Ref} {stack : List Ref}
    (h : DfsInv R C V p stack) (hn : ¬ V next) (hV : ∀ q, V' q ↔ q = next ∨ V q) :
    DfsInv R C V' next (p :: stack) := by
  have hnp : next ≠ p := fun e => hn (e ▸ h.curV)
  have hns : next ∉ stack := fun e => hn (h.stackV next e)
  refine ⟨(hV next).mpr (Or.inl rfl), ?_, ?_, ?_, ?_, ?_⟩
  · intro q hq
    rcases List.mem_cons.mp hq with rfl | hq
    · exact (hV _).mpr (Or.inr h.curV)
    · exact (hV q).mpr (Or.inr (h.stackV q hq))
  · refine List.nodup_cons.mpr ⟨?_, h.nodup⟩
    intro hm
    rcases List.mem_cons.mp hm with e | e
    · exact hnp e
    · exact hns e
  · have := h.bottom
    rw [List.getLast?_cons_cons]; exact this
  · intro w hw hVw hne hnot q hadj hq
    have hw' : V w := by
      rcases (hV w).mp hVw with e | e
      · exact absurd e hne
      · exact e
    have h1 : w ≠ p := fun e => hnot (e ▸ List.mem_cons_self _ _)
    have h2 : w ∉ stack := fun e => hnot (List.mem_cons_of_mem _ e)
    exact (hV q).mpr (Or.inr (h.finished w hw hw' h1 h2 q hadj hq))
  · intro e; exact absurd e (by simp)

/-- Backtracking: the popped cell becomes current; when the stack empties every cell is visited. -/
theorem DfsInv.pop {R C : Nat} {V : Ref → Prop} {p cell : Ref} {rest : List Ref}
    (h : DfsInv R C V p (cell :: rest)) (hp : inGrid R C p)
    (hfin : ∀ q, adjacent p q → inGrid R C q → V q) :
    DfsInv R C V cell rest ∧ (rest = [] → ∀ w, inGrid R C w → V w) := by
  have hnd := h.nodup
  rw [List.nodup_cons] at hnd
  have hfin' : ∀ w, inGrid R C w → V w → w ≠ cell → w ∉ rest →
      ∀ q, adjacent w q → inGrid R C q → V q := by
    intro w hw hVw hne hnot q hadj hq
    by_cases e : w = p
    · subst e; exact hfin q hadj hq
    · refine h.finished w hw hVw e ?_ q hadj hq
      intro hm
      rcases List.mem_cons.mp hm with e' | e'
      · exact hne e'
      · exact hnot e'
  have hall : rest = [] → ∀ w, inGrid R C w → V w := by
    intro e
    subst e
    have hc0 : cell = (0, 0) := by
      have := h.bottom
      simpa using this
    subst hc0
    have hpne : p ≠ (0, 0) := by
      intro e; apply hnd.1; rw [e]; exact List.mem_cons_self _ _
    refine closure_all ?_ h.curV hp hpne
    intro w hw hVw hne q hadj hq
    exact hfin' w hw hVw hne (by simp) q hadj hq
  refine ⟨⟨h.stackV cell (List.mem_cons_self _ _), ?_, hnd.2, ?_, hfin', ?_⟩, hall⟩
  · intro q hq; exact h.stackV q (List.mem_cons_of_mem _ hq)
  · have := h.bottom
    rw [List.getLast?_cons_cons] at this; exact this
  · intro e; exact Or.inl (hall e)

/-- No neighbour left and an empty stack: every cell is visited. -/
theorem DfsInv.stay {R C : Nat} {V : Ref → Prop} {p : Ref}
    (h : DfsInv R C V p []) (hfin : ∀ q, adjacent p q → inGrid R C q → V q) :
    ∀ w, inGrid R C w → V w := by
  have hp0 := h.cur_eq_of_nil
  subst hp0
  rcases h.start rfl with hall | honly
  · exact hall
  · rintro ⟨r, c⟩ ⟨hr, hc⟩
    simp only at hr hc
    have hR : R ≤ 1 := by
      by_contra hlt
      have := honly (1, 0) (hfin (1, 0) (by unfold adjacent; simp) ⟨by simp only; omega, by simp only; omega⟩)
      simp at this
    have hC : C ≤ 1 := by
      by_contra hlt
      have := honly (0, 1) (hfin (0, 1) (by unfold adjacent; simp) ⟨by simp only; omega, by simp only; omega⟩)
      simp at this
    have : (r, c) = (0, 0) := by simp only [Prod.mk.injEq]; omega
    rw [this]; exact h.curV

theorem visitedAt_mark {g : Grid} {x : Ref} {c : Cell} (hx : cellAt g x = some c) (q : Ref) :
    visitedAt (modifyCell g x Cell.setVisited) q ↔ q = x ∨ visitedAt g q := by
  unfold visitedAt
  rw [fieldAt_modifyCell]
  by_cases e : q = x
  · subst e; simp [fieldAt, hx, Cell.setVisited]
  · simp [e]

theorem markedGrid_eq (m : Maze) (x : Ref) (h : m.currentCell = some x) :
    markedGrid m = modifyCell m.grid x Cell.setVisited := by
  unfold markedGrid; rw [h]

theorem finishDraw_flag (s : State) (m : Maze) :
    (finishDraw s m).mazeGenerationComplete
      = if m.stack.length = 0 then true else s.mazeGenerationComplete := by
  unfold finishDraw; split <;> rfl

/-- A generation step keeps the invariant on a grid with at most as many columns as rows. -/
theorem draw_gen {R C : Nat} (hCR : C ≤ R) {s : State} (h : GenInv R C s) (rnd : Nat) :
    ∃ s', draw s rnd = some s' ∧ GenInv R C s' := by
  obtain ⟨p, hp, hdfs⟩ := h.dfs
  obtain ⟨p', hp', hb1, hb2⟩ := h.basic.cur
  rw [hp] at hp'
  cases Option.some.inj hp'
  have hmg : markedGrid s.maze = modifyCell s.maze.grid p Cell.setVisited :=
    markedGrid_eq _ p hp
  rw [hmg] at hdfs
  obtain ⟨c0, hc0, -, -⟩ := h.basic.grid.cellAt_some hb1 hb2
  have hg1 : GridOK R C (modifyCell s.maze.grid p Cell.setVisited) :=
    h.basic.grid.modifyCell _ _ (fun c => ⟨rfl, rfl⟩)
  obtain ⟨s', hd', hbasic'⟩ := draw_basic h.basic rnd
  refine ⟨s', hd', ?_⟩
  rcases draw_cases h.basic hp rnd with ⟨next, g3, hadj, hn1, hn2, hunv, hrem, hd⟩ |
      ⟨hfin, ⟨cell, rest, hst, hd⟩ | ⟨hst, hd⟩⟩
  · -- advance
    rw [hd] at hd'
    cases Option.some.inj hd'
    have hg2 : GridOK R C (modifyCell (modifyCell s.maze.grid p Cell.setVisited) next
        Cell.setVisited) := hg1.modifyCell _ _ (fun c => ⟨rfl, rfl⟩)
    obtain ⟨a, ha, -, -⟩ := hg2.cellAt_some hb1 hb2
    obtain ⟨b, hb, -, -⟩ := hg2.cellAt_some hn1 hn2
    obtain ⟨g3', hg3', hok3, -, hvis3⟩ := removeWalls_basic hg2 ha hb hadj
    rw [hrem] at hg3'
    cases Option.some.inj hg3'
    obtain ⟨cn1, hcn1, -, -⟩ := hg1.cellAt_some hn1 hn2
    obtain ⟨cn3, hcn3, -, -⟩ := hok3.cellAt_some hn1 hn2
    have hnotV : ¬ visitedAt (modifyCell s.maze.grid p Cell.setVisited) next := by
      unfold visitedAt; rw [hunv]; simp
    refine ⟨hbasic', ⟨next, by rw [finishDraw_maze], ?_⟩, ?_⟩
    · rw [finishDraw_maze]
      refine hdfs.pushCell hnotV ?_
      intro q
      rw [markedGrid_eq _ next rfl, visitedAt_mark hcn3]
      have e2 : visitedAt g3 q ↔ visitedAt (modifyCell (modifyCell s.maze.grid p Cell.setVisited)
          next Cell.setVisited) q := by unfold visitedAt; rw [hvis3]
      rw [e2, visitedAt_mark hcn1]
      tauto
    · rw [finishDraw_flag]
      simp only [List.length_cons, Nat.add_one_ne_zero, if_false]
      intro hflag
      exfalso
      obtain ⟨-, hall⟩ := h.flag hflag
      apply hnotV
      rw [visitedAt_mark hc0]
      exact Or.inr (hall next.1 hn1 next.2 hn2)
  · -- backtrack
    rw [hd] at hd'
    cases Option.some.inj hd'
    rw [hst] at hdfs
    have hfinV : ∀ q, adjacent p q → inGrid R C q →
        visitedAt (modifyCell s.maze.grid p Cell.setVisited) q := by
      intro q hadj hq
      exact hfin q hadj hq.1 hq.2 (by intro e; have := hq.2; omega)
    obtain ⟨hdfs', hall⟩ := hdfs.pop ⟨hb1, hb2⟩ hfinV
    have hcell := h.basic.stack cell (by rw [hst]; exact List.mem_cons_self _ _)
    obtain ⟨cc, hcc, -, -⟩ := hg1.cellAt_some hcell.1 hcell.2
    refine ⟨hbasic', ⟨cell, by rw [finishDraw_maze], ?_⟩, ?_⟩
    · rw [finishDraw_maze]
      refine hdfs'.congrV ?_
      intro q
      rw [markedGrid_eq _ cell rfl, visitedAt_mark hcc]
      constructor
      · rintro (e | e)
        · rw [e]; exact hdfs'.curV
        · exact e
      · exact Or.inr
    · rw [finishDraw_flag, finishDraw_maze]
      simp only
      intro hflag
      by_cases hrest : rest = []
      · refine ⟨hrest, ?_⟩
        intro r hr c hc
        exact hall hrest (r, c) ⟨hr, hc⟩
      · exfalso
        have hlen : ¬ rest.length = 0 := by
          intro e; exact hrest (List.eq_nil_of_length_eq_zero e)
        rw [if_neg hlen] at hflag
        have := (h.flag hflag).1
        rw [hst] at this
        simp at this
  · -- stay
    rw [hd] at hd'
    cases Option.some.inj hd'
    rw [hst] at hdfs
    have hfinV : ∀ q, adjacent p q → inGrid R C q →
        visitedAt (modifyCell s.maze.grid p Cell.setVisited) q := by
      intro q hadj hq
      exact hfin q hadj hq.1 hq.2 (by intro e; have := hq.2; omega)
    have hall := hdfs.stay hfinV
    obtain ⟨c1, hc1, -, -⟩ := hg1.cellAt_some hb1 hb2
    refine ⟨hbasic', ⟨p, by rw [finishDraw_maze]; exact hp, ?_⟩, ?_⟩
    · rw [finishDraw_maze]
      simp only [hst]
      have hdfs2 : DfsInv R C (visitedAt (modifyCell s.maze.grid p Cell.setVisited)) p [] :=
        { hdfs with start := fun _ => Or.inl hall }
      refine hdfs2.congrV ?_
      intro q
      unfold markedGrid
      simp only [hp]
      rw [visitedAt_mark hc1]
      constructor
      · rintro (e | e)
        · rw [e]; exact hdfs.curV
        · exact e
      · exact Or.inr
    · rw [finishDraw_maze]
      intro _
      refine ⟨hst, ?_⟩
      intro r hr c hc
      exact hall (r, c) ⟨hr, hc⟩

theorem runDraws_gen {R C : Nat} (hCR : C ≤ R) (rnds : List Nat) {s : State} (h : GenInv R C s) :
    ∃ s', runDraws s rnds = some s' ∧ GenInv R C s' := by
  induction rnds generalizing s with
  | nil => exact ⟨s, rfl, h⟩
  | cons rnd rnds ih =>
    obtain ⟨s1, h1, hb1⟩ := draw_gen hCR h rnd
    obtain ⟨s2, h2, hb2⟩ := ih hb1
    refine ⟨s2, ?_, hb2⟩
    simp only [runDraws, h1, h2]

theorem cellAt_freshGrid (R C : Nat) (q : Ref) :
    cellAt (freshGrid R C) q
      = if q.1 < R ∧ q.2 < C then
          some (if q = (R - 1, C - 1) then Cell.setIsGoal true (Cell.mk0 q.1 q.2) else Cell.mk0 q.1 q.2)
        else none := by
  unfold freshGrid
  rw [cellAt_modifyCell, cellAt_newRows]
  by_cases h : q.1 < R ∧ q.2 < C
  · by_cases e : q = (R - 1, C - 1) <;> simp [h, e]
  · by_cases e : q = (R - 1, C - 1) <;> simp [h, e]

theorem not_visitedAt_freshGrid (R C : Nat) (q : Ref) : ¬ visitedAt (freshGrid R C) q := by
  unfold visitedAt fieldAt
  rw [cellAt_freshGrid]
  by_cases h : q.1 < R ∧ q.2 < C
  · by_cases e : q = (R - 1, C - 1) <;> simp [h, e, Cell.mk0, Cell.setIsGoal]
  · simp [h]

theorem initialState_gen {R C : Nat} (hR : 1 ≤ R) (hC : 1 ≤ C) : GenInv R C (initialState R C) := by
  have hb : BasicInv R C (initialState R C) := freshState_basic (freshState_eq hR hC)
  obtain ⟨c0, hc0, -, -⟩ := hb.grid.cellAt_some (show 0 < R by omega) (show 0 < C by omega)
  have hV : ∀ q, visitedAt (markedGrid (initialState R C).maze) q ↔ q = (0, 0) := by
    intro q
    rw [markedGrid_eq _ (0, 0) rfl, visitedAt_mark hc0]
    constructor
    · rintro (e | e)
      · exact e
      · exact absurd e (not_visitedAt_freshGrid R C q)
    · exact Or.inl
  refine ⟨hb, ⟨(0, 0), rfl, ?_⟩, ?_⟩
  · refine ⟨(hV _).mpr rfl, ?_, ?_, rfl, ?_, ?_⟩
    · intro q hq; simp [initialState] at hq
    · simp [initialState]
    · intro w _ hw hne; exact absurd ((hV w).mp hw) hne
    · intro _; right; intro w hw; exact (hV w).mp hw
  · intro h; simp [initialState] at h

/-- On a grid with at most as many columns as rows, every run of generation steps from the
freshly set-up maze succeeds and keeps the generation invariant. -/
theorem runDraws_fresh_gen {R C : Nat} (hCR : C ≤ R) {s0 : State}
    (h : freshState R C = some s0) (rnds : List Nat) :
    ∃ s, runDraws s0 rnds = some s ∧ GenInv R C s := by
  obtain ⟨hR, hC⟩ := freshState_pos h
  rw [freshState_eq hR hC] at h
  cases Option.some.inj h
  exact runDraws_gen hCR rnds (initialState_gen hR hC)

/-- C2. On a square grid, after any number of generation steps from the freshly set-up maze:
if the completion flag is set then every cell is visited, the stack is empty and the current
cell is the start cell `(0, 0)`. In particular this holds at the first step that sets the
flag, and the flag is never set while a cell is unvisited. -/
theorem completion_flag_implies_all_visited (n : Nat) (s0 : State)
    (h : freshState n n = some s0) (rnds : List Nat) :
    ∃ s, runDraws s0 rnds = some s ∧
      (s.mazeGenerationComplete = true →
        AllVisited n n s.maze.grid ∧ s.maze.stack = [] ∧ s.maze.currentCell = some (0, 0)) := by
  obtain ⟨s, hs, hg⟩ := runDraws_fresh_gen (Nat.le_refl n) h rnds
  refine ⟨s, hs, ?_⟩
  intro hflag
  obtain ⟨hst, hall⟩ := hg.flag hflag
  obtain ⟨p, hp, hdfs⟩ := hg.dfs
  rw [hst] at hdfs
  rw [hp, hdfs.cur_eq_of_nil]
  exact ⟨hall, hst, rfl⟩

theorem completion_flag_implies_all_visited_witness :
    freshState 2 2 = some (initialState 2 2) ∧
      ∃ s, runDraws (initialState 2 2) [1, 0, 0, 0, 0, 0] = some s ∧
        (s.mazeGenerationComplete = true →
          AllVisited 2 2 s.maze.grid ∧ s.maze.stack = [] ∧ s.maze.currentCell = some (0, 0)) :=
  ⟨freshState_eq (by decide) (by decide),
    completion_flag_implies_all_visited 2 (initialState 2 2)
      (freshState_eq (by decide) (by decide)) [1, 0, 0, 0, 0, 0]⟩

/-! ## Passages, cycles and the parent certificate -/

theorem passage_symm {g : Grid} {p q : Ref} (h : passage g p q) : passage g q p := by
  unfold passage at *
  rcases h with ⟨h1, h2, h3, h4⟩ | ⟨h1, h2, h3, h4⟩ | ⟨h1, h2, h3, h4⟩ | ⟨h1, h2, h3, h4⟩
  · exact Or.inr (Or.inl ⟨h1.symm, h2.symm, h4, h3⟩)
  · exact Or.inl ⟨h1.symm, h2.symm, h4, h3⟩
  · exact Or.inr (Or.inr (Or.inr ⟨h1.symm, h2.symm, h4, h3⟩))
  · exact Or.inr (Or.inr (Or.inl ⟨h1.symm, h2.symm, h4, h3⟩))

theorem passage_adjacent {g : Grid} {p q : Ref} (h : passage g p q) : adjacent p q := by
  unfold passage at h
  unfold adjacent
  rcases h with ⟨h1, h2, -, -⟩ | ⟨h1, h2, -, -⟩ | ⟨h1, h2, -, -⟩ | ⟨h1, h2, -, -⟩
  · exact Or.inr (Or.inr (Or.inl ⟨h1, h2⟩))
  · exact Or.inr (Or.inr (Or.inr ⟨h1, h2⟩))
  · exact Or.inr (Or.inl ⟨h1, h2⟩)
  · exact Or.inl ⟨h1, h2⟩

theorem Reach.symm {g : Grid} {p q : Ref} (h : Reach g p q) : Reach g q p := by
  unfold Reach at *
  induction h with
  | refl => exact Relation.ReflTransGen.refl
  | tail _ hbc ih => exact Relation.ReflTransGen.head (passage_symm hbc) ih

theorem Reach.trans {g : Grid} {p q r : Ref} (h1 : Reach g p q) (h2 : Reach g q r) :
    Reach g p r := Relation.ReflTransGen.trans h1 h2

theorem Reach.mono {g g' : Grid} (hm : ∀ x y, passage g x y → passage g' x y) {p q : Ref}
    (h : Reach g p q) : Reach g' p q :=
  Relation.ReflTransGen.mono hm h

/-- Every cell on a cycle has two different cycle cells joined to it by a passage. -/
theorem cycle_two_neighbours {g : Grid} {l : List Ref} (hc : IsCycle g l) {v : Ref} (hv : v ∈ l) :
    ∃ y z, y ≠ z ∧ y ∈ l ∧ z ∈ l ∧ passage g v y ∧ passage g v z := by
  obtain ⟨hlen, hnd, hch, a, b, ha, hb, hba⟩ := hc
  obtain ⟨pre, post, rfl⟩ := List.append_of_mem hv
  rcases List.eq_nil_or_concat pre with rfl | ⟨pre', y, rfl⟩
  · -- `v` is the head of the cycle
    simp only [List.nil_append, List.head?_cons, Option.some.injEq] at ha
    subst ha
    cases post with
    | nil => simp at hlen
    | cons z post' =>
      cases post' with
      | nil => simp at hlen
      | cons z2 post'' =>
        simp only [List.nil_append] at hch hnd hb ⊢
        have hvz : passage g v z := (List.chain'_cons.mp hch).1
        have hb' : b ∈ z2 :: post'' := by
          rw [List.getLast?_cons_cons, List.getLast?_cons_cons] at hb
          exact List.mem_of_getLast?_eq_some hb
        have hzb : z ≠ b := by
          intro e
          have h2 := (List.nodup_cons.mp hnd).2
          exact (List.nodup_cons.mp h2).1 (e ▸ hb')
        exact ⟨z, b, hzb, by simp, by simp [List.mem_cons.mp hb'] , hvz, passage_symm hba⟩
  · rw [List.concat_eq_append, List.append_assoc, List.singleton_append] at hch hnd hb hlen ha ⊢
    have hyv : passage g y v := by
      have := (List.chain'_append.mp hch).2.1
      exact (List.chain'_cons.mp this).1
    cases post with
    | nil =>
      -- `v` is the last cell of the cycle
      have hbv : b = v := by
        have : (pre' ++ [y, v]).getLast? = some v := by
          rw [show pre' ++ [y, v] = (pre' ++ [y]) ++ [v] by simp]
          exact List.getLast?_concat _
        rw [this] at hb
        exact (Option.some.inj hb).symm
      subst hbv
      cases pre' with
      | nil => simp at hlen
      | cons a' pre'' =>
        simp only [List.cons_append, List.head?_cons, Option.some.injEq] at ha
        subst ha
        have hay : a' ≠ y := by
          intro e
          simp only [List.cons_append] at hnd
          have := (List.nodup_cons.mp hnd).1
          apply this; rw [e]; simp
        exact ⟨a', y, hay, by simp, by simp, hba, passage_symm hyv⟩
    | cons z post' =>
      have hvz : passage g v z := by
        have := (List.chain'_append.mp hch).2.1
        exact (List.chain'_cons.mp (List.chain'_cons.mp this).2).1
      have hyz : y ≠ z := by
        intro e
        have h2 := (List.nodup_append.mp hnd).2.1
        have := (List.nodup_cons.mp h2).1
        apply this; rw [e]; simp
      exact ⟨y, z, hyz, by simp, by simp, passage_symm hyv, hvz⟩

/-- A discovery order in which every passage joins a cell to its parent rules out cycles. -/
theorem acyclic_of_parents {g : Grid} (ord : Ref → Nat) (par : Ref → Ref)
    (h : ∀ x y, passage g x y → (par y = x ∧ ord x < ord y) ∨ (par x = y ∧ ord y < ord x)) :
    Acyclic g := by
  intro l hc
  have hne : l.toFinset.Nonempty := by
    have h3 := hc.1
    cases l with
    | nil => simp at h3
    | cons a t => exact ⟨a, by simp⟩
  obtain ⟨v, hv, hmax⟩ := Finset.exists_max_image l.toFinset ord hne
  rw [List.mem_toFinset] at hv
  obtain ⟨y, z, hyz, hy, hz, hvy, hvz⟩ := cycle_two_neighbours hc hv
  have hy' := hmax y (List.mem_toFinset.mpr hy)
  have hz' := hmax z (List.mem_toFinset.mpr hz)
  have e1 : par v = y := by
    rcases h v y hvy with ⟨_, h1⟩ | ⟨h1, _⟩
    · omega
    · exact h1
  have e2 : par v = z := by
    rcases h v z hvz with ⟨_, h1⟩ | ⟨h1, _⟩
    · omega
    · exact h1
  exact hyz (e1.symm.trans e2)

/-! ## How `removeWalls` changes the passages -/

/-- Hiding the wall between `a` and its right neighbour adds exactly that passage. -/
theorem passage_openH {g g' : Grid} {a1 a2 : Nat}
    (hR : ∀ x, fieldAt g' x (fun c => c.walls.rightWall.isShown)
      = if x = (a1, a2) then some false else fieldAt g x (fun c => c.walls.rightWall.isShown))
    (hL : ∀ x, fieldAt g' x (fun c => c.walls.leftWall.isShown)
      = if x = (a1, a2 + 1) then some false else fieldAt g x (fun c => c.walls.leftWall.isShown))
    (hT : ∀ x, fieldAt g' x (fun c => c.walls.topWall.isShown)
      = fieldAt g x (fun c => c.walls.topWall.isShown))
    (hB : ∀ x, fieldAt g' x (fun c => c.walls.bottomWall.isShown)
      = fieldAt g x (fun c => c.walls.bottomWall.isShown)) (x y : Ref) :
    passage g' x y ↔ passage g x y ∨ (x = (a1, a2) ∧ y = (a1, a2 + 1)) ∨ (x = (a1, a2 + 1) ∧ y = (a1, a2)) := by
  obtain ⟨x1, x2⟩ := x
  obtain ⟨y1, y2⟩ := y
  unfold passage
  simp only [hR, hL, hT, hB, Prod.mk.injEq]
  constructor
  · rintro (⟨h1, h2, h3, h4⟩ | ⟨h1, h2, h3, h4⟩ | h | h)
    · by_cases e : x1 = a1 ∧ x2 = a2
      · right; left; exact ⟨e, by omega, by omega⟩
      · left; left
        rw [if_neg e] at h3
        have e' : ¬ (y1 = a1 ∧ y2 = a2 + 1) := by omega
        rw [if_neg e'] at h4
        exact ⟨h1, h2, h3, h4⟩
    · by_cases e : y1 = a1 ∧ y2 = a2
      · right; right; exact ⟨⟨by omega, by omega⟩, e⟩
      · left; right; left
        rw [if_neg e] at h4
        have e' : ¬ (x1 = a1 ∧ x2 = a2 + 1) := by omega
        rw [if_neg e'] at h3
        exact ⟨h1, h2, h3, h4⟩
    · left; right; right; left; exact h
    · left; right; right; right; exact h
  · rintro ((⟨h1, h2, h3, h4⟩ | ⟨h1, h2, h3, h4⟩ | h | h) | ⟨⟨e1, e2⟩, e3, e4⟩ | ⟨⟨e1, e2⟩, e3, e4⟩)
    · left
      refine ⟨h1, h2, ?_, ?_⟩
      · split_ifs <;> simp [h3]
      · split_ifs <;> simp [h4]
    · right; left
      refine ⟨h1, h2, ?_, ?_⟩
      · split_ifs <;> simp [h3]
      · split_ifs <;> simp [h4]
    · right; right; left; exact h
    · right; right; right; exact h
    · left; subst e1 e2 e3 e4; simp
    · right; left; subst e1 e2 e3 e4; simp

/-- Hiding the wall between `a` and its lower neighbour adds exactly that passage. -/
theorem passage_openV {g g' : Grid} {a1 a2 : Nat}
    (hB : ∀ x, fieldAt g' x (fun c => c.walls.bottomWall.isShown)
      = if x = (a1, a2) then some false else fieldAt g x (fun c => c.walls.bottomWall.isShown))
    (hT : ∀ x, fieldAt g' x (fun c => c.walls.topWall.isShown)
      = if x = (a1 + 1, a2) then some false else fieldAt g x (fun c => c.walls.topWall.isShown))
    (hL : ∀ x, fieldAt g' x (fun c => c.walls.leftWall.isShown)
      = fieldAt g x (fun c => c.walls.leftWall.isShown))
    (hR : ∀ x, fieldAt g' x (fun c => c.walls.rightWall.isShown)
      = fieldAt g x (fun c => c.walls.rightWall.isShown)) (x y : Ref) :
    passage g' x y ↔ passage g x y ∨ (x = (a1, a2) ∧ y = (a1 + 1, a2)) ∨ (x = (a1 + 1, a2) ∧ y = (a1, a2)) := by
  obtain ⟨x1, x2⟩ := x
  obtain ⟨y1, y2⟩ := y
  unfold passage
  simp only [hR, hL, hT, hB, Prod.mk.injEq]
  constructor
  · rintro (h | h | ⟨h1, h2, h3, h4⟩ | ⟨h1, h2, h3, h4⟩)
    · left; left; exact h
    · left; right; left; exact h
    · by_cases e : x1 = a1 ∧ x2 = a2
      · right; left; exact ⟨e, by omega, by omega⟩
      · left; right; right; left
        rw [if_neg e] at h3
        have e' : ¬ (y1 = a1 + 1 ∧ y2 = a2) := by omega
        rw [if_neg e'] at h4
        exact ⟨h1, h2, h3, h4⟩
    · by_cases e : y1 = a1 ∧ y2 = a2
      · right; right; exact ⟨⟨by omega, by omega⟩, e⟩
      · left; right; right; right
        rw [if_neg e] at h4
        have e' : ¬ (x1 = a1 + 1 ∧ x2 = a2) := by omega
        rw [if_neg e'] at h3
        exact ⟨h1, h2, h3, h4⟩
  · rintro ((h | h | ⟨h1, h2, h3, h4⟩ | ⟨h1, h2, h3, h4⟩) | ⟨⟨e1, e2⟩, e3, e4⟩ | ⟨⟨e1, e2⟩, e3, e4⟩)
    · left; exact h
    · right; left; exact h
    · right; right; left
      refine ⟨h1, h2, ?_, ?_⟩
      · split_ifs <;> simp [h3]
      · split_ifs <;> simp [h4]
    · right; right; right
      refine ⟨h1, h2, ?_, ?_⟩
      · split_ifs <;> simp [h3]
      · split_ifs <;> simp [h4]
    · right; right; left; subst e1 e2 e3 e4; simp
    · right; right; right; subst e1 e2 e3 e4; simp


theorem fieldAt_const_some {β : Type} {g : Grid} {p : Ref} {c : Cell} (h : cellAt g p = some c)
    (b : β) : fieldAt g p (fun _ => b) = some b := by
  simp [fieldAt, h]

theorem passage_setH1 {g : Grid} {a1 a2 : Nat} {ca cb : Cell} (ha : cellAt g (a1, a2) = some ca)
    (hb : cellAt g (a1, a2 + 1) = some cb) (x y : Ref) :
    passage (modifyCell (modifyCell g (a1, a2) (Cell.setRightShown false)) (a1, a2 + 1) (Cell.setLeftShown false)) x y
      ↔ passage g x y ∨ (x = (a1, a2) ∧ y = (a1, a2 + 1)) ∨ (x = (a1, a2 + 1) ∧ y = (a1, a2)) := by
  have hac := fieldAt_const_some ha false
  have hbc := fieldAt_const_some hb false
  have hRight : ∀ z, fieldAt (modifyCell (modifyCell g (a1, a2) (Cell.setRightShown false)) (a1, a2 + 1) (Cell.setLeftShown false)) z
      (fun c => c.walls.rightWall.isShown)
      = if z = (a1, a2) then some false else fieldAt g z (fun c => c.walls.rightWall.isShown) := by
    intro z
    simp only [fieldAt_modifyCell, Cell.setRightShown, Cell.setLeftShown]
    by_cases e1 : z = (a1, a2)
    · subst e1
      simp only [if_true, Prod.mk.injEq, add_right_eq_self, self_eq_add_right, one_ne_zero,
        and_false, false_and, if_false]
      exact hac
    · rw [if_neg e1, if_neg e1]; split_ifs <;> rfl
  have hLeft : ∀ z, fieldAt (modifyCell (modifyCell g (a1, a2) (Cell.setRightShown false)) (a1, a2 + 1) (Cell.setLeftShown false)) z
      (fun c => c.walls.leftWall.isShown)
      = if z = (a1, a2 + 1) then some false else fieldAt g z (fun c => c.walls.leftWall.isShown) := by
    intro z
    simp only [fieldAt_modifyCell, Cell.setRightShown, Cell.setLeftShown]
    by_cases e1 : z = (a1, a2 + 1)
    · subst e1
      simp only [if_true, Prod.mk.injEq, add_right_eq_self, self_eq_add_right, one_ne_zero,
        and_false, false_and, if_false]
      exact hbc
    · rw [if_neg e1, if_neg e1]; split_ifs <;> rfl
  have hTop : ∀ z, fieldAt (modifyCell (modifyCell g (a1, a2) (Cell.setRightShown false)) (a1, a2 + 1) (Cell.setLeftShown false)) z
      (fun c => c.walls.topWall.isShown)
      = fieldAt g z (fun c => c.walls.topWall.isShown) := by
    intro z
    simp only [fieldAt_modifyCell, Cell.setRightShown, Cell.setLeftShown]
    split_ifs <;> rfl
  have hBottom : ∀ z, fieldAt (modifyCell (modifyCell g (a1, a2) (Cell.setRightShown false)) (a1, a2 + 1) (Cell.setLeftShown false)) z
      (fun c => c.walls.bottomWall.isShown)
      = fieldAt g z (fun c => c.walls.bottomWall.isShown) := by
    intro z
    simp only [fieldAt_modifyCell, Cell.setRightShown, Cell.setLeftShown]
    split_ifs <;> rfl
  exact passage_openH hRight hLeft hTop hBottom x y

theorem passage_setH2 {g : Grid} {a1 a2 : Nat} {ca cb : Cell} (ha : cellAt g (a1, a2) = some ca)
    (hb : cellAt g (a1, a2 + 1) = some cb) (x y : Ref) :
    passage (modifyCell (modifyCell g (a1, a2 + 1) (Cell.setLeftShown false)) (a1, a2) (Cell.setRightShown false)) x y
      ↔ passage g x y ∨ (x = (a1, a2) ∧ y = (a1, a2 + 1)) ∨ (x = (a1, a2 + 1) ∧ y = (a1, a2)) := by
  have hac := fieldAt_const_some ha false
  have hbc := fieldAt_const_some hb false
  have hRight : ∀ z, fieldAt (modifyCell (modifyCell g (a1, a2 + 1) (Cell.setLeftShown false)) (a1, a2) (Cell.setRightShown false)) z
      (fun c => c.walls.rightWall.isShown)
      = if z = (a1, a2) then some false else fieldAt g z (fun c => c.walls.rightWall.isShown) := by
    intro z
    simp only [fieldAt_modifyCell, Cell.setRightShown, Cell.setLeftShown]
    by_cases e1 : z = (a1, a2)
    · subst e1
      simp only [if_true, Prod.mk.injEq, add_right_eq_self, self_eq_add_right, one_ne_zero,
        and_false, false_and, if_false]
      exact hac
    · rw [if_neg e1, if_neg e1]; split_ifs <;> rfl
  have hLeft : ∀ z, fieldAt (modifyCell (modifyCell g (a1, a2 + 1) (Cell.setLeftShown false)) (a1, a2) (Cell.setRightShown false)) z
      (fun c => c.walls.leftWall.isShown)
      = if z = (a1, a2 + 1) then some false else fieldAt g z (fun c => c.walls.leftWall.isShown) := by
    intro z
    simp only [fieldAt_modifyCell, Cell.setRightShown, Cell.setLeftShown]
    by_cases e1 : z = (a1, a2 + 1)
    · subst e1
      simp only [if_true, Prod.mk.injEq, add_right_eq_self, self_eq_add_right, one_ne_zero,
        and_false, false_and, if_false]
      exact hbc
    · rw [if_neg e1, if_neg e1]; split_ifs <;> rfl
  have hTop : ∀ z, fieldAt (modifyCell (modifyCell g (a1, a2 + 1) (Cell.setLeftShown false)) (a1, a2) (Cell.setRightShown false)) z
      (fun c => c.walls.topWall.isShown)
      = fieldAt g z (fun c => c.walls.topWall.isShown) := by
    intro z
    simp only [fieldAt_modifyCell, Cell.setRightShown, Cell.setLeftShown]
    split_ifs <;> rfl
  have hBottom : ∀ z, fieldAt (modifyCell (modifyCell g (a1, a2 + 1) (Cell.setLeftShown false)) (a1, a2) (Cell.setRightShown false)) z
      (fun c => c.walls.bottomWall.isShown)
      = fieldAt g z (fun c => c.walls.bottomWall.isShown) := by
    intro z
    simp only [fieldAt_modifyCell, Cell.setRightShown, Cell.setLeftShown]
    split_ifs <;> rfl
  exact passage_openH hRight hLeft hTop hBottom x y

theorem passage_setV1 {g : Grid} {a1 a2 : Nat} {ca cb : Cell} (ha : cellAt g (a1, a2) = some ca)
    (hb : cellAt g (a1 + 1, a2) = some cb) (x y : Ref) :
    passage (modifyCell (modifyCell g (a1, a2) (Cell.setBottomShown false)) (a1 + 1, a2) (Cell.setTopShown false)) x y
      ↔ passage g x y ∨ (x = (a1, a2) ∧ y = (a1 + 1, a2)) ∨ (x = (a1 + 1, a2) ∧ y = (a1, a2)) := by
  have hac := fieldAt_const_some ha false
  have hbc := fieldAt_const_some hb false
  have hBottom : ∀ z, fieldAt (modifyCell (modifyCell g (a1, a2) (Cell.setBottomShown false)) (a1 + 1, a2) (Cell.setTopShown false)) z
      (fun c => c.walls.bottomWall.isShown)
      = if z = (a1, a2) then some false else fieldAt g z (fun c => c.walls.bottomWall.isShown) := by
    intro z
    simp only [fieldAt_modifyCell, Cell.setBottomShown, Cell.setTopShown]
    by_cases e1 : z = (a1, a2)
    · subst e1
      simp only [if_true, Prod.mk.injEq, add_right_eq_self, self_eq_add_right, one_ne_zero,
        and_false, false_and, if_false]
      exact hac
    · rw [if_neg e1, if_neg e1]; split_ifs <;> rfl
  have hTop : ∀ z, fieldAt (modifyCell (modifyCell g (a1, a2) (Cell.setBottomShown false)) (a1 + 1, a2) (Cell.setTopShown false)) z
      (fun c => c.walls.topWall.isShown)
      = if z = (a1 + 1, a2) then some false else fieldAt g z (fun c => c.walls.topWall.isShown) := by
    intro z
    simp only [fieldAt_modifyCell, Cell.setBottomShown, Cell.setTopShown]
    by_cases e1 : z = (a1 + 1, a2)
    · subst e1
      simp only [if_true, Prod.mk.injEq, add_right_eq_self, self_eq_add_right, one_ne_zero,
        and_false, false_and, if_false]
      exact hbc
    · rw [if_neg e1, if_neg e1]; split_ifs <;> rfl
  have hLeft : ∀ z, fieldAt (modifyCell (modifyCell g (a1, a2) (Cell.setBottomShown false)) (a1 + 1, a2) (Cell.setTopShown false)) z
      (fun c => c.walls.leftWall.isShown)
      = fieldAt g z (fun c => c.walls.leftWall.isShown) := by
    intro z
    simp only [fieldAt_modifyCell, Cell.setBottomShown, Cell.setTopShown]
    split_ifs <;> rfl
  have hRight : ∀ z, fieldAt (modifyCell (modifyCell g (a1, a2) (Cell.setBottomShown false)) (a1 + 1, a2) (Cell.setTopShown false)) z
      (fun c => c.walls.rightWall.isShown)
      = fieldAt g z (fun c => c.walls.rightWall.isShown) := by
    intro z
    simp only [fieldAt_modifyCell, Cell.setBottomShown, Cell.setTopShown]
    split_ifs <;> rfl
  exact passage_openV hBottom hTop hLeft hRight x y

theorem passage_setV2 {g : Grid} {a1 a2 : Nat} {ca cb : Cell} (ha : cellAt g (a1, a2) = some ca)
    (hb : cellAt g (a1 + 1, a2) = some cb) (x y : Ref) :
    passage (modifyCell (modifyCell g (a1 + 1, a2) (Cell.setTopShown false)) (a1, a2) (Cell.setBottomShown false)) x y
      ↔ passage g x y ∨ (x = (a1, a2) ∧ y = (a1 + 1, a2)) ∨ (x = (a1 + 1, a2) ∧ y = (a1, a2)) := by
  have hac := fieldAt_const_some ha false
  have hbc := fieldAt_const_some hb false
  have hBottom : ∀ z, fieldAt (modifyCell (modifyCell g (a1 + 1, a2) (Cell.setTopShown false)) (a1, a2) (Cell.setBottomShown false)) z
      (fun c => c.walls.bottomWall.isShown)
      = if z = (a1, a2) then some false else fieldAt g z (fun c => c.walls.bottomWall.isShown) := by
    intro z
    simp only [fieldAt_modifyCell, Cell.setBottomShown, Cell.setTopShown]
    by_cases e1 : z = (a1, a2)
    · subst e1
      simp only [if_true, Prod.mk.injEq, add_right_eq_self, self_eq_add_right, one_ne_zero,
        and_false, false_and, if_false]
      exact hac
    · rw [if_neg e1, if_neg e1]; split_ifs <;> rfl
  have hTop : ∀ z, fieldAt (modifyCell (modifyCell g (a1 + 1, a2) (Cell.setTopShown false)) (a1, a2) (Cell.setBottomShown false)) z
      (fun c => c.walls.topWall.isShown)
      = if z = (a1 + 1, a2) then some false else fieldAt g z (fun c => c.walls.topWall.isShown) := by
    intro z
    simp only [fieldAt_modifyCell, Cell.setBottomShown, Cell.setTopShown]
    by_cases e1 : z = (a1 + 1, a2)
    · subst e1
      simp only [if_true, Prod.mk.injEq, add_right_eq_self, self_eq_add_right, one_ne_zero,
        and_false, false_and, if_false]
      exact hbc
    · rw [if_neg e1, if_neg e1]; split_ifs <;> rfl
  have hLeft : ∀ z, fieldAt (modifyCell (modifyCell g (a1 + 1, a2) (Cell.setTopShown false)) (a1, a2) (Cell.setBottomShown false)) z
      (fun c => c.walls.leftWall.isShown)
      = fieldAt g z (fun c => c.walls.leftWall.isShown) := by
    intro z
    simp only [fieldAt_modifyCell, Cell.setBottomShown, Cell.setTopShown]
    split_ifs <;> rfl
  have hRight : ∀ z, fieldAt (modifyCell (modifyCell g (a1 + 1, a2) (Cell.setTopShown false)) (a1, a2) (Cell.setBottomShown false)) z
      (fun c => c.walls.rightWall.isShown)
      = fieldAt g z (fun c => c.walls.rightWall.isShown) := by
    intro z
    simp only [fieldAt_modifyCell, Cell.setBottomShown, Cell.setTopShown]
    split_ifs <;> rfl
  exact passage_openV hBottom hTop hLeft hRight x y

/-- The passages after `removeWalls(p, q)` on neighbours: the old ones and the one between
`p` and `q`. -/
theorem removeWalls_passage {R C : Nat} {g : Grid} (hg : GridOK R C g) {p q : Ref} {a b : Cell}
    (hp : cellAt g p = some a) (hq : cellAt g q = some b) (hadj : adjacent p q) {g' : Grid}
    (h : removeWalls g p q = some g') (x y : Ref) :
    passage g' x y ↔ passage g x y ∨ (x = p ∧ y = q) ∨ (x = q ∧ y = p) := by
  rw [removeWalls_eq hg hp hq hadj] at h
  have hg' := (Option.some.inj h).symm
  obtain ⟨p1, p2⟩ := p
  obtain ⟨q1, q2⟩ := q
  unfold adjacent at hadj
  simp only at hadj hg'
  split_ifs at hg' with h1 h2 h3
  · have e : (p1, p2) = (q1, q2 + 1) := by simp only [Prod.mk.injEq]; omega
    rw [e] at hg' hp ⊢
    rw [hg', passage_setH2 hq hp]; tauto
  · have e : (q1, q2) = (p1, p2 + 1) := by simp only [Prod.mk.injEq]; omega
    rw [e] at hg' hq ⊢
    rw [hg', passage_setH1 hp hq]
  · have e : (p1, p2) = (q1 + 1, q2) := by simp only [Prod.mk.injEq]; omega
    rw [e] at hg' hp ⊢
    rw [hg', passage_setV2 hq hp]; tauto
  · have e : (q1, q2) = (p1 + 1, p2) := by simp only [Prod.mk.injEq]; omega
    rw [e] at hg' hq ⊢
    rw [hg', passage_setV1 hp hq]

/-! ## Counting walls and visited cells -/

theorem mem_cells (R C : Nat) (p : Ref) : p ∈ cells R C ↔ inGrid R C p := by
  obtain ⟨p1, p2⟩ := p
  unfold cells inGrid
  simp only [List.mem_flatMap, List.mem_range, List.mem_map, Prod.mk.injEq]
  constructor
  · rintro ⟨r, hr, c, hc, rfl, rfl⟩; exact ⟨hr, hc⟩
  · rintro ⟨h1, h2⟩; exact ⟨p1, h1, p2, h2, rfl, rfl⟩

theorem nodup_cells (R C : Nat) : (cells R C).Nodup := by
  unfold cells
  rw [List.nodup_flatMap]
  refine ⟨?_, ?_⟩
  · intro r _
    exact (List.nodup_range C).map (fun a b h => by simpa using h)
  · refine (List.nodup_range R).pairwise_of_forall_ne ?_
    intro a _ b _ hab
    simp only [Function.onFun, List.disjoint_left, List.mem_map, List.mem_range, not_exists, not_and]
    rintro x ⟨c, _, rfl⟩ c' _ h
    apply hab
    simpa using (congrArg Prod.fst h).symm

theorem length_cells (R C : Nat) : (cells R C).length = R * C := by
  unfold cells
  induction R with
  | zero => simp
  | succ n ih =>
    rw [List.range_succ, List.flatMap_append, List.length_append, ih]
    simp [Nat.succ_mul]

theorem countP_add_one {α : Type} [DecidableEq α] {l : List α} (hnd : l.Nodup) {a : α}
    (ha : a ∈ l) {P Q : α → Bool} (hPa : P a = false)
    (h : ∀ x, Q x = true ↔ (P x = true ∨ x = a)) : l.countP Q = l.countP P + 1 := by
  induction l with
  | nil => simp at ha
  | cons b t ih =>
    rw [List.nodup_cons] at hnd
    rcases List.mem_cons.mp ha with e | e
    · subst e
      have hQ : Q a = true := (h a).mpr (Or.inr rfl)
      have hcongr : t.countP Q = t.countP P := by
        apply List.countP_congr
        intro x hx
        have hne : x ≠ a := fun e => hnd.1 (e ▸ hx)
        rw [h x]; simp [hne]
      rw [List.countP_cons_of_pos _ _ hQ, List.countP_cons_of_neg _ _ (by simp [hPa]), hcongr]
    · have hne : b ≠ a := fun e' => hnd.1 (e' ▸ e)
      have ih' := ih hnd.2 e
      by_cases hb : P b = true
      · have hb' : Q b = true := (h b).mpr (Or.inl hb)
        rw [List.countP_cons_of_pos _ _ hb', List.countP_cons_of_pos _ _ hb, ih']
      · have hb' : ¬ Q b = true := by rw [h b]; simp [hb, hne]
        rw [List.countP_cons_of_neg _ _ hb', List.countP_cons_of_neg _ _ hb, ih']

/-- One more passage between neighbouring cells of the grid is one more removed wall. -/
theorem removedWalls_add_one {R C : Nat} {g g' : Grid} {p q : Ref}
    (hiff : ∀ x y, passage g' x y ↔ passage g x y ∨ (x = p ∧ y = q) ∨ (x = q ∧ y = p))
    (hadj : adjacent p q) (hp : inGrid R C p) (hq : inGrid R C q) (hnot : ¬ passage g p q) :
    removedWalls R C g' = removedWalls R C g + 1 := by
  have hnot' : ¬ passage g q p := fun h => hnot (passage_symm h)
  obtain ⟨p1, p2⟩ := p
  obtain ⟨q1, q2⟩ := q
  unfold removedWalls
  unfold adjacent at hadj
  simp only at hadj
  have hpm := (mem_cells R C (p1, p2)).mpr hp
  have hqm := (mem_cells R C (q1, q2)).mpr hq
  rcases hadj with h | h | h | h
  · -- `q` above `p`: the lower-neighbour slot of `q`
    have e : (p1, p2) = (q1 + 1, q2) := by simp only [Prod.mk.injEq]; omega
    rw [e] at hiff hnot'
    have h1 : (cells R C).countP (fun x => decide (passage g' x (x.1, x.2 + 1)))
        = (cells R C).countP (fun x => decide (passage g x (x.1, x.2 + 1))) := by
      apply List.countP_congr
      rintro ⟨x1, x2⟩ _
      simp only [decide_eq_true_eq, hiff, Prod.mk.injEq]
      constructor
      · rintro (h | h | h)
        · exact h
        · omega
        · omega
      · exact Or.inl
    have h2 := countP_add_one (nodup_cells R C) hqm
      (P := fun x => decide (passage g x (x.1 + 1, x.2)))
      (Q := fun x => decide (passage g' x (x.1 + 1, x.2)))
      (by simpa using hnot')
      (by
        rintro ⟨x1, x2⟩
        simp only [decide_eq_true_eq, hiff, Prod.mk.injEq]
        constructor
        · rintro (h | h | h)
          · exact Or.inl h
          · omega
          · exact Or.inr h.1
        · rintro (h | h)
          · exact Or.inl h
          · right; right; omega)
    rw [h1, h2]; omega
  · -- `q` below `p`: the lower-neighbour slot of `p`
    have e : (q1, q2) = (p1 + 1, p2) := by simp only [Prod.mk.injEq]; omega
    rw [e] at hiff hnot
    have h1 : (cells R C).countP (fun x => decide (passage g' x (x.1, x.2 + 1)))
        = (cells R C).countP (fun x => decide (passage g x (x.1, x.2 + 1))) := by
      apply List.countP_congr
      rintro ⟨x1, x2⟩ _
      simp only [decide_eq_true_eq, hiff, Prod.mk.injEq]
      constructor
      · rintro (h | h | h)
        · exact h
        · omega
        · omega
      · exact Or.inl
    have h2 := countP_add_one (nodup_cells R C) hpm
      (P := fun x => decide (passage g x (x.1 + 1, x.2)))
      (Q := fun x => decide (passage g' x (x.1 + 1, x.2)))
      (by simpa using hnot)
      (by
        rintro ⟨x1, x2⟩
        simp only [decide_eq_true_eq, hiff, Prod.mk.injEq]
        constructor
        · rintro (h | h | h)
          · exact Or.inl h
          · exact Or.inr h.1
          · omega
        · rintro (h | h)
          · exact Or.inl h
          · right; left; omega)
    rw [h1, h2]; omega
  · -- `q` right of `p`: the right-neighbour slot of `p`
    have e : (q1, q2) = (p1, p2 + 1) := by simp only [Prod.mk.injEq]; omega
    rw [e] at hiff hnot
    have h1 : (cells R C).countP (fun x => decide (passage g' x (x.1 + 1, x.2)))
        = (cells R C).countP (fun x => decide (passage g x (x.1 + 1, x.2))) := by
      apply List.countP_congr
      rintro ⟨x1, x2⟩ _
      simp only [decide_eq_true_eq, hiff, Prod.mk.injEq]
      constructor
      · rintro (h | h | h)
        · exact h
        · omega
        · omega
      · exact Or.inl
    have h2 := countP_add_one (nodup_cells R C) hpm
      (P := fun x => decide (passage g x (x.1, x.2 + 1)))
      (Q := fun x => decide (passage g' x (x.1, x.2 + 1)))
      (by simpa using hnot)
      (by
        rintro ⟨x1, x2⟩
        simp only [decide_eq_true_eq, hiff, Prod.mk.injEq]
        constructor
        · rintro (h | h | h)
          · exact Or.inl h
          · exact Or.inr h.1
          · omega
        · rintro (h | h)
          · exact Or.inl h
          · right; left; omega)
    rw [h1, h2]; omega
  · -- `q` left of `p`: the right-neighbour slot of `q`
    have e : (p1, p2) = (q1, q2 + 1) := by simp only [Prod.mk.injEq]; omega
    rw [e] at hiff hnot'
    have h1 : (cells R C).countP (fun x => decide (passage g' x (x.1 + 1, x.2)))
        = (cells R C).countP (fun x => decide (passage g x (x.1 + 1, x.2))) := by
      apply List.countP_congr
      rintro ⟨x1, x2⟩ _
      simp only [decide_eq_true_eq, hiff, Prod.mk.injEq]
      constructor
      · rintro (h | h | h)
        · exact h
        · omega
        · omega
      · exact Or.inl
    have h2 := countP_add_one (nodup_cells R C) hqm
      (P := fun x => decide (passage g x (x.1, x.2 + 1)))
      (Q := fun x => decide (passage g' x (x.1, x.2 + 1)))
      (by simpa using hnot')
      (by
        rintro ⟨x1, x2⟩
        simp only [decide_eq_true_eq, hiff, Prod.mk.injEq]
        constructor
        · rintro (h | h | h)
          · exact Or.inl h
          · omega
          · exact Or.inr h.1
        · rintro (h | h)
          · exact Or.inl h
          · right; right; omega)
    rw [h1, h2]; omega

theorem removedWalls_congr {R C : Nat} {g g' : Grid}
    (hiff : ∀ x y, passage g' x y ↔ passage g x y) : removedWalls R C g' = removedWalls R C g := by
  unfold removedWalls
  congr 1 <;> (apply List.countP_congr; intro x _; simp [hiff])

theorem visitedCount_add_one {R C : Nat} {V V' : Ref → Prop} [DecidablePred V] [DecidablePred V']
    {q : Ref} (hq : inGrid R C q) (hn : ¬ V q) (hV : ∀ x, V' x ↔ x = q ∨ V x) :
    (cells R C).countP (fun x => decide (V' x)) = (cells R C).countP (fun x => decide (V x)) + 1 := by
  refine countP_add_one (nodup_cells R C) ((mem_cells R C q).mpr hq) (by simpa using hn) ?_
  intro x
  simp only [decide_eq_true_eq, hV]
  tauto

/-! ## The tree invariant -/

theorem TreeCore.congrCore {V V' : Ref → Prop} {E E' : Ref → Ref → Prop} {k k' n n' : Nat}
    (h : TreeCore V E k n) (hV : ∀ q, V' q ↔ V q) (hE : ∀ x y, E' x y ↔ E x y)
    (hk : k' = k) (hn : n' = n) : TreeCore V' E' k' n' := by
  have e1 : V' = V := funext (fun q => propext (hV q))
  have e2 : E' = E := funext (fun x => funext (fun y => propext (hE x y)))
  rw [e1, e2, hk, hn]; exact h

/-- Advancing from the visited cell `p` to the unvisited cell `next` and opening the wall
between them keeps the tree invariant. -/
theorem TreeCore.pushEdge {V V' : Ref → Prop} {E E' : Ref → Ref → Prop} {k n : Nat} {p next : Ref}
    (h : TreeCore V E k n) (hp : V p) (hn : ¬ V next) (hV : ∀ q, V' q ↔ q = next ∨ V q)
    (hE : ∀ x y, E' x y ↔ E x y ∨ (x = p ∧ y = next) ∨ (x = next ∧ y = p)) :
    TreeCore V' E' (k + 1) (n + 1) := by
  have hpn : p ≠ next := fun e => hn (e ▸ hp)
  have hmono : ∀ x y, E x y → E' x y := fun x y hxy => (hE x y).mpr (Or.inl hxy)
  refine ⟨(hV _).mpr (Or.inr h.origin), ?_, by have := h.count; omega, ?_, ?_⟩
  · intro x y hxy
    rcases (hE x y).mp hxy with h1 | ⟨rfl, rfl⟩ | ⟨rfl, rfl⟩
    · exact ⟨(hV x).mpr (Or.inr (h.ends x y h1).1), (hV y).mpr (Or.inr (h.ends x y h1).2)⟩
    · exact ⟨(hV _).mpr (Or.inr hp), (hV _).mpr (Or.inl rfl)⟩
    · exact ⟨(hV _).mpr (Or.inl rfl), (hV _).mpr (Or.inr hp)⟩
  · intro w hw
    rcases (hV w).mp hw with rfl | hw'
    · exact Relation.ReflTransGen.tail (Relation.ReflTransGen.mono hmono (h.joined p hp))
        ((hE p w).mpr (Or.inr (Or.inl ⟨rfl, rfl⟩)))
    · exact Relation.ReflTransGen.mono hmono (h.joined w hw')
  · obtain ⟨ord, par, bound, hb, hpar⟩ := h.parents
    refine ⟨Function.update ord next bound, Function.update par next p, bound + 1, ?_, ?_⟩
    · intro w hw
      rcases (hV w).mp hw with rfl | hw'
      · simp
      · have hne : w ≠ next := fun e => hn (e ▸ hw')
        rw [Function.update_noteq hne]
        have := hb w hw'; omega
    · intro x y hxy
      rcases (hE x y).mp hxy with h1 | ⟨rfl, rfl⟩ | ⟨rfl, rfl⟩
      · have hx : x ≠ next := fun e => hn (e ▸ (h.ends x y h1).1)
        have hy : y ≠ next := fun e => hn (e ▸ (h.ends x y h1).2)
        simp only [Function.update_noteq hx, Function.update_noteq hy]
        exact hpar x y h1
      · left
        simp only [Function.update_same, Function.update_noteq hpn, true_and]
        exact hb x hp
      · right
        simp only [Function.update_same, Function.update_noteq hpn, true_and]
        exact hb y hp

theorem passage_congr {g g' : Grid}
    (h : ∀ x, fieldAt g' x (fun c => c.walls) = fieldAt g x (fun c => c.walls)) (x y : Ref) :
    passage g' x y ↔ passage g x y := by
  have hf : ∀ (proj : Walls → Bool) (z : Ref),
      fieldAt g' z (fun c => proj c.walls) = fieldAt g z (fun c => proj c.walls) := by
    intro proj z
    have := congrArg (Option.map proj) (h z)
    simpa [fieldAt, Option.map_map, Function.comp_def] using this
  unfold passage
  rw [hf (fun w => w.rightWall.isShown), hf (fun w => w.leftWall.isShown),
    hf (fun w => w.bottomWall.isShown), hf (fun w => w.topWall.isShown),
    hf (fun w => w.rightWall.isShown), hf (fun w => w.leftWall.isShown),
    hf (fun w => w.bottomWall.isShown), hf (fun w => w.topWall.isShown)]

theorem walls_mark (g : Grid) (p x : Ref) :
    fieldAt (modifyCell g p Cell.setVisited) x (fun c => c.walls) = fieldAt g x (fun c => c.walls) := by
  rw [fieldAt_modifyCell]; split <;> rfl

theorem allWallsShown_mark (g : Grid) (p x : Ref) :
    allWallsShown (modifyCell g p Cell.setVisited) x ↔ allWallsShown g x := by
  unfold allWallsShown
  rw [fieldAt_modifyCell]; split <;> rfl

theorem not_passage_of_allWallsShown {g : Grid} {x : Ref} (h : allWallsShown g x) (y : Ref) :
    ¬ passage g x y := by
  unfold allWallsShown fieldAt at h
  unfold passage fieldAt
  cases hc : cellAt g x with
  | none => simp [hc] at h
  | some c =>
    simp only [hc, Option.map_some', Option.some.injEq, Cell.getShownWalls, List.cons.injEq,
      and_true] at h
    simp [hc, h.1, h.2.1, h.2.2.1, h.2.2.2]

/-- `removeWalls(p, q)` leaves every cell other than `p` and `q` as it was. -/
theorem removeWalls_frame {R C : Nat} {g : Grid} (hg : GridOK R C g) {p q : Ref} {a b : Cell}
    (hp : cellAt g p = some a) (hq : cellAt g q = some b) (hadj : adjacent p q) {g' : Grid}
    (h : removeWalls g p q = some g') (x : Ref) (hxp : x ≠ p) (hxq : x ≠ q) :
    cellAt g' x = cellAt g x := by
  rw [removeWalls_eq hg hp hq hadj] at h
  have hg' := (Option.some.inj h).symm
  rw [hg']
  split_ifs <;> simp only [cellAt_modifyCell, if_neg hxp, if_neg hxq]

theorem visitedCount_congr {R C : Nat} {g g' : Grid} (h : ∀ q, visitedAt g' q ↔ visitedAt g q) :
    visitedCount R C g' = visitedCount R C g := by
  unfold visitedCount
  apply List.countP_congr
  intro x _
  simp [h]

theorem allWallsShown_congr {g g' : Grid} {x : Ref} (h : cellAt g' x = cellAt g x) :
    allWallsShown g' x ↔ allWallsShown g x := by
  unfold allWallsShown fieldAt; rw [h]

/-- The steps of `draw` that open no wall (backtrack, stay) keep the tree invariant. -/
theorem tree_keep {R C : Nat} {s : State} (h : TreeInv R C s) {p c : Ref}
    (hp : s.maze.currentCell = some p) {m' : Maze}
    (hgrid : m'.grid = modifyCell s.maze.grid p Cell.setVisited)
    (hcur : m'.currentCell = some c)
    (hc : visitedAt (modifyCell s.maze.grid p Cell.setVisited) c)
    (hstack : ∀ q, q ∈ m'.stack → q ∈ s.maze.stack)
    (hbasic : BasicInv R C (finishDraw s m')) : TreeInv R C (finishDraw s m') := by
  have hmg : markedGrid s.maze = modifyCell s.maze.grid p Cell.setVisited :=
    markedGrid_eq _ p hp
  have hmg' : markedGrid m' = modifyCell (modifyCell s.maze.grid p Cell.setVisited) c
      Cell.setVisited := by
    rw [markedGrid_eq _ c hcur, hgrid]
  have hcc : ∃ cc, cellAt (modifyCell s.maze.grid p Cell.setVisited) c = some cc := by
    unfold visitedAt fieldAt at hc
    cases hx : cellAt (modifyCell s.maze.grid p Cell.setVisited) c with
    | none => simp [hx] at hc
    | some cc => exact ⟨cc, rfl⟩
  obtain ⟨cc, hcc⟩ := hcc
  have hV : ∀ q, visitedAt (markedGrid m') q ↔ visitedAt (markedGrid s.maze) q := by
    intro q
    rw [hmg', hmg, visitedAt_mark hcc]
    constructor
    · rintro (e | e)
      · rw [e]; exact hc
      · exact e
    · exact Or.inr
  have hE : ∀ x y, passage m'.grid x y ↔ passage s.maze.grid x y := by
    intro x y
    rw [hgrid]
    exact passage_congr (walls_mark _ _) x y
  refine ⟨hbasic, ?_, ?_, ?_⟩
  · rw [finishDraw_maze]
    intro q hq
    exact (hV q).mpr (h.stackVisited q (hstack q hq))
  · rw [finishDraw_maze]
    intro w hw hnv
    rw [hgrid, allWallsShown_mark]
    exact h.closedWalls w hw (fun hv => hnv ((hV w).mpr hv))
  · rw [finishDraw_maze]
    exact h.core.congrCore hV hE (removedWalls_congr hE) (visitedCount_congr hV)

/-- A generation step keeps the tree invariant, on every grid shape. -/
theorem draw_tree {R C : Nat} {s : State} (h : TreeInv R C s) (rnd : Nat) :
    ∃ s', draw s rnd = some s' ∧ TreeInv R C s' := by
  obtain ⟨p, hp, hb1, hb2⟩ := h.basic.cur
  have hmg : markedGrid s.maze = modifyCell s.maze.grid p Cell.setVisited :=
    markedGrid_eq _ p hp
  obtain ⟨c0, hc0, -, -⟩ := h.basic.grid.cellAt_some hb1 hb2
  have hg1 : GridOK R C (modifyCell s.maze.grid p Cell.setVisited) :=
    h.basic.grid.modifyCell _ _ (fun c => ⟨rfl, rfl⟩)
  have hVp : visitedAt (modifyCell s.maze.grid p Cell.setVisited) p :=
    (visitedAt_mark hc0 p).mpr (Or.inl rfl)
  obtain ⟨s', hd', hbasic'⟩ := draw_basic h.basic rnd
  refine ⟨s', hd', ?_⟩
  rcases draw_cases h.basic hp rnd with ⟨next, g3, hadj, hn1, hn2, hunv, hrem, hd⟩ |
      ⟨-, ⟨cell, rest, hst, hd⟩ | ⟨hst, hd⟩⟩
  · -- advance
    rw [hd] at hd'
    cases Option.some.inj hd'
    have hg2 : GridOK R C (modifyCell (modifyCell s.maze.grid p Cell.setVisited) next
        Cell.setVisited) := hg1.modifyCell _ _ (fun c => ⟨rfl, rfl⟩)
    obtain ⟨a, ha, -, -⟩ := hg2.cellAt_some hb1 hb2
    obtain ⟨b, hb, -, -⟩ := hg2.cellAt_some hn1 hn2
    obtain ⟨g3', hg3', hok3, -, hvis3⟩ := removeWalls_basic hg2 ha hb hadj
    rw [hrem] at hg3'
    cases Option.some.inj hg3'
    obtain ⟨cn1, hcn1, -, -⟩ := hg1.cellAt_some hn1 hn2
    obtain ⟨cn3, hcn3, -, -⟩ := hok3.cellAt_some hn1 hn2
    have hnotV : ¬ visitedAt (modifyCell s.maze.grid p Cell.setVisited) next := by
      unfold visitedAt; rw [hunv]; simp
    have hV : ∀ q, visitedAt (modifyCell g3 next Cell.setVisited) q ↔
        q = next ∨ visitedAt (modifyCell s.maze.grid p Cell.setVisited) q := by
      intro q
      rw [visitedAt_mark hcn3]
      have e2 : visitedAt g3 q ↔ visitedAt (modifyCell (modifyCell s.maze.grid p Cell.setVisited)
          next Cell.setVisited) q := by unfold visitedAt; rw [hvis3]
      rw [e2, visitedAt_mark hcn1]
      tauto
    have hE2 : ∀ x y, passage (modifyCell (modifyCell s.maze.grid p Cell.setVisited) next
        Cell.setVisited) x y ↔ passage s.maze.grid x y := by
      intro x y
      refine passage_congr ?_ x y
      intro z
      rw [walls_mark, walls_mark]
    have hE : ∀ x y, passage g3 x y ↔
        passage s.maze.grid x y ∨ (x = p ∧ y = next) ∨ (x = next ∧ y = p) := by
      intro x y
      rw [removeWalls_passage hg2 ha hb hadj hrem, hE2]
    have hclosedNext : allWallsShown s.maze.grid next :=
      h.closedWalls next ⟨hn1, hn2⟩ (by rw [hmg]; exact hnotV)
    have hnotE : ¬ passage s.maze.grid p next :=
      fun hpn => not_passage_of_allWallsShown hclosedNext p (passage_symm hpn)
    have hcore := h.core
    rw [hmg] at hcore
    refine ⟨hbasic', ?_, ?_, ?_⟩
    · rw [finishDraw_maze, markedGrid_eq _ next rfl]
      intro q hq
      rw [hV]
      rcases List.mem_cons.mp hq with rfl | hq
      · exact Or.inr hVp
      · right
        have := h.stackVisited q hq
        rwa [hmg] at this
    · rw [finishDraw_maze, markedGrid_eq _ next rfl]
      intro w hw hnv
      rw [hV] at hnv
      have hwn : w ≠ next := fun e => hnv (Or.inl e)
      have hwV : ¬ visitedAt (modifyCell s.maze.grid p Cell.setVisited) w :=
        fun e => hnv (Or.inr e)
      have hwp : w ≠ p := fun e => hwV (e ▸ hVp)
      have hold := h.closedWalls w hw (by rw [hmg]; exact hwV)
      have e1 : cellAt g3 w = cellAt s.maze.grid w := by
        rw [removeWalls_frame hg2 ha hb hadj hrem w hwp hwn, cellAt_modifyCell, if_neg hwn,
          cellAt_modifyCell, if_neg hwp]
      exact (allWallsShown_congr e1).mpr hold
    · rw [finishDraw_maze, markedGrid_eq _ next rfl]
      refine (hcore.pushEdge hVp hnotV hV hE).congrCore (fun _ => Iff.rfl) (fun _ _ => Iff.rfl) ?_ ?_
      · exact removedWalls_add_one hE hadj ⟨hb1, hb2⟩ ⟨hn1, hn2⟩ hnotE
      · exact visitedCount_add_one ⟨hn1, hn2⟩ hnotV hV
  · -- backtrack
    rw [hd] at hd'
    cases Option.some.inj hd'
    have hcellV := h.stackVisited cell (by rw [hst]; exact List.mem_cons_self _ _)
    rw [hmg] at hcellV
    refine tree_keep h hp rfl rfl hcellV ?_ hbasic'
    intro q hq
    rw [hst]; exact List.mem_cons_of_mem _ hq
  · -- stay
    rw [hd] at hd'
    cases Option.some.inj hd'
    exact tree_keep h hp rfl hp hVp (fun q hq => hq) hbasic'

theorem runDraws_tree {R C : Nat} (rnds : List Nat) {s : State} (h : TreeInv R C s) :
    ∃ s', runDraws s rnds = some s' ∧ TreeInv R C s' := by
  induction rnds generalizing s with
  | nil => exact ⟨s, rfl, h⟩
  | cons rnd rnds ih =>
    obtain ⟨s1, h1, hb1⟩ := draw_tree h rnd
    obtain ⟨s2, h2, hb2⟩ := ih hb1
    refine ⟨s2, ?_, hb2⟩
    simp only [runDraws, h1, h2]

theorem allWallsShown_freshGrid {R C : Nat} {w : Ref} (hw : inGrid R C w) :
    allWallsShown (freshGrid R C) w := by
  unfold allWallsShown fieldAt
  have hw' : w.1 < R ∧ w.2 < C := hw
  rw [cellAt_freshGrid, if_pos hw']
  split <;> rfl

theorem not_passage_freshGrid (R C : Nat) (x y : Ref) : ¬ passage (freshGrid R C) x y := by
  by_cases hx : inGrid R C x
  · exact not_passage_of_allWallsShown (allWallsShown_freshGrid hx) y
  · unfold passage fieldAt
    have hx' : ¬ (x.1 < R ∧ x.2 < C) := hx
    rw [cellAt_freshGrid, if_neg hx']
    simp

theorem initialState_tree {R C : Nat} (hR : 1 ≤ R) (hC : 1 ≤ C) : TreeInv R C (initialState R C) := by
  have hb : BasicInv R C (initialState R C) := freshState_basic (freshState_eq hR hC)
  obtain ⟨c0, hc0, -, -⟩ := hb.grid.cellAt_some (show 0 < R by omega) (show 0 < C by omega)
  have hmg : markedGrid (initialState R C).maze
      = modifyCell (freshGrid R C) (0, 0) Cell.setVisited := markedGrid_eq _ (0, 0) rfl
  have hV : ∀ q, visitedAt (markedGrid (initialState R C).maze) q ↔
      q = (0, 0) ∨ visitedAt (freshGrid R C) q := by
    intro q; rw [hmg]; exact visitedAt_mark hc0 q
  have hV0 : ∀ q, visitedAt (markedGrid (initialState R C).maze) q ↔ q = (0, 0) := by
    intro q; rw [hV]
    constructor
    · rintro (e | e)
      · exact e
      · exact absurd e (not_visitedAt_freshGrid R C q)
    · exact Or.inl
  refine ⟨hb, ?_, ?_, ?_⟩
  · intro q hq; simp [initialState] at hq
  · intro w hw _; exact allWallsShown_freshGrid hw
  · refine ⟨(hV0 _).mpr rfl, ?_, ?_, ?_, ?_⟩
    · intro x y hxy; exact absurd hxy (not_passage_freshGrid R C x y)
    · have h1 : removedWalls R C (initialState R C).maze.grid = 0 := by
        unfold removedWalls
        have : ∀ (f : Ref → Ref), (cells R C).countP
            (fun p => decide (passage (initialState R C).maze.grid p (f p))) = 0 := by
          intro f
          rw [List.countP_eq_zero]
          intro x _
          simpa using not_passage_freshGrid R C x (f x)
        rw [this (fun p => (p.1, p.2 + 1)), this (fun p => (p.1 + 1, p.2))]
      have h2 : visitedCount R C (freshGrid R C) = 0 := by
        unfold visitedCount
        rw [List.countP_eq_zero]
        intro x _
        simpa using not_visitedAt_freshGrid R C x
      have h3 : visitedCount R C (markedGrid (initialState R C).maze)
          = visitedCount R C (freshGrid R C) + 1 :=
        visitedCount_add_one ⟨by simpa using hR, by simpa using hC⟩
          (not_visitedAt_freshGrid R C (0, 0)) hV
      rw [h1, h3, h2]
    · intro w hw
      rw [(hV0 w).mp hw]
    · refine ⟨fun _ => 0, id, 1, fun _ _ => Nat.zero_lt_one, ?_⟩
      intro x y hxy; exact absurd hxy (not_passage_freshGrid R C x y)

/-- On every grid shape, every run of generation steps from the freshly set-up maze succeeds
and keeps the tree invariant. -/
theorem runDraws_fresh_tree {R C : Nat} {s0 : State}
    (h : freshState R C = some s0) (rnds : List Nat) :
    ∃ s, runDraws s0 rnds = some s ∧ TreeInv R C s := by
  obtain ⟨hR, hC⟩ := freshState_pos h
  rw [freshState_eq hR hC] at h
  cases Option.some.inj h
  exact runDraws_tree rnds (initialState_tree hR hC)

theorem visitedCount_all {R C : Nat} {g : Grid} (h : ∀ w, inGrid R C w → visitedAt g w) :
    visitedCount R C g = R * C := by
  unfold visitedCount
  rw [← length_cells R C, List.countP_eq_length]
  intro x hx
  simpa using h x ((mem_cells R C x).mp hx)

/-- C1 (amended). On a grid with at most as many columns as rows (in particular on every
square grid), after any number of generation steps from the freshly set-up maze: if the
completion flag is set then exactly `R * C - 1` shared walls are removed and the open-wall
graph over all cells is connected and has no cycle. -/
theorem generation_builds_spanning_tree (R C : Nat) (hCR : C ≤ R) (s0 : State)
    (h : freshState R C = some s0) (rnds : List Nat) :
    ∃ s, runDraws s0 rnds = some s ∧
      (s.mazeGenerationComplete = true →
        removedWalls R C s.maze.grid = R * C - 1 ∧ Connected R C s.maze.grid ∧
          Acyclic s.maze.grid) := by
  obtain ⟨s, hs, hgen⟩ := runDraws_fresh_gen hCR h rnds
  obtain ⟨s', hs', htree⟩ := runDraws_fresh_tree h rnds
  rw [hs] at hs'
  cases Option.some.inj hs'
  refine ⟨s, hs, ?_⟩
  intro hflag
  obtain ⟨-, hall⟩ := hgen.flag hflag
  obtain ⟨p, hp, hb1, hb2⟩ := hgen.basic.cur
  obtain ⟨c0, hc0, -, -⟩ := hgen.basic.grid.cellAt_some hb1 hb2
  have hmg : markedGrid s.maze = modifyCell s.maze.grid p Cell.setVisited :=
    markedGrid_eq _ p hp
  have hallV : ∀ w, inGrid R C w → visitedAt (markedGrid s.maze) w := by
    intro w hw
    rw [hmg, visitedAt_mark hc0]
    exact Or.inr (hall w.1 hw.1 w.2 hw.2)
  refine ⟨?_, ?_, ?_⟩
  · have := htree.core.count
    rw [visitedCount_all hallV] at this
    omega
  · intro x y hx hy
    exact (Reach.symm (htree.core.joined x (hallV x hx))).trans (htree.core.joined y (hallV y hy))
  · obtain ⟨ord, par, _, _, hpar⟩ := htree.core.parents
    exact acyclic_of_parents ord par hpar

theorem generation_builds_spanning_tree_witness :
    2 ≤ 2 ∧ freshState 2 2 = some (initialState 2 2) ∧
      ∃ s, runDraws (initialState 2 2) [1, 0, 0, 0, 0, 0] = some s ∧
        (s.mazeGenerationComplete = true →
          removedWalls 2 2 s.maze.grid = 2 * 2 - 1 ∧ Connected 2 2 s.maze.grid ∧
            Acyclic s.maze.grid) :=
  ⟨by decide, freshState_eq (by decide) (by decide),
    generation_builds_spanning_tree 2 2 (by decide) (initialState 2 2)
      (freshState_eq (by decide) (by decide)) [1, 0, 0, 0, 0, 0]⟩

/-- C1 (counterexample). On the `1 x 2` grid the first generation step already sets the
completion flag: `checkNeighbors` compares the column with `grid.length - 1 = 0`, finds no
neighbour for `(0, 0)`, and the stack is empty. No wall is removed and `(0, 1)` is cut off. -/
theorem generation_one_by_two_not_spanning :
    freshState 1 2 = some (initialState 1 2) ∧
      ∃ s, runDraws (initialState 1 2) [0] = some s ∧ s.mazeGenerationComplete = true ∧
        ¬ (removedWalls 1 2 s.maze.grid = 1 * 2 - 1 ∧ Connected 1 2 s.maze.grid ∧
            Acyclic s.maze.grid) := by
  refine ⟨freshState_eq (by decide) (by decide), ?_⟩
  have hrun : ∃ s, runDraws (initialState 1 2) [0] = some s ∧ s.mazeGenerationComplete = true ∧
      removedWalls 1 2 s.maze.grid = 0 := by decide
  obtain ⟨s, h1, h2, h3⟩ := hrun
  refine ⟨s, h1, h2, ?_⟩
  rintro ⟨h, -, -⟩
  rw [h3] at h
  exact absurd h (by decide)

/-! ## Frame facts that need no invariant -/

theorem writeCell_some {g g' : Grid} {p : Ref} {f : Cell → Cell} (h : writeCell g p f = some g') :
    g' = modifyCell g p f := by
  unfold writeCell at h
  split at h
  · exact absurd h (by simp)
  · exact (Option.some.inj h).symm

theorem fieldAt_modifyCell_keep {β : Type} (g : Grid) (p x : Ref) (f : Cell → Cell)
    (proj : Cell → β) (hf : ∀ c, proj (f c) = proj c) :
    fieldAt (modifyCell g p f) x proj = fieldAt g x proj := by
  rw [fieldAt_modifyCell]
  split
  · simp only [hf]
  · rfl

theorem fieldAt_modifyCell_ne {β : Type} (g : Grid) {p x : Ref} (f : Cell → Cell)
    (proj : Cell → β) (h : x ≠ p) :
    fieldAt (modifyCell g p f) x proj = fieldAt g x proj := by
  rw [fieldAt_modifyCell, if_neg h]

theorem fieldAt_writeCell_keep {β : Type} {g g' : Grid} {p : Ref} {f : Cell → Cell}
    (h : writeCell g p f = some g') (x : Ref) (proj : Cell → β) (hf : ∀ c, proj (f c) = proj c) :
    fieldAt g' x proj = fieldAt g x proj := by
  rw [writeCell_some h]; exact fieldAt_modifyCell_keep g p x f proj hf

/-- `removeWalls` touches nothing but `isShown` flags. -/
theorem removeWalls_keep {β : Type} {g g' : Grid} {p q : Ref} (h : removeWalls g p q = some g')
    (x : Ref) (proj : Cell → β)
    (hT : ∀ b c, proj (Cell.setTopShown b c) = proj c)
    (hB : ∀ b c, proj (Cell.setBottomShown b c) = proj c)
    (hL : ∀ b c, proj (Cell.setLeftShown b c) = proj c)
    (hR : ∀ b c, proj (Cell.setRightShown b c) = proj c) :
    fieldAt g' x proj = fieldAt g x proj := by
  unfold removeWalls at h
  split at h
  · have hg' := (Option.some.inj h).symm
    rw [hg']
    split_ifs <;> first | rfl | simp only [fieldAt_modifyCell_keep _ _ _ _ proj (hT _),
        fieldAt_modifyCell_keep _ _ _ _ proj (hB _), fieldAt_modifyCell_keep _ _ _ _ proj (hL _),
        fieldAt_modifyCell_keep _ _ _ _ proj (hR _)]
  · exact absurd h (by simp)

/-- A generation step changes neither the selection nor any `isGoal` or `isRotating` flag. -/
theorem draw_flags {s s' : State} {rnd : Nat} (h : draw s rnd = some s') :
    s'.maze.cellsToRotate = s.maze.cellsToRotate ∧ s'.maze.rows = s.maze.rows ∧
      s'.maze.columns = s.maze.columns ∧
      ∀ x, fieldAt s'.maze.grid x (fun c => (c.isGoal, c.isRotating))
        = fieldAt s.maze.grid x (fun c => (c.isGoal, c.isRotating)) := by
  unfold draw at h
  split at h
  · exact absurd h (by simp)
  · rename_i cur hcur
    split at h
    · exact absurd h (by simp)
    · rename_i grid1 hg1
      have e1 : ∀ x, fieldAt grid1 x (fun c => (c.isGoal, c.isRotating))
          = fieldAt s.maze.grid x (fun c => (c.isGoal, c.isRotating)) :=
        fun x => fieldAt_writeCell_keep hg1 x (fun c => (c.isGoal, c.isRotating)) (fun c => rfl)
      split at h
      · exact absurd h (by simp)
      · split at h
        · exact absurd h (by simp)
        · rename_i next hnext
          split at h
          · exact absurd h (by simp)
          · rename_i grid2 hg2
            split at h
            · exact absurd h (by simp)
            · rename_i grid3 hg3
              cases Option.some.inj h
              rw [finishDraw_maze]
              refine ⟨rfl, rfl, rfl, fun x => ?_⟩
              simp only
              rw [removeWalls_keep hg3 x (fun c => (c.isGoal, c.isRotating)) (fun _ _ => rfl)
                (fun _ _ => rfl) (fun _ _ => rfl) (fun _ _ => rfl),
                fieldAt_writeCell_keep hg2 x (fun c => (c.isGoal, c.isRotating)) (fun c => rfl), e1]
        · split at h
          · cases Option.some.inj h
            rw [finishDraw_maze]
            exact ⟨rfl, rfl, rfl, e1⟩
          · cases Option.some.inj h
            rw [finishDraw_maze]
            exact ⟨rfl, rfl, rfl, e1⟩

/-! ## Frame facts for the rotation operations -/

theorem modifyCell_settersKeep {β : Type} (proj : Cell → β)
    (hT : ∀ b c, proj (Cell.setTopShown b c) = proj c)
    (hB : ∀ b c, proj (Cell.setBottomShown b c) = proj c)
    (hL : ∀ b c, proj (Cell.setLeftShown b c) = proj c)
    (hR : ∀ b c, proj (Cell.setRightShown b c) = proj c) (g : Grid) (q x : Ref) (b : Bool) :
    fieldAt (modifyCell g q (Cell.setTopShown b)) x proj = fieldAt g x proj ∧
    fieldAt (modifyCell g q (Cell.setBottomShown b)) x proj = fieldAt g x proj ∧
    fieldAt (modifyCell g q (Cell.setLeftShown b)) x proj = fieldAt g x proj ∧
    fieldAt (modifyCell g q (Cell.setRightShown b)) x proj = fieldAt g x proj :=
  ⟨fieldAt_modifyCell_keep g q x _ proj (hT b), fieldAt_modifyCell_keep g q x _ proj (hB b),
    fieldAt_modifyCell_keep g q x _ proj (hL b), fieldAt_modifyCell_keep g q x _ proj (hR b)⟩

/-- `rotateTopWall` of the cell at `p` changes, on any other cell, nothing but `isShown` flags;
on `p` itself it leaves `isGoal`, the coordinates, `visited` and `wallToRotate` alone. -/
theorem rotateTopWall_keep {β : Type} {g g' : Grid} {p : Ref} (h : rotateTopWall g p = some g')
    (x : Ref) (proj : Cell → β)
    (hT : ∀ b c, proj (Cell.setTopShown b c) = proj c)
    (hB : ∀ b c, proj (Cell.setBottomShown b c) = proj c)
    (hL : ∀ b c, proj (Cell.setLeftShown b c) = proj c)
    (hR : ∀ b c, proj (Cell.setRightShown b c) = proj c)
    (hself : x ≠ p ∨ ∀ (f : Cell → Cell), (∀ c, (f c).isGoal = c.isGoal ∧
      (f c).rowNumber = c.rowNumber ∧ (f c).columnNumber = c.columnNumber ∧
      (f c).visited = c.visited ∧ (f c).wallToRotate = c.wallToRotate) → ∀ c, proj (f c) = proj c) :
    fieldAt g' x proj = fieldAt g x proj := by
  have hself' : ∀ (f : Cell → Cell), (∀ c, (f c).isGoal = c.isGoal ∧
      (f c).rowNumber = c.rowNumber ∧ (f c).columnNumber = c.columnNumber ∧
      (f c).visited = c.visited ∧ (f c).wallToRotate = c.wallToRotate) → ∀ (g0 : Grid),
      fieldAt (modifyCell g0 p f) x proj = fieldAt g0 x proj := by
    intro f hf g0
    rcases hself with hne | hs
    · exact fieldAt_modifyCell_ne g0 f proj hne
    · exact fieldAt_modifyCell_keep g0 p x f proj (hs f hf)
  have h1 := hself' (fun c => Cell.setTopTheta (c.walls.topWall.theta + 2) c)
    (fun c => ⟨rfl, rfl, rfl, rfl, rfl⟩)
  have h2 := hself' Cell.finishTop (fun c => ⟨rfl, rfl, rfl, rfl, rfl⟩)
  have h3 := hself' (Cell.setIsRotating false) (fun c => ⟨rfl, rfl, rfl, rfl, rfl⟩)
  have hset := modifyCell_settersKeep proj hT hB hL hR
  unfold rotateTopWall at h
  split at h
  · cases h
  · split at h
    · cases h
    · split at h
      · cases h
      · rename_i g1 hw1
        rw [writeCell_some hw1] at h
        split at h
        · cases h
        · split at h
          · cases h
            simp only [h1, h2, h3, (hset _ _ _ _).1, (hset _ _ _ _).2.1, (hset _ _ _ _).2.2.1,
              (hset _ _ _ _).2.2.2]
          · dsimp only at h
            split at h
            · split at h
              · cases h
              · rename_i g3 hw3
                rw [writeCell_some hw3] at h
                cases h
                simp only [h1, h2, h3, (hset _ _ _ _).1, (hset _ _ _ _).2.1, (hset _ _ _ _).2.2.1,
                  (hset _ _ _ _).2.2.2]
            · cases h
              simp only [h1, h2, h3, (hset _ _ _ _).1, (hset _ _ _ _).2.1, (hset _ _ _ _).2.2.1,
                (hset _ _ _ _).2.2.2]

/-- `rotateRightWall` of the cell at `p` changes, on any other cell, nothing but `isShown` flags;
on `p` itself it leaves `isGoal`, the coordinates, `visited` and `wallToRotate` alone. -/
theorem rotateRightWall_keep {β : Type} {g g' : Grid} {p : Ref} (h : rotateRightWall g p = some g')
    (x : Ref) (proj : Cell → β)
    (hT : ∀ b c, proj (Cell.setTopShown b c) = proj c)
    (hB : ∀ b c, proj (Cell.setBottomShown b c) = proj c)
    (hL : ∀ b c, proj (Cell.setLeftShown b c) = proj c)
    (hR : ∀ b c, proj (Cell.setRightShown b c) = proj c)
    (hself : x ≠ p ∨ ∀ (f : Cell → Cell), (∀ c, (f c).isGoal = c.isGoal ∧
      (f c).rowNumber = c.rowNumber ∧ (f c).columnNumber = c.columnNumber ∧
      (f c).visited = c.visited ∧ (f c).wallToRotate = c.wallToRotate) → ∀ c, proj (f c) = proj c) :
    fieldAt g' x proj = fieldAt g x proj := by
  have hself' : ∀ (f : Cell → Cell), (∀ c, (f c).isGoal = c.isGoal ∧
      (f c).rowNumber = c.rowNumber ∧ (f c).columnNumber = c.columnNumber ∧
      (f c).visited = c.visited ∧ (f c).wallToRotate = c.wallToRotate) → ∀ (g0 : Grid),
      fieldAt (modifyCell g0 p f) x proj = fieldAt g0 x proj := by
    intro f hf g0
    rcases hself with hne | hs
    · exact fieldAt_modifyCell_ne g0 f proj hne
    · exact fieldAt_modifyCell_keep g0 p x f proj (hs f hf)
  have h1 := hself' (fun c => Cell.setRightTheta (c.walls.rightWall.theta + 2) c)
    (fun c => ⟨rfl, rfl, rfl, rfl, rfl⟩)
  have h2 := hself' Cell.finishRight (fun c => ⟨rfl, rfl, rfl, rfl, rfl⟩)
  have h3 := hself' (Cell.setIsRotating false) (fun c => ⟨rfl, rfl, rfl, rfl, rfl⟩)
  have hset := modifyCell_settersKeep proj hT hB hL hR
  unfold rotateRightWall at h
  split at h
  · cases h
  · split at h
    · cases h
    · rename_i g1 hw1
      rw [writeCell_some hw1] at h
      split at h
      · cases h
      · split at h
        · cases h
          simp only [h1, h2, h3, (hset _ _ _ _).1, (hset _ _ _ _).2.1, (hset _ _ _ _).2.2.1,
            (hset _ _ _ _).2.2.2]
        · dsimp only at h
          split at h
          · split at h
            · cases h
            · rename_i g3 hw3
              rw [writeCell_some hw3] at h
              cases h
              simp only [h1, h2, h3, (hset _ _ _ _).1, (hset _ _ _ _).2.1, (hset _ _ _ _).2.2.1,
                (hset _ _ _ _).2.2.2]
          · cases h
            simp only [h1, h2, h3, (hset _ _ _ _).1, (hset _ _ _ _).2.1, (hset _ _ _ _).2.2.1,
              (hset _ _ _ _).2.2.2]

/-- `rotateBottomWall` of the cell at `p` changes, on any other cell, nothing but `isShown` flags;
on `p` itself it leaves `isGoal`, the coordinates, `visited` and `wallToRotate` alone. -/
theorem rotateBottomWall_keep {β : Type} {g g' : Grid} {p : Ref} (h : rotateBottomWall g p = some g')
    (x : Ref) (proj : Cell → β)
    (hT : ∀ b c, proj (Cell.setTopShown b c) = proj c)
    (hB : ∀ b c, proj (Cell.setBottomShown b c) = proj c)
    (hL : ∀ b c, proj (Cell.setLeftShown b c) = proj c)
    (hR : ∀ b c, proj (Cell.setRightShown b c) = proj c)
    (hself : x ≠ p ∨ ∀ (f : Cell → Cell), (∀ c, (f c).isGoal = c.isGoal ∧
      (f c).rowNumber = c.rowNumber ∧ (f c).columnNumber = c.columnNumber ∧
      (f c).visited = c.visited ∧ (f c).wallToRotate = c.wallToRotate) → ∀ c, proj (f c) = proj c) :
    fieldAt g' x proj = fieldAt g x proj := by
  have hself' : ∀ (f : Cell → Cell), (∀ c, (f c).isGoal = c.isGoal ∧
      (f c).rowNumber = c.rowNumber ∧ (f c).columnNumber = c.columnNumber ∧
      (f c).visited = c.visited ∧ (f c).wallToRotate = c.wallToRotate) → ∀ (g0 : Grid),
      fieldAt (modifyCell g0 p f) x proj = fieldAt g0 x proj := by
    intro f hf g0
    rcases hself with hne | hs
    · exact fieldAt_modifyCell_ne g0 f proj hne
    · exact fieldAt_modifyCell_keep g0 p x f proj (hs f hf)
  have h1 := hself' (fun c => Cell.setBottomTheta (c.walls.bottomWall.theta + 2) c)
    (fun c => ⟨rfl, rfl, rfl, rfl, rfl⟩)
  have h2 := hself' Cell.finishBottom (fun c => ⟨rfl, rfl, rfl, rfl, rfl⟩)
  have h3 := hself' (Cell.setIsRotating false) (fun c => ⟨rfl, rfl, rfl, rfl, rfl⟩)
  have hset := modifyCell_settersKeep proj hT hB hL hR
  unfold rotateBottomWall at h
  split at h
  · cases h
  · split at h
    · cases h
    · rename_i g1 hw1
      rw [writeCell_some hw1] at h
      split at h
      · cases h
      · split at h
        · cases h
          simp only [h1, h2, h3, (hset _ _ _ _).1, (hset _ _ _ _).2.1, (hset _ _ _ _).2.2.1,
            (hset _ _ _ _).2.2.2]
        · dsimp only at h
          split at h
          · split at h
            · cases h
            · rename_i g3 hw3
              rw [writeCell_some hw3] at h
              cases h
              simp only [h1, h2, h3, (hset _ _ _ _).1, (hset _ _ _ _).2.1, (hset _ _ _ _).2.2.1,
                (hset _ _ _ _).2.2.2]
          · cases h
            simp only [h1, h2, h3, (hset _ _ _ _).1, (hset _ _ _ _).2.1, (hset _ _ _ _).2.2.1,
              (hset _ _ _ _).2.2.2]

/-- `rotateLeftWall` of the cell at `p` changes, on any other cell, nothing but `isShown` flags;
on `p` itself it leaves `isGoal`, the coordinates, `visited` and `wallToRotate` alone. -/
theorem rotateLeftWall_keep {β : Type} {g g' : Grid} {p : Ref} (h : rotateLeftWall g p = some g')
    (x : Ref) (proj : Cell → β)
    (hT : ∀ b c, proj (Cell.setTopShown b c) = proj c)
    (hB : ∀ b c, proj (Cell.setBottomShown b c) = proj c)
    (hL : ∀ b c, proj (Cell.setLeftShown b c) = proj c)
    (hR : ∀ b c, proj (Cell.setRightShown b c) = proj c)
    (hself : x ≠ p ∨ ∀ (f : Cell → Cell), (∀ c, (f c).isGoal = c.isGoal ∧
      (f c).rowNumber = c.rowNumber ∧ (f c).columnNumber = c.columnNumber ∧
      (f c).visited = c.visited ∧ (f c).wallToRotate = c.wallToRotate) → ∀ c, proj (f c) = proj c) :
    fieldAt g' x proj = fieldAt g x proj := by
  have hself' : ∀ (f : Cell → Cell), (∀ c, (f c).isGoal = c.isGoal ∧
      (f c).rowNumber = c.rowNumber ∧ (f c).columnNumber = c.columnNumber ∧
      (f c).visited = c.visited ∧ (f c).wallToRotate = c.wallToRotate) → ∀ (g0 : Grid),
      fieldAt (modifyCell g0 p f) x proj = fieldAt g0 x proj := by
    intro f hf g0
    rcases hself with hne | hs
    · exact fieldAt_modifyCell_ne g0 f proj hne
    · exact fieldAt_modifyCell_keep g0 p x f proj (hs f hf)
  have h1 := hself' (fun c => Cell.setLeftTheta (c.walls.leftWall.theta + 2) c)
    (fun c => ⟨rfl, rfl, rfl, rfl, rfl⟩)
  have h2 := hself' Cell.finishLeft (fun c => ⟨rfl, rfl, rfl, rfl, rfl⟩)
  have h3 := hself' (Cell.setIsRotating false) (fun c => ⟨rfl, rfl, rfl, rfl, rfl⟩)
  have hset := modifyCell_settersKeep proj hT hB hL hR
  unfold rotateLeftWall at h
  split at h
  · cases h
  · split at h
    · cases h
    · split at h
      · cases h
      · rename_i g1 hw1
        rw [writeCell_some hw1] at h
        split at h
        · cases h
        · split at h
          · cases h
            simp only [h1, h2, h3, (hset _ _ _ _).1, (hset _ _ _ _).2.1, (hset _ _ _ _).2.2.1,
              (hset _ _ _ _).2.2.2]
          · dsimp only at h
            split at h
            · split at h
              · cases h
              · rename_i g3 hw3
                rw [writeCell_some hw3] at h
                cases h
                simp only [h1, h2, h3, (hset _ _ _ _).1, (hset _ _ _ _).2.1, (hset _ _ _ _).2.2.1,
                  (hset _ _ _ _).2.2.2]
            · cases h
              simp only [h1, h2, h3, (hset _ _ _ _).1, (hset _ _ _ _).2.1, (hset _ _ _ _).2.2.1,
                (hset _ _ _ _).2.2.2]

/-! ## Scramble selection -/

theorem rotateSwitch_keep {β : Type} {g g' : Grid} {p : Ref} {w : Option Nat}
    (h : rotateSwitch g p w = some g') (x : Ref) (proj : Cell → β)
    (hT : ∀ b c, proj (Cell.setTopShown b c) = proj c)
    (hB : ∀ b c, proj (Cell.setBottomShown b c) = proj c)
    (hL : ∀ b c, proj (Cell.setLeftShown b c) = proj c)
    (hR : ∀ b c, proj (Cell.setRightShown b c) = proj c)
    (hself : x ≠ p ∨ ∀ (f : Cell → Cell), (∀ c, (f c).isGoal = c.isGoal ∧
      (f c).rowNumber = c.rowNumber ∧ (f c).columnNumber = c.columnNumber ∧
      (f c).visited = c.visited ∧ (f c).wallToRotate = c.wallToRotate) → ∀ c, proj (f c) = proj c) :
    fieldAt g' x proj = fieldAt g x proj := by
  unfold rotateSwitch at h
  split at h
  · exact rotateTopWall_keep h x proj hT hB hL hR hself
  · exact rotateRightWall_keep h x proj hT hB hL hR hself
  · exact rotateBottomWall_keep h x proj hT hB hL hR hself
  · exact rotateLeftWall_keep h x proj hT hB hL hR hself
  · cases h; rfl

/-- The `forEach` body for the cell at `p` changes, on any other cell, nothing but `isShown`
flags; on `p` itself it leaves `isGoal`, the coordinates and `visited` alone. -/
theorem rotateCell_keep {β : Type} {index : Nat} {g g' : Grid} {p : Ref}
    (h : rotateCell index g p = some g') (x : Ref) (proj : Cell → β)
    (hT : ∀ b c, proj (Cell.setTopShown b c) = proj c)
    (hB : ∀ b c, proj (Cell.setBottomShown b c) = proj c)
    (hL : ∀ b c, proj (Cell.setLeftShown b c) = proj c)
    (hR : ∀ b c, proj (Cell.setRightShown b c) = proj c)
    (hself : x ≠ p ∨ ∀ (f : Cell → Cell), (∀ c, (f c).isGoal = c.isGoal ∧
      (f c).rowNumber = c.rowNumber ∧ (f c).columnNumber = c.columnNumber ∧
      (f c).visited = c.visited) → ∀ c, proj (f c) = proj c) :
    fieldAt g' x proj = fieldAt g x proj := by
  have hself' : ∀ (f : Cell → Cell), (∀ c, (f c).isGoal = c.isGoal ∧
      (f c).rowNumber = c.rowNumber ∧ (f c).columnNumber = c.columnNumber ∧
      (f c).visited = c.visited) → ∀ (g0 : Grid),
      fieldAt (modifyCell g0 p f) x proj = fieldAt g0 x proj := by
    intro f hf g0
    rcases hself with hne | hs
    · exact fieldAt_modifyCell_ne g0 f proj hne
    · exact fieldAt_modifyCell_keep g0 p x f proj (hs f hf)
  have hself5 : x ≠ p ∨ ∀ (f : Cell → Cell), (∀ c, (f c).isGoal = c.isGoal ∧
      (f c).rowNumber = c.rowNumber ∧ (f c).columnNumber = c.columnNumber ∧
      (f c).visited = c.visited ∧ (f c).wallToRotate = c.wallToRotate) →
      ∀ c, proj (f c) = proj c := by
    rcases hself with hne | hs
    · exact Or.inl hne
    · exact Or.inr (fun f hf => hs f (fun c => ⟨(hf c).1, (hf c).2.1, (hf c).2.2.1, (hf c).2.2.2.1⟩))
  have h3 := hself' (Cell.setIsRotating false) (fun c => ⟨rfl, rfl, rfl, rfl⟩)
  have h4 := hself' (Cell.setIsRotating true) (fun c => ⟨rfl, rfl, rfl, rfl⟩)
  have h5 := fun w => hself' (Cell.setWallToRotate w) (fun c => ⟨rfl, rfl, rfl, rfl⟩)
  unfold rotateCell at h
  split at h
  · cases h
  · rename_i cell _
    dsimp only at h
    split at h
    · cases h
    · split at h
      · cases h
      · rename_i g2 hsw
        have e2 := rotateSwitch_keep hsw x proj hT hB hL hR hself5
        have e1 : fieldAt (if index = 0 then
            modifyCell (modifyCell g p (Cell.setWallToRotate (selectRandomWallToRotate g cell))) p
              (Cell.setIsRotating true) else g) x proj = fieldAt g x proj := by
          split
          · rw [h4, h5]
          · rfl
        split at h
        · cases h
          rw [h3, e2, e1]
        · cases h
          rw [e2, e1]

theorem rotateCells_keep {β : Type} {index : Nat} (l : List Ref) {g g' : Grid}
    (h : rotateCells index l g = some g') (x : Ref) (proj : Cell → β)
    (hT : ∀ b c, proj (Cell.setTopShown b c) = proj c)
    (hB : ∀ b c, proj (Cell.setBottomShown b c) = proj c)
    (hL : ∀ b c, proj (Cell.setLeftShown b c) = proj c)
    (hR : ∀ b c, proj (Cell.setRightShown b c) = proj c)
    (hself : x ∉ l ∨ ∀ (f : Cell → Cell), (∀ c, (f c).isGoal = c.isGoal ∧
      (f c).rowNumber = c.rowNumber ∧ (f c).columnNumber = c.columnNumber ∧
      (f c).visited = c.visited) → ∀ c, proj (f c) = proj c) :
    fieldAt g' x proj = fieldAt g x proj := by
  induction l generalizing g with
  | nil =>
    simp only [rotateCells] at h
    cases h; rfl
  | cons p ps ih =>
    simp only [rotateCells] at h
    split at h
    · cases h
    · rename_i g1 h1
      have hs1 : x ≠ p ∨ ∀ (f : Cell → Cell), (∀ c, (f c).isGoal = c.isGoal ∧
          (f c).rowNumber = c.rowNumber ∧ (f c).columnNumber = c.columnNumber ∧
          (f c).visited = c.visited) → ∀ c, proj (f c) = proj c := by
        rcases hself with hn | hs
        · exact Or.inl (fun e => hn (e ▸ List.mem_cons_self _ _))
        · exact Or.inr hs
      have hs2 : x ∉ ps ∨ ∀ (f : Cell → Cell), (∀ c, (f c).isGoal = c.isGoal ∧
          (f c).rowNumber = c.rowNumber ∧ (f c).columnNumber = c.columnNumber ∧
          (f c).visited = c.visited) → ∀ c, proj (f c) = proj c := by
        rcases hself with hn | hs
        · exact Or.inl (fun e => hn (List.mem_cons_of_mem _ e))
        · exact Or.inr hs
      rw [ih h hs2, rotateCell_keep h1 x proj hT hB hL hR hs1]

theorem randomIndex_lt (rnd n : Nat) : randomIndex rnd n < max n 1 := by
  unfold randomIndex
  split
  · omega
  · exact lt_of_lt_of_le (Nat.mod_lt _ (by omega)) (le_max_left _ _)

/-- What `getRandomCell` returns is a cell of the grid that passed the three checks. -/
theorem getRandomCell_spec (m : Maze) (ds : List (Nat × Nat)) {p : Ref} {ds' : List (Nat × Nat)}
    (h : getRandomCell m ds = some (p, ds')) :
    ∃ c, cellAt m.grid p = some c ∧ c.isGoal = false ∧ verifyNonBorderWallsExist m c = true ∧
      p.1 < max m.rows 1 ∧ p.2 < max m.columns 1 := by
  induction ds with
  | nil => simp [getRandomCell] at h
  | cons d ds ih =>
    simp only [getRandomCell] at h
    split at h
    · cases h
    · cases h
    · rename_i q hq
      split at h
      · cases h
      · rename_i c hc
        split at h
        · exact ih h
        · rename_i hchk
          cases h
          simp only [Bool.or_eq_true, Bool.not_eq_true', not_or, Bool.not_eq_false,
            verifyCellIsNotGoal, Bool.not_eq_true] at hchk
          refine ⟨c, hc, by simpa using hchk.1.1, hchk.2, ?_⟩
          unfold readRef at hq
          split at hq
          · cases hq
          · simp only [Option.some.injEq] at hq
            split at hq
            · cases hq
              exact ⟨randomIndex_lt _ _, randomIndex_lt _ _⟩
            · cases hq

theorem selectLoop_spec (count : Nat) : ∀ (m : Maze) (ds : List (Nat × Nat)) {m' : Maze}
    {ds' : List (Nat × Nat)}, selectLoop count m ds = some (m', ds') →
    m'.grid = m.grid ∧ m'.rows = m.rows ∧ m'.columns = m.columns ∧ m'.stack = m.stack ∧
      m'.currentCell = m.currentCell ∧
      ∃ added, m'.cellsToRotate = m.cellsToRotate ++ added ∧ added.length = count ∧
        ∀ p, p ∈ added → fieldAt m.grid p (fun c => c.isGoal) = some false := by
  induction count with
  | zero =>
    intro m ds m' ds' h
    simp only [selectLoop, Option.some.injEq, Prod.mk.injEq] at h
    obtain ⟨rfl, -⟩ := h
    exact ⟨rfl, rfl, rfl, rfl, rfl, [], by simp, rfl, by simp⟩
  | succ n ih =>
    intro m ds m' ds' h
    simp only [selectLoop] at h
    split at h
    · cases h
    · rename_i p ds1 hp
      obtain ⟨c, hc, hgoal, -, -⟩ := getRandomCell_spec m ds hp
      obtain ⟨e1, e2, e3, e4, e5, added, hadd, hlen, hall⟩ := ih _ _ h
      refine ⟨e1, e2, e3, e4, e5, p :: added, ?_, by simp [hlen], ?_⟩
      · rw [hadd]; simp
      · intro q hq
        rcases List.mem_cons.mp hq with rfl | hq
        · simp [fieldAt, hc, hgoal]
        · exact hall q hq

theorem selectCellsToRotate_spec {dimRows : Nat} {m m' : Maze} {ds ds' : List (Nat × Nat)}
    (h : selectCellsToRotate dimRows m ds = some (m', ds')) :
    m'.grid = m.grid ∧ m'.rows = m.rows ∧ m'.columns = m.columns ∧ m'.stack = m.stack ∧
      m'.currentCell = m.currentCell ∧ m'.cellsToRotate.length = dimRows * 2 ∧
      ∀ p, p ∈ m'.cellsToRotate → fieldAt m'.grid p (fun c => c.isGoal) = some false := by
  unfold selectCellsToRotate at h
  obtain ⟨e1, e2, e3, e4, e5, added, hadd, hlen, hall⟩ := selectLoop_spec _ _ _ h
  refine ⟨e1, e2, e3, e4, e5, ?_, ?_⟩
  · rw [hadd]; simpa using hlen
  · intro p hp
    rw [hadd] at hp
    rw [e1]
    exact hall p (by simpa using hp)

/-! ## The goal cell is never selected and never rotates -/

theorem moveTo_frame {s s' : State} {next : Option (Option Ref)} (h : moveTo s next = some s') :
    s'.maze.grid = s.maze.grid ∧ s'.maze.cellsToRotate = s.maze.cellsToRotate := by
  unfold moveTo at h
  split at h
  · split at h
    · cases h
    · dsimp only at h
      split at h
      · cases h
      · split at h
        · cases h
        · cases h
          constructor <;> (simp only; split <;> rfl)
  · cases h

theorem move_frame {s s' : State} {key : Key} (h : move s key = some s') :
    s'.maze.grid = s.maze.grid ∧ s'.maze.cellsToRotate = s.maze.cellsToRotate := by
  unfold move at h
  split at h
  · cases h; exact ⟨rfl, rfl⟩
  · split at h
    · cases h
    · split at h
      · cases h
      · dsimp only at h
        split at h <;> first
          | (cases h; exact ⟨rfl, rfl⟩)
          | (split at h
             · exact moveTo_frame h
             · cases h; exact ⟨rfl, rfl⟩)

theorem rotateCellWalls_frame {m m' : Maze} {index : Nat} (h : rotateCellWalls m index = some m') :
    m'.cellsToRotate = m.cellsToRotate ∧
      rotateCells index m.cellsToRotate m.grid = some m'.grid := by
  unfold rotateCellWalls at h
  split at h
  · cases h
  · rename_i g hg
    cases h
    exact ⟨rfl, hg⟩

/-- In every reachable state no selected cell is the goal, and a goal cell is not rotating. -/
theorem reachable_goal_inv {R C : Nat} {s : State} (h : Reachable R C s) :
    (∀ p, p ∈ s.maze.cellsToRotate → fieldAt s.maze.grid p (fun c => c.isGoal) = some false) ∧
      ∀ x, fieldAt s.maze.grid x (fun c => c.isGoal) = some true →
        fieldAt s.maze.grid x (fun c => c.isRotating) = some false := by
  have split2 : ∀ (g : Grid) (x : Ref) (a b : Bool),
      fieldAt g x (fun c => (c.isGoal, c.isRotating)) = some (a, b) ↔
        fieldAt g x (fun c => c.isGoal) = some a ∧ fieldAt g x (fun c => c.isRotating) = some b := by
    intro g x a b
    unfold fieldAt
    cases cellAt g x <;> simp
  have transfer : ∀ (g g' : Grid),
      (∀ x, fieldAt g' x (fun c => (c.isGoal, c.isRotating))
        = fieldAt g x (fun c => (c.isGoal, c.isRotating))) →
      ∀ x, fieldAt g' x (fun c => c.isGoal) = fieldAt g x (fun c => c.isGoal) ∧
        fieldAt g' x (fun c => c.isRotating) = fieldAt g x (fun c => c.isRotating) := by
    intro g g' hx x
    have := hx x
    unfold fieldAt at this ⊢
    cases h1 : cellAt g' x <;> cases h2 : cellAt g x <;> simp_all
  induction h with
  | fresh hf =>
    obtain ⟨hR, hC⟩ := freshState_pos hf
    rw [freshState_eq hR hC] at hf
    cases Option.some.inj hf
    constructor
    · intro p hp; simp [initialState] at hp
    · intro x _
      show fieldAt (freshGrid R C) x (fun c => c.isRotating) = some false
      have hx : fieldAt (freshGrid R C) x (fun c => c.isGoal) = some true := by assumption
      unfold fieldAt at hx ⊢
      rw [cellAt_freshGrid] at hx ⊢
      split
      · split <;> rfl
      · rename_i hn; simp [hn] at hx
  | byDraw rnd _ hd ih =>
    obtain ⟨e1, -, -, e2⟩ := draw_flags hd
    have e3 := transfer _ _ e2
    constructor
    · intro p hp
      rw [(e3 p).1]; exact ih.1 p (e1 ▸ hp)
    · intro x hx
      rw [(e3 x).2]; exact ih.2 x ((e3 x).1 ▸ hx)
  | bySelect dimRows ds _ hsel ih =>
    obtain ⟨e1, -, -, -, -, -, hall⟩ := selectCellsToRotate_spec hsel
    constructor
    · exact hall
    · intro x hx
      simp only at hx ⊢
      rw [e1] at hx ⊢
      exact ih.2 x hx
  | byRotate index _ hrot ih =>
    obtain ⟨e1, hcells⟩ := rotateCellWalls_frame hrot
    have hgoal : ∀ x, fieldAt _ x (fun c => c.isGoal) = fieldAt _ x (fun c => c.isGoal) :=
      fun x => rotateCells_keep _ hcells x (fun c => c.isGoal) (fun _ _ => rfl) (fun _ _ => rfl)
        (fun _ _ => rfl) (fun _ _ => rfl) (Or.inr (fun f hf c => (hf c).1))
    constructor
    · intro p hp
      simp only at hp ⊢
      rw [hgoal p]; exact ih.1 p (e1 ▸ hp)
    · intro x hx
      simp only at hx ⊢
      rw [hgoal x] at hx
      have hnot : x ∉ _ := fun hm => by
        have := ih.1 x hm
        rw [hx] at this
        exact absurd this (by simp)
      rw [rotateCells_keep _ hcells x (fun c => c.isRotating) (fun _ _ => rfl) (fun _ _ => rfl)
        (fun _ _ => rfl) (fun _ _ => rfl) (Or.inl hnot)]
      exact ih.2 x hx
  | byMove key _ hm ih =>
    obtain ⟨e1, e2⟩ := move_frame hm
    rw [e1, e2]; exact ih

/-- C9. Whenever `getRandomCell` returns, the cell it returns has `isGoal = false`; so after
`selectCellsToRotate` no member of `cellsToRotate` is the goal cell; and in every reachable
state a cell with `isGoal = true` has `isRotating = false`. -/
theorem goal_cell_never_selected :
    (∀ (m : Maze) (ds : List (Nat × Nat)) (p : Ref) (ds' : List (Nat × Nat)),
        getRandomCell m ds = some (p, ds') → fieldAt m.grid p (fun c => c.isGoal) = some false) ∧
    (∀ (dimRows : Nat) (m m' : Maze) (ds ds' : List (Nat × Nat)),
        selectCellsToRotate dimRows m ds = some (m', ds') →
        ∀ p, p ∈ m'.cellsToRotate → fieldAt m'.grid p (fun c => c.isGoal) = some false) ∧
    (∀ (R C : Nat) (s : State), Reachable R C s →
        ∀ x, fieldAt s.maze.grid x (fun c => c.isGoal) = some true →
          fieldAt s.maze.grid x (fun c => c.isRotating) = some false) := by
  refine ⟨?_, ?_, ?_⟩
  · intro m ds p ds' h
    obtain ⟨c, hc, hgoal, -, -⟩ := getRandomCell_spec m ds h
    simp [fieldAt, hc, hgoal]
  · intro dimRows m m' ds ds' h
    exact (selectCellsToRotate_spec h).2.2.2.2.2.2
  · intro R C s h
    exact (reachable_goal_inv h).2

theorem goal_cell_never_selected_witness :
    ∃ s, runDraws (initialState 2 2) [1, 0, 0, 0, 0, 0] = some s ∧
      ∃ p ds', getRandomCell s.maze [(1, 1), (0, 1), (0, 0)] = some (p, ds') ∧
        fieldAt s.maze.grid p (fun c => c.isGoal) = some false := by
  have h : ∃ s, runDraws (initialState 2 2) [1, 0, 0, 0, 0, 0] = some s ∧
      (getRandomCell s.maze [(1, 1), (0, 1), (0, 0)]).isSome = true := by decide
  obtain ⟨s, hs, hsome⟩ := h
  obtain ⟨⟨p, ds'⟩, hr⟩ := Option.isSome_iff_exists.mp hsome
  exact ⟨s, hs, p, ds', hr, goal_cell_never_selected.1 s.maze _ p ds' hr⟩

/-- C10 (the code at the failing input). `verifyUniqueRandomCell` returns `true` for every
cell, because its `return false` only leaves the `forEach` callback; on the generated `2 x 2`
maze four draws of cell `(0, 0)` put that cell into `cellsToRotate` four times. -/
theorem verifyUniqueRandomCell_accepts_duplicates :
    (∀ (m : Maze) (c : Cell), verifyUniqueRandomCell m c = true) ∧
      ∃ s, runDraws (initialState 2 2) [1, 0, 0, 0, 0, 0] = some s ∧
        ∃ r, selectCellsToRotate 2 s.maze [(0, 0), (0, 0), (0, 0), (0, 0)] = some r ∧
          r.1.cellsToRotate = [(0, 0), (0, 0), (0, 0), (0, 0)] := by
  constructor
  · intro m c
    unfold verifyUniqueRandomCell
    split <;> rfl
  · decide

/-! ## The four rotation operations as one wall-indexed step -/

theorem cellAt_modifyCell_ne (g : Grid) {p q : Ref} (f : Cell → Cell) (h : q ≠ p) :
    cellAt (modifyCell g p f) q = cellAt g q := by
  rw [cellAt_modifyCell, if_neg h]

/-- On a well-formed square grid each rotation operation is the wall-indexed step; it raises
a TypeError exactly when the cell has no neighbour on the side of the wall. -/
theorem rotateSwitch_eq {n : Nat} {g : Grid} (hg : GridOK n n g) {p : Ref} {cp : Cell}
    (hp : cellAt g p = some cp) {w : Nat} (hw : w < 4) :
    rotateSwitch g p (some w)
      = if hasNbr n p w then some (stepGrid n g p w cp) else none := by
  obtain ⟨hp1, hp2, hr, hc⟩ := hg.cellAt_bound hp
  obtain ⟨p1, p2⟩ := p
  simp only at hp1 hp2 hr hc
  have hlen : g.length = n := hg.1
  have hex : ∀ q : Ref, q.1 < n → q.2 < n → ∃ c, cellAt g q = some c := by
    intro q h1 h2
    obtain ⟨c, h, -, -⟩ := hg.cellAt_some h1 h2
    exact ⟨c, h⟩
  have hnone : ∀ (q : Ref) (f : Cell → Cell), ¬ (q.1 < n ∧ q.2 < n) → writeCell g q f = none := by
    intro q f hq
    unfold writeCell
    cases hcq : cellAt g q with
    | none => rfl
    | some c => exact absurd ⟨(hg.cellAt_bound hcq).1, (hg.cellAt_bound hcq).2.1⟩ hq
  rcases (show w = 0 ∨ w = 1 ∨ w = 2 ∨ w = 3 by omega) with rfl | rfl | rfl | rfl
  · -- top
    simp only [rotateSwitch, rotateTopWall, hp, hr, hc, hasNbr, stepGrid, nbrRef, facingWall,
      intoWall, Cell.wall, Cell.setShown, Cell.advance, Cell.finish]
    by_cases h0 : p1 = 0
    · simp [h0]
    · obtain ⟨cn, hcn⟩ := hex (p1 - 1, p2) (by simp only; omega) hp2
      have hne : (p1, p2) ≠ (p1 - 1, p2) := by simp only [ne_eq, Prod.mk.injEq]; omega
      simp only [h0, if_false, writeCell_eq hcn, cellAt_modifyCell_ne _ _ hne, hp, ne_eq,
        not_false_eq_true, if_true]
      split
      · rfl
      · by_cases h2 : p2 = 0
        · simp [h2]
        · obtain ⟨cl, hcl⟩ := hex (p1, p2 - 1) hp1 (by simp only; omega)
          have hne2 : (p1, p2 - 1) ≠ (p1, p2) := by simp only [ne_eq, Prod.mk.injEq]; omega
          have hne3 : (p1, p2 - 1) ≠ (p1 - 1, p2) := by simp only [ne_eq, Prod.mk.injEq]; omega
          have hcl' : cellAt (modifyCell (modifyCell g (p1 - 1, p2) (Cell.setBottomShown false))
              (p1, p2) Cell.finishTop) (p1, p2 - 1) = some cl := by
            rw [cellAt_modifyCell_ne _ _ hne2, cellAt_modifyCell_ne _ _ hne3, hcl]
          simp only [h2, not_false_eq_true, if_true, writeCell_eq hcl']
  · -- right
    simp only [rotateSwitch, rotateRightWall, hp, hr, hc, hasNbr, stepGrid, nbrRef, facingWall,
      intoWall, Cell.wall, Cell.setShown, Cell.advance, Cell.finish]
    by_cases h0 : p2 + 1 < n
    · obtain ⟨cn, hcn⟩ := hex (p1, p2 + 1) hp1 h0
      have hne : (p1, p2) ≠ (p1, p2 + 1) := by simp only [ne_eq, Prod.mk.injEq]; omega
      simp only [h0, if_true, writeCell_eq hcn, cellAt_modifyCell_ne _ _ hne, hp]
      split
      · rfl
      · by_cases h2 : p1 = 0
        · simp [h2]
        · obtain ⟨cl, hcl⟩ := hex (p1 - 1, p2) (by simp only; omega) hp2
          have hne2 : (p1 - 1, p2) ≠ (p1, p2) := by simp only [ne_eq, Prod.mk.injEq]; omega
          have hne3 : (p1 - 1, p2) ≠ (p1, p2 + 1) := by simp only [ne_eq, Prod.mk.injEq]; omega
          have hcl' : cellAt (modifyCell (modifyCell g (p1, p2 + 1) (Cell.setLeftShown false))
              (p1, p2) Cell.finishRight) (p1 - 1, p2) = some cl := by
            rw [cellAt_modifyCell_ne _ _ hne2, cellAt_modifyCell_ne _ _ hne3, hcl]
          simp only [h2, ne_eq, not_false_eq_true, if_true, writeCell_eq hcl']
    · rw [hnone _ _ (by simp only; omega)]
      simp [h0]
  · -- bottom
    simp only [rotateSwitch, rotateBottomWall, hp, hr, hc, hasNbr, stepGrid, nbrRef, facingWall,
      intoWall, Cell.wall, Cell.setShown, Cell.advance, Cell.finish, hlen]
    by_cases h0 : p1 + 1 < n
    · obtain ⟨cn, hcn⟩ := hex (p1 + 1, p2) h0 hp2
      have hne : (p1, p2) ≠ (p1 + 1, p2) := by simp only [ne_eq, Prod.mk.injEq]; omega
      simp only [h0, if_true, writeCell_eq hcn, cellAt_modifyCell_ne _ _ hne, hp]
      split
      · rfl
      · by_cases h2 : p2 + 1 = n
        · have h2' : ¬ (p2 + 1 < n) := by omega
          simp [h2, h2']
        · have h2' : p2 + 1 < n := by omega
          obtain ⟨cl, hcl⟩ := hex (p1, p2 + 1) hp1 h2'
          have hne2 : (p1, p2 + 1) ≠ (p1, p2) := by simp only [ne_eq, Prod.mk.injEq]; omega
          have hne3 : (p1, p2 + 1) ≠ (p1 + 1, p2) := by simp only [ne_eq, Prod.mk.injEq]; omega
          have hcl' : cellAt (modifyCell (modifyCell g (p1 + 1, p2) (Cell.setTopShown false))
              (p1, p2) Cell.finishBottom) (p1, p2 + 1) = some cl := by
            rw [cellAt_modifyCell_ne _ _ hne2, cellAt_modifyCell_ne _ _ hne3, hcl]
          simp only [h2, h2', ne_eq, not_false_eq_true, if_true, writeCell_eq hcl']
    · rw [hnone _ _ (by simp only; omega)]
      simp [h0]
  · -- left
    simp only [rotateSwitch, rotateLeftWall, hp, hr, hc, hasNbr, stepGrid, nbrRef, facingWall,
      intoWall, Cell.wall, Cell.setShown, Cell.advance, Cell.finish, hlen]
    by_cases h0 : p2 = 0
    · simp [h0]
    · obtain ⟨cn, hcn⟩ := hex (p1, p2 - 1) hp1 (by simp only; omega)
      have hne : (p1, p2) ≠ (p1, p2 - 1) := by simp only [ne_eq, Prod.mk.injEq]; omega
      simp only [h0, if_false, writeCell_eq hcn, cellAt_modifyCell_ne _ _ hne, hp, ne_eq,
        not_false_eq_true, if_true]
      split
      · rfl
      · by_cases h2 : p1 + 1 = n
        · have h2' : ¬ (p1 + 1 < n) := by omega
          simp [h2, h2']
        · have h2' : p1 + 1 < n := by omega
          obtain ⟨cl, hcl⟩ := hex (p1 + 1, p2) h2' hp2
          have hne2 : (p1 + 1, p2) ≠ (p1, p2) := by simp only [ne_eq, Prod.mk.injEq]; omega
          have hne3 : (p1 + 1, p2) ≠ (p1, p2 - 1) := by simp only [ne_eq, Prod.mk.injEq]; omega
          have hcl' : cellAt (modifyCell (modifyCell g (p1, p2 - 1) (Cell.setRightShown false))
              (p1, p2) Cell.finishLeft) (p1 + 1, p2) = some cl := by
            rw [cellAt_modifyCell_ne _ _ hne2, cellAt_modifyCell_ne _ _ hne3, hcl]
          simp only [h2, h2', ne_eq, not_false_eq_true, if_true, writeCell_eq hcl']

/-! ## The wall-indexed step, cell by cell -/

theorem nbrRef_ne_self {n : Nat} {p : Ref} {w : Nat} (h : hasNbr n p w) : nbrRef p w ≠ p := by
  obtain ⟨p1, p2⟩ := p
  unfold hasNbr at h
  unfold nbrRef
  split at h <;> simp only [ne_eq, Prod.mk.injEq] at h ⊢ <;> omega

theorem nbrRef_into_ne {n : Nat} {p : Ref} {w : Nat} (hw : w < 4) (h : hasNbr n p w)
    (h' : hasNbr n p (intoWall w)) : nbrRef p (intoWall w) ≠ nbrRef p w := by
  obtain ⟨p1, p2⟩ := p
  rcases (show w = 0 ∨ w = 1 ∨ w = 2 ∨ w = 3 by omega) with rfl | rfl | rfl | rfl <;>
    simp only [hasNbr, intoWall, nbrRef, ne_eq, Prod.mk.injEq] at h h' ⊢ <;> omega

theorem nbrRef_adjacent {n : Nat} {p : Ref} {w : Nat} (h : hasNbr n p w) :
    adjacent p (nbrRef p w) := by
  obtain ⟨p1, p2⟩ := p
  unfold hasNbr at h
  unfold nbrRef adjacent
  split at h
  · exact Or.inl ⟨by simp only [ne_eq] at h ⊢; omega, rfl⟩
  · exact Or.inr (Or.inr (Or.inl ⟨rfl, rfl⟩))
  · exact Or.inr (Or.inl ⟨rfl, rfl⟩)
  · exact Or.inr (Or.inr (Or.inr ⟨rfl, by simp only [ne_eq] at h ⊢; omega⟩))

theorem nbrRef_inGrid {n : Nat} {p : Ref} {w : Nat} (hp : inGrid n n p) (h : hasNbr n p w) :
    inGrid n n (nbrRef p w) := by
  obtain ⟨p1, p2⟩ := p
  obtain ⟨h1, h2⟩ := hp
  unfold hasNbr at h
  unfold nbrRef inGrid
  simp only at h1 h2
  split at h <;> simp only [ne_eq] at h ⊢ <;> omega

/-- The grid after one wall-indexed step, cell by cell. -/
theorem cellAt_stepGrid {n : Nat} (g : Grid) {p : Ref} {w : Nat} (cp : Cell) (hw : w < 4)
    (h : hasNbr n p w) (x : Ref) :
    cellAt (stepGrid n g p w cp) x =
      if (cp.wall w).theta < (cp.wall w).maxTheta then
        if x = p then (cellAt g x).map (Cell.advance w)
        else if x = nbrRef p w then (cellAt g x).map (Cell.setShown (facingWall w) false)
        else cellAt g x
      else
        if x = p then (cellAt g x).map (fun c => Cell.setIsRotating false (Cell.finish w c))
        else if x = nbrRef p w then (cellAt g x).map (Cell.setShown (facingWall w) false)
        else if x = nbrRef p (intoWall w) ∧ hasNbr n p (intoWall w) then
          (cellAt g x).map (Cell.setShown (facingWall (intoWall w)) true)
        else cellAt g x := by
  have hne := nbrRef_ne_self h
  unfold stepGrid
  by_cases hθ : (cp.wall w).theta < (cp.wall w).maxTheta
  · simp only [hθ, if_true, cellAt_modifyCell]
    by_cases e1 : x = p
    · subst e1
      simp only [if_true, if_neg hne.symm]
    · simp only [e1, if_false]
  · simp only [hθ, if_false]
    by_cases h' : hasNbr n p (intoWall w)
    · have hne2 := nbrRef_ne_self h'
      have hne3 := nbrRef_into_ne hw h h'
      simp only [h', if_true, and_true, cellAt_modifyCell]
      by_cases e1 : x = p
      · subst e1
        simp only [if_true, if_neg hne.symm, if_neg hne2.symm, Option.map_map, Function.comp_def]
      · simp only [e1, if_false]
        by_cases e2 : x = nbrRef p w
        · subst e2
          simp only [if_true, if_neg hne3.symm]
        · simp only [e2, if_false]
    · simp only [h', if_false, and_false, cellAt_modifyCell]
      by_cases e1 : x = p
      · subst e1
        simp only [if_true, if_neg hne.symm, Option.map_map, Function.comp_def]
      · simp only [e1, if_false]

theorem stepGrid_ok {n : Nat} {g : Grid} (hg : GridOK n n g) (p : Ref) (w : Nat) (cp : Cell) :
    GridOK n n (stepGrid n g p w cp) := by
  have hS : ∀ (v : Nat) (b : Bool) (c : Cell), (Cell.setShown v b c).rowNumber = c.rowNumber ∧
      (Cell.setShown v b c).columnNumber = c.columnNumber := by
    intro v b c; unfold Cell.setShown; split <;> exact ⟨rfl, rfl⟩
  have hA : ∀ (v : Nat) (c : Cell), (Cell.advance v c).rowNumber = c.rowNumber ∧
      (Cell.advance v c).columnNumber = c.columnNumber := by
    intro v c; unfold Cell.advance; split <;> exact ⟨rfl, rfl⟩
  have hF : ∀ (v : Nat) (c : Cell), (Cell.finish v c).rowNumber = c.rowNumber ∧
      (Cell.finish v c).columnNumber = c.columnNumber := by
    intro v c; unfold Cell.finish; split <;> exact ⟨rfl, rfl⟩
  unfold stepGrid
  simp only
  split
  · exact (hg.modifyCell _ _ (hS _ _)).modifyCell _ _ (hA _)
  · split
    · exact (((hg.modifyCell _ _ (hS _ _)).modifyCell _ _ (hF _)).modifyCell _ _ (hS _ _)).modifyCell
        _ _ (fun c => ⟨rfl, rfl⟩)
    · exact ((hg.modifyCell _ _ (hS _ _)).modifyCell _ _ (hF _)).modifyCell _ _ (fun c => ⟨rfl, rfl⟩)

/-! ## One run of the `forEach` body of `rotateCellWalls` -/

/-- On a square grid the wall `selectRandomWallToRotate` returns has a neighbour behind it, is
shown, and the wall it rotates into is hidden. -/
theorem select_valid {n : Nat} {g : Grid} (hg : GridOK n n g) {p : Ref} {c : Cell}
    (hp : cellAt g p = some c) {w : Nat} (h : selectRandomWallToRotate g c = some w) :
    w < 4 ∧ hasNbr n p w ∧ (c.wall w).isShown = true ∧ (c.wall (intoWall w)).isShown = false := by
  obtain ⟨hp1, hp2, hr, hc⟩ := hg.cellAt_bound hp
  have hlen : g.length = n := hg.1
  unfold selectRandomWallToRotate at h
  rw [hr, hc, hlen] at h
  split_ifs at h with h0 h1 h2 h3 <;> cases h
  · exact ⟨by omega, h0.2.2, h0.1, by simpa [intoWall, Cell.wall] using h0.2.1⟩
  · exact ⟨by omega, by simp only [hasNbr]; omega, h1.1, by simpa [intoWall, Cell.wall] using h1.2.1⟩
  · exact ⟨by omega, by simp only [hasNbr]; omega, h2.1, by simpa [intoWall, Cell.wall] using h2.2.1⟩
  · exact ⟨by omega, h3.2.2, h3.1, by simpa [intoWall, Cell.wall] using h3.2.1⟩

theorem select_length {g g' : Grid} (h : g'.length = g.length) (c : Cell) :
    selectRandomWallToRotate g' c = selectRandomWallToRotate g c := by
  unfold selectRandomWallToRotate; rw [h]

theorem chosen_coords (g : Grid) (index : Nat) (c : Cell) :
    (chosen g index c).rowNumber = c.rowNumber ∧ (chosen g index c).columnNumber = c.columnNumber := by
  unfold chosen; split <;> exact ⟨rfl, rfl⟩

/-- One run of the `forEach` body for the cell at `p` on a well-formed square grid: it raises
no TypeError when the wall in effect has a neighbour behind it, turns the cell itself into
`ownStep`, and changes other cells by `nbrEffect`. -/
theorem rotateCell_spec {n : Nat} {g : Grid} (hg : GridOK n n g) {p : Ref} {c : Cell}
    (hp : cellAt g p = some c) (index : Nat) (hv : index ≠ 0 → validWall n p c.wallToRotate) :
    ∃ g', rotateCell index g p = some g' ∧ GridOK n n g' ∧
      cellAt g' p = some (ownStep g index c) ∧
      ∀ x, x ≠ p → cellAt g' x = (cellAt g x).map (nbrEffect n p (chosen g index c) x) := by
  -- the grid after the index-0 block
  have hg1 : ∃ g1, (if index = 0 then
        modifyCell (modifyCell g p (Cell.setWallToRotate (selectRandomWallToRotate g c))) p
          (Cell.setIsRotating true) else g) = g1 ∧ GridOK n n g1 ∧
      cellAt g1 p = some (chosen g index c) ∧ ∀ x, x ≠ p → cellAt g1 x = cellAt g x := by
    refine ⟨_, rfl, ?_, ?_, ?_⟩
    · split
      · exact (hg.modifyCell p (Cell.setWallToRotate _) (fun c => ⟨rfl, rfl⟩)).modifyCell p
          (Cell.setIsRotating true) (fun c => ⟨rfl, rfl⟩)
      · exact hg
    · unfold chosen
      split
      · simp only [cellAt_modifyCell, if_true, hp, Option.map_some']
      · exact hp
    · intro x hx
      split
      · rw [cellAt_modifyCell_ne _ _ hx, cellAt_modifyCell_ne _ _ hx]
      · rfl
  obtain ⟨g1, hg1eq, hok1, hp1, hframe1⟩ := hg1
  have hvalid : validWall n p (chosen g index c).wallToRotate := by
    by_cases h0 : index = 0
    · intro w hw _
      unfold chosen at hw
      rw [if_pos h0] at hw
      exact (select_valid hg hp hw).2.1
    · unfold chosen; rw [if_neg h0]; exact hv h0
  have hfin : ∀ (g2 : Grid), GridOK n n g2 →
      GridOK n n (if index > 44 then modifyCell g2 p (Cell.setIsRotating false) else g2) := by
    intro g2 h2
    split
    · exact h2.modifyCell p (Cell.setIsRotating false) (fun c => ⟨rfl, rfl⟩)
    · exact h2
  unfold rotateCell
  simp only [hp, hg1eq, hp1]
  generalize hc1 : chosen g index c = c1 at *
  have hown : ownStep g index c = (if index > 44 then Cell.setIsRotating false else id)
      (match c1.wallToRotate with
        | some w =>
          if w < 4 then
            if (c1.wall w).theta < (c1.wall w).maxTheta then Cell.advance w c1
            else Cell.setIsRotating false (Cell.finish w c1)
          else c1
        | none => c1) := by
    unfold ownStep
    unfold chosen at hc1
    simp only [hc1]
    split <;> rfl
  cases hw : c1.wallToRotate with
  | none =>
    simp only [rotateSwitch]
    refine ⟨_, (apply_ite some _ _ _).symm, hfin g1 hok1, ?_, ?_⟩
    · rw [hown, hw]
      split
      · simp [cellAt_modifyCell, hp1]
      · simpa using hp1
    · intro x hx
      simp only [nbrEffect, hw]
      have : cellAt (if index > 44 then modifyCell g1 p (Cell.setIsRotating false) else g1) x
          = cellAt g1 x := by
        split
        · exact cellAt_modifyCell_ne _ _ hx
        · rfl
      rw [this, hframe1 x hx]; simp
  | some w =>
    by_cases hw4 : w < 4
    · have hnb : hasNbr n p w := hvalid w hw hw4
      rw [rotateSwitch_eq hok1 hp1 hw4, if_pos hnb]
      refine ⟨_, (apply_ite some _ _ _).symm, hfin _ (stepGrid_ok hok1 p w c1), ?_, ?_⟩
      · rw [hown, hw]
        simp only [hw4, if_true]
        have hstep := cellAt_stepGrid (n := n) g1 c1 hw4 hnb p
        simp only [if_true, hp1, Option.map_some'] at hstep
        split
        · rw [cellAt_modifyCell, if_pos rfl, hstep]
          split <;> rfl
        · rw [hstep]
          split <;> rfl
      · intro x hx
        have hstep := cellAt_stepGrid (n := n) g1 c1 hw4 hnb x
        simp only [if_neg hx, hframe1 x hx] at hstep
        have : cellAt (if index > 44 then modifyCell (stepGrid n g1 p w c1) p
            (Cell.setIsRotating false) else stepGrid n g1 p w c1) x
            = cellAt (stepGrid n g1 p w c1) x := by
          split
          · exact cellAt_modifyCell_ne _ _ hx
          · rfl
        rw [this, hstep]
        simp only [nbrEffect, hw, hw4, if_true]
        by_cases hθ : (c1.wall w).theta < (c1.wall w).maxTheta
        · simp only [hθ, if_true, not_true_eq_false, false_and, if_false]
          split
          · rfl
          · simp
        · simp only [hθ, if_false, not_false_eq_true, true_and]
          split
          · rfl
          · split
            · rfl
            · simp
    · have hsw : rotateSwitch g1 p (some w) = some g1 := by
        unfold rotateSwitch
        split
        · rename_i heq; cases heq; omega
        · rename_i heq; cases heq; omega
        · rename_i heq; cases heq; omega
        · rename_i heq; cases heq; omega
        · rfl
      rw [hsw]
      refine ⟨_, (apply_ite some _ _ _).symm, hfin g1 hok1, ?_, ?_⟩
      · rw [hown, hw]
        simp only [hw4, if_false]
        split
        · simp [cellAt_modifyCell, hp1]
        · simpa using hp1
      · intro x hx
        simp only [nbrEffect, hw, hw4, if_false]
        have : cellAt (if index > 44 then modifyCell g1 p (Cell.setIsRotating false) else g1) x
            = cellAt g1 x := by
          split
          · exact cellAt_modifyCell_ne _ _ hx
          · rfl
        rw [this, hframe1 x hx]; simp

/-! ## One tick over the whole selection -/

theorem nbrEffect_wallToRotate (n : Nat) (p : Ref) (c1 : Cell) (x : Ref) (c : Cell) :
    (nbrEffect n p c1 x c).wallToRotate = c.wallToRotate := by
  have hS : ∀ (v : Nat) (b : Bool) (c : Cell), (Cell.setShown v b c).wallToRotate = c.wallToRotate := by
    intro v b c; unfold Cell.setShown; split <;> rfl
  unfold nbrEffect
  cases c1.wallToRotate with
  | none => rfl
  | some w =>
    dsimp only
    by_cases h4 : w < 4
    · rw [if_pos h4]
      by_cases h1 : x = nbrRef p w
      · rw [if_pos h1]; exact hS _ _ _
      · rw [if_neg h1]
        split
        · exact hS _ _ _
        · rfl
    · rw [if_neg h4]; rfl

/-- A rotation call of the cell at `p` does nothing to a cell that is not a neighbour of `p`. -/
theorem nbrEffect_far {n : Nat} {p : Ref} {c1 : Cell} (hv : validWall n p c1.wallToRotate)
    {x : Ref} (hx : ¬ adjacent p x) : nbrEffect n p c1 x = id := by
  unfold nbrEffect
  split
  · rename_i w hw
    split
    · rename_i hw4
      have hnb := hv w hw hw4
      have h1 : x ≠ nbrRef p w := fun e => hx (e ▸ nbrRef_adjacent hnb)
      rw [if_neg h1]
      split
      · rename_i h2
        exact absurd (h2.2.1 ▸ nbrRef_adjacent h2.2.2) hx
      · rfl
    · rfl
  · rfl

theorem ownStep_wallToRotate (g : Grid) {index : Nat} (h : index ≠ 0) (c : Cell) :
    (ownStep g index c).wallToRotate = c.wallToRotate := by
  have hA : ∀ (v : Nat) (c : Cell), (Cell.advance v c).wallToRotate = c.wallToRotate := by
    intro v c; unfold Cell.advance; split <;> rfl
  have hF : ∀ (v : Nat) (c : Cell), (Cell.finish v c).wallToRotate = c.wallToRotate := by
    intro v c; unfold Cell.finish; split <;> rfl
  have h2 : ∀ c2 : Cell, (if index > 44 then Cell.setIsRotating false c2 else c2).wallToRotate
      = c2.wallToRotate := by
    intro c2; split <;> rfl
  unfold ownStep
  simp only [if_neg h]
  rw [h2]
  split
  · split
    · split
      · exact hA _ _
      · exact hF _ _
    · rfl
  · rfl

theorem ownStep_wallToRotate_zero (g : Grid) (c : Cell) :
    (ownStep g 0 c).wallToRotate = selectRandomWallToRotate g c := by
  have hA : ∀ (v : Nat) (c : Cell), (Cell.advance v c).wallToRotate = c.wallToRotate := by
    intro v c; unfold Cell.advance; split <;> rfl
  have hF : ∀ (v : Nat) (c : Cell), (Cell.finish v c).wallToRotate = c.wallToRotate := by
    intro v c; unfold Cell.finish; split <;> rfl
  unfold ownStep
  simp only [if_true, gt_iff_lt, Nat.not_lt_zero, if_false]
  split
  · split
    · split
      · rw [hA]; rfl
      · show (Cell.finish _ _).wallToRotate = _
        rw [hF]; rfl
    · rfl
  · rfl

theorem ownStep_length {g g' : Grid} (h : g'.length = g.length) (index : Nat) (c : Cell) :
    ownStep g' index c = ownStep g index c := by
  unfold ownStep; rw [select_length h]

/-- One tick on a well-formed square grid: `rotateCellWalls(index)` raises no TypeError (at an
index other than 0 provided the walls set to rotate have a neighbour behind them), afterwards
every selected cell's wall has a neighbour behind it, and a cell with no selected neighbour is
changed by its own calls only. -/
theorem rotateCells_spec {n : Nat} (index : Nat) (l : List Ref) : ∀ {g : Grid}, GridOK n n g →
    (∀ y, y ∈ l → inGrid n n y) →
    (index ≠ 0 → ∀ y, y ∈ l → ∀ cy, cellAt g y = some cy → validWall n y cy.wallToRotate) →
    ∃ g', rotateCells index l g = some g' ∧ GridOK n n g' ∧
      (∀ y, (y ∈ l ∨ ∀ cy, cellAt g y = some cy → validWall n y cy.wallToRotate) →
        ∀ cy, cellAt g' y = some cy → validWall n y cy.wallToRotate) ∧
      ∀ x c, cellAt g x = some c → (∀ y, y ∈ l → ¬ adjacent y x) →
        cellAt g' x = some ((ownStep g index)^[l.count x] c) := by
  induction l with
  | nil =>
    intro g hg _ _
    refine ⟨g, rfl, hg, ?_, ?_⟩
    · intro y hy cy hcy
      rcases hy with hy | hy
      · simp at hy
      · exact hy cy hcy
    · intro x c hc _; simpa using hc
  | cons p ps ih =>
    intro g hg hin hval
    obtain ⟨hp1, hp2⟩ := hin p (List.mem_cons_self _ _)
    obtain ⟨cp, hcp, -, -⟩ := hg.cellAt_some hp1 hp2
    obtain ⟨g1, hrot, hok1, hown, hothers⟩ := rotateCell_spec hg hcp index
      (fun h0 => hval h0 p (List.mem_cons_self _ _) cp hcp)
    have hlen : g1.length = g.length := by rw [hok1.1, hg.1]
    -- the wall in effect for this call has a neighbour behind it
    have hvp : validWall n p (chosen g index cp).wallToRotate := by
      by_cases h0 : index = 0
      · intro w hw _
        unfold chosen at hw
        rw [if_pos h0] at hw
        exact (select_valid hg hcp hw).2.1
      · unfold chosen; rw [if_neg h0]
        exact hval h0 p (List.mem_cons_self _ _) cp hcp
    have hvp1 : validWall n p (ownStep g index cp).wallToRotate := by
      by_cases h0 : index = 0
      · subst h0
        rw [ownStep_wallToRotate_zero]
        intro w hw _
        exact (select_valid hg hcp hw).2.1
      · rw [ownStep_wallToRotate g h0]
        exact hval h0 p (List.mem_cons_self _ _) cp hcp
    -- validity is kept by the call
    have hkeep : ∀ y, (y = p ∨ ∀ cy, cellAt g y = some cy → validWall n y cy.wallToRotate) →
        ∀ cy, cellAt g1 y = some cy → validWall n y cy.wallToRotate := by
      intro y hy cy hcy
      by_cases e : y = p
      · subst e
        rw [hown] at hcy
        cases Option.some.inj hcy
        exact hvp1
      · rcases hy with hy | hy
        · exact absurd hy e
        · rw [hothers y e] at hcy
          cases hcy0 : cellAt g y with
          | none => simp [hcy0] at hcy
          | some cy0 =>
            simp only [hcy0, Option.map_some', Option.some.injEq] at hcy
            rw [← hcy, nbrEffect_wallToRotate]
            exact hy cy0 hcy0
    obtain ⟨g', hrest, hok', hvalid', htrack'⟩ := ih hok1
      (fun y hy => hin y (List.mem_cons_of_mem _ hy))
      (fun h0 y hy cy hcy => hkeep y (Or.inr (hval h0 y (List.mem_cons_of_mem _ hy))) cy hcy)
    refine ⟨g', by simp only [rotateCells, hrot, hrest], hok', ?_, ?_⟩
    · intro y hy
      apply hvalid' y
      rcases hy with hy | hy
      · rcases List.mem_cons.mp hy with e | e
        · exact Or.inr (hkeep y (Or.inl e))
        · exact Or.inl e
      · exact Or.inr (hkeep y (Or.inr hy))
    · intro x c hc hfar
      have hfar' : ∀ y, y ∈ ps → ¬ adjacent y x := fun y hy => hfar y (List.mem_cons_of_mem _ hy)
      have hown_eq : ∀ c', (ownStep g1 index)^[ps.count x] c' = (ownStep g index)^[ps.count x] c' := by
        intro c'
        have : ownStep g1 index = ownStep g index := funext (ownStep_length hlen index)
        rw [this]
      by_cases e : x = p
      · subst e
        rw [hcp] at hc
        cases Option.some.inj hc
        rw [htrack' x _ hown hfar', hown_eq, List.count_cons_self, Function.iterate_succ_apply]
      · have hx : cellAt g1 x = some c := by
          rw [hothers x e, hc, nbrEffect_far hvp (hfar p (List.mem_cons_self _ _))]
          rfl
        rw [htrack' x _ hx hfar', hown_eq, List.count_cons_of_ne e]

/-- Any number of ticks on a well-formed square grid: no call raises a TypeError, the selection
is kept, and a cell with no selected neighbour is changed by its own calls only. -/
theorem rotateTicks_spec {n : Nat} (m : Maze) (hg : GridOK n n m.grid)
    (hin : ∀ y, y ∈ m.cellsToRotate → inGrid n n y) (k : Nat) :
    ∃ m', rotateTicks k m = some m' ∧ m' = { m with grid := m'.grid } ∧ GridOK n n m'.grid ∧
      (k ≠ 0 → ∀ y, y ∈ m.cellsToRotate → ∀ cy, cellAt m'.grid y = some cy →
        validWall n y cy.wallToRotate) ∧
      ∀ x c, cellAt m.grid x = some c → (∀ y, y ∈ m.cellsToRotate → ¬ adjacent y x) →
        cellAt m'.grid x = some (ownTicks m.grid (m.cellsToRotate.count x) k c) := by
  induction k with
  | zero =>
    exact ⟨m, rfl, rfl, hg, fun h => absurd rfl h, fun x c hc _ => hc⟩
  | succ k ih =>
    obtain ⟨m1, hrun, hm1, hok1, hval1, htrack1⟩ := ih
    have hsel : m1.cellsToRotate = m.cellsToRotate := by rw [hm1]
    obtain ⟨g', hrot, hok', hval', htrack'⟩ := rotateCells_spec k m.cellsToRotate hok1 hin hval1
    have hlen : m1.grid.length = m.grid.length := by rw [hok1.1, hg.1]
    refine ⟨{ m1 with grid := g' }, ?_, ?_, hok', ?_, ?_⟩
    · simp only [rotateTicks, hrun, rotateCellWalls, hsel, hrot]
    · rw [hm1]
    · intro _ y hy cy hcy
      exact hval' y (Or.inl hy) cy hcy
    · intro x c hc hfar
      show cellAt g' x = _
      rw [htrack' x _ (htrack1 x c hc hfar) hfar]
      have : ownStep m1.grid k = ownStep m.grid k := funext (ownStep_length hlen k)
      rw [this]
      rfl

/-! ## The rotation operations on the cell itself, wall by wall -/

theorem advance_wall {w v : Nat} (hw : w < 4) (hv : v < 4) (c : Cell) :
    (Cell.advance w c).wall v
      = if v = w then { c.wall w with theta := (c.wall w).theta + 2 } else c.wall v := by
  interval_cases w <;> interval_cases v <;> rfl

theorem advance_fields (w : Nat) (c : Cell) :
    (Cell.advance w c).wallToRotate = c.wallToRotate ∧
    (Cell.advance w c).isRotating = c.isRotating ∧
    (Cell.advance w c).getShownWalls = c.getShownWalls := by
  unfold Cell.advance; split <;> exact ⟨rfl, rfl, rfl⟩

theorem finish_wall {w v : Nat} (hw : w < 4) (hv : v < 4) (c : Cell) :
    (Cell.finish w c).wall v
      = if v = w then { c.wall w with isShown := false, theta := restTheta w }
        else if v = intoWall w then { c.wall v with isShown := true, theta := restTheta v }
        else c.wall v := by
  interval_cases w <;> interval_cases v <;> rfl

theorem finish_fields (w : Nat) (c : Cell) :
    (Cell.finish w c).wallToRotate = c.wallToRotate ∧
    (Cell.finish w c).isRotating = c.isRotating := by
  unfold Cell.finish; split <;> exact ⟨rfl, rfl⟩

theorem setShown_wall {w v : Nat} (hw : w < 4) (hv : v < 4) (b : Bool) (c : Cell) :
    (Cell.setShown w b c).wall v = if v = w then { c.wall w with isShown := b } else c.wall v := by
  interval_cases w <;> interval_cases v <;> rfl

theorem intoWall_lt {w : Nat} (hw : w < 4) : intoWall w < 4 ∧ intoWall w ≠ w := by
  interval_cases w <;> exact ⟨by decide, by decide⟩

theorem facingWall_lt {w : Nat} (hw : w < 4) :
    facingWall w < 4 ∧ facingWall (facingWall w) = w := by
  interval_cases w <;> exact ⟨by decide, by decide⟩

theorem getShownWalls_eq (c : Cell) :
    c.getShownWalls = [(c.wall 0).isShown, (c.wall 1).isShown, (c.wall 2).isShown,
      (c.wall 3).isShown] := rfl

/-- Completing a rotation swaps a shown wall for a hidden one (or changes no flag), so the
number of open walls stays. -/
theorem finish_openWalls {w : Nat} (hw : w < 4) (c : Cell)
    (h : (c.wall w).isShown ≠ (c.wall (intoWall w)).isShown) :
    (Cell.finish w c).openWalls = c.openWalls := by
  rcases c with ⟨r, cl, vis, ir, ig, wr, ⟨⟨a, ta, ma⟩, ⟨b, tb, mb⟩, ⟨l, tl, ml⟩, ⟨rr, tr, mr⟩⟩⟩
  interval_cases w <;> cases a <;> cases b <;> cases l <;> cases rr <;>
    first | rfl | exact absurd rfl h

/-- One run of the `forEach` body keeps the number of open walls of the cell itself, and leaves
exactly one of the rotating wall and the wall it rotates into shown. -/
theorem ownStep_openWalls (g : Grid) (index : Nat) (c : Cell) (h : index ≠ 0 → c.oneShown) :
    (ownStep g index c).oneShown ∧ (ownStep g index c).openWalls = c.openWalls := by
  have hc1 : (chosen g index c).oneShown ∧ (chosen g index c).getShownWalls = c.getShownWalls
      ∧ ∀ v, (chosen g index c).wall v = c.wall v := by
    unfold chosen
    by_cases h0 : index = 0
    · rw [if_pos h0]
      refine ⟨?_, rfl, fun v => ?_⟩
      · intro w hw hw4
        have hw' : selectRandomWallToRotate g c = some w := hw
        have hflags : (c.wall w).isShown = true ∧ (c.wall (intoWall w)).isShown = false := by
          unfold selectRandomWallToRotate at hw'
          split_ifs at hw' with h0 h1 h2 h3 <;> cases hw'
          · exact ⟨h0.1, by simpa [intoWall, Cell.wall] using h0.2.1⟩
          · exact ⟨h1.1, by simpa [intoWall, Cell.wall] using h1.2.1⟩
          · exact ⟨h2.1, by simpa [intoWall, Cell.wall] using h2.2.1⟩
          · exact ⟨h3.1, by simpa [intoWall, Cell.wall] using h3.2.1⟩
        show (c.wall w).isShown ≠ (c.wall (intoWall w)).isShown
        rw [hflags.1, hflags.2]; decide
      · unfold Cell.wall; split <;> rfl
    · rw [if_neg h0]; exact ⟨h h0, rfl, fun _ => rfl⟩
  have hopen : (chosen g index c).openWalls = c.openWalls := by
    unfold Cell.openWalls; rw [hc1.2.1]
  have key : ∀ c1 : Cell, c1.oneShown → ∀ c2 : Cell,
      c2 = (match c1.wallToRotate with
        | some w =>
          if w < 4 then
            if (c1.wall w).theta < (c1.wall w).maxTheta then Cell.advance w c1
            else Cell.setIsRotating false (Cell.finish w c1)
          else c1
        | none => c1) → c2.oneShown ∧ c2.openWalls = c1.openWalls := by
    intro c1 h1 c2 hc2
    cases hw : c1.wallToRotate with
    | none =>
      simp only [hw] at hc2
      subst hc2; exact ⟨h1, rfl⟩
    | some w =>
      simp only [hw] at hc2
      by_cases hw4 : w < 4
      · rw [if_pos hw4] at hc2
        obtain ⟨hi4, hine⟩ := intoWall_lt hw4
        by_cases hth : (c1.wall w).theta < (c1.wall w).maxTheta
        · rw [if_pos hth] at hc2
          subst hc2
          refine ⟨?_, ?_⟩
          · intro v hv hv4
            rw [(advance_fields w c1).1, hw] at hv
            cases hv
            rw [advance_wall hw4 hw4, advance_wall hw4 hi4, if_pos rfl, if_neg hine]
            exact h1 w hw hw4
          · unfold Cell.openWalls; rw [(advance_fields w c1).2.2]
        · rw [if_neg hth] at hc2
          subst hc2
          refine ⟨?_, ?_⟩
          · intro v hv hv4
            have : (Cell.finish w c1).wallToRotate = some v := hv
            rw [(finish_fields w c1).1, hw] at this
            cases this
            show ((Cell.finish w c1).wall w).isShown ≠ ((Cell.finish w c1).wall (intoWall w)).isShown
            rw [finish_wall hw4 hw4, finish_wall hw4 hi4, if_pos rfl, if_neg hine, if_pos rfl]
            exact Bool.false_ne_true
          · exact finish_openWalls hw4 c1 (h1 w hw hw4)
      · rw [if_neg hw4] at hc2
        subst hc2; exact ⟨h1, rfl⟩
  obtain ⟨k1, k2⟩ := key (chosen g index c) hc1.1 _ rfl
  have hown : ownStep g index c = (if index > 44 then Cell.setIsRotating false
      (match (chosen g index c).wallToRotate with
        | some w =>
          if w < 4 then
            if ((chosen g index c).wall w).theta < ((chosen g index c).wall w).maxTheta then
              Cell.advance w (chosen g index c)
            else Cell.setIsRotating false (Cell.finish w (chosen g index c))
          else chosen g index c
        | none => chosen g index c) else
      (match (chosen g index c).wallToRotate with
        | some w =>
          if w < 4 then
            if ((chosen g index c).wall w).theta < ((chosen g index c).wall w).maxTheta then
              Cell.advance w (chosen g index c)
            else Cell.setIsRotating false (Cell.finish w (chosen g index c))
          else chosen g index c
        | none => chosen g index c)) := rfl
  rw [hown]
  split
  · exact ⟨k1, k2.trans hopen⟩
  · exact ⟨k1, k2.trans hopen⟩

theorem iterate_ownStep_openWalls (g : Grid) (index : Nat) :
    ∀ (cnt : Nat) (c : Cell), (index ≠ 0 → c.oneShown) →
      ((index ≠ 0 ∨ cnt ≠ 0) → ((ownStep g index)^[cnt] c).oneShown) ∧
      ((ownStep g index)^[cnt] c).openWalls = c.openWalls := by
  intro cnt
  induction cnt with
  | zero =>
    intro c h
    refine ⟨fun h0 => ?_, rfl⟩
    rcases h0 with h0 | h0
    · exact h h0
    · exact absurd rfl h0
  | succ cnt ih =>
    intro c h
    obtain ⟨i1, i2⟩ := ih c h
    rw [Function.iterate_succ_apply']
    obtain ⟨s1, s2⟩ := ownStep_openWalls g index _ (fun h0 => i1 (Or.inl h0))
    exact ⟨fun _ => s1, s2.trans i2⟩

theorem ownTicks_openWalls (g : Grid) {cnt : Nat} (hcnt : cnt ≠ 0) (c : Cell) :
    ∀ k, (k ≠ 0 → (ownTicks g cnt k c).oneShown) ∧ (ownTicks g cnt k c).openWalls = c.openWalls := by
  intro k
  induction k with
  | zero => exact ⟨fun h => absurd rfl h, rfl⟩
  | succ k ih =>
    obtain ⟨i1, i2⟩ := ih
    obtain ⟨s1, s2⟩ := iterate_ownStep_openWalls g k cnt (ownTicks g cnt k c) i1
    exact ⟨fun _ => s1 (Or.inr hcnt), s2.trans i2⟩

/-- C6 (amended). On a well-formed square grid, for every selection `cellsToRotate` and every
selected cell none of whose orthogonal neighbours is selected too, any number of ticks
`rotateCellWalls(0)`, `rotateCellWalls(1)`, ... run without a TypeError, and afterwards the cell
has as many walls with `isShown = false` as before; this holds in particular after the 45
ticks with index 0..44 and after all 46 ticks of the cycle. -/
theorem isolated_selected_cell_keeps_open_wall_count {n : Nat} (m : Maze)
    (hg : GridOK n n m.grid) (hin : ∀ y, y ∈ m.cellsToRotate → inGrid n n y)
    (x : Ref) (hx : x ∈ m.cellsToRotate)
    (hfar : ∀ y, y ∈ m.cellsToRotate → ¬ adjacent y x) (k : Nat) :
    ∃ m' c c', rotateTicks k m = some m' ∧ cellAt m.grid x = some c ∧
      cellAt m'.grid x = some c' ∧ c'.openWalls = c.openWalls := by
  obtain ⟨hx1, hx2⟩ := hin x hx
  obtain ⟨c, hc, -, -⟩ := hg.cellAt_some hx1 hx2
  obtain ⟨m', hrun, -, -, -, htrack⟩ := rotateTicks_spec m hg hin k
  have hcnt : m.cellsToRotate.count x ≠ 0 := by
    have := List.count_pos_iff.mpr hx
    omega
  exact ⟨m', c, _, hrun, hc, htrack x c hc hfar, (ownTicks_openWalls m.grid hcnt c k).2⟩

theorem isolated_selected_cell_keeps_open_wall_count_witness :
    ∃ s r, runDraws (initialState 3 3) (List.replicate 17 0) = some s ∧
      selectCellsToRotate 3 s.maze (List.replicate 6 (1, 1)) = some r ∧
      ∃ m' c c', rotateTicks 45 r.1 = some m' ∧ cellAt r.1.grid (1, 1) = some c ∧
        cellAt m'.grid (1, 1) = some c' ∧ c'.openWalls = c.openWalls := by
  have h : ∃ s, runDraws (initialState 3 3) (List.replicate 17 0) = some s ∧
      ∃ r, selectCellsToRotate 3 s.maze (List.replicate 6 (1, 1)) = some r ∧
        GridOK 3 3 r.1.grid ∧ (∀ y, y ∈ r.1.cellsToRotate → inGrid 3 3 y) ∧
        (1, 1) ∈ r.1.cellsToRotate ∧ ∀ y, y ∈ r.1.cellsToRotate → ¬ adjacent y (1, 1) := by
    decide
  obtain ⟨s, hs, r, hr, h1, h2, h3, h4⟩ := h
  exact ⟨s, r, hs, hr, isolated_selected_cell_keeps_open_wall_count r.1 h1 h2 (1, 1) h3 h4 45⟩

/-- C6 (counterexample). On the `3 x 3` maze generated with every draw 0 the selection
`(0,0), (0,1), (1,0), (1,1), (1,2), (2,1)` is made by `selectCellsToRotate`; the selected cell
`(0, 0)` has one open wall before the cycle and two after the 45 ticks with index 0..44,
because the selected neighbour `(0, 1)` rotates the wall they share. And on the generated
`3 x 2` maze the first tick of a cycle that selected `(1, 1)` raises a TypeError, so there is
no state after the cycle. -/
theorem adjacent_selected_cells_change_open_wall_count :
    (∃ s, runDraws (initialState 3 3) (List.replicate 17 0) = some s ∧
      s.mazeGenerationComplete = true ∧
      ∃ r, selectCellsToRotate 3 s.maze [(0, 0), (0, 1), (1, 0), (1, 1), (1, 2), (2, 1)] = some r ∧
        r.1.cellsToRotate = [(0, 0), (0, 1), (1, 0), (1, 1), (1, 2), (2, 1)] ∧
        ∃ m2, rotateTicks 45 r.1 = some m2 ∧
          (cellAt r.1.grid (0, 0)).map Cell.openWalls = some 1 ∧
          (cellAt m2.grid (0, 0)).map Cell.openWalls = some 2) ∧
    (∃ s, runDraws (initialState 3 2) (List.replicate 11 0) = some s ∧
      s.mazeGenerationComplete = true ∧
      ∃ r, selectCellsToRotate 3 s.maze (List.replicate 6 (1, 1)) = some r ∧
        (1, 1) ∈ r.1.cellsToRotate ∧ rotateTicks 1 r.1 = none) := by
  constructor <;> decide

/-! ## A cell that is selected once and has no selected neighbour -/

theorem turned_fields (w k : Nat) (c : Cell) :
    (Cell.turned w k c).wallToRotate = some w ∧ (Cell.turned w k c).isRotating = true ∧
    (Cell.turned w k c).getShownWalls = c.getShownWalls := by
  unfold Cell.turned
  induction k with
  | zero => exact ⟨rfl, rfl, rfl⟩
  | succ k ih =>
    rw [Function.iterate_succ_apply']
    obtain ⟨a1, a2, a3⟩ := advance_fields w
      ((Cell.advance w)^[k] (Cell.setIsRotating true (Cell.setWallToRotate (some w) c)))
    exact ⟨a1.trans ih.1, a2.trans ih.2.1, a3.trans ih.2.2⟩

theorem turned_wall {w v : Nat} (hw : w < 4) (hv : v < 4) (k : Nat) (c : Cell) :
    (Cell.turned w k c).wall v
      = if v = w then { c.wall w with theta := (c.wall w).theta + 2 * k } else c.wall v := by
  unfold Cell.turned
  induction k with
  | zero =>
    have : (Cell.setIsRotating true (Cell.setWallToRotate (some w) c)).wall v = c.wall v := by
      unfold Cell.wall; split <;> rfl
    rw [Function.iterate_zero_apply, this]
    split
    · rename_i e; rw [e]; rfl
    · rfl
  | succ k ih =>
    rw [Function.iterate_succ_apply', advance_wall hw hv]
    by_cases e : v = w
    · subst e
      rw [if_pos rfl, if_pos rfl, ih, if_pos rfl]
      show _ = ({ c.wall v with theta := (c.wall v).theta + 2 * (k + 1) } : Wall)
      congr 1
    · rw [if_neg e, if_neg e, ih, if_neg e]

theorem select_flags {g : Grid} {c : Cell} {w : Nat} (h : selectRandomWallToRotate g c = some w) :
    w < 4 ∧ (c.wall w).isShown = true ∧ (c.wall (intoWall w)).isShown = false := by
  unfold selectRandomWallToRotate at h
  split_ifs at h with h0 h1 h2 h3 <;> cases h
  · exact ⟨by omega, h0.1, by simpa [intoWall, Cell.wall] using h0.2.1⟩
  · exact ⟨by omega, h1.1, by simpa [intoWall, Cell.wall] using h1.2.1⟩
  · exact ⟨by omega, h2.1, by simpa [intoWall, Cell.wall] using h2.2.1⟩
  · exact ⟨by omega, h3.1, by simpa [intoWall, Cell.wall] using h3.2.1⟩

theorem ownStep_turned (g : Grid) {w : Nat} (hw : w < 4) (c : Cell) {k : Nat} (hk0 : k ≠ 0) :
    ownStep g k (Cell.turned w k c) =
      if (c.wall w).theta + 2 * k < (c.wall w).maxTheta then
        (if k > 44 then Cell.setIsRotating false (Cell.turned w (k + 1) c)
          else Cell.turned w (k + 1) c)
      else
        (if k > 44 then
            Cell.setIsRotating false (Cell.setIsRotating false (Cell.finish w (Cell.turned w k c)))
          else Cell.setIsRotating false (Cell.finish w (Cell.turned w k c))) := by
  have hsucc : Cell.turned w (k + 1) c = Cell.advance w (Cell.turned w k c) := by
    unfold Cell.turned; rw [Function.iterate_succ_apply']
  have hwall := turned_wall hw hw k c
  rw [if_pos rfl] at hwall
  unfold ownStep
  simp only [if_neg hk0, (turned_fields w k c).1, if_pos hw, hwall, hsucc]
  split <;> split <;> rfl

theorem ownStep_zero (g : Grid) {w : Nat} {c : Cell} (h : selectRandomWallToRotate g c = some w)
    (hth : (c.wall w).theta < (c.wall w).maxTheta) : ownStep g 0 c = Cell.turned w 1 c := by
  have hw := (select_flags h).1
  have hwall : (Cell.setIsRotating true (Cell.setWallToRotate (some w) c)).wall w = c.wall w := by
    unfold Cell.wall; split <;> rfl
  unfold ownStep Cell.turned
  simp only [if_true, h, gt_iff_lt, Nat.not_lt_zero, if_false]
  show (if w < 4 then _ else _) = _
  rw [if_pos hw, hwall, if_pos hth]
  rfl

/-- The calls of one cycle on a cell selected once whose chosen wall starts at rest: 45
advances, then the completion. -/
theorem ownTicks_once (g : Grid) {w : Nat} {c : Cell} (h : selectRandomWallToRotate g c = some w)
    (hth : (c.wall w).theta = restTheta w) (hmax : (c.wall w).maxTheta = restTheta w + 90) :
    (∀ k, 1 ≤ k → k ≤ 45 → ownTicks g 1 k c = Cell.turned w k c) ∧
      ownTicks g 1 46 c = Cell.completed w c := by
  have hw := (select_flags h).1
  have hadv : ∀ k, 1 ≤ k → k ≤ 45 → ownTicks g 1 k c = Cell.turned w k c := by
    intro k
    induction k with
    | zero => intro h1; omega
    | succ k ih =>
      intro _ hk
      show ownStep g k (ownTicks g 1 k c) = _
      by_cases hk0 : k = 0
      · subst hk0
        have h0 : (c.wall w).theta < (c.wall w).maxTheta := by rw [hth, hmax]; omega
        exact ownStep_zero g h h0
      · rw [ih (by omega) (by omega), ownStep_turned g hw c hk0, if_pos (by rw [hth, hmax]; omega),
          if_neg (by omega)]
  refine ⟨hadv, ?_⟩
  show ownStep g 45 (ownTicks g 1 45 c) = _
  rw [hadv 45 (by omega) (by omega), ownStep_turned g hw c (by omega),
    if_neg (by rw [hth, hmax]; omega), if_pos (by omega)]
  rfl

/-! ## A cycle with a single selected cell -/

theorem setShown_idem (v : Nat) (b : Bool) (c : Cell) :
    Cell.setShown v b (Cell.setShown v b c) = Cell.setShown v b c := by
  rcases v with _ | _ | _ | v <;> rfl

theorem rotateTicks_succ (k : Nat) (m : Maze) :
    rotateTicks (k + 1) m = (match rotateTicks k m with
      | none => none
      | some m1 => rotateCellWalls m1 k) := rfl

theorem not_adjacent_self (p : Ref) : ¬ adjacent p p := by
  unfold adjacent; omega

theorem nbrEffect_turned {n : Nat} {p : Ref} {w : Nat} (hw : w < 4) (k : Nat) (c : Cell)
    (x : Ref) :
    nbrEffect n p (Cell.turned w k c) x =
      if x = nbrRef p w then Cell.setShown (facingWall w) false
      else if ¬ (c.wall w).theta + 2 * k < (c.wall w).maxTheta ∧ x = nbrRef p (intoWall w)
          ∧ hasNbr n p (intoWall w) then
        Cell.setShown (facingWall (intoWall w)) true
      else id := by
  have hwall := turned_wall hw hw k c
  rw [if_pos rfl] at hwall
  unfold nbrEffect
  simp only [(turned_fields w k c).1, if_pos hw, hwall]

/-- The cycle of a single selected cell `p` whose chosen wall `w` starts at rest, on a
well-formed square grid: after each of the first 45 ticks the cell has advanced its wall and
the neighbour behind the wall has lost its copy; after the 46th tick the cell has completed,
and the neighbour behind the wall rotated into (if there is one) has gained its copy. -/
theorem single_cycle {n : Nat} (m : Maze) (hg : GridOK n n m.grid) {p : Ref}
    (hsel : m.cellsToRotate = [p]) {c : Cell} (hc : cellAt m.grid p = some c) {w : Nat}
    (h : selectRandomWallToRotate m.grid c = some w)
    (hth : (c.wall w).theta = restTheta w) (hmax : (c.wall w).maxTheta = restTheta w + 90) :
    (∀ k, 1 ≤ k → k ≤ 45 → ∃ m', rotateTicks k m = some m' ∧ GridOK n n m'.grid ∧
      cellAt m'.grid p = some (Cell.turned w k c) ∧
      ∀ x, x ≠ p → cellAt m'.grid x = (cellAt m.grid x).map
        (if x = nbrRef p w then Cell.setShown (facingWall w) false else id)) ∧
    ∃ m', rotateTicks 46 m = some m' ∧ GridOK n n m'.grid ∧
      cellAt m'.grid p = some (Cell.completed w c) ∧
      ∀ x, x ≠ p → cellAt m'.grid x = (cellAt m.grid x).map
        (if x = nbrRef p w then Cell.setShown (facingWall w) false
          else if x = nbrRef p (intoWall w) ∧ hasNbr n p (intoWall w) then
            Cell.setShown (facingWall (intoWall w)) true
          else id) := by
  obtain ⟨hw, -, -⟩ := select_flags h
  obtain ⟨hp1, hp2, -, -⟩ := hg.cellAt_bound hc
  have hin : ∀ y, y ∈ m.cellsToRotate → inGrid n n y := by
    intro y hy
    rw [hsel, List.mem_singleton] at hy
    subst hy; exact ⟨hp1, hp2⟩
  have hfar : ∀ y, y ∈ m.cellsToRotate → ¬ adjacent y p := by
    intro y hy
    rw [hsel, List.mem_singleton] at hy
    subst hy; exact not_adjacent_self y
  have hcount : m.cellsToRotate.count p = 1 := by rw [hsel]; simp
  obtain ⟨hadv, hfin⟩ := ownTicks_once m.grid h hth hmax
  -- the cell itself after `k` ticks
  have hown : ∀ k, ∃ m', rotateTicks k m = some m' ∧ m' = { m with grid := m'.grid } ∧
      GridOK n n m'.grid ∧
      (k ≠ 0 → ∀ cy, cellAt m'.grid p = some cy → validWall n p cy.wallToRotate) ∧
      cellAt m'.grid p = some (ownTicks m.grid 1 k c) := by
    intro k
    obtain ⟨m', hrun, hm', hok, hval, htrack⟩ := rotateTicks_spec m hg hin k
    refine ⟨m', hrun, hm', hok, fun hk cy hcy => hval hk p (by rw [hsel]; simp) cy hcy, ?_⟩
    have := htrack p c hc hfar
    rwa [hcount] at this
  -- the other cells during the 45 advancing ticks
  have hothers : ∀ k, k ≤ 45 → ∃ m', rotateTicks k m = some m' ∧
      ∀ x, x ≠ p → cellAt m'.grid x = (cellAt m.grid x).map
        (if k ≠ 0 ∧ x = nbrRef p w then Cell.setShown (facingWall w) false else id) := by
    intro k
    induction k with
    | zero =>
      intro _
      refine ⟨m, rfl, fun x _ => ?_⟩
      rw [if_neg (fun h => h.1 rfl), Option.map_id_fun, id]
    | succ k ih =>
      intro hk
      obtain ⟨m1, hrun1, ho1⟩ := ih (by omega)
      obtain ⟨m1', hrun1', hm1, hok1, hval1, hcell1⟩ := hown k
      rw [hrun1] at hrun1'
      cases Option.some.inj hrun1'
      have hsel1 : m1.cellsToRotate = [p] := by rw [hm1]; exact hsel
      obtain ⟨g', hrot, -, -, hoth⟩ := rotateCell_spec hok1 hcell1 k
        (fun hk0 => hval1 hk0 _ hcell1)
      have hlen : m1.grid.length = m.grid.length := by rw [hok1.1, hg.1]
      have hch : chosen m1.grid k (ownTicks m.grid 1 k c) = Cell.turned w k c := by
        unfold chosen
        by_cases hk0 : k = 0
        · subst hk0
          rw [if_pos rfl, select_length hlen]
          show Cell.setIsRotating true (Cell.setWallToRotate (selectRandomWallToRotate m.grid c) c) = _
          rw [h]; rfl
        · rw [if_neg hk0, hadv k (by omega) (by omega)]
      refine ⟨{ m1 with grid := g' }, ?_, ?_⟩
      · rw [rotateTicks_succ, hrun1]
        simp only [rotateCellWalls, hsel1, rotateCells, hrot]
      · intro x hx
        show cellAt g' x = _
        rw [hoth x hx, hch, nbrEffect_turned hw, ho1 x hx]
        have hk' : k + 1 ≠ 0 := Nat.succ_ne_zero k
        by_cases e : x = nbrRef p w
        · rw [if_pos e, if_pos (show k + 1 ≠ 0 ∧ x = nbrRef p w from ⟨hk', e⟩), Option.map_map]
          by_cases hk0 : k = 0
          · rw [if_neg (fun h => h.1 hk0)]; rfl
          · rw [if_pos ⟨hk0, e⟩]
            congr 1
            funext d
            exact setShown_idem _ _ d
        · rw [if_neg e, if_neg (show ¬ (k + 1 ≠ 0 ∧ x = nbrRef p w) from fun h => e h.2),
            if_neg (show ¬ (k ≠ 0 ∧ x = nbrRef p w) from fun h => e h.2), Option.map_map]
          have : ¬ (¬ (c.wall w).theta + 2 * k < (c.wall w).maxTheta ∧ x = nbrRef p (intoWall w)
              ∧ hasNbr n p (intoWall w)) := by
            intro hh
            apply hh.1
            rw [hth, hmax]; omega
          rw [if_neg this]; rfl
  constructor
  · intro k hk1 hk
    obtain ⟨m1, hrun1, ho1⟩ := hothers k hk
    obtain ⟨m1', hrun1', -, hok1, -, hcell1⟩ := hown k
    rw [hrun1] at hrun1'
    cases Option.some.inj hrun1'
    refine ⟨m1, hrun1, hok1, by rw [hcell1, hadv k hk1 hk], fun x hx => ?_⟩
    rw [ho1 x hx]
    have hk' : k ≠ 0 := by omega
    by_cases e : x = nbrRef p w
    · rw [if_pos e, if_pos (show k ≠ 0 ∧ x = nbrRef p w from ⟨hk', e⟩)]
    · rw [if_neg e, if_neg (show ¬ (k ≠ 0 ∧ x = nbrRef p w) from fun h => e h.2)]
  · obtain ⟨m1, hrun1, ho1⟩ := hothers 45 (le_refl _)
    obtain ⟨m1', hrun1', hm1, hok1, hval1, hcell1⟩ := hown 45
    rw [hrun1] at hrun1'
    cases Option.some.inj hrun1'
    have hsel1 : m1.cellsToRotate = [p] := by rw [hm1]; exact hsel
    obtain ⟨g', hrot, hok', -, hoth⟩ := rotateCell_spec hok1 hcell1 45
      (fun hk0 => hval1 hk0 _ hcell1)
    obtain ⟨m2, hrun2, -, -, -, hcell2⟩ := hown 46
    have hrun2' : rotateTicks 46 m = some { m1 with grid := g' } := by
      rw [show (46 : Nat) = 45 + 1 from rfl, rotateTicks_succ, hrun1]
      simp only [rotateCellWalls, hsel1, rotateCells, hrot]
    rw [hrun2'] at hrun2
    cases Option.some.inj hrun2
    refine ⟨{ m1 with grid := g' }, hrun2', hok', by rw [hcell2, hfin], fun x hx => ?_⟩
    show cellAt g' x = _
    have hch : chosen m1.grid 45 (ownTicks m.grid 1 45 c) = Cell.turned w 45 c := by
      unfold chosen
      rw [if_neg (by omega), hadv 45 (by omega) (by omega)]
    rw [hoth x hx, hch, nbrEffect_turned hw, ho1 x hx, Option.map_map]
    have hdone : ¬ (c.wall w).theta + 2 * 45 < (c.wall w).maxTheta := by rw [hth, hmax]; omega
    have hk' : 45 ≠ 0 := by decide
    by_cases e : x = nbrRef p w
    · rw [if_pos e, if_pos (show 45 ≠ 0 ∧ x = nbrRef p w from ⟨hk', e⟩), if_pos e]
      congr 1
      funext d
      exact setShown_idem _ _ d
    · rw [if_neg e, if_neg (show ¬ (45 ≠ 0 ∧ x = nbrRef p w) from fun h => e h.2), if_neg e]
      by_cases e2 : x = nbrRef p (intoWall w) ∧ hasNbr n p (intoWall w)
      · rw [if_pos ⟨hdone, e2⟩, if_pos e2]; rfl
      · rw [if_neg (fun h => e2 h.2), if_neg e2]; rfl

theorem setIsRotating_wall (b : Bool) (c : Cell) (v : Nat) :
    (Cell.setIsRotating b c).wall v = c.wall v := by
  unfold Cell.wall; split <;> rfl

theorem completed_wall {w v : Nat} (hw : w < 4) (hv : v < 4) (c : Cell) :
    (Cell.completed w c).wall v
      = if v = w then { c.wall w with isShown := false, theta := restTheta w }
        else if v = intoWall w then { c.wall v with isShown := true, theta := restTheta v }
        else c.wall v := by
  unfold Cell.completed
  rw [setIsRotating_wall, setIsRotating_wall, finish_wall hw hv]
  by_cases e : v = w
  · subst e
    rw [if_pos rfl, if_pos rfl, turned_wall hw hw, if_pos rfl]
  · rw [if_neg e, if_neg e, turned_wall hw hv, if_neg e]

theorem completed_fields (w : Nat) (c : Cell) :
    (Cell.completed w c).isRotating = false ∧ (Cell.completed w c).wallToRotate = some w := by
  unfold Cell.completed
  refine ⟨rfl, ?_⟩
  show (Cell.finish w (Cell.turned w 45 c)).wallToRotate = some w
  rw [(finish_fields w _).1, (turned_fields w 45 c).1]

/-- C7 (amended). On a well-formed square grid, a cell that is selected once, has no selected
orthogonal neighbour, and whose chosen wall `w` starts at its resting angle, needs the 46th
call: after `rotateCellWalls` has been called 45 times (index 0..44) the wall `w` is still
shown, at its resting angle plus 90, and `isRotating` is still true; after the 46th call
(index 45) the wall `w` is hidden with `theta` back at its resting value, the wall that `w`
rotates into is shown, and `isRotating` is false. -/
theorem rotation_completes_with_the_46th_call {n : Nat} (m : Maze) (hg : GridOK n n m.grid)
    (hin : ∀ y, y ∈ m.cellsToRotate → inGrid n n y) (x : Ref)
    (hcount : m.cellsToRotate.count x = 1)
    (hfar : ∀ y, y ∈ m.cellsToRotate → ¬ adjacent y x)
    (c : Cell) (hc : cellAt m.grid x = some c) (w : Nat)
    (hsel : selectRandomWallToRotate m.grid c = some w)
    (hth : (c.wall w).theta = restTheta w) (hmax : (c.wall w).maxTheta = restTheta w + 90) :
    (∃ m' c', rotateTicks 45 m = some m' ∧ cellAt m'.grid x = some c' ∧
      (c'.wall w).isShown = true ∧ (c'.wall w).theta = restTheta w + 90 ∧
      c'.isRotating = true) ∧
    (∃ m' c', rotateTicks 46 m = some m' ∧ cellAt m'.grid x = some c' ∧
      (c'.wall w).isShown = false ∧ (c'.wall w).theta = restTheta w ∧
      (c'.wall (intoWall w)).isShown = true ∧ c'.isRotating = false) := by
  obtain ⟨hw, hshown, -⟩ := select_flags hsel
  obtain ⟨hi4, hine⟩ := intoWall_lt hw
  obtain ⟨hadv, hfin⟩ := ownTicks_once m.grid hsel hth hmax
  constructor
  · obtain ⟨m', hrun, -, -, -, htrack⟩ := rotateTicks_spec m hg hin 45
    have hcell := htrack x c hc hfar
    rw [hcount, hadv 45 (by omega) (by omega)] at hcell
    refine ⟨m', _, hrun, hcell, ?_, ?_, (turned_fields w 45 c).2.1⟩
    · rw [turned_wall hw hw, if_pos rfl]; exact hshown
    · rw [turned_wall hw hw, if_pos rfl]
      show (c.wall w).theta + 2 * 45 = _
      rw [hth]
  · obtain ⟨m', hrun, -, -, -, htrack⟩ := rotateTicks_spec m hg hin 46
    have hcell := htrack x c hc hfar
    rw [hcount, hfin] at hcell
    refine ⟨m', _, hrun, hcell, ?_, ?_, ?_, (completed_fields w c).1⟩
    · rw [completed_wall hw hw, if_pos rfl]
    · rw [completed_wall hw hw, if_pos rfl]
    · rw [completed_wall hw hi4, if_neg hine, if_pos rfl]

theorem rotation_completes_with_the_46th_call_witness :
    ∃ s r c, runDraws (initialState 3 3) (List.replicate 17 0) = some s ∧
      selectCellsToRotate 3 s.maze ((1, 1) :: List.replicate 5 (0, 0)) = some r ∧
      cellAt r.1.grid (1, 1) = some c ∧
      (∃ m' c', rotateTicks 45 r.1 = some m' ∧ cellAt m'.grid (1, 1) = some c' ∧
        (c'.wall 1).isShown = true ∧ (c'.wall 1).theta = restTheta 1 + 90 ∧
        c'.isRotating = true) ∧
      (∃ m' c', rotateTicks 46 r.1 = some m' ∧ cellAt m'.grid (1, 1) = some c' ∧
        (c'.wall 1).isShown = false ∧ (c'.wall 1).theta = restTheta 1 ∧
        (c'.wall (intoWall 1)).isShown = true ∧ c'.isRotating = false) := by
  have h : ∃ s, runDraws (initialState 3 3) (List.replicate 17 0) = some s ∧
      ∃ r, selectCellsToRotate 3 s.maze ((1, 1) :: List.replicate 5 (0, 0)) = some r ∧
        GridOK 3 3 r.1.grid ∧ (∀ y, y ∈ r.1.cellsToRotate → inGrid 3 3 y) ∧
        r.1.cellsToRotate.count (1, 1) = 1 ∧
        (∀ y, y ∈ r.1.cellsToRotate → ¬ adjacent y (1, 1)) ∧
        ∃ c, cellAt r.1.grid (1, 1) = some c ∧ selectRandomWallToRotate r.1.grid c = some 1 ∧
          (c.wall 1).theta = restTheta 1 ∧ (c.wall 1).maxTheta = restTheta 1 + 90 := by
    decide
  obtain ⟨s, hs, r, hr, h1, h2, h3, h4, c, hc, h5, h6, h7⟩ := h
  exact ⟨s, r, c, hs, hr, hc,
    rotation_completes_with_the_46th_call r.1 h1 h2 (1, 1) h3 h4 c hc 1 h5 h6 h7⟩

/-- C7 (counterexample). On the `3 x 3` maze generated with every draw 0 and the selection
`(0,0), (0,1), (1,0), (1,1), (1,2), (2,1)`, the selected cell `(1, 0)` chooses its right wall,
which starts at its resting angle 90; after the 45 calls with index 0..44 that wall is still
shown, its `theta` is 180, not 90, and `isRotating` is still true. And on the generated
`3 x 2` maze the first call of a cycle that selected `(1, 1)` raises a TypeError. -/
theorem rotation_incomplete_after_45_calls :
    (∃ s, runDraws (initialState 3 3) (List.replicate 17 0) = some s ∧
      s.mazeGenerationComplete = true ∧
      ∃ r, selectCellsToRotate 3 s.maze [(0, 0), (0, 1), (1, 0), (1, 1), (1, 2), (2, 1)] = some r ∧
        (1, 0) ∈ r.1.cellsToRotate ∧
        ∃ c, cellAt r.1.grid (1, 0) = some c ∧ (c.wall 1).theta = restTheta 1 ∧
          ∃ m2, rotateTicks 45 r.1 = some m2 ∧
            ∃ c', cellAt m2.grid (1, 0) = some c' ∧ c'.wallToRotate = some 1 ∧
              (c'.wall 1).isShown = true ∧ (c'.wall 1).theta = 180 ∧ c'.isRotating = true) ∧
    (∃ s, runDraws (initialState 3 2) (List.replicate 11 0) = some s ∧
      s.mazeGenerationComplete = true ∧
      ∃ r, selectCellsToRotate 3 s.maze (List.replicate 6 (1, 1)) = some r ∧
        ∃ c, cellAt r.1.grid (1, 1) = some c ∧
          selectRandomWallToRotate r.1.grid c = some 1 ∧ (c.wall 1).theta = restTheta 1 ∧
          rotateTicks 1 r.1 = none) := by
  constructor <;> decide

theorem setShown_keeps (u : Nat) (b : Bool) (d : Cell) (v : Nat) :
    ((Cell.setShown u b d).wall v).theta = (d.wall v).theta ∧
      (Cell.setShown u b d).isRotating = d.isRotating := by
  rcases u with _ | _ | _ | u <;> rcases v with _ | _ | _ | v <;> exact ⟨rfl, rfl⟩

/-- C8 (amended: on a square grid). On a well-formed square grid with a single selected cell
`p` whose walls are at rest and whose chosen wall is `w`, the 46 calls of `rotateCellWalls`
with index 0..45 raise no TypeError, and afterwards: wall `w` is hidden on the cell and on the
neighbour sharing it; the wall `w` rotates into is shown on the cell and on the neighbour on
that side (if the cell has one); every other wall of every cell has its `isShown` unchanged;
the four `theta` values of the cell are the resting values; `isRotating` is false; and in
every other cell `theta` and `isRotating` are unchanged. -/
theorem single_cell_rotation_takes_46_calls {n : Nat} (m : Maze) (hg : GridOK n n m.grid)
    (p : Ref) (hsel : m.cellsToRotate = [p]) (c : Cell) (hc : cellAt m.grid p = some c)
    (hrest : c.atRest) (w : Nat) (hw : selectRandomWallToRotate m.grid c = some w) :
    ∃ m' c', rotateTicks 46 m = some m' ∧ cellAt m'.grid p = some c' ∧
      (c'.wall w).isShown = false ∧
      shownAt m'.grid (nbrRef p w) (facingWall w) = some false ∧
      (c'.wall (intoWall w)).isShown = true ∧
      (hasNbr n p (intoWall w) →
        shownAt m'.grid (nbrRef p (intoWall w)) (facingWall (intoWall w)) = some true) ∧
      (∀ x v, v < 4 → ¬ (x = p ∧ (v = w ∨ v = intoWall w)) →
        ¬ (x = nbrRef p w ∧ v = facingWall w) →
        ¬ (hasNbr n p (intoWall w) ∧ x = nbrRef p (intoWall w) ∧ v = facingWall (intoWall w)) →
        shownAt m'.grid x v = shownAt m.grid x v) ∧
      (∀ v, v < 4 → (c'.wall v).theta = restTheta v) ∧ c'.isRotating = false ∧
      (∀ x v, x ≠ p →
        fieldAt m'.grid x (fun d => ((d.wall v).theta, d.isRotating))
          = fieldAt m.grid x (fun d => ((d.wall v).theta, d.isRotating))) := by
  obtain ⟨hw4, hnb, -, -⟩ := select_valid hg hc hw
  obtain ⟨hi4, hine⟩ := intoWall_lt hw4
  obtain ⟨hp1, hp2, -, -⟩ := hg.cellAt_bound hc
  have hpin : inGrid n n p := ⟨hp1, hp2⟩
  obtain ⟨-, m', hrun, hok', hcell, hoth⟩ :=
    single_cycle m hg hsel hc hw (hrest w hw4).1 (hrest w hw4).2
  have hexists : ∀ v, hasNbr n p v → ∃ d, cellAt m.grid (nbrRef p v) = some d := by
    intro v hv
    obtain ⟨h1, h2⟩ := nbrRef_inGrid hpin hv
    obtain ⟨d, hd, -, -⟩ := hg.cellAt_some h1 h2
    exact ⟨d, hd⟩
  refine ⟨m', _, hrun, hcell, ?_, ?_, ?_, ?_, ?_, ?_, (completed_fields w c).1, ?_⟩
  · rw [completed_wall hw4 hw4, if_pos rfl]
  · obtain ⟨d, hd⟩ := hexists w hnb
    unfold shownAt fieldAt
    rw [hoth _ (nbrRef_ne_self hnb), if_pos rfl, hd]
    show some ((Cell.setShown (facingWall w) false d).wall (facingWall w)).isShown = _
    rw [setShown_wall (facingWall_lt hw4).1 (facingWall_lt hw4).1, if_pos rfl]
  · rw [completed_wall hw4 hi4, if_neg hine, if_pos rfl]
  · intro hnb'
    obtain ⟨d, hd⟩ := hexists _ hnb'
    unfold shownAt fieldAt
    rw [hoth _ (nbrRef_ne_self hnb'), if_neg (nbrRef_into_ne hw4 hnb hnb'),
      if_pos ⟨rfl, hnb'⟩, hd]
    show some ((Cell.setShown (facingWall (intoWall w)) true d).wall
      (facingWall (intoWall w))).isShown = _
    rw [setShown_wall (facingWall_lt hi4).1 (facingWall_lt hi4).1, if_pos rfl]
  · intro x v hv h1 h2 h3
    unfold shownAt fieldAt
    by_cases e : x = p
    · subst e
      rw [hcell, hc]
      show some ((Cell.completed w c).wall v).isShown = _
      rw [completed_wall hw4 hv, if_neg (fun h => h1 ⟨rfl, Or.inl h⟩),
        if_neg (fun h => h1 ⟨rfl, Or.inr h⟩)]
      rfl
    · rw [hoth x e, Option.map_map]
      congr 1
      funext d
      simp only [Function.comp_apply]
      by_cases e1 : x = nbrRef p w
      · rw [if_pos e1, setShown_wall (facingWall_lt hw4).1 hv, if_neg (fun h => h2 ⟨e1, h⟩)]
      · rw [if_neg e1]
        by_cases e2 : x = nbrRef p (intoWall w) ∧ hasNbr n p (intoWall w)
        · rw [if_pos e2, setShown_wall (facingWall_lt hi4).1 hv,
            if_neg (fun h => h3 ⟨e2.2, e2.1, h⟩)]
        · rw [if_neg e2]; rfl
  · intro v hv
    rw [completed_wall hw4 hv]
    by_cases e : v = w
    · subst e; rw [if_pos rfl]
    · rw [if_neg e]
      by_cases e2 : v = intoWall w
      · rw [if_pos e2]
      · rw [if_neg e2]; exact (hrest v hv).1
  · intro x v hx
    unfold fieldAt
    rw [hoth x hx, Option.map_map]
    congr 1
    funext d
    simp only [Function.comp_apply]
    by_cases e1 : x = nbrRef p w
    · rw [if_pos e1, (setShown_keeps _ _ d v).1, (setShown_keeps _ _ d v).2]
    · rw [if_neg e1]
      by_cases e2 : x = nbrRef p (intoWall w) ∧ hasNbr n p (intoWall w)
      · rw [if_pos e2, (setShown_keeps _ _ d v).1, (setShown_keeps _ _ d v).2]
      · rw [if_neg e2]; rfl

theorem single_cell_rotation_takes_46_calls_witness :
    ∃ s c, runDraws (initialState 3 3) (List.replicate 17 0) = some s ∧
      cellAt s.maze.grid (1, 1) = some c ∧
      ∃ m' c', rotateTicks 46 { s.maze with cellsToRotate := [(1, 1)] } = some m' ∧
        cellAt m'.grid (1, 1) = some c' ∧
        (c'.wall 1).isShown = false ∧
        shownAt m'.grid (nbrRef (1, 1) 1) (facingWall 1) = some false ∧
        (c'.wall (intoWall 1)).isShown = true ∧
        (hasNbr 3 (1, 1) (intoWall 1) →
          shownAt m'.grid (nbrRef (1, 1) (intoWall 1)) (facingWall (intoWall 1)) = some true) ∧
        (∀ x v, v < 4 → ¬ (x = (1, 1) ∧ (v = 1 ∨ v = intoWall 1)) →
          ¬ (x = nbrRef (1, 1) 1 ∧ v = facingWall 1) →
          ¬ (hasNbr 3 (1, 1) (intoWall 1) ∧ x = nbrRef (1, 1) (intoWall 1)
              ∧ v = facingWall (intoWall 1)) →
          shownAt m'.grid x v = shownAt s.maze.grid x v) ∧
        (∀ v, v < 4 → (c'.wall v).theta = restTheta v) ∧ c'.isRotating = false ∧
        (∀ x v, x ≠ (1, 1) →
          fieldAt m'.grid x (fun d => ((d.wall v).theta, d.isRotating))
            = fieldAt s.maze.grid x (fun d => ((d.wall v).theta, d.isRotating))) := by
  have h : ∃ s, runDraws (initialState 3 3) (List.replicate 17 0) = some s ∧
      GridOK 3 3 s.maze.grid ∧
      ∃ c, cellAt s.maze.grid (1, 1) = some c ∧
        (∀ v, v < 4 → (c.wall v).theta = restTheta v ∧ (c.wall v).maxTheta = restTheta v + 90) ∧
        selectRandomWallToRotate s.maze.grid c = some 1 := by
    decide
  obtain ⟨s, hs, h1, c, hc, h2, h3⟩ := h
  exact ⟨s, c, hs, hc, single_cell_rotation_takes_46_calls
    { s.maze with cellsToRotate := [(1, 1)] } h1 (1, 1) rfl c hc h2 1 h3⟩

/-- C8 (counterexample). The `3 x 2` maze generated with every draw 0 is symmetric and at rest;
with the single selected cell `(1, 1)`, in the last column, `selectRandomWallToRotate` chooses
the right wall (the column is compared with `grid.length`, the number of rows), and the first
call `rotateCellWalls(0)` raises a TypeError on the missing right neighbour, so the cycle of
46 calls does not run and the wall stays shown. -/
theorem rotation_fails_on_three_by_two_maze :
    ∃ s, runDraws (initialState 3 2) (List.replicate 11 0) = some s ∧
      s.mazeGenerationComplete = true ∧ Symmetric 3 2 s.maze.grid ∧
      (∀ x, x ∈ cells 3 2 → ∃ c, cellAt s.maze.grid x = some c ∧ c.atRest) ∧
      ∃ c, cellAt s.maze.grid (1, 1) = some c ∧
        selectRandomWallToRotate s.maze.grid c = some 1 ∧ (c.wall 1).isShown = true ∧
        rotateTicks 1 { s.maze with cellsToRotate := [(1, 1)] } = none ∧
        rotateTicks 46 { s.maze with cellsToRotate := [(1, 1)] } = none := by
  decide

/-! ## Wall symmetry after a rotation -/

theorem nbrRef_invol {n : Nat} {x : Ref} {v : Nat} (hv : v < 4) (h : hasNbr n x v) :
    nbrRef (nbrRef x v) (facingWall v) = x := by
  obtain ⟨x1, x2⟩ := x
  interval_cases v
  · have h' : x1 ≠ 0 := h
    show (x1 - 1 + 1, x2) = (x1, x2)
    rw [Nat.sub_add_cancel (by omega)]
  · show (x1, x2 + 1 - 1) = (x1, x2)
    rw [Nat.add_sub_cancel]
  · show (x1 + 1 - 1, x2) = (x1, x2)
    rw [Nat.add_sub_cancel]
  · have h' : x2 ≠ 0 := h
    show (x1, x2 - 1 + 1) = (x1, x2)
    rw [Nat.sub_add_cancel (by omega)]

theorem hasNbr_back {n : Nat} {x : Ref} {v : Nat} (hv : v < 4) (hx : inGrid n n x)
    (h : hasNbr n x v) : hasNbr n (nbrRef x v) (facingWall v) := by
  obtain ⟨x1, x2⟩ := x
  obtain ⟨h1, h2⟩ := hx
  simp only at h1 h2
  interval_cases v
  · have h' : x1 ≠ 0 := h
    show x1 - 1 + 1 < n
    omega
  · show x2 + 1 ≠ 0
    omega
  · show x1 + 1 ≠ 0
    omega
  · have h' : x2 ≠ 0 := h
    show x2 - 1 + 1 < n
    omega

/-- Wall symmetry of a square grid, wall by wall. -/
theorem symmetric_iff_pairsAgree (n : Nat) (g : Grid) :
    Symmetric n n g ↔ PairsAgree n (shownAt g) := by
  constructor
  · intro hs x v hv hx hnb
    obtain ⟨x1, x2⟩ := x
    obtain ⟨h1, h2⟩ := hx
    simp only at h1 h2
    interval_cases v
    · have hnb' : x1 ≠ 0 := hnb
      have := (hs (x1 - 1) (by omega) x2 h2).2 (by omega)
      unfold vAgree at this
      rw [show x1 - 1 + 1 = x1 by omega] at this
      exact this.symm
    · exact (hs x1 h1 x2 h2).1 hnb
    · exact (hs x1 h1 x2 h2).2 hnb
    · have hnb' : x2 ≠ 0 := hnb
      have := (hs x1 h1 (x2 - 1) (by omega)).1 (by omega)
      unfold hAgree at this
      rw [show x2 - 1 + 1 = x2 by omega] at this
      exact this.symm
  · intro hp r hr c hc
    exact ⟨fun h => hp (r, c) 1 (by decide) ⟨hr, hc⟩ h, fun h => hp (r, c) 2 (by decide) ⟨hr, hc⟩ h⟩

/-- A completed rotation keeps every adjacent pair of walls in agreement. -/
theorem shownAfter_pairsAgree {n : Nat} {p : Ref} {w : Nat} (hw : w < 4) (hp : inGrid n n p)
    (hnb : hasNbr n p w) (old : Ref → Nat → Option Bool) (hold : PairsAgree n old) :
    PairsAgree n (shownAfter n p w old) := by
  obtain ⟨hi4, hine⟩ := intoWall_lt hw
  have hfw := facingWall_lt hw
  have hfi := facingWall_lt hi4
  intro x v hv hx hxnb
  have hfv := facingWall_lt hv
  have hinv := nbrRef_invol hv hxnb
  have hback := hasNbr_back hv hx hxnb
  -- the four walls the rotation sets, as keys
  by_cases hA : x = p ∧ v = w
  · obtain ⟨rfl, rfl⟩ := hA
    have e1 : ¬ (nbrRef x v = x ∧ facingWall v = v) := fun h => nbrRef_ne_self hnb h.1
    have e2 : ¬ (nbrRef x v = x ∧ facingWall v = intoWall v) := fun h => nbrRef_ne_self hnb h.1
    unfold shownAfter
    rw [if_pos ⟨rfl, rfl⟩, if_neg e1, if_neg e2, if_pos ⟨rfl, rfl⟩]
  · by_cases hB : x = p ∧ v = intoWall w
    · obtain ⟨rfl, rfl⟩ := hB
      have e1 : ¬ (nbrRef x (intoWall w) = x ∧ facingWall (intoWall w) = w) :=
        fun h => nbrRef_ne_self hxnb h.1
      have e2 : ¬ (nbrRef x (intoWall w) = x ∧ facingWall (intoWall w) = intoWall w) :=
        fun h => nbrRef_ne_self hxnb h.1
      have e3 : ¬ (nbrRef x (intoWall w) = nbrRef x w ∧ facingWall (intoWall w) = facingWall w) :=
        fun h => nbrRef_into_ne hw hnb hxnb h.1
      unfold shownAfter
      rw [if_neg hA, if_pos ⟨rfl, rfl⟩, if_neg e1, if_neg e2, if_neg e3, if_pos ⟨hxnb, rfl, rfl⟩]
    · by_cases hA' : x = nbrRef p w ∧ v = facingWall w
      · obtain ⟨rfl, rfl⟩ := hA'
        have e : nbrRef (nbrRef p w) (facingWall w) = p ∧ facingWall (facingWall w) = w :=
          ⟨nbrRef_invol hw hnb, hfw.2⟩
        unfold shownAfter
        rw [if_neg hA, if_neg hB, if_pos ⟨rfl, rfl⟩, if_pos e]
      · by_cases hB' : hasNbr n p (intoWall w) ∧ x = nbrRef p (intoWall w)
            ∧ v = facingWall (intoWall w)
        · obtain ⟨hnbi, rfl, rfl⟩ := hB'
          have e : nbrRef (nbrRef p (intoWall w)) (facingWall (intoWall w)) = p
              ∧ facingWall (facingWall (intoWall w)) = intoWall w :=
            ⟨nbrRef_invol hi4 hnbi, hfi.2⟩
          have e1 : ¬ (nbrRef (nbrRef p (intoWall w)) (facingWall (intoWall w)) = p
              ∧ facingWall (facingWall (intoWall w)) = w) := fun h => hine (e.2.symm.trans h.2)
          unfold shownAfter
          rw [if_neg hA, if_neg hB, if_neg hA', if_pos ⟨hnbi, rfl, rfl⟩, if_neg e1, if_pos e]
        · -- an untouched wall: its partner is untouched too
          have f1 : ¬ (nbrRef x v = p ∧ facingWall v = w) := by
            intro h
            apply hA'
            rw [← h.1, ← h.2] 
            exact ⟨hinv.symm, hfv.2.symm⟩
          have f2 : ¬ (nbrRef x v = p ∧ facingWall v = intoWall w) := by
            intro h
            apply hB'
            have hb : hasNbr n p (intoWall w) := by rw [← h.1, ← h.2]; exact hback
            refine ⟨hb, ?_, ?_⟩
            · rw [← h.1, ← h.2]; exact hinv.symm
            · rw [← h.2]; exact hfv.2.symm
          have f3 : ¬ (nbrRef x v = nbrRef p w ∧ facingWall v = facingWall w) := by
            intro h
            apply hA
            have hv' : v = w := by rw [← hfv.2, h.2, hfw.2]
            refine ⟨?_, hv'⟩
            rw [← hinv, h.1, h.2]; exact nbrRef_invol hw hnb
          have f4 : ¬ (hasNbr n p (intoWall w) ∧ nbrRef x v = nbrRef p (intoWall w)
              ∧ facingWall v = facingWall (intoWall w)) := by
            intro h
            apply hB
            have hv' : v = intoWall w := by rw [← hfv.2, h.2.2, hfi.2]
            refine ⟨?_, hv'⟩
            rw [← hinv, h.2.1, h.2.2]; exact nbrRef_invol hi4 h.1
          unfold shownAfter
          rw [if_neg hA, if_neg hB, if_neg hA', if_neg hB', if_neg f1, if_neg f2, if_neg f3,
            if_neg f4]
          exact hold x v hv hx hxnb

theorem setWall_fields_wall (w : Nat) (c : Cell) (v : Nat) :
    (Cell.setIsRotating true (Cell.setWallToRotate (some w) c)).wall v = c.wall v := by
  unfold Cell.wall; split <;> rfl

/-- The `isShown` flags during and after the cycle of a single selected cell. -/
theorem single_cycle_shown {n : Nat} (m : Maze) (hg : GridOK n n m.grid) {p : Ref}
    (hsel : m.cellsToRotate = [p]) {c : Cell} (hc : cellAt m.grid p = some c) {w : Nat}
    (h : selectRandomWallToRotate m.grid c = some w)
    (hth : (c.wall w).theta = restTheta w) (hmax : (c.wall w).maxTheta = restTheta w + 90) :
    (∀ k, 1 ≤ k → k ≤ 45 → ∃ m', rotateTicks k m = some m' ∧
      ∀ x v, v < 4 → inGrid n n x → shownAt m'.grid x v =
        if x = nbrRef p w ∧ v = facingWall w then some false else shownAt m.grid x v) ∧
    ∃ m', rotateTicks 46 m = some m' ∧
      ∀ x v, v < 4 → inGrid n n x →
        shownAt m'.grid x v = shownAfter n p w (shownAt m.grid) x v := by
  obtain ⟨hw4, hnb, -, -⟩ := select_valid hg hc h
  obtain ⟨hi4, hine⟩ := intoWall_lt hw4
  obtain ⟨hmid, m2, hrun2, -, hcell2, hoth2⟩ := single_cycle m hg hsel hc h hth hmax
  have hne := nbrRef_ne_self hnb
  constructor
  · intro k hk1 hk
    obtain ⟨m1, hrun1, -, hcell1, hoth1⟩ := hmid k hk1 hk
    refine ⟨m1, hrun1, fun x v hv hx => ?_⟩
    obtain ⟨d, hd0, -, -⟩ := hg.cellAt_some hx.1 hx.2
    have hd : cellAt m.grid x = some d := hd0
    unfold shownAt fieldAt
    by_cases e : x = p
    · subst e
      have n1 : ¬ (x = nbrRef x w ∧ v = facingWall w) := fun hh => hne hh.1.symm
      rw [hcell1, hc, if_neg n1]
      show some ((Cell.turned w k c).wall v).isShown = _
      rw [turned_wall hw4 hv]
      split
      · rename_i e; rw [e]; rfl
      · rfl
    · rw [hoth1 x e, hd]
      by_cases e1 : x = nbrRef p w
      · rw [if_pos e1]
        show some ((Cell.setShown (facingWall w) false d).wall v).isShown = _
        rw [setShown_wall (facingWall_lt hw4).1 hv]
        by_cases e2 : v = facingWall w
        · rw [if_pos e2, if_pos (show x = nbrRef p w ∧ v = facingWall w from ⟨e1, e2⟩)]
        · rw [if_neg e2, if_neg (show ¬ (x = nbrRef p w ∧ v = facingWall w) from fun hh => e2 hh.2)]
          rfl
      · rw [if_neg e1, if_neg (show ¬ (x = nbrRef p w ∧ v = facingWall w) from fun hh => e1 hh.1)]
        rfl
  · refine ⟨m2, hrun2, fun x v hv hx => ?_⟩
    obtain ⟨d, hd0, -, -⟩ := hg.cellAt_some hx.1 hx.2
    have hd : cellAt m.grid x = some d := hd0
    unfold shownAfter
    unfold shownAt fieldAt
    by_cases e : x = p
    · subst e
      rw [hcell2, hc]
      show some ((Cell.completed w c).wall v).isShown = _
      rw [completed_wall hw4 hv]
      by_cases e1 : v = w
      · rw [if_pos e1, if_pos (show x = x ∧ v = w from ⟨rfl, e1⟩)]
      · rw [if_neg e1, if_neg (show ¬ (x = x ∧ v = w) from fun hh => e1 hh.2)]
        by_cases e2 : v = intoWall w
        · rw [if_pos e2, if_pos (show x = x ∧ v = intoWall w from ⟨rfl, e2⟩)]
        · have n2 : ¬ (x = x ∧ v = intoWall w) := fun hh => e2 hh.2
          have n3 : ¬ (x = nbrRef x w ∧ v = facingWall w) := fun hh => hne hh.1.symm
          have n4 : ¬ (hasNbr n x (intoWall w) ∧ x = nbrRef x (intoWall w)
              ∧ v = facingWall (intoWall w)) := fun hh => nbrRef_ne_self hh.1 hh.2.1.symm
          rw [if_neg e2, if_neg n2, if_neg n3, if_neg n4]
          rfl
    · have n1 : ¬ (x = p ∧ v = w) := fun hh => e hh.1
      have n2 : ¬ (x = p ∧ v = intoWall w) := fun hh => e hh.1
      rw [hoth2 x e, hd, if_neg n1, if_neg n2]
      by_cases e1 : x = nbrRef p w
      · rw [if_pos e1]
        show some ((Cell.setShown (facingWall w) false d).wall v).isShown = _
        rw [setShown_wall (facingWall_lt hw4).1 hv]
        by_cases e2 : v = facingWall w
        · rw [if_pos e2, if_pos (show x = nbrRef p w ∧ v = facingWall w from ⟨e1, e2⟩)]
        · have n3 : ¬ (x = nbrRef p w ∧ v = facingWall w) := fun hh => e2 hh.2
          have n4 : ¬ (hasNbr n p (intoWall w) ∧ x = nbrRef p (intoWall w)
              ∧ v = facingWall (intoWall w)) :=
            fun hh => nbrRef_into_ne hw4 hnb hh.1 (hh.2.1.symm.trans e1)
          rw [if_neg e2, if_neg n3, if_neg n4]
          rfl
      · have n3 : ¬ (x = nbrRef p w ∧ v = facingWall w) := fun hh => e1 hh.1
        rw [if_neg e1, if_neg n3]
        by_cases e2 : x = nbrRef p (intoWall w) ∧ hasNbr n p (intoWall w)
        · rw [if_pos e2]
          show some ((Cell.setShown (facingWall (intoWall w)) true d).wall v).isShown = _
          rw [setShown_wall (facingWall_lt hi4).1 hv]
          by_cases e3 : v = facingWall (intoWall w)
          · rw [if_pos e3, if_pos (show hasNbr n p (intoWall w) ∧ x = nbrRef p (intoWall w)
              ∧ v = facingWall (intoWall w) from ⟨e2.2, e2.1, e3⟩)]
          · have n4 : ¬ (hasNbr n p (intoWall w) ∧ x = nbrRef p (intoWall w)
                ∧ v = facingWall (intoWall w)) := fun hh => e3 hh.2.2
            rw [if_neg e3, if_neg n4]; rfl
        · have n4 : ¬ (hasNbr n p (intoWall w) ∧ x = nbrRef p (intoWall w)
              ∧ v = facingWall (intoWall w)) := fun hh => e2 ⟨hh.2.1, hh.1⟩
          rw [if_neg e2, if_neg n4]; rfl

/-- C4 (amended). On a well-formed square grid in a symmetric state, with a single selected
cell `p` whose wall `w`, at rest, was chosen by `selectRandomWallToRotate`: after each of the
first 45 calls of the rotation operation (the first call and every intermediate call) the
rotating cell's wall `w` is still shown while the neighbour's matching wall is hidden, and every
other adjacent wall pair has the same `isShown` on both sides; after the completing 46th call
every adjacent wall pair, the rotating one included, has the same `isShown` on both sides. -/
theorem rotation_resynchronises_walls_at_completion {n : Nat} (m : Maze)
    (hg : GridOK n n m.grid) (hsym : Symmetric n n m.grid) (p : Ref)
    (hsel : m.cellsToRotate = [p]) (c : Cell) (hc : cellAt m.grid p = some c) (w : Nat)
    (hw : selectRandomWallToRotate m.grid c = some w)
    (hth : (c.wall w).theta = restTheta w) (hmax : (c.wall w).maxTheta = restTheta w + 90) :
    (∀ k, 1 ≤ k → k ≤ 45 → ∃ m', rotateTicks k m = some m' ∧
      shownAt m'.grid p w = some true ∧
      shownAt m'.grid (nbrRef p w) (facingWall w) = some false ∧
      ∀ x v, v < 4 → inGrid n n x → hasNbr n x v → ¬ (x = p ∧ v = w) →
        ¬ (x = nbrRef p w ∧ v = facingWall w) →
        shownAt m'.grid x v = shownAt m'.grid (nbrRef x v) (facingWall v)) ∧
    ∃ m', rotateTicks 46 m = some m' ∧ Symmetric n n m'.grid := by
  obtain ⟨hw4, hnb, hshown, -⟩ := select_valid hg hc hw
  obtain ⟨hp1, hp2, -, -⟩ := hg.cellAt_bound hc
  have hpin : inGrid n n p := ⟨hp1, hp2⟩
  have hfw := facingWall_lt hw4
  have hold := (symmetric_iff_pairsAgree n m.grid).mp hsym
  obtain ⟨hmid, m2, hrun2, hfin⟩ := single_cycle_shown m hg hsel hc hw hth hmax
  constructor
  · intro k hk1 hk
    obtain ⟨m1, hrun1, hfl⟩ := hmid k hk1 hk
    refine ⟨m1, hrun1, ?_, ?_, ?_⟩
    · rw [hfl p w hw4 hpin,
        if_neg (show ¬ (p = nbrRef p w ∧ w = facingWall w) from
          fun hh => nbrRef_ne_self hnb hh.1.symm)]
      unfold shownAt fieldAt
      rw [hc]
      exact congrArg some hshown
    · rw [hfl _ _ hfw.1 (nbrRef_inGrid hpin hnb),
        if_pos (show nbrRef p w = nbrRef p w ∧ facingWall w = facingWall w from ⟨rfl, rfl⟩)]
    · intro x v hv hx hxnb h1 h2
      have hfv := facingWall_lt hv
      rw [hfl x v hv hx, hfl _ _ hfv.1 (nbrRef_inGrid hx hxnb), if_neg h2]
      have h3 : ¬ (nbrRef x v = nbrRef p w ∧ facingWall v = facingWall w) := by
        intro hh
        apply h1
        have hv' : v = w := by rw [← hfv.2, hh.2, hfw.2]
        refine ⟨?_, hv'⟩
        rw [← nbrRef_invol hv hxnb, hh.1, hh.2]; exact nbrRef_invol hw4 hnb
      rw [if_neg h3]
      exact hold x v hv hx hxnb
  · refine ⟨m2, hrun2, (symmetric_iff_pairsAgree n m2.grid).mpr ?_⟩
    intro x v hv hx hxnb
    rw [hfin x v hv hx, hfin _ _ (facingWall_lt hv).1 (nbrRef_inGrid hx hxnb)]
    exact shownAfter_pairsAgree hw4 hpin hnb _ hold x v hv hx hxnb

theorem rotation_resynchronises_walls_at_completion_witness :
    ∃ s, runDraws (initialState 3 3) (List.replicate 17 0) = some s ∧
      (∀ k, 1 ≤ k → k ≤ 45 →
        ∃ m', rotateTicks k { s.maze with cellsToRotate := [(1, 1)] } = some m' ∧
          shownAt m'.grid (1, 1) 1 = some true ∧
          shownAt m'.grid (nbrRef (1, 1) 1) (facingWall 1) = some false ∧
          ∀ x v, v < 4 → inGrid 3 3 x → hasNbr 3 x v → ¬ (x = (1, 1) ∧ v = 1) →
            ¬ (x = nbrRef (1, 1) 1 ∧ v = facingWall 1) →
            shownAt m'.grid x v = shownAt m'.grid (nbrRef x v) (facingWall v)) ∧
      ∃ m', rotateTicks 46 { s.maze with cellsToRotate := [(1, 1)] } = some m' ∧
        Symmetric 3 3 m'.grid := by
  have h : ∃ s, runDraws (initialState 3 3) (List.replicate 17 0) = some s ∧
      GridOK 3 3 s.maze.grid ∧ Symmetric 3 3 s.maze.grid ∧
      ∃ c, cellAt s.maze.grid (1, 1) = some c ∧
        selectRandomWallToRotate s.maze.grid c = some 1 ∧
        (c.wall 1).theta = restTheta 1 ∧ (c.wall 1).maxTheta = restTheta 1 + 90 := by
    decide
  obtain ⟨s, hs, h1, h2, c, hc, h3, h4, h5⟩ := h
  exact ⟨s, hs, rotation_resynchronises_walls_at_completion
    { s.maze with cellsToRotate := [(1, 1)] } h1 h2 (1, 1) rfl c hc 1 h3 h4 h5⟩

/-- C4 (counterexample). The `3 x 3` maze generated with every draw 0 is symmetric, and
`selectRandomWallToRotate` chooses the right wall of cell `(1, 1)`; after the first call of
`rotateRightWall` the cell's right wall is shown but the left wall of its right neighbour
`(1, 2)` is hidden, so the state is no longer symmetric. And on the generated `3 x 2` maze,
also symmetric, the right wall of `(1, 1)` is chosen and the call of `rotateRightWall` raises a
TypeError. -/
theorem first_rotation_call_breaks_lockstep :
    (∃ s, runDraws (initialState 3 3) (List.replicate 17 0) = some s ∧
      Symmetric 3 3 s.maze.grid ∧
      ∃ c, cellAt s.maze.grid (1, 1) = some c ∧
        selectRandomWallToRotate s.maze.grid c = some 1 ∧
        ∃ g, rotateRightWall s.maze.grid (1, 1) = some g ∧
          shownAt g (1, 1) 1 = some true ∧ shownAt g (1, 2) 3 = some false ∧
          ¬ Symmetric 3 3 g) ∧
    (∃ s, runDraws (initialState 3 2) (List.replicate 11 0) = some s ∧
      Symmetric 3 2 s.maze.grid ∧
      ∃ c, cellAt s.maze.grid (1, 1) = some c ∧
        selectRandomWallToRotate s.maze.grid c = some 1 ∧
        rotateRightWall s.maze.grid (1, 1) = none) := by
  constructor <;> decide

/-! ## Passages after a rotation -/

theorem fieldAt_some_inGrid {R C : Nat} {g : Grid} (hg : GridOK R C g) {β : Type} {x : Ref}
    {proj : Cell → β} {b : β} (h : fieldAt g x proj = some b) : inGrid R C x := by
  unfold fieldAt at h
  cases hc : cellAt g x with
  | none => rw [hc] at h; cases h
  | some c =>
    obtain ⟨h1, h2, -, -⟩ := hg.cellAt_bound hc
    exact ⟨h1, h2⟩

/-- A passage, wall by wall: `y` is the neighbour of `x` behind some wall `v`, and both copies
of that wall are hidden. -/
theorem passage_iff_shownAt {n : Nat} {g : Grid} (hg : GridOK n n g) (x y : Ref) :
    passage g x y ↔ ∃ v, v < 4 ∧ inGrid n n x ∧ hasNbr n x v ∧ y = nbrRef x v ∧
      shownAt g x v = some false ∧ shownAt g y (facingWall v) = some false := by
  obtain ⟨x1, x2⟩ := x
  obtain ⟨y1, y2⟩ := y
  constructor
  · intro h
    unfold passage at h
    rcases h with ⟨h1, h2, h3, h4⟩ | ⟨h1, h2, h3, h4⟩ | ⟨h1, h2, h3, h4⟩ | ⟨h1, h2, h3, h4⟩
    · have hx := fieldAt_some_inGrid hg h3
      have hy := fieldAt_some_inGrid hg h4
      simp only at h1 h2
      subst h1 h2
      exact ⟨1, by decide, hx, hy.2, rfl, h3, h4⟩
    · have hx := fieldAt_some_inGrid hg h3
      simp only at h1 h2
      subst h1 h2
      exact ⟨3, by decide, hx, Nat.succ_ne_zero _, rfl, h3, h4⟩
    · have hx := fieldAt_some_inGrid hg h3
      have hy := fieldAt_some_inGrid hg h4
      simp only at h1 h2
      subst h1 h2
      exact ⟨2, by decide, hx, hy.1, rfl, h3, h4⟩
    · have hx := fieldAt_some_inGrid hg h3
      simp only at h1 h2
      subst h1 h2
      exact ⟨0, by decide, hx, Nat.succ_ne_zero _, rfl, h3, h4⟩
  · rintro ⟨v, hv, -, hnb, hy, h3, h4⟩
    unfold passage
    interval_cases v
    · have hnb' : x1 ≠ 0 := hnb
      have e : (y1, y2) = (x1 - 1, x2) := hy
      simp only [Prod.mk.injEq] at e
      exact Or.inr (Or.inr (Or.inr ⟨by simp only; omega, e.2, h3, h4⟩))
    · have e : (y1, y2) = (x1, x2 + 1) := hy
      simp only [Prod.mk.injEq] at e
      exact Or.inl ⟨e.1, e.2, h3, h4⟩
    · have e : (y1, y2) = (x1 + 1, x2) := hy
      simp only [Prod.mk.injEq] at e
      exact Or.inr (Or.inr (Or.inl ⟨e.1, e.2, h3, h4⟩))
    · have hnb' : x2 ≠ 0 := hnb
      have e : (y1, y2) = (x1, x2 - 1) := hy
      simp only [Prod.mk.injEq] at e
      exact Or.inr (Or.inl ⟨e.1, by simp only; omega, h3, h4⟩)

theorem nbrRef_inj {n : Nat} {p : Ref} {v u : Nat} (hv : v < 4) (hu : u < 4)
    (hp : inGrid n n p) (h : hasNbr n p v) (e : nbrRef p v = nbrRef p u) : v = u := by
  obtain ⟨p1, p2⟩ := p
  obtain ⟨h1, h2⟩ := hp
  simp only at h1 h2
  interval_cases v <;> interval_cases u <;>
    first
    | rfl
    | (exfalso
       simp only [hasNbr, nbrRef, ne_eq, Prod.mk.injEq] at h e
       omega)

/-- No passage leads out of a set of cells that is closed under passages. -/
theorem not_reach_of_closed {R C : Nat} {g : Grid} (hg : GridOK R C g) (S : List Ref)
    (hclosed : ∀ x, x ∈ S → ∀ y, y ∈ cells R C → passage g x y → y ∈ S) {a b : Ref}
    (ha : a ∈ S) (hb : b ∉ S) : ¬ Reach g a b := by
  intro h
  have : ∀ y, Reach g a y → y ∈ S := by
    intro y hy
    unfold Reach at hy
    induction hy with
    | refl => exact ha
    | @tail u z _ hstep ih =>
      apply hclosed u ih z _ hstep
      rw [mem_cells]
      have hz := passage_symm hstep
      unfold passage at hz
      rcases hz with ⟨-, -, h3, -⟩ | ⟨-, -, h3, -⟩ | ⟨-, -, h3, -⟩ | ⟨-, -, h3, -⟩ <;>
        exact fieldAt_some_inGrid hg h3
  exact hb (this b h)

/-- C5 (counterexample). The `3 x 3` maze generated with the draws 1, 1, 0, 0, ... is complete;
`selectCellsToRotate` makes the selection `(2,0), (1,2), (1,1), (1,0), (0,1), (0,0)` of six
different cells; after the complete cycle of 46 ticks no passage leaves the cells `(0, 0)` and
`(1, 0)`, so the goal cell `(2, 2)` cannot be reached from the player's cell `(0, 0)` and the
open-wall graph is not connected. -/
theorem scramble_cycle_disconnects_maze :
    ∃ s, runDraws (initialState 3 3) ([1, 1] ++ List.replicate 15 0) = some s ∧
      s.mazeGenerationComplete = true ∧ s.maze.currentCell = some (0, 0) ∧
      fieldAt s.maze.grid (2, 2) (fun c => c.isGoal) = some true ∧
      ∃ r, selectCellsToRotate 3 s.maze [(2, 0), (1, 2), (1, 1), (1, 0), (0, 1), (0, 0)] = some r ∧
        r.1.cellsToRotate = [(2, 0), (1, 2), (1, 1), (1, 0), (0, 1), (0, 0)] ∧
        ∃ m2, rotateTicks 46 r.1 = some m2 ∧ m2.currentCell = some (0, 0) ∧
          ¬ Reach m2.grid (0, 0) (2, 2) ∧ ¬ Connected 3 3 m2.grid := by
  have h : ∃ s, runDraws (initialState 3 3) ([1, 1] ++ List.replicate 15 0) = some s ∧
      s.mazeGenerationComplete = true ∧ s.maze.currentCell = some (0, 0) ∧
      fieldAt s.maze.grid (2, 2) (fun c => c.isGoal) = some true ∧
      ∃ r, selectCellsToRotate 3 s.maze [(2, 0), (1, 2), (1, 1), (1, 0), (0, 1), (0, 0)] = some r ∧
        r.1.cellsToRotate = [(2, 0), (1, 2), (1, 1), (1, 0), (0, 1), (0, 0)] ∧
        ∃ m2, rotateTicks 46 r.1 = some m2 ∧ m2.currentCell = some (0, 0) ∧
          GridOK 3 3 m2.grid ∧
          ∀ x, x ∈ [((0 : Nat), (0 : Nat)), (1, 0)] → ∀ y, y ∈ cells 3 3 → passage m2.grid x y →
            y ∈ [((0 : Nat), (0 : Nat)), (1, 0)] := by
    decide
  obtain ⟨s, h1, h2, h3, h4, r, h5, h6, m2, h7, h8, h9, h10⟩ := h
  have hnot : ¬ Reach m2.grid (0, 0) (2, 2) :=
    not_reach_of_closed h9 [(0, 0), (1, 0)] h10 (by decide) (by decide)
  exact ⟨s, h1, h2, h3, h4, r, h5, h6, m2, h7, h8, hnot,
    fun hc => hnot (hc (0, 0) (2, 2) (by decide) (by decide))⟩

/-! ## The wall choice of a selected cell -/

/-- C20 (amended). For every grid of `R >= 1` rows, whatever its number of columns, and every
cell, `selectRandomWallToRotate` follows the fixed priority order of the specification with
both border tests taken against the number of rows: top (0) if top is shown, left is not shown
and the cell is not in row 0; otherwise right (1) if right is shown, top is not shown and the
cell is not in column `R - 1`; otherwise bottom (2) if bottom is shown, right is not shown and
the cell is not in row `R - 1`; otherwise left (3) if left is shown, bottom is not shown and
the cell is not in column 0; and none exactly when no condition holds. On a square grid this
is the order as the specification states it. -/
theorem wall_choice_follows_priority_order (g : Grid) (hR : 1 ≤ g.length) (c : Cell) :
    selectRandomWallToRotate g c = wallChoiceSpec g.length g.length c := by
  have e1 : (c.columnNumber + 1 ≠ g.length) ↔ (c.columnNumber ≠ g.length - 1) := by omega
  have e2 : (c.rowNumber + 1 ≠ g.length) ↔ (c.rowNumber ≠ g.length - 1) := by omega
  unfold selectRandomWallToRotate wallChoiceSpec
  simp only [e1, e2, Bool.not_eq_true]

theorem wall_choice_follows_priority_order_witness :
    ∃ s c, runDraws (initialState 3 3) (List.replicate 17 0) = some s ∧
      cellAt s.maze.grid (1, 1) = some c ∧
      selectRandomWallToRotate s.maze.grid c = wallChoiceSpec s.maze.grid.length s.maze.grid.length c
      ∧ wallChoiceSpec s.maze.grid.length s.maze.grid.length c = some 1 := by
  have h : ∃ s, runDraws (initialState 3 3) (List.replicate 17 0) = some s ∧
      1 ≤ s.maze.grid.length ∧ ∃ c, cellAt s.maze.grid (1, 1) = some c ∧
        wallChoiceSpec s.maze.grid.length s.maze.grid.length c = some 1 := by
    decide
  obtain ⟨s, hs, h1, c, hc, h2⟩ := h
  exact ⟨s, c, hs, hc, wall_choice_follows_priority_order s.maze.grid h1 c, h2⟩

/-- C20 (counterexample). On the `3 x 2` maze generated with every draw 0, the cell `(1, 1)` is
in the last column; its right wall is shown and its top wall is not. The order of the
specification passes over the right wall and gives left (3); `selectRandomWallToRotate`
returns right (1), because it compares the column with `grid.length - 1 = 2`. -/
theorem wall_choice_differs_on_three_by_two_maze :
    ∃ s, runDraws (initialState 3 2) (List.replicate 11 0) = some s ∧
      s.mazeGenerationComplete = true ∧ GridOK 3 2 s.maze.grid ∧
      ∃ c, cellAt s.maze.grid (1, 1) = some c ∧
        wallChoiceSpec 3 2 c = some 3 ∧ selectRandomWallToRotate s.maze.grid c = some 1 := by
  decide

/-! ## `removeWalls` on neighbours and on other pairs -/

/-- For orthogonal neighbours `removeWalls` hides the wall of the first cell on the side of the
second and the wall of the second cell facing it, and does nothing else. -/
theorem removeWalls_setShown {R C : Nat} {g : Grid} (hg : GridOK R C g) {p q : Ref} {a b : Cell}
    (hp : cellAt g p = some a) (hq : cellAt g q = some b) (hadj : adjacent p q) :
    ∃ w, w < 4 ∧ q = nbrRef p w ∧
      removeWalls g p q = some (modifyCell (modifyCell g p (Cell.setShown w false)) q
        (Cell.setShown (facingWall w) false)) := by
  have h := removeWalls_eq hg hp hq hadj
  obtain ⟨p1, p2⟩ := p
  obtain ⟨q1, q2⟩ := q
  unfold adjacent at hadj
  simp only at hadj h
  rcases hadj with ⟨h1, h2⟩ | ⟨h1, h2⟩ | ⟨h1, h2⟩ | ⟨h1, h2⟩
  · refine ⟨0, by decide, ?_, ?_⟩
    · show (q1, q2) = (p1 - 1, p2)
      rw [Prod.mk.injEq]; omega
    · rw [h, if_neg (by omega), if_neg (by omega), if_pos h1]; rfl
  · refine ⟨2, by decide, ?_, ?_⟩
    · show (q1, q2) = (p1 + 1, p2)
      rw [Prod.mk.injEq]; omega
    · rw [h, if_neg (by omega), if_neg (by omega), if_neg (by omega)]; rfl
  · refine ⟨1, by decide, ?_, ?_⟩
    · show (q1, q2) = (p1, p2 + 1)
      rw [Prod.mk.injEq]; omega
    · rw [h, if_neg (by omega), if_pos h2]; rfl
  · refine ⟨3, by decide, ?_, ?_⟩
    · show (q1, q2) = (p1, p2 - 1)
      rw [Prod.mk.injEq]; omega
    · rw [h, if_pos h2]; rfl

theorem setShown_fields (u : Nat) (b : Bool) (d : Cell) :
    (Cell.setShown u b d).rowNumber = d.rowNumber ∧
    (Cell.setShown u b d).columnNumber = d.columnNumber ∧
    (Cell.setShown u b d).visited = d.visited ∧
    (Cell.setShown u b d).isRotating = d.isRotating ∧
    (Cell.setShown u b d).isGoal = d.isGoal ∧
    (Cell.setShown u b d).wallToRotate = d.wallToRotate := by
  rcases u with _ | _ | _ | u <;> exact ⟨rfl, rfl, rfl, rfl, rfl, rfl⟩

theorem setShown_angles (u : Nat) (b : Bool) (d : Cell) (v : Nat) :
    ((Cell.setShown u b d).wall v).theta = (d.wall v).theta ∧
      ((Cell.setShown u b d).wall v).maxTheta = (d.wall v).maxTheta := by
  rcases u with _ | _ | _ | u <;> rcases v with _ | _ | _ | v <;> exact ⟨rfl, rfl⟩

/-- C18. For two orthogonally adjacent cells `p` and `q` of a well-formed grid, in either
argument order, `removeWalls(p, q)` raises no TypeError and sets `isShown = false` on the wall
`w` of `p` that faces `q` and on the wall of `q` that faces `p` (for instance the right wall of
`p` and the left wall of `q` when `q` is one column to the right); every other wall flag of
every cell, every `theta` and `maxTheta`, and every other field of every cell are unchanged. -/
theorem removeWalls_clears_exactly_the_shared_pair {R C : Nat} {g : Grid} (hg : GridOK R C g)
    {p q : Ref} (hp : inGrid R C p) (hq : inGrid R C q) (hadj : adjacent p q) :
    ∃ g' w, w < 4 ∧ q = nbrRef p w ∧ removeWalls g p q = some g' ∧
      shownAt g' p w = some false ∧ shownAt g' q (facingWall w) = some false ∧
      (∀ x v, v < 4 → ¬ (x = p ∧ v = w) → ¬ (x = q ∧ v = facingWall w) →
        shownAt g' x v = shownAt g x v) ∧
      (∀ x v, fieldAt g' x (fun c => ((c.wall v).theta, (c.wall v).maxTheta))
        = fieldAt g x (fun c => ((c.wall v).theta, (c.wall v).maxTheta))) ∧
      (∀ x, fieldAt g' x (fun c => (c.rowNumber, c.columnNumber, c.visited, c.isRotating,
          c.isGoal, c.wallToRotate))
        = fieldAt g x (fun c => (c.rowNumber, c.columnNumber, c.visited, c.isRotating,
          c.isGoal, c.wallToRotate))) := by
  obtain ⟨a, ha, -, -⟩ := hg.cellAt_some hp.1 hp.2
  obtain ⟨b, hb, -, -⟩ := hg.cellAt_some hq.1 hq.2
  have ha' : cellAt g p = some a := ha
  have hb' : cellAt g q = some b := hb
  obtain ⟨w, hw, hqw, hrem⟩ := removeWalls_setShown hg ha' hb' hadj
  have hfw := facingWall_lt hw
  have hne : q ≠ p := by
    intro e
    rw [e] at hadj
    exact not_adjacent_self p hadj
  refine ⟨_, w, hw, hqw, hrem, ?_, ?_, ?_, ?_, ?_⟩
  · unfold shownAt
    rw [fieldAt_modifyCell, if_neg hne.symm, fieldAt_modifyCell, if_pos rfl]
    unfold fieldAt
    rw [ha']
    show some ((Cell.setShown w false a).wall w).isShown = _
    rw [setShown_wall hw hw, if_pos rfl]
  · unfold shownAt
    rw [fieldAt_modifyCell, if_pos rfl, fieldAt_modifyCell, if_neg hne]
    unfold fieldAt
    rw [hb']
    show some ((Cell.setShown (facingWall w) false b).wall (facingWall w)).isShown = _
    rw [setShown_wall hfw.1 hfw.1, if_pos rfl]
  · intro x v hv h1 h2
    unfold shownAt
    rw [fieldAt_modifyCell]
    by_cases e1 : x = q
    · have e2 : x ≠ p := e1 ▸ hne
      rw [if_pos e1, fieldAt_modifyCell_ne _ _ _ e2]
      unfold fieldAt
      congr 1
      funext d
      show ((Cell.setShown (facingWall w) false d).wall v).isShown = _
      rw [setShown_wall hfw.1 hv, if_neg (fun e => h2 ⟨e1, e⟩)]
    · rw [if_neg e1, fieldAt_modifyCell]
      by_cases e2 : x = p
      · rw [if_pos e2]
        unfold fieldAt
        congr 1
        funext d
        show ((Cell.setShown w false d).wall v).isShown = _
        rw [setShown_wall hw hv, if_neg (fun e => h1 ⟨e2, e⟩)]
      · rw [if_neg e2]
  · intro x v
    rw [fieldAt_modifyCell_keep _ _ _ _ _ (fun d => by
        rw [(setShown_angles _ _ d v).1, (setShown_angles _ _ d v).2]),
      fieldAt_modifyCell_keep _ _ _ _ _ (fun d => by
        rw [(setShown_angles _ _ d v).1, (setShown_angles _ _ d v).2])]
  · intro x
    rw [fieldAt_modifyCell_keep _ _ _ _ _ (fun d => by
        obtain ⟨e1, e2, e3, e4, e5, e6⟩ := setShown_fields (facingWall w) false d
        rw [e1, e2, e3, e4, e5, e6]),
      fieldAt_modifyCell_keep _ _ _ _ _ (fun d => by
        obtain ⟨e1, e2, e3, e4, e5, e6⟩ := setShown_fields w false d
        rw [e1, e2, e3, e4, e5, e6])]

theorem removeWalls_clears_exactly_the_shared_pair_witness :
    ∃ g' w, w < 4 ∧ ((0 : Nat), (1 : Nat)) = nbrRef (0, 0) w ∧
      removeWalls (freshGrid 2 2) (0, 0) (0, 1) = some g' ∧
      shownAt g' (0, 0) w = some false ∧ shownAt g' (0, 1) (facingWall w) = some false ∧
      (∀ x v, v < 4 → ¬ (x = (0, 0) ∧ v = w) → ¬ (x = (0, 1) ∧ v = facingWall w) →
        shownAt g' x v = shownAt (freshGrid 2 2) x v) ∧
      (∀ x v, fieldAt g' x (fun c => ((c.wall v).theta, (c.wall v).maxTheta))
        = fieldAt (freshGrid 2 2) x (fun c => ((c.wall v).theta, (c.wall v).maxTheta))) ∧
      (∀ x, fieldAt g' x (fun c => (c.rowNumber, c.columnNumber, c.visited, c.isRotating,
          c.isGoal, c.wallToRotate))
        = fieldAt (freshGrid 2 2) x (fun c => (c.rowNumber, c.columnNumber, c.visited,
          c.isRotating, c.isGoal, c.wallToRotate))) :=
  removeWalls_clears_exactly_the_shared_pair (by decide : GridOK 2 2 (freshGrid 2 2))
    (by decide) (by decide) (by decide)

/-- C19 (amended). On a well-formed grid `removeWalls(p, q)` changes nothing at all when the
column numbers of the two cells do not differ by exactly 1 and their row numbers do not differ
by exactly 1: the same cell, two cells of one row or one column that are two or more apart,
and cells two or more apart in both coordinates. -/
theorem removeWalls_noop_without_unit_difference {R C : Nat} {g : Grid} (hg : GridOK R C g)
    {p q : Ref} (hp : inGrid R C p) (hq : inGrid R C q)
    (hcol : p.2 ≠ q.2 + 1 ∧ q.2 ≠ p.2 + 1) (hrow : p.1 ≠ q.1 + 1 ∧ q.1 ≠ p.1 + 1) :
    removeWalls g p q = some g := by
  obtain ⟨a, ha, ha1, ha2⟩ := hg.cellAt_some hp.1 hp.2
  obtain ⟨b, hb, hb1, hb2⟩ := hg.cellAt_some hq.1 hq.2
  have ha' : cellAt g p = some a := ha
  have hb' : cellAt g q = some b := hb
  have e1 : ¬ ((p.2 : Int) - (q.2 : Int) = 1) := by omega
  have e2 : ¬ ((p.2 : Int) - (q.2 : Int) = -1) := by omega
  have e3 : ¬ ((p.1 : Int) - (q.1 : Int) = 1) := by omega
  have e4 : ¬ ((p.1 : Int) - (q.1 : Int) = -1) := by omega
  unfold removeWalls
  simp only [ha', hb', ha1, ha2, hb1, hb2, e1, e2, e3, e4, if_false]

theorem removeWalls_noop_without_unit_difference_witness :
    removeWalls (freshGrid 3 3) (0, 0) (2, 0) = some (freshGrid 3 3) :=
  removeWalls_noop_without_unit_difference (by decide : GridOK 3 3 (freshGrid 3 3))
    (by decide) (by decide) (by decide) (by decide)

/-- C19 (counterexample). The cells `(0, 0)` and `(1, 1)` of the freshly set-up `2 x 2` grid
are diagonal neighbours, not orthogonally adjacent; `removeWalls` hides the right and the
bottom wall of `(0, 0)` and the left and the top wall of `(1, 1)`. -/
theorem removeWalls_changes_diagonal_neighbours :
    ¬ adjacent ((0 : Nat), (0 : Nat)) (1, 1) ∧
      (cellAt (freshGrid 2 2) (0, 0)).map Cell.getShownWalls = some [true, true, true, true] ∧
      (cellAt (freshGrid 2 2) (1, 1)).map Cell.getShownWalls = some [true, true, true, true] ∧
      ∃ g', removeWalls (freshGrid 2 2) (0, 0) (1, 1) = some g' ∧
        (cellAt g' (0, 0)).map Cell.getShownWalls = some [true, false, false, true] ∧
        (cellAt g' (1, 1)).map Cell.getShownWalls = some [false, true, true, false] := by
  decide

/-! ## The neighbour lookup on grids with at most as many columns as rows -/

/-- C17 (amended). On every well-formed grid with at most as many columns as rows (every
square grid in particular), for every cell and every random draw, `checkNeighbors` raises no
TypeError and returns either a cell that is inside the grid, orthogonally adjacent to the
receiver and has `visited = false`, or none; and it returns none exactly when every in-bounds
orthogonal neighbour of the receiver has `visited = true`. -/
theorem checkNeighbors_correct_when_columns_le_rows {R C : Nat} (hCR : C ≤ R) {g : Grid}
    (hg : GridOK R C g) {p : Ref} {this : Cell} (hthis : cellAt g p = some this) (rnd : Nat) :
    ∃ res, checkNeighbors g this rnd = some res ∧
      (∀ q, res = some q → inGrid R C q ∧ adjacent p q ∧
        fieldAt g q (fun c => c.visited) = some false) ∧
      (res = none ↔ ∀ q, inGrid R C q → adjacent p q →
        fieldAt g q (fun c => c.visited) = some true) := by
  obtain ⟨res, hres, hsome, hnone⟩ := checkNeighbors_spec hg hthis rnd
  refine ⟨res, hres, ?_, ?_, ?_⟩
  · intro q hq
    obtain ⟨h1, h2, h3, h4⟩ := hsome q hq
    exact ⟨⟨h2, h3⟩, h1, h4⟩
  · intro hn q hq hadj
    exact hnone hn q hadj hq.1 hq.2 (by intro _; have := hq.2; omega)
  · intro hall
    cases res with
    | none => rfl
    | some q =>
      obtain ⟨h1, h2, h3, h4⟩ := hsome q rfl
      have := hall q ⟨h2, h3⟩ h1
      rw [h4] at this
      cases this

theorem checkNeighbors_correct_when_columns_le_rows_witness :
    ∃ c, cellAt (freshGrid 2 2) (0, 0) = some c ∧
      ∃ res, checkNeighbors (freshGrid 2 2) c 1 = some res ∧
        (∀ q, res = some q → inGrid 2 2 q ∧ adjacent (0, 0) q ∧
          fieldAt (freshGrid 2 2) q (fun c => c.visited) = some false) ∧
        (res = none ↔ ∀ q, inGrid 2 2 q → adjacent (0, 0) q →
          fieldAt (freshGrid 2 2) q (fun c => c.visited) = some true) := by
  have h : ∃ c, cellAt (freshGrid 2 2) (0, 0) = some c := ⟨_, rfl⟩
  obtain ⟨c, hc⟩ := h
  exact ⟨c, hc, checkNeighbors_correct_when_columns_le_rows (Nat.le_refl 2)
    (by decide : GridOK 2 2 (freshGrid 2 2)) hc 1⟩

/-- C17 (counterexample). On the freshly set-up `1 x 2` grid the cell `(0, 0)` has the in-bounds
right neighbour `(0, 1)` with `visited = false`, but `checkNeighbors` returns none for every
draw: the test `column !== grid.length - 1` compares the column with the number of rows. -/
theorem checkNeighbors_misses_right_neighbour_on_one_by_two :
    GridOK 1 2 (freshGrid 1 2) ∧ inGrid 1 2 (0, 1) ∧ adjacent ((0 : Nat), (0 : Nat)) (0, 1) ∧
      fieldAt (freshGrid 1 2) (0, 1) (fun c => c.visited) = some false ∧
      ∃ c, cellAt (freshGrid 1 2) (0, 0) = some c ∧
        ∀ rnd, checkNeighbors (freshGrid 1 2) c rnd = some none := by
  refine ⟨by decide, by decide, by decide, by decide, ?_⟩
  exact ⟨_, rfl, fun rnd => rfl⟩

/-! ## Scramble selection retries until the call stack is exhausted -/

/-- A value returned with the call stack counted is the value `getRandomCell` returns. -/
theorem getRandomCellNested_returned (m : Maze) :
    ∀ (depth : Nat) (ds : List (Nat × Nat)) (r : Ref × List (Nat × Nat)),
      getRandomCellNested m depth ds = Outcome.returned r → getRandomCell m ds = some r := by
  intro depth
  induction depth with
  | zero => intro ds r h; simp [getRandomCellNested] at h
  | succ depth ih =>
    intro ds r h
    cases ds with
    | nil => simp [getRandomCellNested] at h
    | cons d ds =>
      simp only [getRandomCellNested, getRandomCell] at h ⊢
      cases hread : readRef m.grid (randomIndex d.1 m.rows) (randomIndex d.2 m.columns) with
      | none => rw [hread] at h; cases h
      | some o =>
        cases o with
        | none => rw [hread] at h; cases h
        | some p =>
          rw [hread] at h
          simp only at h ⊢
          cases hcell : cellAt m.grid p with
          | none => rw [hcell] at h; cases h
          | some c =>
            rw [hcell] at h
            simp only at h ⊢
            split at h
            · rename_i hrej
              rw [if_pos hrej]
              exact ih ds r h
            · rename_i hrej
              rw [if_neg hrej]
              cases h
              rfl

/-- A value `getRandomCell` returns is returned with the call stack counted as soon as the
stack allows one nested call per draw of the supply. -/
theorem getRandomCell_nested (m : Maze) :
    ∀ (ds : List (Nat × Nat)) (r : Ref × List (Nat × Nat)), getRandomCell m ds = some r →
      ∀ depth, ds.length ≤ depth → getRandomCellNested m depth ds = Outcome.returned r := by
  intro ds
  induction ds with
  | nil => intro r h; simp [getRandomCell] at h
  | cons d ds ih =>
    intro r h depth hd
    cases depth with
    | zero => simp at hd
    | succ depth =>
      simp only [getRandomCellNested, getRandomCell] at h ⊢
      cases hread : readRef m.grid (randomIndex d.1 m.rows) (randomIndex d.2 m.columns) with
      | none => rw [hread] at h; cases h
      | some o =>
        cases o with
        | none => rw [hread] at h; cases h
        | some p =>
          rw [hread] at h
          simp only at h ⊢
          cases hcell : cellAt m.grid p with
          | none => rw [hcell] at h; cases h
          | some c =>
            rw [hcell] at h
            simp only at h ⊢
            split at h
            · rename_i hrej
              rw [if_pos hrej]
              exact ih r h depth (by simpa using hd)
            · rename_i hrej
              rw [if_neg hrej]
              cases h
              rfl

/-- A selection returned with the call stack counted is the selection `selectLoop` returns. -/
theorem selectLoopNested_returned (depth : Nat) :
    ∀ (count : Nat) (m : Maze) (ds : List (Nat × Nat)) (r : Maze × List (Nat × Nat)),
      selectLoopNested depth count m ds = Outcome.returned r → selectLoop count m ds = some r := by
  intro count
  induction count with
  | zero =>
    intro m ds r h
    simp only [selectLoopNested, Outcome.returned.injEq] at h
    rw [← h]; rfl
  | succ count ih =>
    intro m ds r h
    simp only [selectLoopNested] at h
    cases hget : getRandomCellNested m depth ds with
    | returned a =>
      obtain ⟨p, ds1⟩ := a
      rw [hget] at h
      simp only [selectLoop, getRandomCellNested_returned m depth ds _ hget]
      exact ih _ _ r h
    | typeError => rw [hget] at h; cases h
    | rangeError => rw [hget] at h; cases h
    | pending => rw [hget] at h; cases h

/-- One call of `getRandomCell` on a well-formed maze, with the call stack counted. -/
theorem getRandomCellNested_step {R C : Nat} (m : Maze)
    (hg : GridOK R C m.grid) (hr : m.rows = R) (hc : m.columns = C) (hR : 1 ≤ R) (hC : 1 ≤ C)
    (depth : Nat) (d : Nat × Nat) (ds : List (Nat × Nat)) :
    ∃ c, cellAt m.grid (d.1 % R, d.2 % C) = some c ∧
      getRandomCellNested m (depth + 1) (d :: ds) =
        if c.isGoal = false ∧ verifyNonBorderWallsExist m c = true then
          Outcome.returned ((d.1 % R, d.2 % C), ds)
        else getRandomCellNested m depth ds := by
  have h1 : d.1 % R < R := Nat.mod_lt _ hR
  have h2 : d.2 % C < C := Nat.mod_lt _ hC
  obtain ⟨c, hcell, -, -⟩ := hg.cellAt_some h1 h2
  refine ⟨c, hcell, ?_⟩
  have e1 : randomIndex d.1 m.rows = d.1 % R := by
    unfold randomIndex; rw [hr, if_neg (by omega)]
  have e2 : randomIndex d.2 m.columns = d.2 % C := by
    unfold randomIndex; rw [hc, if_neg (by omega)]
  have hread : readRef m.grid (d.1 % R) (d.2 % C) = some (some (d.1 % R, d.2 % C)) := by
    rw [hg.readRef h1, if_pos h2]
  have hu : verifyUniqueRandomCell m c = true := by
    unfold verifyUniqueRandomCell; split <;> rfl
  simp only [getRandomCellNested, e1, e2, hread, hcell, hu, verifyCellIsNotGoal]
  by_cases hgoal : c.isGoal = true
  · simp [hgoal]
  · have hgoal' : c.isGoal = false := by simpa using hgoal
    by_cases hb : verifyNonBorderWallsExist m c = true
    · simp [hgoal', hb]
    · have hb' : verifyNonBorderWallsExist m c = false := by simpa using hb
      simp [hgoal', hb']

/-- On a well-formed maze `getRandomCell` raises no TypeError, and it ends within the supply
of draws once the supply holds one pair of draws per nested call the stack allows. -/
theorem getRandomCellNested_ends {R C : Nat} (m : Maze)
    (hg : GridOK R C m.grid) (hr : m.rows = R) (hc : m.columns = C) (hR : 1 ≤ R) (hC : 1 ≤ C) :
    ∀ (depth : Nat) (ds : List (Nat × Nat)),
      getRandomCellNested m depth ds ≠ Outcome.typeError ∧
      (depth ≤ ds.length → getRandomCellNested m depth ds ≠ Outcome.pending) := by
  intro depth
  induction depth with
  | zero =>
    intro ds
    constructor
    · simp [getRandomCellNested]
    · intro _; simp [getRandomCellNested]
  | succ depth ih =>
    intro ds
    cases ds with
    | nil =>
      constructor
      · simp [getRandomCellNested]
      · intro h; simp at h
    | cons d ds =>
      obtain ⟨c, -, hstep⟩ := getRandomCellNested_step m hg hr hc hR hC depth d ds
      rw [hstep]
      split
      · exact ⟨by simp, fun _ => by simp⟩
      · exact ⟨(ih ds).1, fun h => (ih ds).2 (by simpa using h)⟩

/-- When each of the first `depth` samples is rejected, `getRandomCell` ends in a RangeError:
the retries are stopped by the call stack and by nothing else. -/
theorem getRandomCellNested_rangeError {R C : Nat} (m : Maze)
    (hg : GridOK R C m.grid) (hr : m.rows = R) (hc : m.columns = C) (hR : 1 ≤ R) (hC : 1 ≤ C) :
    ∀ (depth : Nat) (ds : List (Nat × Nat)), depth ≤ ds.length →
      (∀ d, d ∈ ds.take depth → ∀ c, cellAt m.grid (d.1 % R, d.2 % C) = some c →
        ¬ (c.isGoal = false ∧ verifyNonBorderWallsExist m c = true)) →
      getRandomCellNested m depth ds = Outcome.rangeError := by
  intro depth
  induction depth with
  | zero => intro ds _ _; cases ds <;> rfl
  | succ depth ih =>
    intro ds hlen hrej
    cases ds with
    | nil => simp at hlen
    | cons d ds =>
      obtain ⟨c, hcell, hstep⟩ := getRandomCellNested_step m hg hr hc hR hC depth d ds
      rw [hstep, if_neg (hrej d (by simp) c hcell)]
      exact ih ds (by simpa using hlen) (fun d' hd' => hrej d' (by simp [hd']))

/-- C16 (amended). Scramble selection retries until a sample is accepted or the call stack is
exhausted; it does not proceed with fewer cells. On a well-formed maze, with `depth` the
number of nested calls of `getRandomCell` the engine's call stack still allows:
`getRandomCell` raises no TypeError; the cell it samples is returned at once when it is not
the goal and `verifyNonBorderWallsExist` accepts it (`verifyUniqueRandomCell` rejects
nothing), and otherwise `getRandomCell` calls itself, one call deeper, for the next sample;
a call made with no stack left raises a RangeError, so when each of the first `depth` samples
is rejected the selection ends in a RangeError; a cell that is returned is the cell the
recursion without a stack limit returns; and `selectCellsToRotate` returns only with exactly
`2 * DifficultyDimensions[difficulty][0]` cells, never with fewer. -/
theorem getRandomCell_retries_until_accepted_or_stack_exhausted {R C : Nat} (m : Maze)
    (hg : GridOK R C m.grid) (hr : m.rows = R) (hc : m.columns = C) (hR : 1 ≤ R) (hC : 1 ≤ C) :
    (∀ ds, getRandomCellNested m 0 ds = Outcome.rangeError) ∧
    (∀ (depth : Nat) (d : Nat × Nat) (ds : List (Nat × Nat)),
      ∃ c, cellAt m.grid (d.1 % R, d.2 % C) = some c ∧
        getRandomCellNested m (depth + 1) (d :: ds) =
          if c.isGoal = false ∧ verifyNonBorderWallsExist m c = true then
            Outcome.returned ((d.1 % R, d.2 % C), ds)
          else getRandomCellNested m depth ds) ∧
    (∀ (depth : Nat) (ds : List (Nat × Nat)),
      getRandomCellNested m depth ds ≠ Outcome.typeError ∧
      (depth ≤ ds.length → getRandomCellNested m depth ds ≠ Outcome.pending)) ∧
    (∀ (depth : Nat) (ds : List (Nat × Nat)), depth ≤ ds.length →
      (∀ d, d ∈ ds.take depth → ∀ c, cellAt m.grid (d.1 % R, d.2 % C) = some c →
        ¬ (c.isGoal = false ∧ verifyNonBorderWallsExist m c = true)) →
      getRandomCellNested m depth ds = Outcome.rangeError) ∧
    (∀ (depth : Nat) (ds : List (Nat × Nat)) (r : Ref × List (Nat × Nat)),
      getRandomCellNested m depth ds = Outcome.returned r → getRandomCell m ds = some r) ∧
    (∀ (ds : List (Nat × Nat)) (r : Ref × List (Nat × Nat)),
      getRandomCell m ds = some r →
        getRandomCellNested m ds.length ds = Outcome.returned r) ∧
    (∀ (depth dimRows : Nat) (ds : List (Nat × Nat)) (m' : Maze) (ds' : List (Nat × Nat)),
      selectCellsToRotateNested depth dimRows m ds = Outcome.returned (m', ds') →
        selectCellsToRotate dimRows m ds = some (m', ds') ∧
        m'.cellsToRotate.length = dimRows * 2) := by
  refine ⟨fun ds => by cases ds <;> rfl,
    fun depth d ds => getRandomCellNested_step m hg hr hc hR hC depth d ds,
    getRandomCellNested_ends m hg hr hc hR hC,
    getRandomCellNested_rangeError m hg hr hc hR hC,
    getRandomCellNested_returned m,
    fun ds r h => getRandomCell_nested m ds r h ds.length (Nat.le_refl _), ?_⟩
  intro depth dimRows ds m' ds' h
  have h' : selectCellsToRotate dimRows m ds = some (m', ds') :=
    selectLoopNested_returned depth _ _ _ _ h
  exact ⟨h', (selectCellsToRotate_spec h').2.2.2.2.2.1⟩

theorem getRandomCell_retries_until_accepted_or_stack_exhausted_witness :
    ∃ s, runDraws (initialState 3 3) (List.replicate 17 0) = some s ∧
      s.mazeGenerationComplete = true ∧
      getRandomCellNested s.maze 3 [(2, 2), (1, 1), (0, 0)] =
        Outcome.returned ((1, 1), [(0, 0)]) ∧
      getRandomCellNested s.maze 2 [(2, 2), (2, 2), (1, 1)] = Outcome.rangeError ∧
      (∀ ds, getRandomCellNested s.maze 0 ds = Outcome.rangeError) ∧
      (∀ (depth : Nat) (d : Nat × Nat) (ds : List (Nat × Nat)),
        ∃ c, cellAt s.maze.grid (d.1 % 3, d.2 % 3) = some c ∧
          getRandomCellNested s.maze (depth + 1) (d :: ds) =
            if c.isGoal = false ∧ verifyNonBorderWallsExist s.maze c = true then
              Outcome.returned ((d.1 % 3, d.2 % 3), ds)
            else getRandomCellNested s.maze depth ds) ∧
      (∀ (depth : Nat) (ds : List (Nat × Nat)),
        getRandomCellNested s.maze depth ds ≠ Outcome.typeError ∧
        (depth ≤ ds.length → getRandomCellNested s.maze depth ds ≠ Outcome.pending)) ∧
      (∀ (depth : Nat) (ds : List (Nat × Nat)), depth ≤ ds.length →
        (∀ d, d ∈ ds.take depth → ∀ c, cellAt s.maze.grid (d.1 % 3, d.2 % 3) = some c →
          ¬ (c.isGoal = false ∧ verifyNonBorderWallsExist s.maze c = true)) →
        getRandomCellNested s.maze depth ds = Outcome.rangeError) ∧
      (∀ (depth : Nat) (ds : List (Nat × Nat)) (r : Ref × List (Nat × Nat)),
        getRandomCellNested s.maze depth ds = Outcome.returned r →
          getRandomCell s.maze ds = some r) ∧
      (∀ (ds : List (Nat × Nat)) (r : Ref × List (Nat × Nat)),
        getRandomCell s.maze ds = some r →
          getRandomCellNested s.maze ds.length ds = Outcome.returned r) ∧
      (∀ (depth dimRows : Nat) (ds : List (Nat × Nat)) (m' : Maze) (ds' : List (Nat × Nat)),
        selectCellsToRotateNested depth dimRows s.maze ds = Outcome.returned (m', ds') →
          selectCellsToRotate dimRows s.maze ds = some (m', ds') ∧
          m'.cellsToRotate.length = dimRows * 2) := by
  have h : ∃ s, runDraws (initialState 3 3) (List.replicate 17 0) = some s ∧
      s.mazeGenerationComplete = true ∧
      getRandomCellNested s.maze 3 [(2, 2), (1, 1), (0, 0)] =
        Outcome.returned ((1, 1), [(0, 0)]) ∧
      getRandomCellNested s.maze 2 [(2, 2), (2, 2), (1, 1)] = Outcome.rangeError ∧
      GridOK 3 3 s.maze.grid ∧ s.maze.rows = 3 ∧ s.maze.columns = 3 := by
    decide
  obtain ⟨s, hs, hflag, ha, hb, hg, hr, hc⟩ := h
  exact ⟨s, hs, hflag, ha, hb,
    getRandomCell_retries_until_accepted_or_stack_exhausted s.maze hg hr hc (by decide)
      (by decide)⟩

/-- C16 (counterexample). On the generated `1 x 1` maze the only cell is the goal: every
sample reads that cell without a TypeError, it is rejected, and `getRandomCell` calls itself
for the next sample. Whatever the samples and whatever stack is left, `getRandomCell` never
returns a cell: it ends in a RangeError once the supply holds one sample per nested call the
stack allows. `selectCellsToRotate` (two cells wanted) ends the same way: it neither stops
retrying nor proceeds with fewer cells. -/
theorem getRandomCell_one_by_one_ends_in_rangeError :
    ∃ s, runDraws (initialState 1 1) [0] = some s ∧ s.mazeGenerationComplete = true ∧
      (∃ c, cellAt s.maze.grid (0, 0) = some c ∧ verifyCellIsNotGoal c = false) ∧
      (∀ d : Nat × Nat, readRef s.maze.grid (randomIndex d.1 s.maze.rows)
        (randomIndex d.2 s.maze.columns) = some (some (0, 0))) ∧
      (∀ depth d ds, getRandomCellNested s.maze (depth + 1) (d :: ds) =
        getRandomCellNested s.maze depth ds) ∧
      (∀ depth ds, getRandomCellNested s.maze depth ds =
        if depth ≤ ds.length then Outcome.rangeError else Outcome.pending) ∧
      (∀ depth ds, selectCellsToRotateNested depth 1 s.maze ds =
        if depth ≤ ds.length then Outcome.rangeError else Outcome.pending) ∧
      (∀ ds, getRandomCell s.maze ds = none) ∧
      (∀ ds, selectCellsToRotate 1 s.maze ds = none) := by
  have h : ∃ s, runDraws (initialState 1 1) [0] = some s ∧ s.mazeGenerationComplete = true ∧
      GridOK 1 1 s.maze.grid ∧ s.maze.rows = 1 ∧ s.maze.columns = 1 ∧
      ∃ c, cellAt s.maze.grid (0, 0) = some c ∧ verifyCellIsNotGoal c = false := by
    decide
  obtain ⟨s, hs, hflag, hg, hr, hc, c, hcell, hgoal⟩ := h
  have hidx : ∀ x : Nat, randomIndex x 1 = 0 := by
    intro x; unfold randomIndex; rw [if_neg (by decide), Nat.mod_one]
  have hread : ∀ d : Nat × Nat, readRef s.maze.grid (randomIndex d.1 s.maze.rows)
      (randomIndex d.2 s.maze.columns) = some (some (0, 0)) := by
    intro d
    rw [hr, hc, hidx, hidx, hg.readRef (by decide), if_pos (by decide)]
  have hstep : ∀ (l : List Ref) depth d ds,
      getRandomCellNested { s.maze with cellsToRotate := l } (depth + 1) (d :: ds) =
        getRandomCellNested { s.maze with cellsToRotate := l } depth ds := by
    intro l depth d ds
    have hu : verifyCellIsNotGoal c = false := hgoal
    simp only [getRandomCellNested, hread d, hcell, hu]
    rfl
  have hall : ∀ (l : List Ref) depth ds,
      getRandomCellNested { s.maze with cellsToRotate := l } depth ds =
        if depth ≤ ds.length then Outcome.rangeError else Outcome.pending := by
    intro l depth
    induction depth with
    | zero => intro ds; cases ds <;> rfl
    | succ depth ih =>
      intro ds
      cases ds with
      | nil => rfl
      | cons d ds =>
        rw [hstep, ih ds]
        by_cases hle : depth ≤ ds.length
        · rw [if_pos hle, if_pos (by simpa using hle)]
        · rw [if_neg hle, if_neg (by simpa using hle)]
  have hsame : ∀ l : List Ref, ∀ ds, getRandomCell { s.maze with cellsToRotate := l } ds = none := by
    intro l ds
    induction ds with
    | nil => rfl
    | cons d ds ih =>
      have hu : verifyCellIsNotGoal c = false := hgoal
      simp only [getRandomCell, hread d, hcell, hu]
      exact ih
  refine ⟨s, hs, hflag, ⟨c, hcell, hgoal⟩, hread, hstep s.maze.cellsToRotate,
    hall s.maze.cellsToRotate, ?_, hsame s.maze.cellsToRotate, ?_⟩
  · intro depth ds
    unfold selectCellsToRotateNested
    simp only [selectLoopNested, hall]
    by_cases hle : depth ≤ ds.length
    · simp only [if_pos hle]
    · simp only [if_neg hle]
  · intro ds
    unfold selectCellsToRotate
    simp only [selectLoop, hsame]

/-! ## Navigation -/

/-- What `moveTo` does once the destination `nx` has been read. -/
theorem moveTo_spec {s s' : State} {next : Option (Option Ref)} (h : moveTo s next = some s') :
    ∃ nx nextCell, next = some (some nx) ∧ cellAt s.maze.grid nx = some nextCell ∧
      s'.maze.grid = s.maze.grid ∧
      s'.maze.currentCell = (if nextCell.isRotating then s.maze.currentCell else some nx) ∧
      s'.gameOverCalls = (if nextCell.isGoal then s.gameOverCalls + 1 else s.gameOverCalls) ∧
      s'.isGameOver = (if nextCell.isGoal then true else s.isGameOver) := by
  unfold moveTo at h
  split at h
  · rename_i nx
    split at h
    · cases h
    · rename_i nextCell hnc
      dsimp only at h
      split at h
      · cases h
      · rename_i c hcur
        split at h
        · cases h
        · rename_i cc hcc
          cases h
          refine ⟨nx, nextCell, rfl, hnc, ?_, ?_, ?_, ?_⟩
          · simp only; split <;> rfl
          · simp only
            rw [← hcur]
            split <;> first | rfl | (split <;> rfl)
          · simp only; split <;> rfl
          · simp only; split <;> rfl
  · cases h

/-- The ways a call of `move` that raises no TypeError can go: nothing happens, or the
destination behind the wall of the pressed arrow is read and `moveTo` runs. -/
theorem move_cases {R C : Nat} {s s' : State} (hg : GridOK R C s.maze.grid) {key : Key}
    (h : move s key = some s') :
    s' = s ∨
    ∃ cur w, s.generation = true ∧ s.isGameOver = false ∧ s.maze.currentCell = some cur ∧
      key.wall = some w ∧ w < 4 ∧ inGrid R C cur ∧ adjacent cur (nbrRef cur w) ∧
      shownAt s.maze.grid cur w = some false ∧
      moveTo s (some (some (nbrRef cur w))) = some s' := by
  unfold move at h
  split at h
  · left; exact (Option.some.inj h).symm
  · rename_i hguard
    have hgen : s.generation = true ∧ s.isGameOver = false := by
      cases h1 : s.generation <;> cases h2 : s.isGameOver <;> simp [h1, h2] at hguard ⊢
    split at h
    · cases h
    · rename_i cur hcur
      split at h
      · cases h
      · rename_i c hc
        obtain ⟨hb1, hb2, hrow, hcol⟩ := hg.cellAt_bound hc
        obtain ⟨cur1, cur2⟩ := cur
        simp only at hb1 hb2 hrow hcol
        dsimp only at h
        rw [hrow, hcol] at h
        have hshown : ∀ v, shownAt s.maze.grid (cur1, cur2) v = some (c.wall v).isShown := by
          intro v; unfold shownAt fieldAt; rw [hc]; rfl
        split at h
        · -- ArrowUp
          split at h
          · rename_i hwall
            right
            have hne : cur1 ≠ 0 := by
              intro e
              rw [if_pos e] at h
              unfold moveTo at h
              cases h
            rw [if_neg hne, hg.readRef (by omega)] at h
            rw [if_pos hb2] at h
            refine ⟨(cur1, cur2), 0, hgen.1, hgen.2, hcur, rfl, by decide, ⟨hb1, hb2⟩, ?_, ?_, h⟩
            · unfold adjacent; left; exact ⟨by show cur1 - 1 + 1 = cur1; omega, rfl⟩
            · rw [hshown]; simpa using hwall
          · left; exact (Option.some.inj h).symm
        · -- ArrowRight
          split at h
          · rename_i hwall
            right
            rw [hg.readRef hb1] at h
            have hlt : cur2 + 1 < C := by
              by_contra hge
              rw [if_neg hge] at h
              unfold moveTo at h
              cases h
            rw [if_pos hlt] at h
            refine ⟨(cur1, cur2), 1, hgen.1, hgen.2, hcur, rfl, by decide, ⟨hb1, hb2⟩, ?_, ?_, h⟩
            · unfold adjacent; right; right; left; exact ⟨rfl, rfl⟩
            · rw [hshown]; simpa using hwall
          · left; exact (Option.some.inj h).symm
        · -- ArrowDown
          split at h
          · rename_i hwall
            right
            have hlt : cur1 + 1 < R := by
              by_contra hge
              have : s.maze.grid[cur1 + 1]? = none := by
                apply List.getElem?_eq_none
                rw [hg.1]; omega
              unfold readRef at h
              rw [this] at h
              unfold moveTo at h
              cases h
            rw [hg.readRef hlt, if_pos hb2] at h
            refine ⟨(cur1, cur2), 2, hgen.1, hgen.2, hcur, rfl, by decide, ⟨hb1, hb2⟩, ?_, ?_, h⟩
            · unfold adjacent; right; left; exact ⟨rfl, rfl⟩
            · rw [hshown]; simpa using hwall
          · left; exact (Option.some.inj h).symm
        · -- ArrowLeft
          split at h
          · rename_i hwall
            right
            have hne : cur2 ≠ 0 := by
              intro e
              rw [if_pos e] at h
              unfold moveTo at h
              cases h
            rw [if_neg hne, hg.readRef hb1] at h
            rw [if_pos (by omega)] at h
            refine ⟨(cur1, cur2), 3, hgen.1, hgen.2, hcur, rfl, by decide, ⟨hb1, hb2⟩, ?_, ?_, h⟩
            · unfold adjacent; right; right; right; exact ⟨rfl, by show cur2 - 1 + 1 = cur2; omega⟩
            · rw [hshown]; simpa using hwall
          · left; exact (Option.some.inj h).symm
        · left; exact (Option.some.inj h).symm

/-- C11. For every state with a well-formed grid and every key, a call of `move` that raises no
TypeError leaves the grid alone and either leaves `currentCell` unchanged or changes it to the
orthogonally adjacent cell on the side of the pressed arrow; the latter happens only when the
current cell's wall on that side has `isShown = false` and the destination's `isRotating` is
false. -/
theorem move_never_crosses_shown_wall_nor_enters_rotating_cell {R C : Nat} (s : State)
    (hg : GridOK R C s.maze.grid) (key : Key) (s' : State) (h : move s key = some s') :
    s'.maze.grid = s.maze.grid ∧
    (s'.maze.currentCell = s.maze.currentCell ∨
      ∃ cur w, s.maze.currentCell = some cur ∧ key.wall = some w ∧
        s'.maze.currentCell = some (nbrRef cur w) ∧ adjacent cur (nbrRef cur w) ∧
        inGrid R C (nbrRef cur w) ∧ shownAt s.maze.grid cur w = some false ∧
        fieldAt s.maze.grid (nbrRef cur w) (fun c => c.isRotating) = some false) := by
  rcases move_cases hg h with rfl | ⟨cur, w, -, -, hcur, hkey, -, -, hadj, hshown, hmove⟩
  · exact ⟨rfl, Or.inl rfl⟩
  · obtain ⟨nx, nextCell, hnx, hnc, hgrid, hcur', -, -⟩ := moveTo_spec hmove
    cases Option.some.inj (Option.some.inj hnx)
    refine ⟨hgrid, ?_⟩
    by_cases hrot : nextCell.isRotating = true
    · left; rw [hcur', if_pos hrot]
    · right
      rw [if_neg hrot] at hcur'
      obtain ⟨h1, h2, -, -⟩ := hg.cellAt_bound hnc
      refine ⟨cur, w, hcur, hkey, hcur', hadj, ⟨h1, h2⟩, hshown, ?_⟩
      unfold fieldAt
      rw [hnc]
      simpa using hrot

theorem move_never_crosses_shown_wall_nor_enters_rotating_cell_witness :
    ∃ s s', runDraws (initialState 3 3) (List.replicate 17 0) = some s ∧
      move s Key.arrowDown = some s' ∧ s'.maze.currentCell = some (1, 0) ∧
      s'.maze.grid = s.maze.grid ∧
      (s'.maze.currentCell = s.maze.currentCell ∨
        ∃ cur w, s.maze.currentCell = some cur ∧ Key.arrowDown.wall = some w ∧
          s'.maze.currentCell = some (nbrRef cur w) ∧ adjacent cur (nbrRef cur w) ∧
          inGrid 3 3 (nbrRef cur w) ∧ shownAt s.maze.grid cur w = some false ∧
          fieldAt s.maze.grid (nbrRef cur w) (fun c => c.isRotating) = some false) := by
  have h : ∃ s, runDraws (initialState 3 3) (List.replicate 17 0) = some s ∧
      GridOK 3 3 s.maze.grid ∧
      ∃ s', move s Key.arrowDown = some s' ∧ s'.maze.currentCell = some (1, 0) := by
    decide
  obtain ⟨s, hs, hg, s', hm, hc⟩ := h
  exact ⟨s, s', hs, hm, hc,
    move_never_crosses_shown_wall_nor_enters_rotating_cell s hg Key.arrowDown s' hm⟩

/-- C12 (the code at the failing input). After the `2 x 2` maze has finished generating, the
module-level flag `generation` is true. `updateMaze` then installs a new maze whose own
generation has not started (`mazeGenerationComplete` is false, the grid is empty and
`currentCell` is undefined) and leaves `generation` true; so `move` does not return early, and
for every key it raises a TypeError on `this.currentCell.rowNumber`. -/
theorem move_on_new_maze_after_earlier_generation_fails :
    ∃ s, runDraws (initialState 2 2) [1, 0, 0, 0, 0, 0] = some s ∧
      s.mazeGenerationComplete = true ∧ s.generation = true ∧ s.isGameOver = false ∧
      (updateMaze s 2 2).mazeGenerationComplete = false ∧
      (updateMaze s 2 2).generation = true ∧
      (updateMaze s 2 2).maze.currentCell = none ∧
      ∀ key, move (updateMaze s 2 2) key = none := by
  have h : ∃ s, runDraws (initialState 2 2) [1, 0, 0, 0, 0, 0] = some s ∧
      s.mazeGenerationComplete = true ∧ s.generation = true ∧ s.isGameOver = false ∧
      (updateMaze s 2 2).mazeGenerationComplete = false ∧
      (updateMaze s 2 2).generation = true ∧
      (updateMaze s 2 2).maze.currentCell = none ∧
      move (updateMaze s 2 2) Key.arrowUp = none ∧ move (updateMaze s 2 2) Key.arrowRight = none ∧
      move (updateMaze s 2 2) Key.arrowDown = none ∧ move (updateMaze s 2 2) Key.arrowLeft = none ∧
      move (updateMaze s 2 2) Key.other = none := by
    decide
  obtain ⟨s, h1, h2, h3, h4, h5, h6, h7, k1, k2, k3, k4, k5⟩ := h
  refine ⟨s, h1, h2, h3, h4, h5, h6, h7, ?_⟩
  intro key
  cases key <;> assumption

/-! ## The goal-reached signal -/

/-- A generation step changes no coordinate field. -/
theorem draw_coords {s s' : State} {rnd : Nat} (h : draw s rnd = some s') :
    ∀ x, fieldAt s'.maze.grid x (fun c => (c.rowNumber, c.columnNumber))
      = fieldAt s.maze.grid x (fun c => (c.rowNumber, c.columnNumber)) := by
  unfold draw at h
  split at h
  · exact absurd h (by simp)
  · split at h
    · exact absurd h (by simp)
    · rename_i grid1 hg1
      have e1 : ∀ x, fieldAt grid1 x (fun c => (c.rowNumber, c.columnNumber))
          = fieldAt s.maze.grid x (fun c => (c.rowNumber, c.columnNumber)) :=
        fun x => fieldAt_writeCell_keep hg1 x _ (fun c => rfl)
      split at h
      · exact absurd h (by simp)
      · split at h
        · exact absurd h (by simp)
        · split at h
          · exact absurd h (by simp)
          · rename_i grid2 hg2
            split at h
            · exact absurd h (by simp)
            · rename_i grid3 hg3
              cases Option.some.inj h
              rw [finishDraw_maze]
              intro x
              simp only
              rw [removeWalls_keep hg3 x (fun c => (c.rowNumber, c.columnNumber)) (fun _ _ => rfl)
                (fun _ _ => rfl) (fun _ _ => rfl) (fun _ _ => rfl),
                fieldAt_writeCell_keep hg2 x (fun c => (c.rowNumber, c.columnNumber))
                  (fun c => rfl), e1]
        · split at h
          · cases Option.some.inj h
            rw [finishDraw_maze]
            exact e1
          · cases Option.some.inj h
            rw [finishDraw_maze]
            exact e1

/-- In every reachable state each cell carries the coordinates of its place in the grid. -/
theorem reachable_coords {R C : Nat} {s : State} (h : Reachable R C s) :
    ∀ x c, cellAt s.maze.grid x = some c → (c.rowNumber, c.columnNumber) = x := by
  have key : ∀ x v, fieldAt s.maze.grid x (fun c => (c.rowNumber, c.columnNumber)) = some v →
      v = x := by
    induction h with
    | fresh hf =>
      intro x v hv
      have hb := freshState_basic hf
      unfold fieldAt at hv
      cases hc : cellAt _ x with
      | none => rw [hc] at hv; cases hv
      | some c =>
        rw [hc] at hv
        obtain ⟨-, -, h1, h2⟩ := hb.grid.cellAt_bound hc
        cases Option.some.inj hv
        exact Prod.ext h1 h2
    | byDraw rnd _ hd ih =>
      intro x v hv
      rw [draw_coords hd x] at hv
      exact ih x v hv
    | bySelect dimRows ds _ hsel ih =>
      intro x v hv
      obtain ⟨e1, -⟩ := selectCellsToRotate_spec hsel
      simp only at hv
      rw [e1] at hv
      exact ih x v hv
    | byRotate index _ hrot ih =>
      intro x v hv
      obtain ⟨-, hcells⟩ := rotateCellWalls_frame hrot
      simp only at hv
      rw [rotateCells_keep _ hcells x (fun c => (c.rowNumber, c.columnNumber)) (fun _ _ => rfl)
        (fun _ _ => rfl) (fun _ _ => rfl) (fun _ _ => rfl)
        (Or.inr (fun f hf c => Prod.ext (hf c).2.1 (hf c).2.2.1))] at hv
      exact ih x v hv
    | byMove key _ hm ih =>
      intro x v hv
      rw [(move_frame hm).1] at hv
      exact ih x v hv
  intro x c hc
  apply key x
  unfold fieldAt
  rw [hc]
  rfl

theorem readRef_some {g : Grid} {i j : Nat} {nx : Ref} (h : readRef g i j = some (some nx)) :
    nx = (i, j) := by
  unfold readRef at h
  split at h
  · cases h
  · have h' := Option.some.inj h
    split at h'
    · exact (Option.some.inj h').symm
    · cases h'

/-- A call of `move` that raises no TypeError either changes nothing, or reads a destination
other than the place the current cell says it is at, and runs `moveTo`. -/
theorem move_general {s s' : State} {key : Key} (h : move s key = some s') :
    s' = s ∨ ∃ cur c nx, s.isGameOver = false ∧ s.maze.currentCell = some cur ∧
      cellAt s.maze.grid cur = some c ∧ nx ≠ (c.rowNumber, c.columnNumber) ∧
      moveTo s (some (some nx)) = some s' := by
  have hnone : ∀ {t : State}, moveTo s none = some t → False := by
    intro t ht; unfold moveTo at ht; cases ht
  have hundef : ∀ {t : State}, moveTo s (some none) = some t → False := by
    intro t ht; unfold moveTo at ht; cases ht
  have hread : ∀ {i j : Nat} {y : Ref}, (i, j) ≠ y →
      moveTo s (readRef s.maze.grid i j) = some s' →
      ∃ nx, nx ≠ y ∧ moveTo s (some (some nx)) = some s' := by
    intro i j y hne ht
    cases hr : readRef s.maze.grid i j with
    | none => rw [hr] at ht; exact (hnone ht).elim
    | some r =>
      cases r with
      | none => rw [hr] at ht; exact (hundef ht).elim
      | some nx =>
        rw [hr] at ht
        exact ⟨nx, by rw [readRef_some hr]; exact hne, ht⟩
  unfold move at h
  split at h
  · left; exact (Option.some.inj h).symm
  · rename_i hguard
    have hgo : s.isGameOver = false := by
      cases h2 : s.isGameOver
      · rfl
      · simp [h2] at hguard
    split at h
    · cases h
    · rename_i cur hcur
      split at h
      · cases h
      · rename_i c hc
        dsimp only at h
        split at h
        · split at h
          · right
            by_cases e : c.rowNumber = 0
            · rw [if_pos e] at h; exact (hnone h).elim
            · rw [if_neg e] at h
              obtain ⟨nx, hnx, hm⟩ := hread (y := (c.rowNumber, c.columnNumber)) (by
                intro e'; rw [Prod.mk.injEq] at e'; omega) h
              exact ⟨cur, c, nx, hgo, hcur, hc, hnx, hm⟩
          · left; exact (Option.some.inj h).symm
        · split at h
          · right
            obtain ⟨nx, hnx, hm⟩ := hread (y := (c.rowNumber, c.columnNumber)) (by
              intro e'; rw [Prod.mk.injEq] at e'; omega) h
            exact ⟨cur, c, nx, hgo, hcur, hc, hnx, hm⟩
          · left; exact (Option.some.inj h).symm
        · split at h
          · right
            obtain ⟨nx, hnx, hm⟩ := hread (y := (c.rowNumber, c.columnNumber)) (by
              intro e'; rw [Prod.mk.injEq] at e'; omega) h
            exact ⟨cur, c, nx, hgo, hcur, hc, hnx, hm⟩
          · left; exact (Option.some.inj h).symm
        · split at h
          · right
            by_cases e : c.columnNumber = 0
            · rw [if_pos e] at h; exact (hundef h).elim
            · rw [if_neg e] at h
              obtain ⟨nx, hnx, hm⟩ := hread (y := (c.rowNumber, c.columnNumber)) (by
                intro e'; rw [Prod.mk.injEq] at e'; omega) h
              exact ⟨cur, c, nx, hgo, hcur, hc, hnx, hm⟩
          · left; exact (Option.some.inj h).symm
        · left; exact (Option.some.inj h).symm

/-- C13. In every reachable state: a call of `move` that raises no TypeError invokes
`game.gameOver` exactly when it moves `currentCell` onto the goal cell, and then it invokes it
once and the game is over; otherwise `gameOver` is not invoked. And once the game is over
every call of `move` returns without changing the state. -/
theorem gameOver_fires_exactly_on_crossing_to_goal {R C : Nat} {s : State}
    (hr : Reachable R C s) :
    (s.isGameOver = true → ∀ key, move s key = some s) ∧
    ∀ key s', move s key = some s' →
      (s'.gameOverCalls = s.gameOverCalls + 1 ∧ s'.isGameOver = true ∧
        s'.maze.currentCell ≠ s.maze.currentCell ∧
        ∃ g, s'.maze.currentCell = some g ∧
          fieldAt s'.maze.grid g (fun c => c.isGoal) = some true) ∨
      (s'.gameOverCalls = s.gameOverCalls ∧ s'.isGameOver = s.isGameOver ∧
        ¬ (s'.maze.currentCell ≠ s.maze.currentCell ∧
          ∃ g, s'.maze.currentCell = some g ∧
            fieldAt s'.maze.grid g (fun c => c.isGoal) = some true)) := by
  constructor
  · intro hover key
    unfold move
    rw [hover]
    simp
  · intro key s' h
    rcases move_general h with rfl | ⟨cur, c, nx, -, hcur, hc, hne, hmove⟩
    · right
      exact ⟨rfl, rfl, fun hh => hh.1 rfl⟩
    · obtain ⟨nx', nextCell, hnx, hnc, hgrid, hcur', hcalls, hover⟩ := moveTo_spec hmove
      cases Option.some.inj (Option.some.inj hnx)
      have hcoords := reachable_coords hr cur c hc
      by_cases hgoal : nextCell.isGoal = true
      · left
        have hG : fieldAt s.maze.grid nx (fun c => c.isGoal) = some true := by
          unfold fieldAt; rw [hnc]; exact congrArg some hgoal
        have hrot := (reachable_goal_inv hr).2 nx hG
        unfold fieldAt at hrot
        rw [hnc] at hrot
        have hrot' : nextCell.isRotating = false := Option.some.inj hrot
        rw [hrot'] at hcur'
        rw [if_pos hgoal] at hcalls hover
        refine ⟨hcalls, hover, ?_, nx, hcur', ?_⟩
        · rw [hcur', hcur]
          intro e
          apply hne
          rw [hcoords]
          exact Option.some.inj e
        · rw [hgrid]; exact hG
      · right
        rw [if_neg hgoal] at hcalls hover
        refine ⟨hcalls, hover, ?_⟩
        rintro ⟨hchg, g, hg, hgg⟩
        by_cases hrot : nextCell.isRotating = true
        · rw [if_pos hrot] at hcur'
          exact hchg hcur'
        · rw [if_neg hrot] at hcur'
          rw [hcur'] at hg
          cases Option.some.inj hg
          rw [hgrid] at hgg
          unfold fieldAt at hgg
          rw [hnc] at hgg
          exact hgoal (Option.some.inj hgg)

theorem gameOver_fires_exactly_on_crossing_to_goal_witness :
    ∃ s s', runDraws (initialState 2 2) [1, 0, 0, 0, 0, 0] = some s ∧
      move s Key.arrowRight = some s' ∧ s'.maze.currentCell = some (0, 1) ∧
      ∃ s'', move s' Key.arrowDown = some s'' ∧
        s''.gameOverCalls = s'.gameOverCalls + 1 ∧ s''.isGameOver = true ∧
        (∀ key, move s'' key = some s'') := by
  have h : ∃ s, runDraws (initialState 2 2) [1, 0, 0, 0, 0, 0] = some s ∧
      ∃ s', move s Key.arrowRight = some s' ∧ s'.maze.currentCell = some (0, 1) ∧
        ∃ s'', move s' Key.arrowDown = some s'' ∧
          s''.gameOverCalls = s'.gameOverCalls + 1 ∧ s''.isGameOver = true := by
    decide
  obtain ⟨s, hs, s', hm1, hc1, s'', hm2, hcalls, hover⟩ := h
  have hr0 : Reachable 2 2 (initialState 2 2) :=
    Reachable.fresh (freshState_eq (by decide) (by decide))
  have hrun : ∀ (rnds : List Nat) (a b : State), Reachable 2 2 a → runDraws a rnds = some b →
      Reachable 2 2 b := by
    intro rnds
    induction rnds with
    | nil => intro a b ha hb; cases Option.some.inj hb; exact ha
    | cons r rs ih =>
      intro a b ha hb
      simp only [runDraws] at hb
      split at hb
      · cases hb
      · rename_i a1 h1
        exact ih a1 b (Reachable.byDraw r ha h1) hb
  have hr1 : Reachable 2 2 s := hrun _ _ _ hr0 hs
  have hr2 : Reachable 2 2 s' := Reachable.byMove Key.arrowRight hr1 hm1
  have hr3 : Reachable 2 2 s'' := Reachable.byMove Key.arrowDown hr2 hm2
  exact ⟨s, s', hs, hm1, hc1, s'', hm2, hcalls, hover,
    (gameOver_fires_exactly_on_crossing_to_goal hr3).1 hover⟩

/-! ## Generation terminates -/

theorem visitedCount_le (R C : Nat) (g : Grid) : visitedCount R C g ≤ R * C := by
  unfold visitedCount
  rw [← length_cells R C]
  exact List.countP_le_length _

/-- A generation step either sets the completion flag or lowers the measure by one; on every
grid shape. -/
theorem draw_measure {R C : Nat} {s : State} (h : TreeInv R C s) (rnd : Nat) :
    ∃ s', draw s rnd = some s' ∧ TreeInv R C s' ∧
      (s'.mazeGenerationComplete = true ∨ genMeasure R C s' + 1 = genMeasure R C s) := by
  obtain ⟨p, hp, hb1, hb2⟩ := h.basic.cur
  have hmg : markedGrid s.maze = modifyCell s.maze.grid p Cell.setVisited :=
    markedGrid_eq _ p hp
  obtain ⟨c0, hc0, -, -⟩ := h.basic.grid.cellAt_some hb1 hb2
  have hg1 : GridOK R C (modifyCell s.maze.grid p Cell.setVisited) :=
    h.basic.grid.modifyCell _ _ (fun c => ⟨rfl, rfl⟩)
  obtain ⟨s', hd', htree'⟩ := draw_tree h rnd
  refine ⟨s', hd', htree', ?_⟩
  rcases draw_cases h.basic hp rnd with ⟨next, g3, hadj, hn1, hn2, hunv, hrem, hd⟩ |
      ⟨-, ⟨cell, rest, hst, hd⟩ | ⟨hst, hd⟩⟩
  · -- advance: one more visited cell, one more stack entry
    right
    rw [hd] at hd'
    cases Option.some.inj hd'
    have hg2 : GridOK R C (modifyCell (modifyCell s.maze.grid p Cell.setVisited) next
        Cell.setVisited) := hg1.modifyCell _ _ (fun c => ⟨rfl, rfl⟩)
    obtain ⟨a, ha, -, -⟩ := hg2.cellAt_some hb1 hb2
    obtain ⟨b, hb, -, -⟩ := hg2.cellAt_some hn1 hn2
    obtain ⟨g3', hg3', hok3, -, hvis3⟩ := removeWalls_basic hg2 ha hb hadj
    rw [hrem] at hg3'
    cases Option.some.inj hg3'
    obtain ⟨cn1, hcn1, -, -⟩ := hg1.cellAt_some hn1 hn2
    obtain ⟨cn3, hcn3, -, -⟩ := hok3.cellAt_some hn1 hn2
    have hnotV : ¬ visitedAt (modifyCell s.maze.grid p Cell.setVisited) next := by
      unfold visitedAt; rw [hunv]; simp
    have hV : ∀ q, visitedAt (modifyCell g3 next Cell.setVisited) q ↔
        q = next ∨ visitedAt (modifyCell s.maze.grid p Cell.setVisited) q := by
      intro q
      rw [visitedAt_mark hcn3]
      have e2 : visitedAt g3 q ↔ visitedAt (modifyCell (modifyCell s.maze.grid p Cell.setVisited)
          next Cell.setVisited) q := by unfold visitedAt; rw [hvis3]
      rw [e2, visitedAt_mark hcn1]
      tauto
    have hcount : visitedCount R C (modifyCell g3 next Cell.setVisited)
        = visitedCount R C (modifyCell s.maze.grid p Cell.setVisited) + 1 :=
      visitedCount_add_one ⟨hn1, hn2⟩ hnotV hV
    have hle := visitedCount_le R C (modifyCell g3 next Cell.setVisited)
    unfold genMeasure
    rw [finishDraw_maze, markedGrid_eq _ next rfl, hmg]
    simp only [List.length_cons]
    rw [hcount] at hle ⊢
    omega
  · -- backtrack: one stack entry less
    right
    rw [hd] at hd'
    cases Option.some.inj hd'
    have hcellV := h.stackVisited cell (by rw [hst]; exact List.mem_cons_self _ _)
    rw [hmg] at hcellV
    have hcell := h.basic.stack cell (by rw [hst]; exact List.mem_cons_self _ _)
    obtain ⟨cc, hcc, -, -⟩ := hg1.cellAt_some hcell.1 hcell.2
    have hV : ∀ q, visitedAt (modifyCell (modifyCell s.maze.grid p Cell.setVisited) cell
        Cell.setVisited) q ↔ visitedAt (modifyCell s.maze.grid p Cell.setVisited) q := by
      intro q
      rw [visitedAt_mark hcc]
      constructor
      · rintro (e | e)
        · rw [e]; exact hcellV
        · exact e
      · exact Or.inr
    unfold genMeasure
    rw [finishDraw_maze, markedGrid_eq _ cell rfl, hmg, hst]
    simp only [List.length_cons]
    rw [visitedCount_congr hV]
    omega
  · -- stay: the flag is set
    left
    rw [hd] at hd'
    cases Option.some.inj hd'
    rw [finishDraw_flag]
    simp only [hst, List.length_nil, if_true]

theorem generateLoop_complete {s : State} (h : s.mazeGenerationComplete = true)
    (rnds : List Nat) : generateLoop s rnds = some (s, 0) := by
  cases rnds with
  | nil => simp only [generateLoop, h, if_true]
  | cons r rs => simp only [generateLoop, h, if_true]

/-- With a supply of at least `n` draws, where `n` exceeds the measure, the loop of
`Game.setupMaze` ends with the flag set after at most `n` calls of `draw`. -/
theorem generateLoop_terminates {R C : Nat} (n : Nat) : ∀ (s : State) (rnds : List Nat),
    TreeInv R C s → genMeasure R C s + 1 ≤ n → n ≤ rnds.length →
    ∃ s' k, generateLoop s rnds = some (s', k) ∧ s'.mazeGenerationComplete = true ∧ k ≤ n ∧
      runDraws s (rnds.take k) = some s' := by
  induction n with
  | zero => intro s rnds _ hm _; omega
  | succ n ih =>
    intro s rnds hinv hm hlen
    by_cases hflag : s.mazeGenerationComplete = true
    · exact ⟨s, 0, generateLoop_complete hflag rnds, hflag, Nat.zero_le _, rfl⟩
    · cases rnds with
      | nil => simp at hlen
      | cons r rs =>
        obtain ⟨s1, hd, hinv1, hstep⟩ := draw_measure hinv r
        have hlen' : n ≤ rs.length := by simpa using hlen
        by_cases hflag1 : s1.mazeGenerationComplete = true
        · refine ⟨s1, 1, ?_, hflag1, by omega, ?_⟩
          · simp only [generateLoop, hflag, hd, generateLoop_complete hflag1 rs]
            rfl
          · simp only [List.take_succ_cons, List.take_zero, runDraws, hd]
        · have hdec : genMeasure R C s1 + 1 = genMeasure R C s := by
            rcases hstep with e | e
            · exact absurd e hflag1
            · exact e
          obtain ⟨s', k, hloop, hdone, hk, hrun⟩ := ih s1 rs hinv1 (by omega) hlen'
          refine ⟨s', k + 1, ?_, hdone, by omega, ?_⟩
          · simp only [generateLoop, hflag, hd, hloop]
            rfl
          · simp only [List.take_succ_cons, runDraws, hd, hrun]

/-- C15. For every grid size `R x C` with `R, C >= 1` and every sequence of random neighbour
choices (at least `2 * R * C` of them are supplied), the loop of `Game.setupMaze`, which
applies the generation step to the freshly set-up maze until the completion flag is set,
raises no TypeError and ends with the flag set after at most `2 * R * C` steps. -/
theorem generation_terminates_within_two_R_C_steps (R C : Nat) (s0 : State)
    (h : freshState R C = some s0) (rnds : List Nat) (hlen : 2 * R * C ≤ rnds.length) :
    ∃ s k, generateLoop s0 rnds = some (s, k) ∧ s.mazeGenerationComplete = true ∧
      k ≤ 2 * R * C ∧ runDraws s0 (rnds.take k) = some s := by
  obtain ⟨hR, hC⟩ := freshState_pos h
  rw [freshState_eq hR hC] at h
  cases Option.some.inj h
  have hinv := initialState_tree hR hC
  have hpos : 1 ≤ R * C := Nat.mul_pos hR hC
  have hvc : 1 ≤ visitedCount R C (markedGrid (initialState R C).maze) := by
    have := hinv.core.count
    omega
  have hm : genMeasure R C (initialState R C) + 1 ≤ 2 * R * C := by
    unfold genMeasure
    have hst : (initialState R C).maze.stack.length = 0 := rfl
    rw [hst, Nat.mul_assoc]
    omega
  exact generateLoop_terminates (2 * R * C) _ rnds hinv hm hlen

theorem generation_terminates_within_two_R_C_steps_witness :
    freshState 2 2 = some (initialState 2 2) ∧
      ∃ s k, generateLoop (initialState 2 2) [1, 0, 0, 0, 0, 0, 0, 0] = some (s, k) ∧
        s.mazeGenerationComplete = true ∧ k ≤ 2 * 2 * 2 ∧
        runDraws (initialState 2 2) ([1, 0, 0, 0, 0, 0, 0, 0].take k) = some s :=
  ⟨freshState_eq (by decide) (by decide),
    generation_terminates_within_two_R_C_steps 2 2 (initialState 2 2)
      (freshState_eq (by decide) (by decide)) [1, 0, 0, 0, 0, 0, 0, 0] (by decide)⟩

/-! ## Generation on every grid shape -/

theorem list_modify_eq_self {α : Type} (f : α → α) (n : Nat) (l : List α)
    (h : ∀ a, l[n]? = some a → f a = a) : List.modify f n l = l := by
  apply List.ext_getElem?
  intro m
  rw [List.getElem?_modify]
  cases hm : l[m]? with
  | none => rfl
  | some a =>
    by_cases e : n = m
    · subst e
      simp only [if_true, Option.map_eq_map, Option.map_some']
      rw [h a hm]
    · simp only [if_neg e, Option.map_eq_map, Option.map_some']

/-- Writing to a cell what it already holds changes nothing. -/
theorem modifyCell_eq_self {g : Grid} {p : Ref} {c : Cell} (hc : cellAt g p = some c)
    (f : Cell → Cell) (hf : f c = c) : modifyCell g p f = g := by
  unfold modifyCell
  apply list_modify_eq_self
  intro row hrow
  apply list_modify_eq_self
  intro a ha
  unfold cellAt at hc
  rw [hrow] at hc
  simp only at hc
  rw [ha] at hc
  cases Option.some.inj hc
  exact hf

/-- `checkNeighbors` never returns the right neighbour of a cell in column `grid.length - 1`. -/
theorem checkNeighbors_right {g : Grid} {this : Cell} {rnd : Nat} {q : Ref}
    (h : checkNeighbors g this rnd = some (some q))
    (hcol : this.columnNumber + 1 = g.length) : q.2 ≠ this.columnNumber + 1 := by
  unfold checkNeighbors at h
  simp only [hcol, ne_eq, not_true_eq_false, if_false] at h
  split at h
  · cases h
  · rename_i top htop
    split at h
    · cases h
    · rename_i bottom hbottom
      split at h
      · cases h
      · rename_i left hleft
        split at h
        · rename_i hlen
          have hq := List.getElem?_mem (Option.some.inj h)
          simp only [mem_pushUnvisited, List.not_mem_nil, false_or, reduceCtorEq, false_and,
            or_false] at hq
          rcases hq with (⟨e, -⟩ | ⟨e, -⟩) | ⟨e, -⟩
          · subst e
            split at htop
            · have := readRef_some htop
              rw [this]; simp only; omega
            · cases htop
          · subst e
            split at hbottom
            · have := readRef_some hbottom
              rw [this]; simp only; omega
            · cases hbottom
          · subst e
            split at hleft
            · have := readRef_some hleft
              rw [this]; simp only; omega
            · cases hleft
        · cases h

/-- How the result of `checkNeighbors` shows in the state after the step: a returned cell
becomes the current cell, and without one the stack does not grow. -/
theorem draw_result {s s' : State} {rnd : Nat} {p : Ref} {c0 this : Cell} {res : Option Ref}
    (hp : s.maze.currentCell = some p) (hc0 : cellAt s.maze.grid p = some c0)
    (hthis : cellAt (modifyCell s.maze.grid p Cell.setVisited) p = some this)
    (hres : checkNeighbors (modifyCell s.maze.grid p Cell.setVisited) this rnd = some res)
    (h : draw s rnd = some s') :
    (∀ q, res = some q → s'.maze.currentCell = some q) ∧
      (res = none → s'.maze.stack.length ≤ s.maze.stack.length) := by
  unfold draw at h
  simp only [hp, writeCell_eq hc0, hthis, hres] at h
  constructor
  · intro q hq
    subst hq
    simp only at h
    split at h
    · cases h
    · split at h
      · cases h
      · cases Option.some.inj h
        rw [finishDraw_maze]
  · intro hn
    subst hn
    simp only at h
    split at h
    · rename_i cell rest hst
      cases Option.some.inj h
      rw [finishDraw_maze, hst]
      simp
    · cases Option.some.inj h
      rw [finishDraw_maze]

/-- A generation step keeps the invariant on every grid shape. -/
theorem draw_wide {R C : Nat} {s : State} (h : WideInv R C s) (rnd : Nat) :
    ∃ s', draw s rnd = some s' ∧ WideInv R C s' := by
  have hW1 : min C R ≤ C := Nat.min_le_left _ _
  have hW2 : min C R ≤ R := Nat.min_le_right _ _
  have hW3 : min C R = C ∨ min C R = R := by omega
  obtain ⟨p, hp, hdfs⟩ := h.dfs
  obtain ⟨p', hp', hb1, hb2⟩ := h.basic.cur
  rw [hp] at hp'
  cases Option.some.inj hp'
  have hmg : markedGrid s.maze = modifyCell s.maze.grid p Cell.setVisited :=
    markedGrid_eq _ p hp
  have hnarrow := h.narrow
  rw [hmg] at hdfs hnarrow
  obtain ⟨c0, hc0, -, -⟩ := h.basic.grid.cellAt_some hb1 hb2
  have hc0' : cellAt s.maze.grid p = some c0 := hc0
  have hg1 : GridOK R C (modifyCell s.maze.grid p Cell.setVisited) :=
    h.basic.grid.modifyCell _ _ (fun c => ⟨rfl, rfl⟩)
  have hpW : p.2 < min C R := hnarrow p hdfs.curV
  obtain ⟨s', hd', hbasic'⟩ := draw_basic h.basic rnd
  refine ⟨s', hd', ?_⟩
  rcases draw_cases h.basic hp rnd with ⟨next, g3, hadj, hn1, hn2, hunv, hrem, hd⟩ |
      ⟨hfin, ⟨cell, rest, hst, hd⟩ | ⟨hst, hd⟩⟩
  · -- advance
    have hnextW : next.2 < min C R := by
      obtain ⟨this, hthis, -, hcol⟩ := hg1.cellAt_some hb1 hb2
      have hthis' : cellAt (modifyCell s.maze.grid p Cell.setVisited) p = some this := hthis
      obtain ⟨res, hres, -, -⟩ := checkNeighbors_spec hg1 hthis' rnd
      obtain ⟨hsome, hnone⟩ := draw_result hp hc0' hthis' hres hd'
      have e := Option.some.inj (hd.symm.trans hd')
      rw [← e, finishDraw_maze] at hsome hnone
      cases res with
      | none =>
        exfalso
        have := hnone rfl
        simp only [List.length_cons] at this
        omega
      | some q =>
        have hq' := hsome q rfl
        simp only at hq'
        cases Option.some.inj hq'
        have hright : p.2 + 1 = R → next.2 ≠ p.2 + 1 := by
          intro e
          have := checkNeighbors_right hres (by rw [hcol, hg1.1]; exact e)
          rwa [hcol] at this
        unfold adjacent at hadj
        rcases hW3 with e | e
        · rw [e]; exact hn2
        · rw [e] at hpW ⊢
          rcases hadj with h' | h' | h' | h'
          · omega
          · omega
          · by_cases e' : p.2 + 1 = R
            · exact absurd h'.2 (hright e')
            · omega
          · omega
    rw [hd] at hd'
    cases Option.some.inj hd'
    have hg2 : GridOK R C (modifyCell (modifyCell s.maze.grid p Cell.setVisited) next
        Cell.setVisited) := hg1.modifyCell _ _ (fun c => ⟨rfl, rfl⟩)
    obtain ⟨a, ha, -, -⟩ := hg2.cellAt_some hb1 hb2
    obtain ⟨b, hb, -, -⟩ := hg2.cellAt_some hn1 hn2
    obtain ⟨g3', hg3', hok3, -, hvis3⟩ := removeWalls_basic hg2 ha hb hadj
    rw [hrem] at hg3'
    cases Option.some.inj hg3'
    obtain ⟨cn1, hcn1, -, -⟩ := hg1.cellAt_some hn1 hn2
    obtain ⟨cn3, hcn3, -, -⟩ := hok3.cellAt_some hn1 hn2
    have hnotV : ¬ visitedAt (modifyCell s.maze.grid p Cell.setVisited) next := by
      unfold visitedAt; rw [hunv]; simp
    have hV : ∀ q, visitedAt (modifyCell g3 next Cell.setVisited) q ↔
        q = next ∨ visitedAt (modifyCell s.maze.grid p Cell.setVisited) q := by
      intro q
      rw [visitedAt_mark hcn3]
      have e2 : visitedAt g3 q ↔ visitedAt (modifyCell (modifyCell s.maze.grid p Cell.setVisited)
          next Cell.setVisited) q := by unfold visitedAt; rw [hvis3]
      rw [e2, visitedAt_mark hcn1]
      tauto
    refine ⟨hbasic', ⟨next, by rw [finishDraw_maze], ?_⟩, ?_, ?_⟩
    · rw [finishDraw_maze, markedGrid_eq _ next rfl]
      exact hdfs.pushCell hnotV hV
    · rw [finishDraw_maze, markedGrid_eq _ next rfl]
      intro w hw
      rcases (hV w).mp hw with e | e
      · rw [e]; exact hnextW
      · exact hnarrow w e
    · rw [finishDraw_flag]
      simp only [List.length_cons, Nat.add_one_ne_zero, if_false]
      intro hflag
      exfalso
      obtain ⟨-, hall⟩ := h.flag hflag
      apply hnotV
      rw [visitedAt_mark hc0]
      exact Or.inr (hall next ⟨hn1, hnextW⟩)
  · -- backtrack
    rw [hd] at hd'
    cases Option.some.inj hd'
    rw [hst] at hdfs
    have hfinV : ∀ q, adjacent p q → inGrid R (min C R) q →
        visitedAt (modifyCell s.maze.grid p Cell.setVisited) q := by
      intro q hadj hq
      have hq2 := hq.2
      exact hfin q hadj hq.1 (by omega) (by intro e; omega)
    obtain ⟨hdfs', hall⟩ := hdfs.pop ⟨hb1, hpW⟩ hfinV
    have hcell := h.basic.stack cell (by rw [hst]; exact List.mem_cons_self _ _)
    obtain ⟨cc, hcc, -, -⟩ := hg1.cellAt_some hcell.1 hcell.2
    have hV : ∀ q, visitedAt (modifyCell (modifyCell s.maze.grid p Cell.setVisited) cell
        Cell.setVisited) q ↔ visitedAt (modifyCell s.maze.grid p Cell.setVisited) q := by
      intro q
      rw [visitedAt_mark hcc]
      constructor
      · rintro (e | e)
        · rw [e]; exact hdfs'.curV
        · exact e
      · exact Or.inr
    refine ⟨hbasic', ⟨cell, by rw [finishDraw_maze], ?_⟩, ?_, ?_⟩
    · rw [finishDraw_maze, markedGrid_eq _ cell rfl]
      exact hdfs'.congrV hV
    · rw [finishDraw_maze, markedGrid_eq _ cell rfl]
      intro w hw
      exact hnarrow w ((hV w).mp hw)
    · rw [finishDraw_flag, finishDraw_maze]
      simp only
      intro hflag
      by_cases hrest : rest = []
      · exact ⟨hrest, hall hrest⟩
      · exfalso
        have hlen : ¬ rest.length = 0 := by
          intro e; exact hrest (List.eq_nil_of_length_eq_zero e)
        rw [if_neg hlen] at hflag
        have := (h.flag hflag).1
        rw [hst] at this
        simp at this
  · -- stay
    rw [hd] at hd'
    cases Option.some.inj hd'
    rw [hst] at hdfs
    have hfinV : ∀ q, adjacent p q → inGrid R (min C R) q →
        visitedAt (modifyCell s.maze.grid p Cell.setVisited) q := by
      intro q hadj hq
      have hq2 := hq.2
      exact hfin q hadj hq.1 (by omega) (by intro e; omega)
    have hall := hdfs.stay hfinV
    obtain ⟨c1, hc1, -, -⟩ := hg1.cellAt_some hb1 hb2
    have hV : ∀ q, visitedAt (modifyCell (modifyCell s.maze.grid p Cell.setVisited) p
        Cell.setVisited) q ↔ visitedAt (modifyCell s.maze.grid p Cell.setVisited) q := by
      intro q
      rw [visitedAt_mark hc1]
      constructor
      · rintro (e | e)
        · rw [e]; exact hdfs.curV
        · exact e
      · exact Or.inr
    refine ⟨hbasic', ⟨p, by rw [finishDraw_maze]; exact hp, ?_⟩, ?_, ?_⟩
    · rw [finishDraw_maze]
      simp only [hst]
      have hdfs2 : DfsInv R (min C R) (visitedAt (modifyCell s.maze.grid p Cell.setVisited)) p [] :=
        { hdfs with start := fun _ => Or.inl hall }
      refine hdfs2.congrV ?_
      intro q
      unfold markedGrid
      simp only [hp]
      exact hV q
    · rw [finishDraw_maze]
      intro w hw
      unfold markedGrid at hw
      simp only [hp] at hw
      exact hnarrow w ((hV w).mp hw)
    · rw [finishDraw_maze]
      intro _
      exact ⟨hst, hall⟩

theorem runDraws_wide {R C : Nat} (rnds : List Nat) {s : State} (h : WideInv R C s) :
    ∃ s', runDraws s rnds = some s' ∧ WideInv R C s' := by
  induction rnds generalizing s with
  | nil => exact ⟨s, rfl, h⟩
  | cons rnd rnds ih =>
    obtain ⟨s1, h1, hb1⟩ := draw_wide h rnd
    obtain ⟨s2, h2, hb2⟩ := ih hb1
    refine ⟨s2, ?_, hb2⟩
    simp only [runDraws, h1, h2]

theorem initialState_wide {R C : Nat} (hR : 1 ≤ R) (hC : 1 ≤ C) :
    WideInv R C (initialState R C) := by
  have hb : BasicInv R C (initialState R C) := freshState_basic (freshState_eq hR hC)
  obtain ⟨c0, hc0, -, -⟩ := hb.grid.cellAt_some (show 0 < R by omega) (show 0 < C by omega)
  have hV : ∀ q, visitedAt (markedGrid (initialState R C).maze) q ↔ q = (0, 0) := by
    intro q
    rw [markedGrid_eq _ (0, 0) rfl, visitedAt_mark hc0]
    constructor
    · rintro (e | e)
      · exact e
      · exact absurd e (not_visitedAt_freshGrid R C q)
    · exact Or.inl
  refine ⟨hb, ⟨(0, 0), rfl, ?_⟩, ?_, ?_⟩
  · refine ⟨(hV _).mpr rfl, ?_, ?_, rfl, ?_, ?_⟩
    · intro q hq; simp [initialState] at hq
    · simp [initialState]
    · intro w _ hw hne; exact absurd ((hV w).mp hw) hne
    · intro _; right; intro w hw; exact (hV w).mp hw
  · intro w hw
    rw [(hV w).mp hw]
    show 0 < min C R
    omega
  · intro h; simp [initialState] at h

/-- Past completion a generation step changes nothing in the maze. -/
theorem draw_after_completion {R C : Nat} {s : State} (h : WideInv R C s)
    (hflag : s.mazeGenerationComplete = true) (rnd : Nat) :
    ∃ s', draw s rnd = some s' ∧ s'.maze = s.maze ∧ s'.mazeGenerationComplete = true := by
  obtain ⟨s', hd', hwide'⟩ := draw_wide h rnd
  refine ⟨s', hd', ?_⟩
  obtain ⟨hstack, hall⟩ := h.flag hflag
  obtain ⟨p, hp, hdfs⟩ := h.dfs
  obtain ⟨p', hp', hb1, hb2⟩ := h.basic.cur
  rw [hp] at hp'
  cases Option.some.inj hp'
  have hmg : markedGrid s.maze = modifyCell s.maze.grid p Cell.setVisited :=
    markedGrid_eq _ p hp
  obtain ⟨c0, hc0, -, -⟩ := h.basic.grid.cellAt_some hb1 hb2
  have hc0' : cellAt s.maze.grid p = some c0 := hc0
  have hpW : p.2 < min C R := h.narrow p hdfs.curV
  rcases draw_cases h.basic hp rnd with ⟨next, g3, hadj, hn1, hn2, hunv, hrem, hd⟩ |
      ⟨-, ⟨cell, rest, hst, hd⟩ | ⟨hst, hd⟩⟩
  · exfalso
    have e := Option.some.inj (hd.symm.trans hd')
    obtain ⟨q, hq, hdfs'⟩ := hwide'.dfs
    have hnar := hwide'.narrow q hdfs'.curV
    rw [← e, finishDraw_maze] at hq
    cases Option.some.inj hq
    have hvis := hall next ⟨hn1, hnar⟩
    have : visitedAt (modifyCell s.maze.grid p Cell.setVisited) next :=
      (visitedAt_mark hc0' next).mpr (Or.inr hvis)
    unfold visitedAt at this
    rw [hunv] at this
    cases this
  · exfalso
    rw [hstack] at hst
    cases hst
  · have e := Option.some.inj (hd.symm.trans hd')
    have hvis := hall p ⟨hb1, hpW⟩
    have hc0v : c0.visited = true := by
      unfold visitedAt fieldAt at hvis
      rw [hc0'] at hvis
      exact Option.some.inj hvis
    have hsame : modifyCell s.maze.grid p Cell.setVisited = s.maze.grid := by
      apply modifyCell_eq_self hc0'
      unfold Cell.setVisited
      rw [← hc0v]
    rw [← e]
    constructor
    · rw [finishDraw_maze, hsame]
    · rw [finishDraw_flag]
      simp only [hst, List.length_nil, if_true]

/-- C14. For every grid shape and every sequence of random choices: in a state reached by
generation steps from the freshly set-up maze in which the completion flag is set, a further
call of `Maze.draw` raises no TypeError and leaves the maze as it is - every wall flag, every
`visited` flag, the stack and `currentCell` - and the completion flag stays true. As the state
after that call is again such a state, this holds for every further call. -/
theorem generation_is_idempotent_past_completion (R C : Nat) (s0 : State)
    (h : freshState R C = some s0) (rnds : List Nat) :
    ∃ s, runDraws s0 rnds = some s ∧
      (s.mazeGenerationComplete = true →
        ∀ rnd, ∃ s', draw s rnd = some s' ∧ s'.maze = s.maze ∧
          s'.mazeGenerationComplete = true) := by
  obtain ⟨hR, hC⟩ := freshState_pos h
  rw [freshState_eq hR hC] at h
  cases Option.some.inj h
  obtain ⟨s, hs, hwide⟩ := runDraws_wide rnds (initialState_wide hR hC)
  exact ⟨s, hs, fun hflag rnd => draw_after_completion hwide hflag rnd⟩

theorem generation_is_idempotent_past_completion_witness :
    freshState 2 3 = some (initialState 2 3) ∧
      ∃ s, runDraws (initialState 2 3) [0, 0, 0, 0, 0, 0] = some s ∧
        s.mazeGenerationComplete = true ∧
        ∀ rnd, ∃ s', draw s rnd = some s' ∧ s'.maze = s.maze ∧
          s'.mazeGenerationComplete = true := by
  have hf : freshState 2 3 = some (initialState 2 3) := freshState_eq (by decide) (by decide)
  have hc : ∃ s, runDraws (initialState 2 3) [0, 0, 0, 0, 0, 0] = some s ∧
      s.mazeGenerationComplete = true := by decide
  obtain ⟨s, hs, hflag⟩ := hc
  obtain ⟨s1, hs1, himp⟩ :=
    generation_is_idempotent_past_completion 2 3 (initialState 2 3) hf [0, 0, 0, 0, 0, 0]
  rw [hs] at hs1
  cases Option.some.inj hs1
  exact ⟨hf, s, hs, hflag, himp hflag⟩

/-! ## The two smallest grids -/

/-- C22. On the `1 x 1` grid `setupMaze` succeeds with the completion flag not yet set, the
start cell `(0, 0)` is the current cell and is also the goal cell; the first generation step,
for every random draw, sets the completion flag, leaves the stack empty and the current cell
at `(0, 0)`, removes no wall (all four walls of the single cell stay shown, no shared wall is
counted as removed) and keeps the goal mark. -/
theorem one_by_one_completes_in_first_step :
    ∃ s0, freshState 1 1 = some s0 ∧ s0.mazeGenerationComplete = false ∧
      s0.maze.currentCell = some (0, 0) ∧
      fieldAt s0.maze.grid (0, 0) (fun c => c.isGoal) = some true ∧
      allWallsShown s0.maze.grid (0, 0) ∧
      ∀ rnd, ∃ s, draw s0 rnd = some s ∧ s.mazeGenerationComplete = true ∧
        s.maze.stack = [] ∧ s.maze.currentCell = some (0, 0) ∧
        allWallsShown s.maze.grid (0, 0) ∧ removedWalls 1 1 s.maze.grid = 0 ∧
        fieldAt s.maze.grid (0, 0) (fun c => c.isGoal) = some true ∧
        s.maze.grid.length = 1 := by
  refine ⟨initialState 1 1, freshState_eq (by decide) (by decide), rfl, rfl, by decide,
    by decide, ?_⟩
  intro rnd
  have hd : draw (initialState 1 1) rnd = draw (initialState 1 1) 0 := rfl
  rw [hd]
  decide

/-- With both generation invariants and the completion flag set, the removed walls number
`R * C - 1` and the open-wall graph is connected. -/
theorem spanning_of_invariants {R C : Nat} {s : State} (hgen : GenInv R C s)
    (htree : TreeInv R C s) (hflag : s.mazeGenerationComplete = true) :
    removedWalls R C s.maze.grid = R * C - 1 ∧ Connected R C s.maze.grid := by
  obtain ⟨-, hall⟩ := hgen.flag hflag
  obtain ⟨p, hp, hb1, hb2⟩ := hgen.basic.cur
  obtain ⟨c0, hc0, -, -⟩ := hgen.basic.grid.cellAt_some hb1 hb2
  have hmg : markedGrid s.maze = modifyCell s.maze.grid p Cell.setVisited :=
    markedGrid_eq _ p hp
  have hallV : ∀ w, inGrid R C w → visitedAt (markedGrid s.maze) w := by
    intro w hw
    rw [hmg, visitedAt_mark hc0]
    exact Or.inr (hall w.1 hw.1 w.2 hw.2)
  constructor
  · have := htree.core.count
    rw [visitedCount_all hallV] at this
    omega
  · intro x y hx hy
    exact (Reach.symm (htree.core.joined x (hallV x hx))).trans (htree.core.joined y (hallV y hy))

/-- C21. On the `2 x 2` grid, for every sequence of random neighbour choices (eight of them
are enough), the generation loop run from the freshly set-up maze ends with the completion
flag set, and in the maze it leaves exactly 3 shared walls are removed and all 4 cells are
connected to each other through open walls. -/
theorem two_by_two_generation_removes_three_walls (s0 : State)
    (h : freshState 2 2 = some s0) (rnds : List Nat) (hlen : 8 ≤ rnds.length) :
    ∃ s k, generateLoop s0 rnds = some (s, k) ∧ s.mazeGenerationComplete = true ∧
      removedWalls 2 2 s.maze.grid = 3 ∧ Connected 2 2 s.maze.grid := by
  have h0 := h
  rw [freshState_eq (by decide) (by decide)] at h0
  cases Option.some.inj h0
  have hinv := initialState_tree (R := 2) (C := 2) (by decide) (by decide)
  have hm : genMeasure 2 2 (initialState 2 2) + 1 ≤ 8 := by decide
  obtain ⟨s, k, hloop, hdone, -, hrun⟩ := generateLoop_terminates 8 _ rnds hinv hm hlen
  obtain ⟨s1, hs1, hgen⟩ := runDraws_fresh_gen (Nat.le_refl 2) h (rnds.take k)
  obtain ⟨s2, hs2, htree⟩ := runDraws_fresh_tree h (rnds.take k)
  rw [hrun] at hs1 hs2
  cases Option.some.inj hs1
  cases Option.some.inj hs2
  obtain ⟨e1, e2⟩ := spanning_of_invariants hgen htree hdone
  exact ⟨s, k, hloop, hdone, e1, e2⟩

theorem two_by_two_generation_removes_three_walls_witness :
    freshState 2 2 = some (initialState 2 2) ∧
      ∃ s k, generateLoop (initialState 2 2) [3, 1, 2, 0, 5, 7, 1, 4] = some (s, k) ∧
        s.mazeGenerationComplete = true ∧ removedWalls 2 2 s.maze.grid = 3 ∧
        Connected 2 2 s.maze.grid :=
  ⟨freshState_eq (by decide) (by decide),
    two_by_two_generation_removes_three_walls (initialState 2 2)
      (freshState_eq (by decide) (by decide)) [3, 1, 2, 0, 5, 7, 1, 4] (by decide)⟩

/-! ## The size of the selection -/

/-- C30. Whenever `selectCellsToRotate` returns, `cellsToRotate` has exactly `2 * rows`
entries, where `rows` is `DifficultyDimensions[difficulty][0]` (the row dimension of a maze
built by `updateMaze` for that difficulty, so `2 * m.rows`); the previous selection is
discarded: the result is the same whatever `cellsToRotate` held before, and every entry is a
cell of the grid that passed the checks of `getRandomCell` in this call; nothing else of the
maze changes. -/
theorem selectCellsToRotate_replaces_selection (dimRows : Nat) (m m' : Maze)
    (ds ds' : List (Nat × Nat)) (h : selectCellsToRotate dimRows m ds = some (m', ds')) :
    m'.cellsToRotate.length = 2 * dimRows ∧
      (m.rows = dimRows → m'.cellsToRotate.length = 2 * m'.rows) ∧
      (∀ old, selectCellsToRotate dimRows { m with cellsToRotate := old } ds = some (m', ds')) ∧
      (∀ p, p ∈ m'.cellsToRotate → ∃ c, cellAt m'.grid p = some c ∧ c.isGoal = false ∧
        verifyNonBorderWallsExist m' c = true) ∧
      m' = { m with cellsToRotate := m'.cellsToRotate } := by
  obtain ⟨-, e2, -, -, -, e6, -⟩ := selectCellsToRotate_spec h
  have hall : ∀ (count : Nat) (m1 : Maze) (ds1 : List (Nat × Nat)) (m2 : Maze)
      (ds2 : List (Nat × Nat)), selectLoop count m1 ds1 = some (m2, ds2) →
      (∀ p, p ∈ m1.cellsToRotate → ∃ c, cellAt m1.grid p = some c ∧ c.isGoal = false ∧
        verifyNonBorderWallsExist m1 c = true) →
      ∀ p, p ∈ m2.cellsToRotate → ∃ c, cellAt m2.grid p = some c ∧ c.isGoal = false ∧
        verifyNonBorderWallsExist m2 c = true := by
    intro count
    induction count with
    | zero =>
      intro m1 ds1 m2 ds2 hl hold
      simp only [selectLoop, Option.some.injEq, Prod.mk.injEq] at hl
      obtain ⟨rfl, -⟩ := hl
      exact hold
    | succ n ih =>
      intro m1 ds1 m2 ds2 hl hold
      simp only [selectLoop] at hl
      split at hl
      · cases hl
      · rename_i q ds3 hq
        obtain ⟨c, hc, hgoal, hv, -, -⟩ := getRandomCell_spec m1 ds1 hq
        refine ih _ _ _ _ hl ?_
        intro p hp
        simp only [List.mem_append, List.mem_singleton] at hp
        rcases hp with hp | rfl
        · exact hold p hp
        · exact ⟨c, hc, hgoal, hv⟩
  refine ⟨by rw [e6]; omega, fun hr => by rw [e6, e2, hr]; omega, fun old => h, ?_, ?_⟩
  · exact hall _ _ _ _ _ h (fun p hp => by simp at hp)
  · have hrec : ∀ (count : Nat) (m1 : Maze) (ds1 : List (Nat × Nat)) (m2 : Maze)
        (ds2 : List (Nat × Nat)), selectLoop count m1 ds1 = some (m2, ds2) →
        { m2 with cellsToRotate := [] } = { m1 with cellsToRotate := [] } := by
      intro count
      induction count with
      | zero =>
        intro m1 ds1 m2 ds2 hl
        simp only [selectLoop, Option.some.injEq, Prod.mk.injEq] at hl
        obtain ⟨rfl, -⟩ := hl
        rfl
      | succ n ih =>
        intro m1 ds1 m2 ds2 hl
        simp only [selectLoop] at hl
        split at hl
        · cases hl
        · have e := ih _ _ _ _ hl
          exact e
    have e := hrec (dimRows * 2) { m with cellsToRotate := [] } ds m' ds' h
    cases m; cases m'
    simp only [Maze.mk.injEq, true_and, and_true] at e ⊢
    exact e

theorem selectCellsToRotate_replaces_selection_witness :
    ∃ s r, runDraws (initialState 3 3) (List.replicate 17 0) = some s ∧
      selectCellsToRotate 3 { s.maze with cellsToRotate := [(2, 2), (2, 2)] }
        [(0, 0), (0, 1), (1, 0), (1, 1), (1, 2), (2, 1)] = some r ∧
      r.1.cellsToRotate.length = 2 * 3 ∧
      (s.maze.rows = 3 → r.1.cellsToRotate.length = 2 * r.1.rows) ∧
      (∀ old, selectCellsToRotate 3 { s.maze with cellsToRotate := old }
        [(0, 0), (0, 1), (1, 0), (1, 1), (1, 2), (2, 1)] = some r) ∧
      (∀ p, p ∈ r.1.cellsToRotate → ∃ c, cellAt r.1.grid p = some c ∧ c.isGoal = false ∧
        verifyNonBorderWallsExist r.1 c = true) ∧
      r.1 = { s.maze with cellsToRotate := r.1.cellsToRotate } := by
  have h : ∃ s, runDraws (initialState 3 3) (List.replicate 17 0) = some s ∧
      (selectCellsToRotate 3 { s.maze with cellsToRotate := [(2, 2), (2, 2)] }
        [(0, 0), (0, 1), (1, 0), (1, 1), (1, 2), (2, 1)]).isSome = true := by decide
  obtain ⟨s, hs, hsome⟩ := h
  obtain ⟨⟨m', ds'⟩, hr⟩ := Option.isSome_iff_exists.mp hsome
  exact ⟨s, (m', ds'), hs, hr,
    selectCellsToRotate_replaces_selection 3 { s.maze with cellsToRotate := [(2, 2), (2, 2)] }
      m' _ ds' hr⟩

/-! ## Fields that no operation writes -/

/-- A generation step leaves alone every field that neither `visited = true` nor an `isShown`
assignment changes. -/
theorem draw_keep {β : Type} (proj : Cell → β) (hV : ∀ c, proj (Cell.setVisited c) = proj c)
    (hT : ∀ b c, proj (Cell.setTopShown b c) = proj c)
    (hB : ∀ b c, proj (Cell.setBottomShown b c) = proj c)
    (hL : ∀ b c, proj (Cell.setLeftShown b c) = proj c)
    (hR : ∀ b c, proj (Cell.setRightShown b c) = proj c)
    {s s' : State} {rnd : Nat} (h : draw s rnd = some s') :
    ∀ x, fieldAt s'.maze.grid x proj = fieldAt s.maze.grid x proj := by
  unfold draw at h
  split at h
  · exact absurd h (by simp)
  · split at h
    · exact absurd h (by simp)
    · rename_i grid1 hg1
      have e1 : ∀ x, fieldAt grid1 x proj = fieldAt s.maze.grid x proj :=
        fun x => fieldAt_writeCell_keep hg1 x _ hV
      split at h
      · exact absurd h (by simp)
      · split at h
        · exact absurd h (by simp)
        · split at h
          · exact absurd h (by simp)
          · rename_i grid2 hg2
            split at h
            · exact absurd h (by simp)
            · rename_i grid3 hg3
              cases Option.some.inj h
              rw [finishDraw_maze]
              intro x
              simp only
              rw [removeWalls_keep hg3 x proj hT hB hL hR,
                fieldAt_writeCell_keep hg2 x proj hV, e1]
        · split at h
          · cases Option.some.inj h
            rw [finishDraw_maze]
            exact e1
          · cases Option.some.inj h
            rw [finishDraw_maze]
            exact e1

/-- In every reachable state, a field that no assignment of generation or rotation changes
has the value `setupMaze` gave it, cell by cell; and the grid has cells at the same places. -/
theorem reachable_keep {β : Type} (proj : Cell → β)
    (hV : ∀ c, proj (Cell.setVisited c) = proj c)
    (hT : ∀ b c, proj (Cell.setTopShown b c) = proj c)
    (hB : ∀ b c, proj (Cell.setBottomShown b c) = proj c)
    (hL : ∀ b c, proj (Cell.setLeftShown b c) = proj c)
    (hR : ∀ b c, proj (Cell.setRightShown b c) = proj c)
    (hself : ∀ (f : Cell → Cell), (∀ c, (f c).isGoal = c.isGoal ∧
      (f c).rowNumber = c.rowNumber ∧ (f c).columnNumber = c.columnNumber ∧
      (f c).visited = c.visited) → ∀ c, proj (f c) = proj c)
    {R C : Nat} {s : State} (h : Reachable R C s) :
    1 ≤ R ∧ 1 ≤ C ∧ ∀ x, fieldAt s.maze.grid x proj = fieldAt (freshGrid R C) x proj := by
  induction h with
  | fresh hf =>
    obtain ⟨hR', hC'⟩ := freshState_pos hf
    rw [freshState_eq hR' hC'] at hf
    cases Option.some.inj hf
    exact ⟨hR', hC', fun x => rfl⟩
  | byDraw rnd _ hd ih =>
    exact ⟨ih.1, ih.2.1, fun x => (draw_keep proj hV hT hB hL hR hd x).trans (ih.2.2 x)⟩
  | bySelect dimRows ds _ hsel ih =>
    refine ⟨ih.1, ih.2.1, fun x => ?_⟩
    obtain ⟨e1, -⟩ := selectCellsToRotate_spec hsel
    simp only
    rw [e1]
    exact ih.2.2 x
  | byRotate index _ hrot ih =>
    refine ⟨ih.1, ih.2.1, fun x => ?_⟩
    obtain ⟨-, hcells⟩ := rotateCellWalls_frame hrot
    simp only
    rw [rotateCells_keep _ hcells x proj hT hB hL hR (Or.inr hself)]
    exact ih.2.2 x
  | byMove key _ hm ih =>
    refine ⟨ih.1, ih.2.1, fun x => ?_⟩
    rw [(move_frame hm).1]
    exact ih.2.2 x

/-! ## Exactly one goal -/

/-- C25. After `setupMaze` on an `R x C` maze every cell has all four walls shown; and in
every state reachable from there by generation steps, scramble selections, rotation ticks and
moves, the grid has a cell exactly at the places `(r, c)` with `r < R`, `c < C`, and the cell
at `x` has `isGoal = true` exactly when `x` is the bottom-right place `(R - 1, C - 1)`, which
lies in the grid: exactly one cell is the goal. -/
theorem exactly_one_goal_for_lifetime {R C : Nat} :
    (∀ s0, freshState R C = some s0 → ∀ x, inGrid R C x → allWallsShown s0.maze.grid x) ∧
    (∀ s, Reachable R C s →
      inGrid R C (R - 1, C - 1) ∧
      (∀ x, fieldAt s.maze.grid x (fun c => c.isGoal)
        = if inGrid R C x then some (decide (x = (R - 1, C - 1))) else none) ∧
      ∀ x, fieldAt s.maze.grid x (fun c => c.isGoal) = some true ↔ x = (R - 1, C - 1)) := by
  constructor
  · intro s0 hf x hx
    obtain ⟨hR, hC⟩ := freshState_pos hf
    rw [freshState_eq hR hC] at hf
    cases Option.some.inj hf
    exact allWallsShown_freshGrid hx
  · intro s hs
    obtain ⟨hR, hC, hkeep⟩ := reachable_keep (fun c => c.isGoal) (fun _ => rfl) (fun _ _ => rfl)
      (fun _ _ => rfl) (fun _ _ => rfl) (fun _ _ => rfl) (fun f hf c => (hf c).1) hs
    have hin : inGrid R C (R - 1, C - 1) := by
      constructor <;> simp only <;> omega
    have hval : ∀ x, fieldAt s.maze.grid x (fun c => c.isGoal)
        = if inGrid R C x then some (decide (x = (R - 1, C - 1))) else none := by
      intro x
      rw [hkeep x]
      unfold fieldAt
      rw [cellAt_freshGrid]
      by_cases hx : inGrid R C x
      · have hx' : x.1 < R ∧ x.2 < C := hx
        rw [if_pos hx, if_pos hx']
        by_cases e : x = (R - 1, C - 1)
        · rw [if_pos e]; simp [e, Cell.setIsGoal]
        · rw [if_neg e]; simp [e, Cell.mk0]
      · have hx' : ¬ (x.1 < R ∧ x.2 < C) := hx
        rw [if_neg hx, if_neg hx']; rfl
    refine ⟨hin, hval, fun x => ?_⟩
    rw [hval x]
    by_cases hx : inGrid R C x
    · rw [if_pos hx]
      by_cases e : x = (R - 1, C - 1) <;> simp [e]
    · have : x ≠ (R - 1, C - 1) := fun e => hx (e ▸ hin)
      rw [if_neg hx]
      simp [this]

theorem exactly_one_goal_for_lifetime_witness :
    (∀ x, inGrid 2 2 x → allWallsShown (initialState 2 2).maze.grid x) ∧
    ∃ s, runDraws (initialState 2 2) [1, 0, 0] = some s ∧
      inGrid 2 2 (2 - 1, 2 - 1) ∧
      (∀ x, fieldAt s.maze.grid x (fun c => c.isGoal)
        = if inGrid 2 2 x then some (decide (x = (2 - 1, 2 - 1))) else none) ∧
      ∀ x, fieldAt s.maze.grid x (fun c => c.isGoal) = some true ↔ x = (2 - 1, 2 - 1) := by
  have h : ∃ s1, draw (initialState 2 2) 1 = some s1 ∧ ∃ s2, draw s1 0 = some s2 ∧
      ∃ s3, draw s2 0 = some s3 ∧ runDraws (initialState 2 2) [1, 0, 0] = some s3 := by decide
  obtain ⟨s1, h1, s2, h2, s3, h3, hrun⟩ := h
  have hf : freshState 2 2 = some (initialState 2 2) := freshState_eq (by decide) (by decide)
  exact ⟨exactly_one_goal_for_lifetime.1 _ hf,
    s3, hrun, exactly_one_goal_for_lifetime.2 s3
      (Reachable.byDraw 0 (Reachable.byDraw 0 (Reachable.byDraw 1 (Reachable.fresh hf) h1) h2) h3)⟩

/-! ## The third selection criterion -/

theorem exists_lt_four (P : Nat → Prop) : (∃ w, w < 4 ∧ P w) ↔ P 0 ∨ P 1 ∨ P 2 ∨ P 3 := by
  constructor
  · rintro ⟨w, hw, h⟩
    rcases (show w = 0 ∨ w = 1 ∨ w = 2 ∨ w = 3 by omega) with rfl | rfl | rfl | rfl
    · exact Or.inl h
    · exact Or.inr (Or.inl h)
    · exact Or.inr (Or.inr (Or.inl h))
    · exact Or.inr (Or.inr (Or.inr h))
  · rintro (h | h | h | h)
    · exact ⟨0, by omega, h⟩
    · exact ⟨1, by omega, h⟩
    · exact ⟨2, by omega, h⟩
    · exact ⟨3, by omega, h⟩

theorem filter_four_length (f : Nat → Bool) :
    ((List.range 4).filter f).length
      = (if f 0 then 1 else 0) + (if f 1 then 1 else 0) + (if f 2 then 1 else 0)
        + (if f 3 then 1 else 0) := by
  have h4 : List.range 4 = [0, 1, 2, 3] := by decide
  rw [h4]
  cases h0 : f 0 <;> cases h1 : f 1 <;> cases h2 : f 2 <;> cases h3 : f 3 <;>
    simp [List.filter, h0, h1, h2, h3]

theorem countTrue_four (t r b l : Bool) :
    countTrue [t, r, b, l]
      = (if t then 1 else 0) + (if r then 1 else 0) + (if b then 1 else 0)
        + (if l then 1 else 0) := by
  cases t <;> cases r <;> cases b <;> cases l <;> rfl

theorem border_count_core (t r b l : Bool) (A0 A1 A2 A3 X1 X2 : Prop) [Decidable A0]
    [Decidable A1] [Decidable A2] [Decidable A3] [Decidable X1] [Decidable X2]
    (h1 : X1 ↔ ¬ A1) (h2 : X2 ↔ ¬ A2) :
    ((((if t = true ∧ A0 then (1 : Nat) else 0) + (if r = true ∧ A1 then 1 else 0)
          + (if b = true ∧ A2 then 1 else 0) + (if l = true ∧ A3 then 1 else 0))
        < ((if t = true then (1 : Nat) else 0) + (if r = true then 1 else 0)
          + (if b = true then 1 else 0) + (if l = true then 1 else 0))) ↔
      (((if t = true ∧ A0 then (1 : Nat) else 0) + (if r = true ∧ ¬ X1 then 1 else 0)
          + (if b = true ∧ ¬ X2 then 1 else 0) + (if l = true ∧ A3 then 1 else 0))
        < ((if t = true then (1 : Nat) else 0) + (if r = true then 1 else 0)
          + (if b = true then 1 else 0) + (if l = true then 1 else 0)))) ∧
    ((((if t = true ∧ A0 then (1 : Nat) else 0) + (if r = true ∧ A1 then 1 else 0)
          + (if b = true ∧ A2 then 1 else 0) + (if l = true ∧ A3 then 1 else 0))
        < ((if t = true then (1 : Nat) else 0) + (if r = true then 1 else 0)
          + (if b = true then 1 else 0) + (if l = true then 1 else 0))) ↔
      (t = true ∧ ¬ A0 ∨ r = true ∧ X1 ∨ b = true ∧ X2 ∨ l = true ∧ ¬ A3)) := by
  have e1 : X1 = ¬ A1 := propext h1
  have e2 : X2 = ¬ A2 := propext h2
  subst e1 e2
  by_cases a0 : A0 <;> by_cases a1 : A1 <;> by_cases a2 : A2 <;> by_cases a3 : A3 <;>
    simp only [a0, a1, a2, a3, and_true, and_false, not_true_eq_false, not_false_eq_true,
      if_false] <;>
    revert t r b l <;> decide

/-- On a square grid the test of `verifyNonBorderWallsExist` compares the number of shown walls
with the number of shown outer-boundary walls, and holds exactly when some shown wall has a
neighbour behind it. -/
theorem verifyNonBorderWallsExist_eq {n : Nat} {m : Maze} (hg : GridOK n n m.grid) {p : Ref}
    {c : Cell} (hc : cellAt m.grid p = some c) :
    (verifyNonBorderWallsExist m c = true ↔
        shownBoundaryWalls n p c < countTrue c.getShownWalls) ∧
      (verifyNonBorderWallsExist m c = true ↔
        ∃ w, w < 4 ∧ (c.wall w).isShown = true ∧ hasNbr n p w) := by
  obtain ⟨hp1, hp2, hr, hcn⟩ := hg.cellAt_bound hc
  have hlen : m.grid.length = n := hg.1
  rw [exists_lt_four]
  simp only [verifyNonBorderWallsExist, shownBoundaryWalls, filter_four_length,
    Cell.getShownWalls, countTrue_four, Cell.wall, hasNbr, hlen, hr, hcn,
    Bool.and_eq_true, decide_eq_true_eq, ne_eq, not_not, gt_iff_lt]
  exact border_count_core _ _ _ _ _ _ _ _ _ _ (by omega) (by omega)

/-- C26. On a square grid, `verifyNonBorderWallsExist(cell)` returns true if and only if the
cell has more shown walls than shown walls lying on the grid's outer boundary, and if and only
if at least one of its shown walls is not an outer-boundary wall (it has a neighbour behind
it); hence every cell returned by `getRandomCell` has, in the grid it was returned from, a
shown wall that is not on the outer boundary. -/
theorem verifyNonBorderWallsExist_iff_inner_wall_shown {n : Nat} (m : Maze)
    (hg : GridOK n n m.grid) :
    (∀ p c, cellAt m.grid p = some c →
      (verifyNonBorderWallsExist m c = true ↔
        shownBoundaryWalls n p c < countTrue c.getShownWalls) ∧
      (verifyNonBorderWallsExist m c = true ↔
        ∃ w, w < 4 ∧ (c.wall w).isShown = true ∧ hasNbr n p w)) ∧
    (∀ ds q ds', getRandomCell m ds = some (q, ds') →
      ∃ c w, cellAt m.grid q = some c ∧ w < 4 ∧ (c.wall w).isShown = true ∧ hasNbr n q w) := by
  constructor
  · intro p c hc
    exact verifyNonBorderWallsExist_eq hg hc
  · intro ds q ds' h
    obtain ⟨c, hc, -, hv, -, -⟩ := getRandomCell_spec m ds h
    obtain ⟨w, hw, hs, hn⟩ := (verifyNonBorderWallsExist_eq hg hc).2.mp hv
    exact ⟨c, w, hc, hw, hs, hn⟩

theorem verifyNonBorderWallsExist_iff_inner_wall_shown_witness :
    ∃ s, runDraws (initialState 3 3) (List.replicate 17 0) = some s ∧
      (getRandomCell s.maze [(2, 2), (0, 0), (1, 1)]).isSome = true ∧
      (∀ p c, cellAt s.maze.grid p = some c →
        (verifyNonBorderWallsExist s.maze c = true ↔
          shownBoundaryWalls 3 p c < countTrue c.getShownWalls) ∧
        (verifyNonBorderWallsExist s.maze c = true ↔
          ∃ w, w < 4 ∧ (c.wall w).isShown = true ∧ hasNbr 3 p w)) ∧
      (∀ ds q ds', getRandomCell s.maze ds = some (q, ds') →
        ∃ c w, cellAt s.maze.grid q = some c ∧ w < 4 ∧ (c.wall w).isShown = true ∧
          hasNbr 3 q w) := by
  have h : ∃ s, runDraws (initialState 3 3) (List.replicate 17 0) = some s ∧
      (getRandomCell s.maze [(2, 2), (0, 0), (1, 1)]).isSome = true ∧
      GridOK 3 3 s.maze.grid := by decide
  obtain ⟨s, hs, hsome, hg⟩ := h
  exact ⟨s, hs, hsome, verifyNonBorderWallsExist_iff_inner_wall_shown s.maze hg⟩

/-! ## The chosen wall during a cycle -/

/-- What one run of the `forEach` body of `rotateCellWalls(index)` does to the `wallToRotate`
fields: at index 0 the cell at `p` gets the result of `selectRandomWallToRotate`, and nothing
else is assigned. -/
theorem rotateCell_wallToRotate {index : Nat} {g g' : Grid} {p : Ref}
    (h : rotateCell index g p = some g') :
    ∃ c, cellAt g p = some c ∧ ∀ x, fieldAt g' x (fun d => d.wallToRotate)
      = if index = 0 ∧ x = p then some (selectRandomWallToRotate g c)
        else fieldAt g x (fun d => d.wallToRotate) := by
  unfold rotateCell at h
  split at h
  · cases h
  · rename_i cell hcell
    refine ⟨cell, hcell, fun x => ?_⟩
    dsimp only at h
    split at h
    · cases h
    · split at h
      · cases h
      · rename_i g2 hsw
        have e2 := rotateSwitch_keep hsw x (fun d => d.wallToRotate) (fun _ _ => rfl)
          (fun _ _ => rfl) (fun _ _ => rfl) (fun _ _ => rfl)
          (Or.inr (fun f hf c => (hf c).2.2.2.2))
        have e3 : ∀ g0 : Grid, fieldAt (modifyCell g0 p (Cell.setIsRotating false)) x
            (fun d => d.wallToRotate) = fieldAt g0 x (fun d => d.wallToRotate) :=
          fun g0 => fieldAt_modifyCell_keep g0 p x _ _ (fun _ => rfl)
        have e1 : fieldAt (if index = 0 then
            modifyCell (modifyCell g p (Cell.setWallToRotate (selectRandomWallToRotate g cell))) p
              (Cell.setIsRotating true) else g) x (fun d => d.wallToRotate)
            = if index = 0 ∧ x = p then some (selectRandomWallToRotate g cell)
              else fieldAt g x (fun d => d.wallToRotate) := by
          by_cases hi : index = 0
          · rw [if_pos hi, fieldAt_modifyCell_keep _ p x (Cell.setIsRotating true)
              (fun d => d.wallToRotate) (fun _ => rfl), fieldAt_modifyCell]
            by_cases hx : x = p
            · rw [if_pos hx, if_pos ⟨hi, hx⟩]
              subst hx
              simp [fieldAt, hcell, Cell.setWallToRotate]
            · rw [if_neg hx, if_neg (fun hh => hx hh.2)]
          · rw [if_neg hi, if_neg (fun hh => hi hh.1)]
        split at h
        · cases h
          rw [e3, e2, e1]
        · cases h
          rw [e2, e1]

theorem rotateCells_append (index : Nat) (l1 l2 : List Ref) (g : Grid) :
    rotateCells index (l1 ++ l2) g = (rotateCells index l1 g).bind (rotateCells index l2) := by
  induction l1 generalizing g with
  | nil => rfl
  | cons p ps ih =>
    simp only [List.cons_append, rotateCells]
    cases rotateCell index g p with
    | none => rfl
    | some g1 => exact ih g1

/-- A call `rotateCellWalls(index)` with `index` other than 0 assigns no `wallToRotate`. -/
theorem rotateCells_wallToRotate {index : Nat} (hi : index ≠ 0) (l : List Ref) {g g' : Grid}
    (h : rotateCells index l g = some g') (x : Ref) :
    fieldAt g' x (fun d => d.wallToRotate) = fieldAt g x (fun d => d.wallToRotate) := by
  induction l generalizing g with
  | nil =>
    simp only [rotateCells] at h
    cases h; rfl
  | cons p ps ih =>
    simp only [rotateCells] at h
    split at h
    · cases h
    · rename_i g1 h1
      obtain ⟨c, -, hc⟩ := rotateCell_wallToRotate h1
      rw [ih h, hc x, if_neg (fun hh => hi hh.1)]

/-- C28. A call `rotateCellWalls(index)` with an index other than 0 leaves the `wallToRotate`
of every cell unchanged, whatever `cellsToRotate` holds. The call with index 0 leaves it
unchanged on the cells that are not selected, and gives a selected cell the value that
`selectRandomWallToRotate` returned for it when the `forEach` reached its (last) entry in
`cellsToRotate`. -/
theorem chosen_wall_is_assigned_only_at_index_zero (m m' : Maze) (index : Nat)
    (h : rotateCellWalls m index = some m') :
    (index ≠ 0 → ∀ x, fieldAt m'.grid x (fun d => d.wallToRotate)
      = fieldAt m.grid x (fun d => d.wallToRotate)) ∧
    (index = 0 →
      (∀ x, x ∉ m.cellsToRotate → fieldAt m'.grid x (fun d => d.wallToRotate)
        = fieldAt m.grid x (fun d => d.wallToRotate)) ∧
      ∀ l1 x l2, m.cellsToRotate = l1 ++ x :: l2 → x ∉ l2 →
        ∃ g1 c1, rotateCells 0 l1 m.grid = some g1 ∧ cellAt g1 x = some c1 ∧
          fieldAt m'.grid x (fun d => d.wallToRotate)
            = some (selectRandomWallToRotate g1 c1)) := by
  obtain ⟨-, hcells⟩ := rotateCellWalls_frame h
  refine ⟨fun hi x => rotateCells_wallToRotate hi _ hcells x, ?_⟩
  intro hi
  subst hi
  constructor
  · intro x hx
    exact rotateCells_keep _ hcells x (fun d => d.wallToRotate) (fun _ _ => rfl)
      (fun _ _ => rfl) (fun _ _ => rfl) (fun _ _ => rfl) (Or.inl hx)
  · intro l1 x l2 hl hx
    rw [hl, rotateCells_append] at hcells
    cases hg1 : rotateCells 0 l1 m.grid with
    | none => rw [hg1] at hcells; cases hcells
    | some g1 =>
      rw [hg1] at hcells
      simp only [Option.some_bind, rotateCells] at hcells
      split at hcells
      · cases hcells
      · rename_i g2 h2
        obtain ⟨c1, hc1, hw⟩ := rotateCell_wallToRotate h2
        refine ⟨g1, c1, rfl, hc1, ?_⟩
        rw [rotateCells_keep _ hcells x (fun d => d.wallToRotate) (fun _ _ => rfl)
          (fun _ _ => rfl) (fun _ _ => rfl) (fun _ _ => rfl) (Or.inl hx), hw x,
          if_pos ⟨rfl, rfl⟩]

theorem chosen_wall_is_assigned_only_at_index_zero_witness :
    ∃ s r m1 m2, runDraws (initialState 3 3) (List.replicate 17 0) = some s ∧
      selectCellsToRotate 3 s.maze [(0, 0), (0, 1), (1, 0), (1, 1), (1, 2), (2, 1)] = some r ∧
      rotateCellWalls r.1 0 = some m1 ∧ rotateCellWalls m1 1 = some m2 ∧
      fieldAt m1.grid (1, 0) (fun d => d.wallToRotate) = some (some 1) ∧
      ((1 : Nat) ≠ 0 → ∀ x, fieldAt m2.grid x (fun d => d.wallToRotate)
        = fieldAt m1.grid x (fun d => d.wallToRotate)) ∧
      ((1 : Nat) = 0 →
        (∀ x, x ∉ m1.cellsToRotate → fieldAt m2.grid x (fun d => d.wallToRotate)
          = fieldAt m1.grid x (fun d => d.wallToRotate)) ∧
        ∀ l1 x l2, m1.cellsToRotate = l1 ++ x :: l2 → x ∉ l2 →
          ∃ g1 c1, rotateCells 0 l1 m1.grid = some g1 ∧ cellAt g1 x = some c1 ∧
            fieldAt m2.grid x (fun d => d.wallToRotate)
              = some (selectRandomWallToRotate g1 c1)) := by
  have h : ∃ s, runDraws (initialState 3 3) (List.replicate 17 0) = some s ∧
      ∃ r, selectCellsToRotate 3 s.maze [(0, 0), (0, 1), (1, 0), (1, 1), (1, 2), (2, 1)]
          = some r ∧
        ∃ m1, rotateCellWalls r.1 0 = some m1 ∧
          fieldAt m1.grid (1, 0) (fun d => d.wallToRotate) = some (some 1) ∧
          ∃ m2, rotateCellWalls m1 1 = some m2 ∧ True := by decide
  obtain ⟨s, hs, r, hr, m1, h1, hf, m2, h2, -⟩ := h
  exact ⟨s, r, m1, m2, hs, hr, h1, h2, hf,
    chosen_wall_is_assigned_only_at_index_zero m1 m2 1 h2⟩

/-! ## Restarting with the same maze -/

theorem cellAt_append (g1 g2 : Grid) (p : Ref) :
    cellAt (g1 ++ g2) p
      = if p.1 < g1.length then cellAt g1 p else cellAt g2 (p.1 - g1.length, p.2) := by
  unfold cellAt
  by_cases h : p.1 < g1.length
  · rw [if_pos h, List.getElem?_append_left h]
  · rw [if_neg h, List.getElem?_append_right (by omega)]

/-- C24 (the code at the failing input). `Game.restartGame` on a maze that has finished
generating calls `Maze.setupMaze` on the existing maze, which pushes `rows` new rows onto the
grid it already has: afterwards `rows` and `columns` are unchanged but the grid has `2 * rows`
rows, it is no longer the `rows x columns` grid, and for every place `(r, c)` the new cell at
`grid[rows + r][c]` carries the same coordinates `(r, c)` as the old cell at `grid[r][c]`,
with all walls shown. The old cells keep their wall flags. -/
theorem restartGame_appends_a_second_grid {R C : Nat} (s : State) (hR : 1 ≤ R) (hC : 1 ≤ C)
    (hrows : s.maze.rows = R) (hcols : s.maze.columns = C) (hg : GridOK R C s.maze.grid)
    (hdone : s.mazeGenerationComplete = true) (rnds : List Nat) :
    ∃ s', Game.restartGame s rnds = some s' ∧ s'.maze.rows = R ∧ s'.maze.columns = C ∧
      s'.maze.grid.length = 2 * R ∧ ¬ GridOK R C s'.maze.grid ∧
      (∀ p, inGrid R C p → fieldAt s'.maze.grid p (fun c => c.walls)
        = fieldAt s.maze.grid p (fun c => c.walls)) ∧
      (∀ p, inGrid R C p →
        fieldAt s'.maze.grid p (fun c => (c.rowNumber, c.columnNumber)) = some p ∧
        cellAt s'.maze.grid (R + p.1, p.2) = some (Cell.mk0 p.1 p.2)) := by
  have hlen : s.maze.grid.length = R := hg.1
  set grid1 := s.maze.grid ++ (List.range R).map (fun row => newRow row C) with hgrid1
  have hcell : ∀ p, inGrid R C p → cellAt grid1 p = cellAt s.maze.grid p := by
    intro p hp
    rw [hgrid1, cellAt_append, if_pos (by rw [hlen]; exact hp.1)]
  have hnew : ∀ p, inGrid R C p → cellAt grid1 (R + p.1, p.2) = some (Cell.mk0 p.1 p.2) := by
    intro p hp
    have hp' : p.1 < R ∧ p.2 < C := hp
    rw [hgrid1, cellAt_append, if_neg (by rw [hlen]; simp), cellAt_newRows]
    simp only [hlen, Nat.add_sub_cancel_left]
    rw [if_pos hp']
  have h00 : readRef grid1 0 0 = some (some (0, 0)) := by
    obtain ⟨c, hc, -, -⟩ := hg.cellAt_some (show 0 < R by omega) (show 0 < C by omega)
    have h1 : cellAt grid1 (0, 0) = some c := by
      rw [hcell (0, 0) ⟨by simpa using hR, by simpa using hC⟩]; exact hc
    unfold cellAt at h1
    unfold readRef
    cases hrow : grid1[(0, 0).1]? with
    | none => rw [hrow] at h1; cases h1
    | some row =>
      rw [hrow] at h1
      simp only at h1
      have : 0 < row.length := (List.getElem?_eq_some_iff.mp h1).1
      simp [this]
  obtain ⟨cg, hcg, -, -⟩ := hg.cellAt_some (show R - 1 < R by omega) (show C - 1 < C by omega)
  have hgoal : cellAt grid1 (R - 1, C - 1) = some cg := by
    rw [hcell _ ⟨by simp only; omega, by simp only; omega⟩]; exact hcg
  have hne : ¬ (R = 0 ∨ C = 0) := by omega
  have hsetup : MazeGame.setupMaze s.maze
      = some { s.maze with grid := modifyCell grid1 (R - 1, C - 1) (Cell.setIsGoal true),
                           currentCell := some (0, 0) } := by
    unfold MazeGame.setupMaze
    simp only [hrows, hcols, ← hgrid1, h00, hne, if_false, writeCell_eq hgoal]
  refine ⟨{ s with
      maze := { s.maze with grid := modifyCell grid1 (R - 1, C - 1) (Cell.setIsGoal true),
                            currentCell := some (0, 0) },
      playerPos := (0, 0), isGameOver := false }, ?_, hrows, hcols, ?_, ?_, ?_, ?_⟩
  · unfold Game.restartGame Game.setupMaze
    rw [hsetup]
    simp only
    rw [generateLoop_complete (by exact hdone) rnds]
  · simp only [length_modifyCell, hgrid1, List.length_append, hlen, List.length_map,
      List.length_range]
    omega
  · intro hbad
    have := hbad.1
    simp only [length_modifyCell, hgrid1, List.length_append, hlen, List.length_map,
      List.length_range] at this
    omega
  · intro p hp
    simp only
    rw [fieldAt_modifyCell_keep grid1 _ p (Cell.setIsGoal true) (fun c => c.walls)
      (fun _ => rfl)]
    unfold fieldAt
    rw [hcell p hp]
  · intro p hp
    simp only
    constructor
    · rw [fieldAt_modifyCell_keep grid1 _ p (Cell.setIsGoal true)
        (fun c => (c.rowNumber, c.columnNumber)) (fun _ => rfl)]
      unfold fieldAt
      rw [hcell p hp]
      exact hg.2.2 p.1 hp.1 p.2 hp.2
    · rw [cellAt_modifyCell_ne _ _ (by
        intro e
        have := congrArg Prod.fst e
        simp only at this
        omega)]
      exact hnew p hp

theorem restartGame_appends_a_second_grid_witness :
    ∃ s, runDraws (initialState 2 2) [1, 0, 0, 0, 0, 0] = some s ∧
      ∃ s', Game.restartGame s [] = some s' ∧ s'.maze.rows = 2 ∧ s'.maze.columns = 2 ∧
        s'.maze.grid.length = 2 * 2 ∧ ¬ GridOK 2 2 s'.maze.grid ∧
        (∀ p, inGrid 2 2 p → fieldAt s'.maze.grid p (fun c => c.walls)
          = fieldAt s.maze.grid p (fun c => c.walls)) ∧
        (∀ p, inGrid 2 2 p →
          fieldAt s'.maze.grid p (fun c => (c.rowNumber, c.columnNumber)) = some p ∧
          cellAt s'.maze.grid (2 + p.1, p.2) = some (Cell.mk0 p.1 p.2)) := by
  have h : ∃ s, runDraws (initialState 2 2) [1, 0, 0, 0, 0, 0] = some s ∧
      s.maze.rows = 2 ∧ s.maze.columns = 2 ∧ GridOK 2 2 s.maze.grid ∧
      s.mazeGenerationComplete = true := by decide
  obtain ⟨s, hs, h1, h2, h3, h4⟩ := h
  exact ⟨s, hs, restartGame_appends_a_second_grid s (by decide) (by decide) h1 h2 h3 h4 []⟩

/-! ## The frame state machine of frantic mode -/

/-- C23 (the code at the failing input). A frame rendered in frantic mode while `gameDuration`
is 0 or not a multiple of 3 sets the call counter `index` back to 0, whatever its value, and
calls nothing. On the generated `3 x 3` maze, in frantic mode with every frame rendered: two
frames at `gameDuration = 3` begin a cycle (`rotateCellWalls(0)`, `rotateCellWalls(1)`), the
next frame at `gameDuration = 4` resets the counter, and the first frame at `gameDuration = 6`
selects again and calls `rotateCellWalls(0)`: the cycle that had begun gets no call with index
2..45. The cell `(1, 0)` it had set rotating keeps `isRotating = true` and its right wall
stays at angle 94, also after the whole next cycle of 46 calls, which does not select it. The
maze object is the same throughout. -/
theorem scramble_cycle_is_abandoned_when_gameDuration_moves_on :
    (∀ (g : Game) (ds : List (Nat × Nat)), ¬ (g.gameDuration ≠ 0 ∧ g.gameDuration % 3 = 0) →
      ∃ g', renderFranticMode g ds = some (g', ds) ∧ g'.index = 0 ∧
        g'.rotateCalls = g.rotateCalls ∧ g'.core.maze.grid = g.core.maze.grid) ∧
    ∃ s, runDraws (initialState 3 3) (List.replicate 17 0) = some s ∧
      s.mazeGenerationComplete = true ∧
      (∃ r, runFrames
          { core := s, index := 0, timer := 12, isPlaying := true,
            gameMode := GameMode.franticMode, gameDuration := 0, dimRows := 3,
            rotateCalls := [] }
          [⟨3, GameMode.franticMode, 12⟩, ⟨3, GameMode.franticMode, 12⟩]
          ([(0, 0), (0, 1), (1, 0), (1, 1), (1, 2), (2, 1)] ++ List.replicate 6 (0, 1))
            = some r ∧
        r.1.index = 2 ∧ r.1.rotateCalls = [1, 0]) ∧
      (∃ r, runFrames
          { core := s, index := 0, timer := 12, isPlaying := true,
            gameMode := GameMode.franticMode, gameDuration := 0, dimRows := 3,
            rotateCalls := [] }
          [⟨3, GameMode.franticMode, 12⟩, ⟨3, GameMode.franticMode, 12⟩,
            ⟨4, GameMode.franticMode, 12⟩]
          ([(0, 0), (0, 1), (1, 0), (1, 1), (1, 2), (2, 1)] ++ List.replicate 6 (0, 1))
            = some r ∧
        r.1.index = 0 ∧ r.1.rotateCalls = [1, 0] ∧
        fieldAt r.1.core.maze.grid (1, 0)
          (fun c => (c.isRotating, c.wallToRotate, (c.wall 1).theta))
            = some (true, some 1, 94)) ∧
      (∃ r, runFrames
          { core := s, index := 0, timer := 12, isPlaying := true,
            gameMode := GameMode.franticMode, gameDuration := 0, dimRows := 3,
            rotateCalls := [] }
          [⟨3, GameMode.franticMode, 12⟩, ⟨3, GameMode.franticMode, 12⟩,
            ⟨4, GameMode.franticMode, 12⟩, ⟨6, GameMode.franticMode, 12⟩]
          ([(0, 0), (0, 1), (1, 0), (1, 1), (1, 2), (2, 1)] ++ List.replicate 6 (0, 1))
            = some r ∧
        r.1.index = 1 ∧ r.1.rotateCalls = [0, 1, 0]) ∧
      ∃ r, runFrames
          { core := s, index := 0, timer := 12, isPlaying := true,
            gameMode := GameMode.franticMode, gameDuration := 0, dimRows := 3,
            rotateCalls := [] }
          ([⟨3, GameMode.franticMode, 12⟩, ⟨3, GameMode.franticMode, 12⟩,
            ⟨4, GameMode.franticMode, 12⟩] ++ List.replicate 47 ⟨6, GameMode.franticMode, 12⟩)
          ([(0, 0), (0, 1), (1, 0), (1, 1), (1, 2), (2, 1)] ++ List.replicate 6 (0, 1))
            = some r ∧
        r.1.index = 46 ∧ r.1.rotateCalls = (List.range 46).reverse ++ [1, 0] ∧
        (1, 0) ∉ r.1.core.maze.cellsToRotate ∧
        fieldAt r.1.core.maze.grid (1, 0)
          (fun c => (c.isRotating, c.wallToRotate, (c.wall 1).theta))
            = some (true, some 1, 94) := by
  constructor
  · intro g ds h
    refine ⟨{ g with core := { g.core with maze := { g.core.maze with isRotating := true } },
                     index := 0 }, ?_, rfl, rfl, rfl⟩
    unfold renderFranticMode
    simp only [if_neg h]
  · have h0 : ∃ s, runDraws (initialState 3 3) (List.replicate 17 0) = some s ∧
        s.mazeGenerationComplete = true := by decide
    have h1 : ∃ s, runDraws (initialState 3 3) (List.replicate 17 0) = some s ∧
        ∃ r, runFrames
          { core := s, index := 0, timer := 12, isPlaying := true,
            gameMode := GameMode.franticMode, gameDuration := 0, dimRows := 3,
            rotateCalls := [] }
          [⟨3, GameMode.franticMode, 12⟩, ⟨3, GameMode.franticMode, 12⟩]
          ([(0, 0), (0, 1), (1, 0), (1, 1), (1, 2), (2, 1)] ++ List.replicate 6 (0, 1))
            = some r ∧
        r.1.index = 2 ∧ r.1.rotateCalls = [1, 0] := by decide
    have h2 : ∃ s, runDraws (initialState 3 3) (List.replicate 17 0) = some s ∧
        ∃ r, runFrames
          { core := s, index := 0, timer := 12, isPlaying := true,
            gameMode := GameMode.franticMode, gameDuration := 0, dimRows := 3,
            rotateCalls := [] }
          [⟨3, GameMode.franticMode, 12⟩, ⟨3, GameMode.franticMode, 12⟩,
            ⟨4, GameMode.franticMode, 12⟩]
          ([(0, 0), (0, 1), (1, 0), (1, 1), (1, 2), (2, 1)] ++ List.replicate 6 (0, 1))
            = some r ∧
        r.1.index = 0 ∧ r.1.rotateCalls = [1, 0] ∧
        fieldAt r.1.core.maze.grid (1, 0)
          (fun c => (c.isRotating, c.wallToRotate, (c.wall 1).theta))
            = some (true, some 1, 94) := by decide
    have h3 : ∃ s, runDraws (initialState 3 3) (List.replicate 17 0) = some s ∧
        ∃ r, runFrames
          { core := s, index := 0, timer := 12, isPlaying := true,
            gameMode := GameMode.franticMode, gameDuration := 0, dimRows := 3,
            rotateCalls := [] }
          [⟨3, GameMode.franticMode, 12⟩, ⟨3, GameMode.franticMode, 12⟩,
            ⟨4, GameMode.franticMode, 12⟩, ⟨6, GameMode.franticMode, 12⟩]
          ([(0, 0), (0, 1), (1, 0), (1, 1), (1, 2), (2, 1)] ++ List.replicate 6 (0, 1))
            = some r ∧
        r.1.index = 1 ∧ r.1.rotateCalls = [0, 1, 0] := by decide
    have h4 : ∃ s, runDraws (initialState 3 3) (List.replicate 17 0) = some s ∧
        ∃ r, runFrames
          { core := s, index := 0, timer := 12, isPlaying := true,
            gameMode := GameMode.franticMode, gameDuration := 0, dimRows := 3,
            rotateCalls := [] }
          ([⟨3, GameMode.franticMode, 12⟩, ⟨3, GameMode.franticMode, 12⟩,
            ⟨4, GameMode.franticMode, 12⟩] ++ List.replicate 47 ⟨6, GameMode.franticMode, 12⟩)
          ([(0, 0), (0, 1), (1, 0), (1, 1), (1, 2), (2, 1)] ++ List.replicate 6 (0, 1))
            = some r ∧
        r.1.index = 46 ∧ r.1.rotateCalls = (List.range 46).reverse ++ [1, 0] ∧
        (1, 0) ∉ r.1.core.maze.cellsToRotate ∧
        fieldAt r.1.core.maze.grid (1, 0)
          (fun c => (c.isRotating, c.wallToRotate, (c.wall 1).theta))
            = some (true, some 1, 94) := by decide
    obtain ⟨s, hs, e0⟩ := h0
    obtain ⟨s1, hs1, e1⟩ := h1
    obtain ⟨s2, hs2, e2⟩ := h2
    obtain ⟨s3, hs3, e3⟩ := h3
    obtain ⟨s4, hs4, e4⟩ := h4
    rw [hs] at hs1 hs2 hs3 hs4
    cases Option.some.inj hs1
    cases Option.some.inj hs2
    cases Option.some.inj hs3
    cases Option.some.inj hs4
    exact ⟨s, hs, e0, e1, e2, e3, e4⟩

/-! ## The rotation operations on every grid -/

/-- The grid a rotation operation leaves, on any grid: whenever the call for wall `w` of the
cell `c` at `p` raises no TypeError, the neighbour behind the wall (at the place the
coordinates of `c` give) exists and is another place, its copy of the wall is hidden, and the
cell either advances the angle, or completes; on completion the copy of the wall rotated into
may be shown on a further neighbour. -/
theorem rotateSwitch_shape {g g' : Grid} {p : Ref} {c : Cell} (hc : cellAt g p = some c)
    {w : Nat} (hw : w < 4) (h : rotateSwitch g p (some w) = some g') :
    nbrRef (c.rowNumber, c.columnNumber) w ≠ (c.rowNumber, c.columnNumber) ∧
    (∃ d, cellAt g (nbrRef (c.rowNumber, c.columnNumber) w) = some d) ∧
    ∃ c1, cellAt (modifyCell g (nbrRef (c.rowNumber, c.columnNumber) w)
        (Cell.setShown (facingWall w) false)) p = some c1 ∧
      (((c1.wall w).theta < (c1.wall w).maxTheta ∧
          g' = modifyCell (modifyCell g (nbrRef (c.rowNumber, c.columnNumber) w)
            (Cell.setShown (facingWall w) false)) p (Cell.advance w)) ∨
        (¬ (c1.wall w).theta < (c1.wall w).maxTheta ∧
          (g' = modifyCell (modifyCell (modifyCell g (nbrRef (c.rowNumber, c.columnNumber) w)
              (Cell.setShown (facingWall w) false)) p (Cell.finish w)) p
              (Cell.setIsRotating false) ∨
            g' = modifyCell (modifyCell (modifyCell (modifyCell g
              (nbrRef (c.rowNumber, c.columnNumber) w) (Cell.setShown (facingWall w) false)) p
              (Cell.finish w)) (nbrRef (c.rowNumber, c.columnNumber) (intoWall w))
              (Cell.setShown (facingWall (intoWall w)) true)) p (Cell.setIsRotating false)))) := by
  have hex : ∀ {g0 g1 : Grid} {q : Ref} {f : Cell → Cell}, writeCell g0 q f = some g1 →
      ∃ d, cellAt g0 q = some d := by
    intro g0 g1 q f hwr
    unfold writeCell at hwr
    split at hwr
    · cases hwr
    · rename_i d hd; exact ⟨d, hd⟩
  rcases (show w = 0 ∨ w = 1 ∨ w = 2 ∨ w = 3 by omega) with rfl | rfl | rfl | rfl
  · simp only [rotateSwitch] at h
    unfold rotateTopWall at h
    rw [hc] at h
    simp only at h
    split at h
    · cases h
    · rename_i hrow
      split at h
      · cases h
      · rename_i g1 hw1
        have e1 := writeCell_some hw1
        subst e1
        refine ⟨?_, hex hw1, ?_⟩
        · simp only [nbrRef, ne_eq, Prod.mk.injEq, and_true]; omega
        · split at h
          · cases h
          · rename_i this1 ht1
            refine ⟨this1, ht1, ?_⟩
            split at h
            · rename_i hlt
              cases h
              exact Or.inl ⟨hlt, rfl⟩
            · rename_i hlt
              split at h
              · split at h
                · cases h
                · rename_i g3 hw3
                  have e3 := writeCell_some hw3
                  subst e3
                  cases h
                  exact Or.inr ⟨hlt, Or.inr rfl⟩
              · cases h
                exact Or.inr ⟨hlt, Or.inl rfl⟩
  · simp only [rotateSwitch] at h
    unfold rotateRightWall at h
    rw [hc] at h
    simp only at h
    split at h
    · cases h
    · rename_i g1 hw1
      have e1 := writeCell_some hw1
      subst e1
      refine ⟨?_, hex hw1, ?_⟩
      · simp only [nbrRef, ne_eq, Prod.mk.injEq, true_and]; omega
      · split at h
        · cases h
        · rename_i this1 ht1
          refine ⟨this1, ht1, ?_⟩
          split at h
          · rename_i hlt
            cases h
            exact Or.inl ⟨hlt, rfl⟩
          · rename_i hlt
            split at h
            · split at h
              · cases h
              · rename_i g3 hw3
                have e3 := writeCell_some hw3
                subst e3
                cases h
                exact Or.inr ⟨hlt, Or.inr rfl⟩
            · cases h
              exact Or.inr ⟨hlt, Or.inl rfl⟩
  · simp only [rotateSwitch] at h
    unfold rotateBottomWall at h
    rw [hc] at h
    simp only at h
    split at h
    · cases h
    · rename_i g1 hw1
      have e1 := writeCell_some hw1
      subst e1
      refine ⟨?_, hex hw1, ?_⟩
      · simp only [nbrRef, ne_eq, Prod.mk.injEq, and_true]; omega
      · split at h
        · cases h
        · rename_i this1 ht1
          refine ⟨this1, ht1, ?_⟩
          split at h
          · rename_i hlt
            cases h
            exact Or.inl ⟨hlt, rfl⟩
          · rename_i hlt
            split at h
            · split at h
              · cases h
              · rename_i g3 hw3
                have e3 := writeCell_some hw3
                subst e3
                cases h
                exact Or.inr ⟨hlt, Or.inr rfl⟩
            · cases h
              exact Or.inr ⟨hlt, Or.inl rfl⟩
  · simp only [rotateSwitch] at h
    unfold rotateLeftWall at h
    rw [hc] at h
    simp only at h
    split at h
    · cases h
    · rename_i hcol
      split at h
      · cases h
      · rename_i g1 hw1
        have e1 := writeCell_some hw1
        subst e1
        refine ⟨?_, hex hw1, ?_⟩
        · simp only [nbrRef, ne_eq, Prod.mk.injEq, true_and]; omega
        · split at h
          · cases h
          · rename_i this1 ht1
            refine ⟨this1, ht1, ?_⟩
            split at h
            · rename_i hlt
              cases h
              exact Or.inl ⟨hlt, rfl⟩
            · rename_i hlt
              split at h
              · split at h
                · cases h
                · rename_i g3 hw3
                  have e3 := writeCell_some hw3
                  subst e3
                  cases h
                  exact Or.inr ⟨hlt, Or.inr rfl⟩
              · cases h
                exact Or.inr ⟨hlt, Or.inl rfl⟩

/-! ## The angles of the walls -/

theorem restTheta_even (v : Nat) : restTheta v % 2 = 0 := by
  unfold restTheta; split <;> rfl

theorem anglesOK_of_angles {c c' : Cell} (h : c'.angles = c.angles) (hc : c.anglesOK) :
    c'.anglesOK := by
  intro v hv
  have e := congrFun h v
  simp only [Cell.angles, Prod.mk.injEq] at e
  rw [e.1, e.2]
  exact hc v hv

theorem angles_setShown (u : Nat) (b : Bool) (c : Cell) :
    (Cell.setShown u b c).angles = c.angles := by
  funext v
  simp only [Cell.angles, (setShown_angles u b c v).1, (setShown_angles u b c v).2]

theorem angles_flags (c : Cell) :
    (Cell.setVisited c).angles = c.angles ∧ (∀ b, (Cell.setIsGoal b c).angles = c.angles) ∧
    (∀ b, (Cell.setIsRotating b c).angles = c.angles) ∧
    (∀ w, (Cell.setWallToRotate w c).angles = c.angles) ∧
    (∀ b, (Cell.setTopShown b c).angles = c.angles) ∧
    (∀ b, (Cell.setBottomShown b c).angles = c.angles) ∧
    (∀ b, (Cell.setLeftShown b c).angles = c.angles) ∧
    (∀ b, (Cell.setRightShown b c).angles = c.angles) := by
  refine ⟨?_, fun b => ?_, fun b => ?_, fun w => ?_, fun b => ?_, fun b => ?_, fun b => ?_,
    fun b => ?_⟩ <;>
  · funext v
    unfold Cell.angles Cell.wall
    split <;> rfl

theorem anglesOK_mk0 (r c : Nat) : (Cell.mk0 r c).anglesOK := by
  intro v hv
  interval_cases v <;> simp [Cell.mk0, Cell.wall, restTheta]

theorem anglesOK_advance {w : Nat} (hw : w < 4) {c : Cell} (hc : c.anglesOK)
    (hlt : (c.wall w).theta < (c.wall w).maxTheta) : (Cell.advance w c).anglesOK := by
  intro v hv
  rw [advance_wall hw hv]
  by_cases e : v = w
  · subst e
    rw [if_pos rfl]
    obtain ⟨h1, h2, h3, h4⟩ := hc v hv
    have h5 := restTheta_even v
    refine ⟨h1, ?_, ?_, ?_⟩ <;> simp only <;> omega
  · rw [if_neg e]; exact hc v hv

theorem anglesOK_finish {w : Nat} (hw : w < 4) {c : Cell} (hc : c.anglesOK) :
    (Cell.finish w c).anglesOK := by
  intro v hv
  rw [finish_wall hw hv]
  obtain ⟨h1, h2, h3, h4⟩ := hc v hv
  have h5 := restTheta_even v
  by_cases e : v = w
  · subst e
    rw [if_pos rfl]
    exact ⟨h1, Nat.le_refl _, by simp only; omega, h5⟩
  · rw [if_neg e]
    by_cases e' : v = intoWall w
    · rw [if_pos e']
      exact ⟨h1, Nat.le_refl _, by simp only; omega, h5⟩
    · rw [if_neg e']; exact ⟨h1, h2, h3, h4⟩

/-- Every cell of the grid has its angles in range. -/
theorem anglesOK_modifyCell {g : Grid} (hg : ∀ x d, cellAt g x = some d → d.anglesOK) (p : Ref)
    (f : Cell → Cell) (hf : ∀ d, cellAt g p = some d → (f d).anglesOK) :
    ∀ x d, cellAt (modifyCell g p f) x = some d → d.anglesOK := by
  intro x d hd
  rw [cellAt_modifyCell] at hd
  by_cases e : x = p
  · rw [if_pos e] at hd
    cases hx : cellAt g x with
    | none => rw [hx] at hd; cases hd
    | some d0 =>
      rw [hx] at hd
      cases Option.some.inj hd
      exact hf d0 (e ▸ hx)
  · rw [if_neg e] at hd
    exact hg x d hd

theorem anglesOK_modifyCell_keep {g : Grid} (hg : ∀ x d, cellAt g x = some d → d.anglesOK)
    (p : Ref) (f : Cell → Cell) (hf : ∀ d, (f d).angles = d.angles) :
    ∀ x d, cellAt (modifyCell g p f) x = some d → d.anglesOK :=
  anglesOK_modifyCell hg p f (fun d hd => anglesOK_of_angles (hf d) (hg p d hd))

/-- A rotation operation keeps the angles of every cell in range. -/
theorem rotateSwitch_angles {g g' : Grid} {p : Ref} {wo : Option Nat}
    (hg : ∀ x d, cellAt g x = some d → d.anglesOK) (h : rotateSwitch g p wo = some g') :
    ∀ x d, cellAt g' x = some d → d.anglesOK := by
  have hnone : ∀ {w : Nat}, ¬ w < 4 → rotateSwitch g p (some w) = some g := by
    intro w hw
    obtain ⟨k, rfl⟩ : ∃ k, w = k + 4 := ⟨w - 4, by omega⟩
    rfl
  cases wo with
  | none =>
    simp only [rotateSwitch] at h
    cases h; exact hg
  | some w =>
    by_cases hw : w < 4
    · cases hc : cellAt g p with
      | none =>
        exfalso
        rcases (show w = 0 ∨ w = 1 ∨ w = 2 ∨ w = 3 by omega) with rfl | rfl | rfl | rfl <;>
          simp [rotateSwitch, rotateTopWall, rotateRightWall, rotateBottomWall, rotateLeftWall,
            hc] at h
      | some c =>
        obtain ⟨-, -, c1, hc1, hcase⟩ := rotateSwitch_shape hc hw h
        have hg1 := anglesOK_modifyCell_keep hg (nbrRef (c.rowNumber, c.columnNumber) w)
          (Cell.setShown (facingWall w) false) (angles_setShown _ _)
        rcases hcase with ⟨hlt, rfl⟩ | ⟨-, rfl | rfl⟩
        · refine anglesOK_modifyCell hg1 p _ (fun d hd => ?_)
          rw [hc1] at hd
          cases Option.some.inj hd
          exact anglesOK_advance hw (hg1 p c1 hc1) hlt
        · refine anglesOK_modifyCell_keep ?_ p _ (fun d => (angles_flags d).2.2.1 false)
          exact anglesOK_modifyCell hg1 p _ (fun d hd => anglesOK_finish hw (hg1 p d hd))
        · refine anglesOK_modifyCell_keep ?_ p _ (fun d => (angles_flags d).2.2.1 false)
          refine anglesOK_modifyCell_keep ?_ _ _ (angles_setShown _ _)
          exact anglesOK_modifyCell hg1 p _ (fun d hd => anglesOK_finish hw (hg1 p d hd))
    · rw [hnone hw] at h
      cases h; exact hg

theorem rotateCell_angles {index : Nat} {g g' : Grid} {p : Ref}
    (hg : ∀ x d, cellAt g x = some d → d.anglesOK) (h : rotateCell index g p = some g') :
    ∀ x d, cellAt g' x = some d → d.anglesOK := by
  unfold rotateCell at h
  split at h
  · cases h
  · rename_i cell hcell
    dsimp only at h
    have hg1 : ∀ x d, cellAt (if index = 0 then
        modifyCell (modifyCell g p (Cell.setWallToRotate (selectRandomWallToRotate g cell))) p
          (Cell.setIsRotating true) else g) x = some d → d.anglesOK := by
      split
      · exact anglesOK_modifyCell_keep
          (anglesOK_modifyCell_keep hg p _ (fun d => (angles_flags d).2.2.2.1 _)) p _
          (fun d => (angles_flags d).2.2.1 true)
      · exact hg
    split at h
    · cases h
    · split at h
      · cases h
      · rename_i g2 hsw
        have hg2 := rotateSwitch_angles hg1 hsw
        split at h
        · cases h
          exact anglesOK_modifyCell_keep hg2 p _ (fun d => (angles_flags d).2.2.1 false)
        · cases h
          exact hg2

theorem rotateCells_angles {index : Nat} (l : List Ref) {g g' : Grid}
    (hg : ∀ x d, cellAt g x = some d → d.anglesOK) (h : rotateCells index l g = some g') :
    ∀ x d, cellAt g' x = some d → d.anglesOK := by
  induction l generalizing g with
  | nil =>
    simp only [rotateCells] at h
    cases h; exact hg
  | cons p ps ih =>
    simp only [rotateCells] at h
    split at h
    · cases h
    · rename_i g1 h1
      exact ih (rotateCell_angles hg h1) h

/-- In every reachable state the angles of every cell are in range. -/
theorem reachable_angles {R C : Nat} {s : State} (h : Reachable R C s) :
    ∀ x d, cellAt s.maze.grid x = some d → d.anglesOK := by
  induction h with
  | fresh hf =>
    obtain ⟨hR, hC⟩ := freshState_pos hf
    rw [freshState_eq hR hC] at hf
    cases Option.some.inj hf
    intro x d hd
    have hd' : cellAt (freshGrid R C) x = some d := hd
    rw [cellAt_freshGrid] at hd'
    split at hd'
    · cases Option.some.inj hd'
      split
      · exact anglesOK_of_angles ((angles_flags _).2.1 true) (anglesOK_mk0 _ _)
      · exact anglesOK_mk0 _ _
    · cases hd'
  | byDraw rnd _ hd ih =>
    intro x d hx
    have hk := draw_keep Cell.angles (fun c => (angles_flags c).1)
      (fun b c => (angles_flags c).2.2.2.2.1 b) (fun b c => (angles_flags c).2.2.2.2.2.1 b)
      (fun b c => (angles_flags c).2.2.2.2.2.2.1 b) (fun b c => (angles_flags c).2.2.2.2.2.2.2 b)
      hd x
    unfold fieldAt at hk
    rw [hx] at hk
    cases hx0 : cellAt _ x with
    | none => rw [hx0] at hk; cases hk
    | some d0 =>
      rw [hx0] at hk
      exact anglesOK_of_angles (Option.some.inj hk) (ih x d0 hx0)
  | bySelect dimRows ds _ hsel ih =>
    obtain ⟨e1, -⟩ := selectCellsToRotate_spec hsel
    intro x d hx
    simp only at hx
    rw [e1] at hx
    exact ih x d hx
  | byRotate index _ hrot ih =>
    obtain ⟨-, hcells⟩ := rotateCellWalls_frame hrot
    exact rotateCells_angles _ ih hcells
  | byMove key _ hm ih =>
    intro x d hx
    rw [(move_frame hm).1] at hx
    exact ih x d hx

/-- An advancing call of a rotation operation raises no TypeError when the neighbour behind the
wall exists: it hides the neighbour's copy of the wall and adds 2 to the angle. -/
theorem rotateSwitch_advance {g : Grid} {p : Ref} {c d : Cell} (hc : cellAt g p = some c)
    (hco : (c.rowNumber, c.columnNumber) = p) {w : Nat} (hw : w < 4) (hne : nbrRef p w ≠ p)
    (hd : cellAt g (nbrRef p w) = some d) (hlt : (c.wall w).theta < (c.wall w).maxTheta) :
    rotateSwitch g p (some w)
      = some (modifyCell (modifyCell g (nbrRef p w) (Cell.setShown (facingWall w) false)) p
          (Cell.advance w)) := by
  obtain ⟨p1, p2⟩ := p
  simp only [Prod.mk.injEq] at hco
  obtain ⟨hr, hcol⟩ := hco
  have h1 : cellAt (modifyCell g (nbrRef (p1, p2) w) (Cell.setShown (facingWall w) false))
      (p1, p2) = some c := by
    rw [cellAt_modifyCell_ne _ _ (Ne.symm hne)]; exact hc
  rcases (show w = 0 ∨ w = 1 ∨ w = 2 ∨ w = 3 by omega) with rfl | rfl | rfl | rfl
  · have h0 : ¬ p1 = 0 := by
      intro e; apply hne; simp only [nbrRef, e]
    simp only [nbrRef, facingWall, Cell.setShown, Cell.wall] at hd h1 hlt ⊢
    simp only [rotateSwitch, rotateTopWall, hc, hr, hcol, h0, if_false, writeCell_eq hd, h1,
      hlt, if_true, Cell.advance]
  · simp only [nbrRef, facingWall, Cell.setShown, Cell.wall] at hd h1 hlt ⊢
    simp only [rotateSwitch, rotateRightWall, hc, hr, hcol, writeCell_eq hd, h1,
      hlt, if_true, Cell.advance]
  · simp only [nbrRef, facingWall, Cell.setShown, Cell.wall] at hd h1 hlt ⊢
    simp only [rotateSwitch, rotateBottomWall, hc, hr, hcol, writeCell_eq hd, h1,
      hlt, if_true, Cell.advance]
  · have h0 : ¬ p2 = 0 := by
      intro e; apply hne; simp only [nbrRef, e]
    simp only [nbrRef, facingWall, Cell.setShown, Cell.wall] at hd h1 hlt ⊢
    simp only [rotateSwitch, rotateLeftWall, hc, hr, hcol, h0, if_false, writeCell_eq hd, h1,
      hlt, if_true, Cell.advance]

/-- The first `k <= 45` calls of the rotation operation of a wall that starts at its resting
angle, with a neighbour behind it: none raises a TypeError, the angle after them is the
resting angle plus `2 * k`, and the cell's own `isShown` flags, its other angles and its other
fields are as before. -/
theorem rotateCallsOf_spec {g : Grid} {p : Ref} {c d : Cell} (hc : cellAt g p = some c)
    (hco : (c.rowNumber, c.columnNumber) = p) {w : Nat} (hw : w < 4) (hne : nbrRef p w ≠ p)
    (hd : cellAt g (nbrRef p w) = some d) (h0 : (c.wall w).theta = restTheta w)
    (hmax : (c.wall w).maxTheta = restTheta w + 90) (k : Nat) (hk : k ≤ 45) :
    ∃ g', rotateCallsOf w p k g = some g' ∧ (∃ d', cellAt g' (nbrRef p w) = some d') ∧
      cellAt g' p = some ((Cell.advance w)^[k] c) ∧
      (((Cell.advance w)^[k] c).rowNumber, ((Cell.advance w)^[k] c).columnNumber) = p ∧
      ∀ v, v < 4 → ((Cell.advance w)^[k] c).wall v
        = if v = w then { c.wall w with theta := restTheta w + 2 * k } else c.wall v := by
  induction k with
  | zero =>
    refine ⟨g, rfl, ⟨d, hd⟩, hc, hco, fun v hv => ?_⟩
    rw [Function.iterate_zero_apply]
    by_cases e : v = w
    · subst e
      rw [if_pos rfl]
      show c.wall v = ({ c.wall v with theta := restTheta v + 2 * 0 } : Wall)
      rw [Nat.mul_zero, Nat.add_zero, ← h0]
    · rw [if_neg e]
  | succ k ih =>
    obtain ⟨g1, hg1, ⟨d1, hd1⟩, hc1, hco1, hwall⟩ := ih (by omega)
    have hlt : (((Cell.advance w)^[k] c).wall w).theta
        < (((Cell.advance w)^[k] c).wall w).maxTheta := by
      rw [hwall w hw, if_pos rfl]
      simp only [hmax]
      omega
    have hstep := rotateSwitch_advance hc1 hco1 hw hne hd1 hlt
    refine ⟨modifyCell (modifyCell g1 (nbrRef p w) (Cell.setShown (facingWall w) false)) p
      (Cell.advance w), ?_, ?_, ?_, ?_, ?_⟩
    · simp only [rotateCallsOf, hg1]
      exact hstep
    · refine ⟨Cell.setShown (facingWall w) false d1, ?_⟩
      rw [cellAt_modifyCell_ne _ _ hne, cellAt_modifyCell, if_pos rfl, hd1]
      rfl
    · rw [cellAt_modifyCell, if_pos rfl, cellAt_modifyCell_ne _ _ (Ne.symm hne), hc1,
        Function.iterate_succ_apply']
      rfl
    · rw [Function.iterate_succ_apply']
      have hA : ∀ e : Cell, (Cell.advance w e).rowNumber = e.rowNumber ∧
          (Cell.advance w e).columnNumber = e.columnNumber := by
        intro e; unfold Cell.advance; split <;> exact ⟨rfl, rfl⟩
      rw [(hA _).1, (hA _).2]
      exact hco1
    · intro v hv
      rw [Function.iterate_succ_apply', advance_wall hw hv]
      by_cases e : v = w
      · subst e
        rw [if_pos rfl, if_pos rfl, hwall v hv, if_pos rfl]
        show _ = ({ c.wall v with theta := restTheta v + 2 * (k + 1) } : Wall)
        congr 1
      · rw [if_neg e, if_neg e, hwall v hv, if_neg e]

/-- C27. (1) In every reachable state, an advancing call of a rotation operation (one made
while the wall's `theta` is below its `maxTheta`) that raises no TypeError adds exactly 2 to
that wall's `theta` and changes none of the cell's own `isShown` flags, no `maxTheta` and no
other `theta` of the cell. (2) On every well-formed grid, for every wall that starts at its
resting angle and has a neighbour behind it, the first `k <= 45` calls of the wall's rotation
operation raise no TypeError and leave `theta` at the resting angle plus `2 * k`, the cell's
own `isShown` flags unchanged; so `theta` equals `maxTheta` (resting angle plus 90) exactly
after the 45th call. (3) In every reachable state each wall of each cell satisfies
resting angle `<= theta <= maxTheta`, with `maxTheta` the resting angle plus 90. -/
theorem rotation_adds_two_degrees_until_maxTheta {R C : Nat} :
    (∀ s, Reachable R C s → ∀ (p : Ref) (c : Cell) (w : Nat) (g' : Grid),
      cellAt s.maze.grid p = some c → w < 4 → (c.wall w).theta < (c.wall w).maxTheta →
      rotateSwitch s.maze.grid p (some w) = some g' →
      ∃ c', cellAt g' p = some c' ∧ (c'.wall w).theta = (c.wall w).theta + 2 ∧
        ∀ v, v < 4 → (c'.wall v).isShown = (c.wall v).isShown ∧
          (c'.wall v).maxTheta = (c.wall v).maxTheta ∧
          (v ≠ w → (c'.wall v).theta = (c.wall v).theta)) ∧
    (∀ (g : Grid) (p : Ref) (c : Cell) (w k : Nat), GridOK R C g → cellAt g p = some c →
      w < 4 → nbrRef p w ≠ p → inGrid R C (nbrRef p w) →
      (c.wall w).theta = restTheta w → (c.wall w).maxTheta = restTheta w + 90 → k ≤ 45 →
      ∃ g' c', rotateCallsOf w p k g = some g' ∧ cellAt g' p = some c' ∧
        (c'.wall w).theta = restTheta w + 2 * k ∧ (c'.wall w).maxTheta = restTheta w + 90 ∧
        ((c'.wall w).theta = (c'.wall w).maxTheta ↔ k = 45) ∧
        ∀ v, v < 4 → (c'.wall v).isShown = (c.wall v).isShown) ∧
    (∀ s, Reachable R C s → ∀ (p : Ref) (c : Cell), cellAt s.maze.grid p = some c →
      ∀ v, v < 4 → restTheta v ≤ (c.wall v).theta ∧ (c.wall v).theta ≤ (c.wall v).maxTheta ∧
        (c.wall v).maxTheta = restTheta v + 90) := by
  refine ⟨?_, ?_, ?_⟩
  · intro s hs p c w g' hc hw hlt hrot
    have hco := reachable_coords hs p c hc
    obtain ⟨hne, -, c1, hc1, hcase⟩ := rotateSwitch_shape hc hw hrot
    rw [hco] at hne hc1 hcase
    rw [cellAt_modifyCell_ne _ _ (Ne.symm hne), hc] at hc1
    cases Option.some.inj hc1
    rcases hcase with ⟨-, rfl⟩ | ⟨hn, -⟩
    · refine ⟨Cell.advance w c, ?_, ?_, ?_⟩
      · rw [cellAt_modifyCell, if_pos rfl, cellAt_modifyCell_ne _ _ (Ne.symm hne), hc]
        rfl
      · rw [advance_wall hw hw, if_pos rfl]
      · intro v hv
        rw [advance_wall hw hv]
        by_cases e : v = w
        · subst e
          rw [if_pos rfl]
          exact ⟨rfl, rfl, fun h => absurd rfl h⟩
        · rw [if_neg e]
          exact ⟨rfl, rfl, fun _ => rfl⟩
    · exact absurd hlt hn
  · intro g p c w k hg hc hw hne hin h0 hmax hk
    obtain ⟨-, -, hr, hcol⟩ := hg.cellAt_bound hc
    obtain ⟨d, hd, -, -⟩ := hg.cellAt_some hin.1 hin.2
    obtain ⟨g', hrun, -, hc', -, hwall⟩ :=
      rotateCallsOf_spec hc (Prod.ext hr hcol) hw hne hd h0 hmax k hk
    refine ⟨g', _, hrun, hc', ?_, ?_, ?_, ?_⟩
    · rw [hwall w hw, if_pos rfl]
    · rw [hwall w hw, if_pos rfl]; exact hmax
    · rw [hwall w hw, if_pos rfl]
      simp only [hmax]
      omega
    · intro v hv
      rw [hwall v hv]
      by_cases e : v = w
      · subst e; rw [if_pos rfl]
      · rw [if_neg e]
  · intro s hs p c hc v hv
    obtain ⟨h1, h2, h3, -⟩ := reachable_angles hs p c hc v hv
    exact ⟨h2, h3, h1⟩

theorem rotation_adds_two_degrees_until_maxTheta_witness :
    (∃ g' c', rotateCallsOf 1 (0, 0) 45 (freshGrid 2 2) = some g' ∧
      cellAt g' (0, 0) = some c' ∧
      (c'.wall 1).theta = restTheta 1 + 2 * 45 ∧ (c'.wall 1).maxTheta = restTheta 1 + 90 ∧
      ((c'.wall 1).theta = (c'.wall 1).maxTheta ↔ 45 = 45) ∧
      ∀ v, v < 4 → (c'.wall v).isShown = ((Cell.mk0 0 0).wall v).isShown) ∧
    (∀ v, v < 4 → restTheta v ≤ ((Cell.mk0 0 0).wall v).theta ∧
      ((Cell.mk0 0 0).wall v).theta ≤ ((Cell.mk0 0 0).wall v).maxTheta ∧
      ((Cell.mk0 0 0).wall v).maxTheta = restTheta v + 90) :=
  ⟨(rotation_adds_two_degrees_until_maxTheta (R := 2) (C := 2)).2.1 (freshGrid 2 2) (0, 0)
      (Cell.mk0 0 0) 1 45 (by decide) (by decide) (by decide) (by decide) (by decide) rfl rfl
      (by decide),
    (rotation_adds_two_degrees_until_maxTheta (R := 2) (C := 2)).2.2 (initialState 2 2)
      (Reachable.fresh (freshState_eq (by decide) (by decide))) (0, 0) (Cell.mk0 0 0)
      (by decide)⟩

/-! ## What one run of the `forEach` body leaves alone, on every grid -/

theorem rotateSwitch_ge {g : Grid} {p : Ref} {w : Nat} (hw : ¬ w < 4) :
    rotateSwitch g p (some w) = some g := by
  obtain ⟨k, rfl⟩ : ∃ k, w = k + 4 := ⟨w - 4, by omega⟩
  rfl

theorem nbrRef_eq_or_adjacent (q : Ref) (v : Nat) : nbrRef q v = q ∨ adjacent q (nbrRef q v) := by
  obtain ⟨q1, q2⟩ := q
  rcases v with _ | _ | _ | v
  · by_cases h : q1 = 0
    · left; simp only [nbrRef, h]
    · right; exact Or.inl ⟨by simp only [nbrRef]; omega, rfl⟩
  · right; exact Or.inr (Or.inr (Or.inl ⟨rfl, rfl⟩))
  · right; exact Or.inr (Or.inl ⟨rfl, rfl⟩)
  · by_cases h : q2 = 0
    · left; simp only [nbrRef, h]
    · right; exact Or.inr (Or.inr (Or.inr ⟨rfl, by simp only [nbrRef]; omega⟩))

/-- A rotation operation of the cell at `q` (which carries the coordinates `q`) changes no
cell other than `q` and its orthogonal neighbours, and keeps the number of rows. -/
theorem rotateSwitch_far {g g' : Grid} {q : Ref} {c : Cell} (hc : cellAt g q = some c)
    (hco : (c.rowNumber, c.columnNumber) = q) {wo : Option Nat}
    (h : rotateSwitch g q wo = some g') :
    g'.length = g.length ∧ ∀ x, x ≠ q → ¬ adjacent q x → cellAt g' x = cellAt g x := by
  cases wo with
  | none =>
    simp only [rotateSwitch] at h
    cases h; exact ⟨rfl, fun _ _ _ => rfl⟩
  | some w =>
    by_cases hw : w < 4
    · obtain ⟨-, -, c1, -, hcase⟩ := rotateSwitch_shape hc hw h
      rw [hco] at hcase
      have hx : ∀ x, x ≠ q → ¬ adjacent q x → ∀ v, x ≠ nbrRef q v := by
        intro x hxq hadj v e
        rcases nbrRef_eq_or_adjacent q v with e' | e'
        · exact hxq (e.trans e')
        · exact hadj (e ▸ e')
      rcases hcase with ⟨-, rfl⟩ | ⟨-, rfl | rfl⟩
      · refine ⟨by simp only [length_modifyCell], fun x hxq hadj => ?_⟩
        rw [cellAt_modifyCell_ne _ _ hxq, cellAt_modifyCell_ne _ _ (hx x hxq hadj w)]
      · refine ⟨by simp only [length_modifyCell], fun x hxq hadj => ?_⟩
        rw [cellAt_modifyCell_ne _ _ hxq, cellAt_modifyCell_ne _ _ hxq,
          cellAt_modifyCell_ne _ _ (hx x hxq hadj w)]
      · refine ⟨by simp only [length_modifyCell], fun x hxq hadj => ?_⟩
        rw [cellAt_modifyCell_ne _ _ hxq, cellAt_modifyCell_ne _ _ (hx x hxq hadj _),
          cellAt_modifyCell_ne _ _ hxq, cellAt_modifyCell_ne _ _ (hx x hxq hadj w)]
    · rw [rotateSwitch_ge hw] at h
      cases h; exact ⟨rfl, fun _ _ _ => rfl⟩

/-- One run of the `forEach` body for the cell at `q` changes no cell other than `q` and its
orthogonal neighbours, and keeps the number of rows. -/
theorem rotateCell_far {index : Nat} {g g' : Grid} {q : Ref}
    (hco : ∀ c, cellAt g q = some c → (c.rowNumber, c.columnNumber) = q)
    (h : rotateCell index g q = some g') :
    g'.length = g.length ∧ ∀ x, x ≠ q → ¬ adjacent q x → cellAt g' x = cellAt g x := by
  unfold rotateCell at h
  split at h
  · cases h
  · rename_i cell hcell
    dsimp only at h
    have hg1 : (if index = 0 then
        modifyCell (modifyCell g q (Cell.setWallToRotate (selectRandomWallToRotate g cell))) q
          (Cell.setIsRotating true) else g).length = g.length ∧
        ∀ x, x ≠ q → cellAt (if index = 0 then
          modifyCell (modifyCell g q (Cell.setWallToRotate (selectRandomWallToRotate g cell))) q
            (Cell.setIsRotating true) else g) x = cellAt g x := by
      split
      · exact ⟨by simp only [length_modifyCell], fun x hx => by
          rw [cellAt_modifyCell_ne _ _ hx, cellAt_modifyCell_ne _ _ hx]⟩
      · exact ⟨rfl, fun _ _ => rfl⟩
    split at h
    · cases h
    · rename_i cell1 hcell1
      have hco1 : (cell1.rowNumber, cell1.columnNumber) = q := by
        have := hco cell hcell
        split at hcell1
        · rw [cellAt_modifyCell, if_pos rfl, cellAt_modifyCell, if_pos rfl, hcell] at hcell1
          cases Option.some.inj hcell1
          exact this
        · rw [hcell] at hcell1
          cases Option.some.inj hcell1
          exact this
      split at h
      · cases h
      · rename_i g2 hsw
        obtain ⟨hl2, hf2⟩ := rotateSwitch_far hcell1 hco1 hsw
        split at h
        · cases h
          refine ⟨by rw [length_modifyCell, hl2, hg1.1], fun x hx hadj => ?_⟩
          rw [cellAt_modifyCell_ne _ _ hx, hf2 x hx hadj, hg1.2 x hx]
        · cases h
          exact ⟨by rw [hl2, hg1.1], fun x hx hadj => by rw [hf2 x hx hadj, hg1.2 x hx]⟩

/-- One run of the `forEach` body for a cell that has no wall to rotate (the wall choice
returns none at index 0, `wallToRotate` is none at a later index): no TypeError is raised, no
other cell changes, and of the cell itself only `isRotating` and `wallToRotate` may change. -/
theorem rotateCell_idle {index : Nat} {g : Grid} {p : Ref} {c : Cell}
    (hc : cellAt g p = some c) (h0 : index = 0 → selectRandomWallToRotate g c = none)
    (h1 : index ≠ 0 → c.wallToRotate = none) :
    ∃ g' c', rotateCell index g p = some g' ∧ g'.length = g.length ∧
      (∀ x, x ≠ p → cellAt g' x = cellAt g x) ∧ cellAt g' p = some c' ∧
      c'.walls = c.walls ∧ c'.wallToRotate = none ∧ c'.rowNumber = c.rowNumber ∧
      c'.columnNumber = c.columnNumber := by
  by_cases hi : index = 0
  · subst hi
    refine ⟨modifyCell (modifyCell g p (Cell.setWallToRotate none)) p (Cell.setIsRotating true),
      Cell.setIsRotating true (Cell.setWallToRotate none c), ?_, by simp only [length_modifyCell],
      fun x hx => by rw [cellAt_modifyCell_ne _ _ hx, cellAt_modifyCell_ne _ _ hx], ?_,
      rfl, rfl, rfl, rfl⟩
    · have hcell : cellAt (modifyCell (modifyCell g p (Cell.setWallToRotate none)) p
          (Cell.setIsRotating true)) p
          = some (Cell.setIsRotating true (Cell.setWallToRotate none c)) := by
        rw [cellAt_modifyCell, if_pos rfl, cellAt_modifyCell, if_pos rfl, hc]; rfl
      simp only [rotateCell, hc, h0 rfl, if_true, hcell]
      rfl
    · rw [cellAt_modifyCell, if_pos rfl, cellAt_modifyCell, if_pos rfl, hc]; rfl
  · by_cases h44 : index > 44
    · refine ⟨modifyCell g p (Cell.setIsRotating false), Cell.setIsRotating false c, ?_,
        by simp only [length_modifyCell], fun x hx => by rw [cellAt_modifyCell_ne _ _ hx], ?_,
        rfl, h1 hi, rfl, rfl⟩
      · simp only [rotateCell, hc, hi, if_false, h1 hi, rotateSwitch, h44, if_true]
      · rw [cellAt_modifyCell, if_pos rfl, hc]; rfl
    · refine ⟨g, c, ?_, rfl, fun _ _ => rfl, hc, rfl, h1 hi, rfl, rfl⟩
      simp only [rotateCell, hc, hi, if_false, h1 hi, rotateSwitch, h44]

theorem adjacent_symm {p q : Ref} (h : adjacent p q) : adjacent q p := by
  unfold adjacent at h ⊢
  rcases h with ⟨a, b⟩ | ⟨a, b⟩ | ⟨a, b⟩ | ⟨a, b⟩
  · exact Or.inr (Or.inl ⟨a.symm, b.symm⟩)
  · exact Or.inl ⟨a.symm, b.symm⟩
  · exact Or.inr (Or.inr (Or.inr ⟨a.symm, b.symm⟩))
  · exact Or.inr (Or.inr (Or.inl ⟨a.symm, b.symm⟩))

theorem select_congr {g g' : Grid} {c d : Cell} (hw : d.walls = c.walls)
    (hr : d.rowNumber = c.rowNumber) (hc : d.columnNumber = c.columnNumber)
    (hl : g'.length = g.length) :
    selectRandomWallToRotate g' d = selectRandomWallToRotate g c := by
  unfold selectRandomWallToRotate
  rw [hw, hr, hc, hl]

theorem rotateCell_coords {index : Nat} {g g' : Grid} {q : Ref}
    (hco : ∀ x d, cellAt g x = some d → (d.rowNumber, d.columnNumber) = x)
    (h : rotateCell index g q = some g') :
    ∀ x d, cellAt g' x = some d → (d.rowNumber, d.columnNumber) = x := by
  intro x d hd
  have hk := rotateCell_keep h x (fun c => (c.rowNumber, c.columnNumber)) (fun _ _ => rfl)
    (fun _ _ => rfl) (fun _ _ => rfl) (fun _ _ => rfl)
    (Or.inr (fun f hf c => Prod.ext (hf c).2.1 (hf c).2.2.1))
  unfold fieldAt at hk
  rw [hd] at hk
  cases hx : cellAt g x with
  | none => rw [hx] at hk; cases hk
  | some d0 =>
    rw [hx] at hk
    have := hco x d0 hx
    simp only [Option.map_some', Option.some.injEq] at hk
    rw [hk]; exact this

/-- One call `rotateCellWalls(index)` over the selection `l`, seen from a selected cell at `p`
that has no wall to rotate and no other selected cell next to it: the cell keeps its walls, and
so does every other cell that no selected cell other than `p` equals or is next to. The
proposition `pre` says that `wallToRotate` of the cell is already known to be none. -/
theorem rotateCells_idle {index len : Nat} {p : Ref} {c : Cell}
    (hsel : ∀ (g0 : Grid) (d : Cell), g0.length = len → d.walls = c.walls →
      d.rowNumber = c.rowNumber → d.columnNumber = c.columnNumber →
      selectRandomWallToRotate g0 d = none) (l : List Ref) :
    ∀ {g g' : Grid} (pre : Prop), rotateCells index l g = some g' →
    (∀ x d, cellAt g x = some d → (d.rowNumber, d.columnNumber) = x) →
    g.length = len → (index ≠ 0 → pre) →
    (∃ d, cellAt g p = some d ∧ d.walls = c.walls ∧ d.rowNumber = c.rowNumber ∧
      d.columnNumber = c.columnNumber ∧ (pre → d.wallToRotate = none)) →
    (∀ q, q ∈ l → q ≠ p → ¬ adjacent p q) →
    (∀ x d, cellAt g' x = some d → (d.rowNumber, d.columnNumber) = x) ∧
      g'.length = len ∧
      (∃ d, cellAt g' p = some d ∧ d.walls = c.walls ∧ d.rowNumber = c.rowNumber ∧
        d.columnNumber = c.columnNumber ∧ (pre ∨ p ∈ l → d.wallToRotate = none)) ∧
      ∀ x, x ≠ p → (∀ q, q ∈ l → q ≠ p → q ≠ x ∧ ¬ adjacent q x) →
        cellAt g' x = cellAt g x := by
  induction l with
  | nil =>
    intro g g' pre h hco hlen _ hp _
    simp only [rotateCells] at h
    cases h
    obtain ⟨d, h1, h2, h3, h4, h5⟩ := hp
    refine ⟨hco, hlen, ⟨d, h1, h2, h3, h4, fun hh => ?_⟩, fun _ _ _ => rfl⟩
    rcases hh with hh | hh
    · exact h5 hh
    · simp at hh
  | cons q qs ih =>
    intro g g' pre h hco hlen hpre hp hiso
    simp only [rotateCells] at h
    split at h
    · cases h
    · rename_i g1 hq
      obtain ⟨d, h1, h2, h3, h4, h5⟩ := hp
      have hco1 := rotateCell_coords hco hq
      have hiso' : ∀ y, y ∈ qs → y ≠ p → ¬ adjacent p y :=
        fun y hy => hiso y (List.mem_cons_of_mem _ hy)
      by_cases e : q = p
      · subst e
        obtain ⟨g1', d', hrun, hl1, hfar, hd', w1, w2, w3, w4⟩ := rotateCell_idle h1
          (fun _ => hsel g d hlen h2 h3 h4) (fun hi => h5 (hpre hi))
        rw [hq] at hrun
        cases Option.some.inj hrun
        obtain ⟨r1, r2, ⟨d2, s1, s2, s3, s4, s5⟩, r4⟩ := ih True h hco1 (hl1.trans hlen)
          (fun _ => trivial) ⟨d', hd', w1.trans h2, w3.trans h3, w4.trans h4, fun _ => w2⟩ hiso'
        refine ⟨r1, r2, ⟨d2, s1, s2, s3, s4, fun _ => s5 (Or.inl trivial)⟩,
          fun x hx hxfar => ?_⟩
        rw [r4 x hx (fun y hy => hxfar y (List.mem_cons_of_mem _ hy)), hfar x hx]
      · have hqp : ¬ adjacent p q := hiso q (List.mem_cons_self _ _) e
        obtain ⟨hl1, hfar⟩ := rotateCell_far (fun c0 hc0 => hco q c0 hc0) hq
        have hp1 : cellAt g1 p = some d := by
          rw [hfar p (Ne.symm e) (fun hh => hqp (adjacent_symm hh))]; exact h1
        obtain ⟨r1, r2, ⟨d2, s1, s2, s3, s4, s5⟩, r4⟩ := ih pre h hco1 (hl1.trans hlen) hpre
          ⟨d, hp1, h2, h3, h4, h5⟩ hiso'
        refine ⟨r1, r2, ⟨d2, s1, s2, s3, s4, fun hh => ?_⟩, fun x hx hxfar => ?_⟩
        · rcases hh with hh | hh
          · exact s5 (Or.inl hh)
          · rcases List.mem_cons.mp hh with hh | hh
            · exact absurd hh.symm e
            · exact s5 (Or.inr hh)
        · obtain ⟨a1, a2⟩ := hxfar q (List.mem_cons_self _ _) e
          rw [r4 x hx (fun y hy => hxfar y (List.mem_cons_of_mem _ hy)),
            hfar x (Ne.symm a1) a2]

/-- Any number of ticks of a cycle, seen from a selected cell at `p` that has no wall to rotate
and no other selected cell next to it. -/
theorem rotateTicks_idle {p : Ref} {c : Cell} (m : Maze)
    (hco : ∀ x d, cellAt m.grid x = some d → (d.rowNumber, d.columnNumber) = x)
    (hp : p ∈ m.cellsToRotate) (hc : cellAt m.grid p = some c)
    (hsel : selectRandomWallToRotate m.grid c = none)
    (hiso : ∀ q, q ∈ m.cellsToRotate → q ≠ p → ¬ adjacent p q) (k : Nat) :
    ∀ m', rotateTicks k m = some m' →
      m'.cellsToRotate = m.cellsToRotate ∧
      (∀ x d, cellAt m'.grid x = some d → (d.rowNumber, d.columnNumber) = x) ∧
      m'.grid.length = m.grid.length ∧
      (∃ d, cellAt m'.grid p = some d ∧ d.walls = c.walls ∧ d.rowNumber = c.rowNumber ∧
        d.columnNumber = c.columnNumber ∧ (k ≠ 0 → d.wallToRotate = none)) ∧
      ∀ x, x ≠ p → (∀ q, q ∈ m.cellsToRotate → q ≠ p → q ≠ x ∧ ¬ adjacent q x) →
        cellAt m'.grid x = cellAt m.grid x := by
  have hsel' : ∀ (g0 : Grid) (d : Cell), g0.length = m.grid.length → d.walls = c.walls →
      d.rowNumber = c.rowNumber → d.columnNumber = c.columnNumber →
      selectRandomWallToRotate g0 d = none := by
    intro g0 d h1 h2 h3 h4
    rw [select_congr h2 h3 h4 h1]; exact hsel
  induction k with
  | zero =>
    intro m' h
    simp only [rotateTicks, Option.some.injEq] at h
    subst h
    exact ⟨rfl, hco, rfl, ⟨c, hc, rfl, rfl, rfl, fun h => absurd rfl h⟩, fun _ _ _ => rfl⟩
  | succ k ih =>
    intro m' h
    simp only [rotateTicks] at h
    split at h
    · cases h
    · rename_i m1 hm1
      obtain ⟨e1, e2, e3, e4, e5⟩ := ih m1 hm1
      obtain ⟨f1, hcells⟩ := rotateCellWalls_frame h
      rw [e1] at f1 hcells
      obtain ⟨r1, r2, ⟨d2, s1, s2, s3, s4, s5⟩, r4⟩ :=
        rotateCells_idle hsel' m.cellsToRotate (k ≠ 0) hcells e2 e3 (fun hk => hk) e4 hiso
      exact ⟨f1, r1, r2, ⟨d2, s1, s2, s3, s4, fun _ => s5 (Or.inr hp)⟩,
        fun x hx hfar => (r4 x hx hfar).trans (e5 x hx hfar)⟩

/-! ## A selected cell without a qualifying wall -/

/-- C29 (amended). For every selected cell `p` of a well-formed grid for which
`selectRandomWallToRotate` returns none, and with no other selected cell adjacent to it: after
any number of ticks of the cycle (calls with index 0, 1, ...) that raise no TypeError, all
four walls of `p` have their `isShown`, `theta` and `maxTheta` unchanged; and so have the
walls of every neighbour of `p` that no selected cell other than `p` is adjacent to. -/
theorem idle_selected_cell_keeps_its_walls {R C : Nat} (m : Maze) (hg : GridOK R C m.grid)
    (p : Ref) (c : Cell) (hp : p ∈ m.cellsToRotate) (hc : cellAt m.grid p = some c)
    (hsel : selectRandomWallToRotate m.grid c = none)
    (hiso : ∀ q, q ∈ m.cellsToRotate → q ≠ p → ¬ adjacent p q)
    (k : Nat) (m' : Maze) (h : rotateTicks k m = some m') :
    fieldAt m'.grid p (fun d => d.walls) = some c.walls ∧
    ∀ n, adjacent p n → (∀ q, q ∈ m.cellsToRotate → q ≠ p → ¬ adjacent n q) →
      fieldAt m'.grid n (fun d => d.walls) = fieldAt m.grid n (fun d => d.walls) := by
  have hco : ∀ x d, cellAt m.grid x = some d → (d.rowNumber, d.columnNumber) = x := by
    intro x d hd
    obtain ⟨-, -, h1, h2⟩ := hg.cellAt_bound hd
    exact Prod.ext h1 h2
  obtain ⟨-, -, -, ⟨d, hd, hw, -⟩, hfar⟩ := rotateTicks_idle m hco hp hc hsel hiso k m' h
  constructor
  · unfold fieldAt
    rw [hd, Option.map_some', hw]
  · intro n hn hnq
    unfold fieldAt
    rw [hfar n (fun e => not_adjacent_self p (e ▸ hn)) (fun q hq hqp => ⟨?_, ?_⟩)]
    · intro e
      exact hiso q hq hqp (e ▸ hn)
    · intro hadj
      exact hnq q hq hqp (adjacent_symm hadj)

theorem idle_selected_cell_keeps_its_walls_witness :
    ∃ s r m', runDraws (initialState 3 3) (List.replicate 17 1) = some s ∧
      selectCellsToRotate 3 s.maze [(1, 0), (2, 1), (1, 0), (1, 0), (1, 0), (1, 0)] = some r ∧
      rotateTicks 46 r.1 = some m' ∧
      fieldAt m'.grid (1, 0) (fun d => d.walls) = fieldAt r.1.grid (1, 0) (fun d => d.walls) ∧
      ∀ n, adjacent (1, 0) n → (∀ q, q ∈ r.1.cellsToRotate → q ≠ (1, 0) → ¬ adjacent n q) →
        fieldAt m'.grid n (fun d => d.walls) = fieldAt r.1.grid n (fun d => d.walls) := by
  have h : ∃ s, runDraws (initialState 3 3) (List.replicate 17 1) = some s ∧
      ∃ r, selectCellsToRotate 3 s.maze [(1, 0), (2, 1), (1, 0), (1, 0), (1, 0), (1, 0)]
          = some r ∧
        GridOK 3 3 r.1.grid ∧ (1, 0) ∈ r.1.cellsToRotate ∧
        (∀ q, q ∈ r.1.cellsToRotate → q ≠ (1, 0) → ¬ adjacent (1, 0) q) ∧
        ∃ c, cellAt r.1.grid (1, 0) = some c ∧ selectRandomWallToRotate r.1.grid c = none ∧
          ∃ m', rotateTicks 46 r.1 = some m' ∧ True := by decide
  obtain ⟨s, hs, r, hr, h1, h2, h3, c, hc, h4, m', hm', -⟩ := h
  have hw := idle_selected_cell_keeps_its_walls r.1 h1 (1, 0) c h2 hc h4 h3 46 m' hm'
  refine ⟨s, r, m', hs, hr, hm', ?_, hw.2⟩
  rw [hw.1]
  unfold fieldAt
  rw [hc]
  rfl

/-- C29 (counterexample). On the `3 x 3` maze generated with every draw 1 and the selection
`(1,0), (0,1), (1,0), (1,0), (1,0), (1,0)`, the selected cell `(1, 0)` gets no wall from
`selectRandomWallToRotate`, and the only other selected cell `(0, 1)` is not adjacent to it
(it is a diagonal neighbour). The first tick of the cycle rotates the bottom wall of `(0, 1)`
and with it hides the top wall of `(1, 1)`, which is the right neighbour of `(1, 0)`. -/
theorem idle_cell_neighbour_changed_by_diagonal_cell :
    ∃ s, runDraws (initialState 3 3) (List.replicate 17 1) = some s ∧
      s.mazeGenerationComplete = true ∧
      ∃ r, selectCellsToRotate 3 s.maze [(1, 0), (0, 1), (1, 0), (1, 0), (1, 0), (1, 0)]
          = some r ∧
        r.1.cellsToRotate = [(1, 0), (0, 1), (1, 0), (1, 0), (1, 0), (1, 0)] ∧
        (∀ q, q ∈ r.1.cellsToRotate → q ≠ (1, 0) → ¬ adjacent (1, 0) q) ∧
        adjacent (1, 0) (1, 1) ∧
        ∃ c, cellAt r.1.grid (1, 0) = some c ∧ selectRandomWallToRotate r.1.grid c = none ∧
          ∃ m', rotateTicks 1 r.1 = some m' ∧
            shownAt r.1.grid (1, 1) 0 = some true ∧ shownAt m'.grid (1, 1) 0 = some false ∧
            fieldAt m'.grid (1, 0) (fun d => d.walls) = some c.walls := by
  decide

/-! ## The neighbour access of the rotation operations -/

/-- C34. On a well-formed square grid, for every cell and every wall `w` that
`selectRandomWallToRotate` returns for it, the neighbour on side `w` exists (it lies in the
grid and the grid has a cell there). So in a cycle on the cells that `selectCellsToRotate`
selected, every tick raises no TypeError: for every `k` the calls `rotateCellWalls(0)`, ...,
`rotateCellWalls(k - 1)` all return, the grid stays well formed, and after them the wall each
selected cell is set to rotate has its neighbour in the grid, so the next call of the matching
rotation operation reads a cell that exists. -/
theorem rotation_reads_stay_inside_square_grid {n : Nat} (m0 m : Maze) (hg : GridOK n n m0.grid)
    (dimRows : Nat) (ds ds' : List (Nat × Nat))
    (hsel : selectCellsToRotate dimRows m0 ds = some (m, ds')) :
    (∀ p c w, cellAt m.grid p = some c → selectRandomWallToRotate m.grid c = some w →
      w < 4 ∧ hasNbr n p w ∧ inGrid n n (nbrRef p w) ∧ ∃ d, cellAt m.grid (nbrRef p w) = some d) ∧
    ∀ k, ∃ m', rotateTicks k m = some m' ∧ GridOK n n m'.grid ∧
      (k ≠ 0 → ∀ y cy w, y ∈ m.cellsToRotate → cellAt m'.grid y = some cy →
        cy.wallToRotate = some w → w < 4 →
        hasNbr n y w ∧ inGrid n n (nbrRef y w) ∧ ∃ d, cellAt m'.grid (nbrRef y w) = some d) := by
  obtain ⟨e1, -, -, -, -, -, -⟩ := selectCellsToRotate_spec hsel
  have hg' : GridOK n n m.grid := by rw [e1]; exact hg
  have hin : ∀ y, y ∈ m.cellsToRotate → inGrid n n y := by
    intro y hy
    have hall : ∀ (count : Nat) (m1 : Maze) (ds1 : List (Nat × Nat)) (m2 : Maze)
        (ds2 : List (Nat × Nat)), selectLoop count m1 ds1 = some (m2, ds2) →
        (∀ p, p ∈ m1.cellsToRotate → ∃ c, cellAt m1.grid p = some c) →
        ∀ p, p ∈ m2.cellsToRotate → ∃ c, cellAt m2.grid p = some c := by
      intro count
      induction count with
      | zero =>
        intro m1 ds1 m2 ds2 hl hold
        simp only [selectLoop, Option.some.injEq, Prod.mk.injEq] at hl
        obtain ⟨rfl, -⟩ := hl
        exact hold
      | succ j ih =>
        intro m1 ds1 m2 ds2 hl hold
        simp only [selectLoop] at hl
        split at hl
        · cases hl
        · rename_i q ds3 hq
          obtain ⟨c, hc, -, -, -, -⟩ := getRandomCell_spec m1 ds1 hq
          refine ih _ _ _ _ hl ?_
          intro p hp
          simp only [List.mem_append, List.mem_singleton] at hp
          rcases hp with hp | rfl
          · exact hold p hp
          · exact ⟨c, hc⟩
    obtain ⟨c, hc⟩ := hall _ _ _ _ _ hsel (fun p hp => by simp at hp) y hy
    obtain ⟨h1, h2, -, -⟩ := hg'.cellAt_bound hc
    exact ⟨h1, h2⟩
  constructor
  · intro p c w hc hw
    obtain ⟨h1, h2, -, -⟩ := select_valid hg' hc hw
    obtain ⟨b1, b2, -, -⟩ := hg'.cellAt_bound hc
    have hinn := nbrRef_inGrid (show inGrid n n p from ⟨b1, b2⟩) h2
    obtain ⟨d, hd, -, -⟩ := hg'.cellAt_some hinn.1 hinn.2
    exact ⟨h1, h2, hinn, d, hd⟩
  · intro k
    obtain ⟨m', hrun, -, hok, hval, -⟩ := rotateTicks_spec m hg' hin k
    refine ⟨m', hrun, hok, ?_⟩
    intro hk y cy w hy hcy hw hw4
    have h2 := hval hk y hy cy hcy w hw hw4
    have hinn := nbrRef_inGrid (hin y hy) h2
    obtain ⟨d, hd, -, -⟩ := hok.cellAt_some hinn.1 hinn.2
    exact ⟨h2, hinn, d, hd⟩

theorem rotation_reads_stay_inside_square_grid_witness :
    ∃ s r, runDraws (initialState 3 3) (List.replicate 17 0) = some s ∧
      selectCellsToRotate 3 s.maze [(0, 0), (0, 1), (1, 0), (1, 1), (1, 2), (2, 1)] = some r ∧
      (∀ p c w, cellAt r.1.grid p = some c → selectRandomWallToRotate r.1.grid c = some w →
        w < 4 ∧ hasNbr 3 p w ∧ inGrid 3 3 (nbrRef p w) ∧
          ∃ d, cellAt r.1.grid (nbrRef p w) = some d) ∧
      ∀ k, ∃ m', rotateTicks k r.1 = some m' ∧ GridOK 3 3 m'.grid ∧
        (k ≠ 0 → ∀ y cy w, y ∈ r.1.cellsToRotate → cellAt m'.grid y = some cy →
          cy.wallToRotate = some w → w < 4 →
          hasNbr 3 y w ∧ inGrid 3 3 (nbrRef y w) ∧ ∃ d, cellAt m'.grid (nbrRef y w) = some d) := by
  have h : ∃ s, runDraws (initialState 3 3) (List.replicate 17 0) = some s ∧
      GridOK 3 3 s.maze.grid ∧
      (selectCellsToRotate 3 s.maze [(0, 0), (0, 1), (1, 0), (1, 1), (1, 2), (2, 1)]).isSome
        = true := by decide
  obtain ⟨s, hs, hg, hsome⟩ := h
  obtain ⟨⟨m, ds'⟩, hr⟩ := Option.isSome_iff_exists.mp hsome
  exact ⟨s, (m, ds'), hs, hr,
    rotation_reads_stay_inside_square_grid s.maze m hg 3 _ ds' hr⟩

/-! ## What one generation step does to the stack and to the visited cells -/

/-- A generation step from a state with the tree invariant: it raises no TypeError, keeps the
invariant, leaves the current cell visited, and is one of three kinds. Forward: the current
cell is pushed and an unvisited cell of the grid becomes current and visited. Backtrack: the
top of the stack is popped and becomes current. Stay: the stack is empty before and after.
The visited cells are those of the grid as `draw` sees it after marking the current cell. -/
theorem draw_step {R C : Nat} {s : State} (h : TreeInv R C s) (rnd : Nat) :
    ∃ s', draw s rnd = some s' ∧ TreeInv R C s' ∧
      (∃ c, s'.maze.currentCell = some c ∧ visitedAt s'.maze.grid c) ∧
      ((∃ p next, s.maze.currentCell = some p ∧ s'.maze.currentCell = some next ∧
          s'.maze.stack = p :: s.maze.stack ∧ inGrid R C next ∧
          ¬ visitedAt (markedGrid s.maze) next ∧
          ∀ q, visitedAt (markedGrid s'.maze) q ↔ q = next ∨ visitedAt (markedGrid s.maze) q) ∨
        (∃ cell, s.maze.stack = cell :: s'.maze.stack ∧ s'.maze.currentCell = some cell ∧
          ∀ q, visitedAt (markedGrid s'.maze) q ↔ visitedAt (markedGrid s.maze) q) ∨
        (s.maze.stack = [] ∧ s'.maze.stack = [] ∧
          s'.maze.currentCell = s.maze.currentCell ∧
          ∀ q, visitedAt (markedGrid s'.maze) q ↔ visitedAt (markedGrid s.maze) q)) := by
  obtain ⟨p, hp, hb1, hb2⟩ := h.basic.cur
  have hmg : markedGrid s.maze = modifyCell s.maze.grid p Cell.setVisited :=
    markedGrid_eq _ p hp
  obtain ⟨c0, hc0, -, -⟩ := h.basic.grid.cellAt_some hb1 hb2
  have hg1 : GridOK R C (modifyCell s.maze.grid p Cell.setVisited) :=
    h.basic.grid.modifyCell _ _ (fun c => ⟨rfl, rfl⟩)
  have hVp : visitedAt (modifyCell s.maze.grid p Cell.setVisited) p :=
    (visitedAt_mark hc0 p).mpr (Or.inl rfl)
  obtain ⟨s', hd', htree'⟩ := draw_tree h rnd
  refine ⟨s', hd', htree', ?_⟩
  rcases draw_cases h.basic hp rnd with ⟨next, g3, hadj, hn1, hn2, hunv, hrem, hd⟩ |
      ⟨-, ⟨cell, rest, hst, hd⟩ | ⟨hst, hd⟩⟩
  · rw [hd] at hd'
    cases Option.some.inj hd'
    have hg2 : GridOK R C (modifyCell (modifyCell s.maze.grid p Cell.setVisited) next
        Cell.setVisited) := hg1.modifyCell _ _ (fun c => ⟨rfl, rfl⟩)
    obtain ⟨a, ha, -, -⟩ := hg2.cellAt_some hb1 hb2
    obtain ⟨b, hb, -, -⟩ := hg2.cellAt_some hn1 hn2
    obtain ⟨g3', hg3', hok3, -, hvis3⟩ := removeWalls_basic hg2 ha hb hadj
    rw [hrem] at hg3'
    cases Option.some.inj hg3'
    obtain ⟨cn1, hcn1, -, -⟩ := hg1.cellAt_some hn1 hn2
    obtain ⟨cn3, hcn3, -, -⟩ := hok3.cellAt_some hn1 hn2
    have hnotV : ¬ visitedAt (modifyCell s.maze.grid p Cell.setVisited) next := by
      unfold visitedAt; rw [hunv]; simp
    have e2 : ∀ q, visitedAt g3 q ↔ visitedAt (modifyCell (modifyCell s.maze.grid p
        Cell.setVisited) next Cell.setVisited) q := by
      intro q; unfold visitedAt; rw [hvis3]
    have hV : ∀ q, visitedAt (modifyCell g3 next Cell.setVisited) q ↔
        q = next ∨ visitedAt (modifyCell s.maze.grid p Cell.setVisited) q := by
      intro q
      rw [visitedAt_mark hcn3, e2, visitedAt_mark hcn1]
      tauto
    rw [finishDraw_maze]
    refine ⟨⟨next, rfl, ?_⟩, Or.inl ⟨p, next, hp, rfl, rfl, ⟨hn1, hn2⟩, ?_, ?_⟩⟩
    · show visitedAt g3 next
      rw [e2, visitedAt_mark hcn1]
      exact Or.inl rfl
    · rw [hmg]; exact hnotV
    · intro q
      rw [markedGrid_eq _ next rfl, hmg]
      exact hV q
  · rw [hd] at hd'
    cases Option.some.inj hd'
    have hcellV := h.stackVisited cell (by rw [hst]; exact List.mem_cons_self _ _)
    rw [hmg] at hcellV
    have hcell := h.basic.stack cell (by rw [hst]; exact List.mem_cons_self _ _)
    obtain ⟨cc, hcc, -, -⟩ := hg1.cellAt_some hcell.1 hcell.2
    have hV : ∀ q, visitedAt (modifyCell (modifyCell s.maze.grid p Cell.setVisited) cell
        Cell.setVisited) q ↔ visitedAt (modifyCell s.maze.grid p Cell.setVisited) q := by
      intro q
      rw [visitedAt_mark hcc]
      constructor
      · rintro (e | e)
        · rw [e]; exact hcellV
        · exact e
      · exact Or.inr
    rw [finishDraw_maze]
    refine ⟨⟨cell, rfl, hcellV⟩, Or.inr (Or.inl ⟨cell, hst, rfl, ?_⟩)⟩
    intro q
    rw [markedGrid_eq _ cell rfl, hmg]
    exact hV q
  · rw [hd] at hd'
    cases Option.some.inj hd'
    rw [finishDraw_maze]
    refine ⟨⟨p, hp, hVp⟩, Or.inr (Or.inr ⟨hst, hst, rfl, ?_⟩)⟩
    intro q
    rw [markedGrid_eq { s.maze with grid := modifyCell s.maze.grid p Cell.setVisited } p hp, hmg]
    show visitedAt (modifyCell (modifyCell s.maze.grid p Cell.setVisited) p Cell.setVisited) q ↔ _
    rw [visitedAt_mark (c := Cell.setVisited c0)
      (by rw [cellAt_modifyCell, if_pos rfl, hc0]; rfl)]
    constructor
    · rintro (e | e)
      · rw [e]; exact hVp
      · exact e
    · exact Or.inr

/-- After at least one generation step from a state with the tree invariant, the invariant
holds and the current cell has `visited = true`. -/
theorem runDraws_step_tree {R C : Nat} (rnds : List Nat) : ∀ {s : State} (rnd : Nat),
    TreeInv R C s → ∃ s', runDraws s (rnd :: rnds) = some s' ∧ TreeInv R C s' ∧
      ∃ c, s'.maze.currentCell = some c ∧ visitedAt s'.maze.grid c := by
  induction rnds with
  | nil =>
    intro s rnd h
    obtain ⟨s1, hd, ht, hc, -⟩ := draw_step h rnd
    exact ⟨s1, by simp only [runDraws, hd], ht, hc⟩
  | cons r rs ih =>
    intro s rnd h
    obtain ⟨s1, hd, ht, -, -⟩ := draw_step h rnd
    obtain ⟨s', hrun, ht', hc'⟩ := ih r ht
    exact ⟨s', by rw [runDraws, hd]; exact hrun, ht', hc'⟩

/-! ## The partial maze is a tree after every step -/

/-- C32. For every grid size and every sequence of random choices, after every generation step
from the freshly set-up maze (that is, after the steps of every non-empty sequence of choices
`rnd :: rnds`): no TypeError is raised; the number of removed shared walls equals the number
of cells with `visited = true` minus 1; `(0, 0)` is visited, open passages join visited cells
only, every visited cell is connected to `(0, 0)` through open walls, and the open-wall graph
has no cycle; every cell of the grid with `visited = false` still has all four walls shown. -/
theorem partial_maze_is_a_tree_after_every_step (R C : Nat) (s0 : State)
    (h : freshState R C = some s0) (rnd : Nat) (rnds : List Nat) :
    ∃ s, runDraws s0 (rnd :: rnds) = some s ∧
      removedWalls R C s.maze.grid + 1 = visitedCount R C s.maze.grid ∧
      visitedAt s.maze.grid (0, 0) ∧
      (∀ x y, passage s.maze.grid x y → visitedAt s.maze.grid x ∧ visitedAt s.maze.grid y) ∧
      (∀ w, visitedAt s.maze.grid w → Reach s.maze.grid (0, 0) w) ∧
      Acyclic s.maze.grid ∧
      ∀ w, inGrid R C w → ¬ visitedAt s.maze.grid w → allWallsShown s.maze.grid w := by
  obtain ⟨hR, hC⟩ := freshState_pos h
  rw [freshState_eq hR hC] at h
  cases Option.some.inj h
  obtain ⟨s, hrun, ht, c, hc, hcv⟩ := runDraws_step_tree rnds rnd (initialState_tree hR hC)
  obtain ⟨c', hc', hb1, hb2⟩ := ht.basic.cur
  rw [hc] at hc'
  cases Option.some.inj hc'
  obtain ⟨cc, hcc, -, -⟩ := ht.basic.grid.cellAt_some hb1 hb2
  have hV : ∀ q, visitedAt (markedGrid s.maze) q ↔ visitedAt s.maze.grid q := by
    intro q
    rw [markedGrid_eq _ c hc, visitedAt_mark hcc]
    constructor
    · rintro (e | e)
      · rw [e]; exact hcv
      · exact e
    · exact Or.inr
  refine ⟨s, hrun, ?_, ?_, ?_, ?_, ?_, ?_⟩
  · have := ht.core.count
    rw [visitedCount_congr hV] at this
    exact this
  · exact (hV _).mp ht.core.origin
  · intro x y hxy
    obtain ⟨a, b⟩ := ht.core.ends x y hxy
    exact ⟨(hV _).mp a, (hV _).mp b⟩
  · intro w hw
    exact ht.core.joined w ((hV w).mpr hw)
  · obtain ⟨ord, par, _, _, hpar⟩ := ht.core.parents
    exact acyclic_of_parents ord par hpar
  · intro w hw hnv
    exact ht.closedWalls w hw (fun hv => hnv ((hV w).mp hv))

theorem partial_maze_is_a_tree_after_every_step_witness :
    ∃ s, runDraws (initialState 2 3) (1 :: [0, 2]) = some s ∧
      removedWalls 2 3 s.maze.grid + 1 = visitedCount 2 3 s.maze.grid ∧
      visitedAt s.maze.grid (0, 0) ∧
      (∀ x y, passage s.maze.grid x y → visitedAt s.maze.grid x ∧ visitedAt s.maze.grid y) ∧
      (∀ w, visitedAt s.maze.grid w → Reach s.maze.grid (0, 0) w) ∧
      Acyclic s.maze.grid ∧
      ∀ w, inGrid 2 3 w → ¬ visitedAt s.maze.grid w → allWallsShown s.maze.grid w :=
  partial_maze_is_a_tree_after_every_step 2 3 (initialState 2 3)
    (freshState_eq (by decide) (by decide)) 1 [0, 2]

/-! ## The outer boundary stays closed -/

theorem hasNbr_of_nbr {n : Nat} {p : Ref} {w : Nat} (hw : w < 4) (hne : nbrRef p w ≠ p)
    (hin : inGrid n n (nbrRef p w)) : hasNbr n p w := by
  obtain ⟨p1, p2⟩ := p
  obtain ⟨h1, h2⟩ := hin
  interval_cases w
  · show p1 ≠ 0
    intro e
    apply hne
    show (p1 - 1, p2) = (p1, p2)
    rw [e]
  · exact h2
  · exact h1
  · show p2 ≠ 0
    intro e
    apply hne
    show (p1, p2 - 1) = (p1, p2)
    rw [e]

theorem adjacent_ne {p q : Ref} (h : adjacent p q) : q ≠ p := by
  intro e
  rw [e] at h
  unfold adjacent at h
  omega

theorem border_modifyCell {n : Nat} {g : Grid} (h : BorderShown n g) (p : Ref)
    (f : Cell → Cell)
    (hf : ∀ c w, w < 4 → ¬ hasNbr n p w → (c.wall w).isShown = true →
      ((f c).wall w).isShown = true) : BorderShown n (modifyCell g p f) := by
  intro x c w hc hw hn
  rw [cellAt_modifyCell] at hc
  by_cases e : x = p
  · rw [if_pos e] at hc
    cases hx : cellAt g x with
    | none => rw [hx] at hc; cases hc
    | some d =>
      rw [hx] at hc
      cases Option.some.inj hc
      exact hf d w hw (by rw [← e]; exact hn) (h x d w hx hw hn)
  · rw [if_neg e] at hc
    exact h x c w hc hw hn

theorem setVisited_wall (c : Cell) (v : Nat) : (Cell.setVisited c).wall v = c.wall v := by
  unfold Cell.wall; split <;> rfl

theorem setWallToRotate_wall (o : Option Nat) (c : Cell) (v : Nat) :
    (Cell.setWallToRotate o c).wall v = c.wall v := by
  unfold Cell.wall; split <;> rfl

theorem advance_coords (w : Nat) (c : Cell) :
    (Cell.advance w c).rowNumber = c.rowNumber ∧
      (Cell.advance w c).columnNumber = c.columnNumber := by
  unfold Cell.advance; split <;> exact ⟨rfl, rfl⟩

theorem finish_coords (w : Nat) (c : Cell) :
    (Cell.finish w c).rowNumber = c.rowNumber ∧
      (Cell.finish w c).columnNumber = c.columnNumber := by
  unfold Cell.finish; split <;> exact ⟨rfl, rfl⟩

/-- Hiding a wall that has a neighbour behind it keeps the boundary walls shown. -/
theorem border_hide {n : Nat} {g : Grid} (h : BorderShown n g) {p : Ref} {u : Nat}
    (hu : u < 4) (hn : hasNbr n p u) : BorderShown n (modifyCell g p (Cell.setShown u false)) := by
  apply border_modifyCell h
  intro c w hw hnw hs
  rw [setShown_wall hu hw, if_neg (by rintro rfl; exact hnw hn)]
  exact hs

theorem border_show {n : Nat} {g : Grid} (h : BorderShown n g) (p : Ref) {u : Nat}
    (hu : u < 4) : BorderShown n (modifyCell g p (Cell.setShown u true)) := by
  apply border_modifyCell h
  intro c w hw hnw hs
  rw [setShown_wall hu hw]
  split
  · rfl
  · exact hs

theorem gridOK_setShown {R C : Nat} {g : Grid} (h : GridOK R C g) (p : Ref) (u : Nat) (b : Bool) :
    GridOK R C (modifyCell g p (Cell.setShown u b)) :=
  h.modifyCell _ _ (fun c => ⟨(setShown_fields u b c).1, (setShown_fields u b c).2.1⟩)

/-- A generation step that raises no TypeError keeps a square grid well formed, the current
cell and the stack inside it, and the boundary walls shown. -/
theorem draw_border {n : Nat} {s s' : State} {rnd : Nat} (hg : GridOK n n s.maze.grid)
    (hcur : ∃ p, s.maze.currentCell = some p ∧ inGrid n n p)
    (hst : ∀ q, q ∈ s.maze.stack → inGrid n n q) (hb : BorderShown n s.maze.grid)
    (h : draw s rnd = some s') :
    GridOK n n s'.maze.grid ∧ (∃ p, s'.maze.currentCell = some p ∧ inGrid n n p) ∧
      (∀ q, q ∈ s'.maze.stack → inGrid n n q) ∧ BorderShown n s'.maze.grid := by
  obtain ⟨p, hp, hb1, hb2⟩ := hcur
  obtain ⟨c0, hc0, -, -⟩ := hg.cellAt_some hb1 hb2
  have hg1 : GridOK n n (modifyCell s.maze.grid p Cell.setVisited) :=
    hg.modifyCell _ _ (fun c => ⟨rfl, rfl⟩)
  have hbd1 : BorderShown n (modifyCell s.maze.grid p Cell.setVisited) :=
    border_modifyCell hb _ _ (fun c w _ _ hs => by rw [setVisited_wall]; exact hs)
  obtain ⟨this, hthis, -, -⟩ := hg1.cellAt_some hb1 hb2
  obtain ⟨res, hres, hsome, -⟩ := checkNeighbors_spec hg1 hthis rnd
  unfold draw at h
  simp only [hp, writeCell_eq hc0, hthis, hres] at h
  cases res with
  | some next =>
    obtain ⟨hadj, hn1, hn2, -⟩ := hsome next rfl
    obtain ⟨cn, hcn, -, -⟩ := hg1.cellAt_some hn1 hn2
    have hg2 : GridOK n n (modifyCell (modifyCell s.maze.grid p Cell.setVisited) next
        Cell.setVisited) := hg1.modifyCell _ _ (fun c => ⟨rfl, rfl⟩)
    have hbd2 : BorderShown n (modifyCell (modifyCell s.maze.grid p Cell.setVisited) next
        Cell.setVisited) :=
      border_modifyCell hbd1 _ _ (fun c w _ _ hs => by rw [setVisited_wall]; exact hs)
    obtain ⟨a, ha, -, -⟩ := hg2.cellAt_some hb1 hb2
    obtain ⟨b, hb', -, -⟩ := hg2.cellAt_some hn1 hn2
    obtain ⟨w, hw, hq, hrem⟩ := removeWalls_setShown (p := p) (q := next) hg2 ha hb' hadj
    simp only [writeCell_eq hcn, hrem] at h
    cases Option.some.inj h
    rw [finishDraw_maze]
    have hnb : hasNbr n p w :=
      hasNbr_of_nbr hw (by rw [← hq]; exact adjacent_ne hadj) (by rw [← hq]; exact ⟨hn1, hn2⟩)
    refine ⟨gridOK_setShown (gridOK_setShown hg2 _ _ _) _ _ _, ⟨next, rfl, hn1, hn2⟩, ?_, ?_⟩
    · intro q hq'
      rcases List.mem_cons.mp hq' with rfl | hq'
      · exact ⟨hb1, hb2⟩
      · exact hst q hq'
    · have h1 := border_hide hbd2 hw hnb
      have h2 := border_hide h1 (p := next) (facingWall_lt hw).1
        (by rw [hq]; exact hasNbr_back hw ⟨hb1, hb2⟩ hnb)
      exact h2
  | none =>
    cases hstack : s.maze.stack with
    | nil =>
      simp only [hstack] at h
      cases Option.some.inj h
      rw [finishDraw_maze]
      exact ⟨hg1, ⟨p, rfl, hb1, hb2⟩, fun q hq => absurd hq (List.not_mem_nil q), hbd1⟩
    | cons cell rest =>
      simp only [hstack] at h
      cases Option.some.inj h
      rw [finishDraw_maze]
      refine ⟨hg1, ⟨cell, rfl, hst cell (by rw [hstack]; exact List.mem_cons_self _ _)⟩, ?_, hbd1⟩
      intro q hq
      exact hst q (by rw [hstack]; exact List.mem_cons_of_mem _ hq)

/-- One run of the `forEach` body of `rotateCellWalls` that raises no TypeError keeps a square
grid well formed and its boundary walls shown, whatever the index and the cell. -/
theorem rotateCell_border {n : Nat} {index : Nat} {g g' : Grid} {p : Ref} (hg : GridOK n n g)
    (hb : BorderShown n g) (h : rotateCell index g p = some g') :
    GridOK n n g' ∧ BorderShown n g' := by
  have hrot : ∀ {g0 : Grid}, GridOK n n g0 → BorderShown n g0 →
      GridOK n n (modifyCell g0 p (Cell.setIsRotating false)) ∧
        BorderShown n (modifyCell g0 p (Cell.setIsRotating false)) := by
    intro g0 h0 b0
    exact ⟨h0.modifyCell _ _ (fun c => ⟨rfl, rfl⟩),
      border_modifyCell b0 _ _ (fun c w _ _ hs => by rw [setIsRotating_wall]; exact hs)⟩
  have hlast : ∀ {g2 : Grid}, GridOK n n g2 → BorderShown n g2 →
      (if index > 44 then some (modifyCell g2 p (Cell.setIsRotating false)) else some g2)
        = some g' → GridOK n n g' ∧ BorderShown n g' := by
    intro g2 h2 b2 e
    split at e
    · cases Option.some.inj e; exact hrot h2 b2
    · cases Option.some.inj e; exact ⟨h2, b2⟩
  unfold rotateCell at h
  split at h
  · cases h
  · rename_i cell hcell
    dsimp only at h
    have hg1 : GridOK n n (if index = 0 then
        modifyCell (modifyCell g p (Cell.setWallToRotate (selectRandomWallToRotate g cell))) p
          (Cell.setIsRotating true) else g) := by
      split
      · exact GridOK.modifyCell (GridOK.modifyCell hg p (Cell.setWallToRotate _)
          (fun c => ⟨rfl, rfl⟩)) p (Cell.setIsRotating true) (fun c => ⟨rfl, rfl⟩)
      · exact hg
    have hb1 : BorderShown n (if index = 0 then
        modifyCell (modifyCell g p (Cell.setWallToRotate (selectRandomWallToRotate g cell))) p
          (Cell.setIsRotating true) else g) := by
      split
      · exact border_modifyCell (border_modifyCell hb _ _ (fun c w _ _ hs => by
          rw [setWallToRotate_wall]; exact hs)) _ _ (fun c w _ _ hs => by
          rw [setIsRotating_wall]; exact hs)
      · exact hb
    generalize (if index = 0 then
        modifyCell (modifyCell g p (Cell.setWallToRotate (selectRandomWallToRotate g cell))) p
          (Cell.setIsRotating true) else g) = g1 at h hg1 hb1
    split at h
    · cases h
    · rename_i cell1 hcell1
      split at h
      · cases h
      · rename_i g2 hsw
        obtain ⟨hp1, hp2, hrow, hcol⟩ := hg1.cellAt_bound hcell1
        have hcoords : (cell1.rowNumber, cell1.columnNumber) = p := Prod.ext hrow hcol
        cases hwr : cell1.wallToRotate with
        | none =>
          rw [hwr] at hsw
          cases Option.some.inj hsw
          exact hlast hg1 hb1 h
        | some w =>
          rw [hwr] at hsw
          by_cases hw : w < 4
          · obtain ⟨hne, ⟨d, hd⟩, c1, hc1, hshape⟩ := rotateSwitch_shape hcell1 hw hsw
            rw [hcoords] at hne hd hc1 hshape
            obtain ⟨hd1, hd2, -, -⟩ := hg1.cellAt_bound hd
            have hnb : hasNbr n p w := hasNbr_of_nbr hw hne ⟨hd1, hd2⟩
            have hga := gridOK_setShown hg1 (nbrRef p w) (facingWall w) false
            have hba := border_hide hb1 (p := nbrRef p w) (facingWall_lt hw).1
              (hasNbr_back hw ⟨hp1, hp2⟩ hnb)
            have hgf : GridOK n n (modifyCell (modifyCell g1 (nbrRef p w)
                (Cell.setShown (facingWall w) false)) p (Cell.finish w)) :=
              hga.modifyCell _ _ (fun c => finish_coords w c)
            have hbf : BorderShown n (modifyCell (modifyCell g1 (nbrRef p w)
                (Cell.setShown (facingWall w) false)) p (Cell.finish w)) := by
              apply border_modifyCell hba
              intro c v hv hnv hs
              rw [finish_wall hw hv, if_neg (by rintro rfl; exact hnv hnb)]
              split
              · rfl
              · exact hs
            rcases hshape with ⟨-, e⟩ | ⟨-, e | e⟩
            · rw [e] at h
              refine hlast (hga.modifyCell _ _ (fun c => advance_coords w c)) ?_ h
              apply border_modifyCell hba
              intro c v hv hnv hs
              rw [advance_wall hw hv]
              split
              · rename_i e'; exact absurd hnb (by rw [← e']; exact hnv)
              · exact hs
            · rw [e] at h
              obtain ⟨x1, x2⟩ := hrot hgf hbf
              exact hlast x1 x2 h
            · rw [e] at h
              obtain ⟨x1, x2⟩ := hrot (gridOK_setShown hgf (nbrRef p (intoWall w))
                (facingWall (intoWall w)) true)
                (border_show hbf (nbrRef p (intoWall w)) (facingWall_lt (intoWall_lt hw).1).1)
              exact hlast x1 x2 h
          · have hnone : rotateSwitch g1 p (some w) = some g1 := by
              obtain ⟨k, rfl⟩ : ∃ k, w = k + 4 := ⟨w - 4, by omega⟩
              rfl
            rw [hnone] at hsw
            cases Option.some.inj hsw
            exact hlast hg1 hb1 h

theorem rotateCells_border {n : Nat} (index : Nat) (l : List Ref) : ∀ {g g' : Grid},
    GridOK n n g → BorderShown n g → rotateCells index l g = some g' →
    GridOK n n g' ∧ BorderShown n g' := by
  induction l with
  | nil =>
    intro g g' hg hb h
    cases Option.some.inj h
    exact ⟨hg, hb⟩
  | cons p ps ih =>
    intro g g' hg hb h
    unfold rotateCells at h
    split at h
    · cases h
    · rename_i g1 h1
      obtain ⟨x1, x2⟩ := rotateCell_border hg hb h1
      exact ih x1 x2 h

theorem moveTo_stack {s s' : State} {next : Option (Option Ref)} (h : moveTo s next = some s') :
    s'.maze.stack = s.maze.stack := by
  unfold moveTo at h
  split at h
  · split at h
    · cases h
    · dsimp only at h
      split at h
      · cases h
      · split at h
        · cases h
        · cases h
          simp only; split <;> rfl
  · cases h

theorem move_stack {s s' : State} {key : Key} (h : move s key = some s') :
    s'.maze.stack = s.maze.stack := by
  unfold move at h
  split at h
  · cases h; rfl
  · split at h
    · cases h
    · split at h
      · cases h
      · dsimp only at h
        split at h <;> first
          | (cases h; rfl)
          | (split at h
             · exact moveTo_stack h
             · cases h; rfl)

/-- On a square grid every reachable state has a well-formed grid, the current cell and the
stack inside it, and every boundary wall shown. -/
theorem reachable_border {n : Nat} {s : State} (h : Reachable n n s) :
    GridOK n n s.maze.grid ∧ (∃ p, s.maze.currentCell = some p ∧ inGrid n n p) ∧
      (∀ q, q ∈ s.maze.stack → inGrid n n q) ∧ BorderShown n s.maze.grid := by
  induction h with
  | fresh hf =>
    have hb := freshState_basic hf
    refine ⟨hb.grid, hb.cur, hb.stack, ?_⟩
    obtain ⟨hR, hC⟩ := freshState_pos hf
    rw [freshState_eq hR hC] at hf
    cases Option.some.inj hf
    intro p c w hc hw _
    have hc' : cellAt (freshGrid n n) p = some c := hc
    rw [cellAt_freshGrid] at hc'
    split at hc'
    · have e := Option.some.inj hc'
      rw [← e]
      split <;> (interval_cases w <;> rfl)
    · cases hc'
  | byDraw rnd _ hd ih =>
    obtain ⟨a, b, c, d⟩ := ih
    exact draw_border a b c d hd
  | bySelect dimRows ds _ hsel ih =>
    obtain ⟨e1, -, -, e4, e5, -⟩ := selectCellsToRotate_spec hsel
    obtain ⟨a, b, c, d⟩ := ih
    simp only
    rw [e1, e4, e5]
    exact ⟨a, b, c, d⟩
  | byRotate index _ hrot ih =>
    obtain ⟨a, b, c, d⟩ := ih
    obtain ⟨-, hcells⟩ := rotateCellWalls_frame hrot
    obtain ⟨x1, x2⟩ := rotateCells_border _ _ a d hcells
    unfold rotateCellWalls at hrot
    split at hrot
    · cases hrot
    · cases Option.some.inj hrot
      exact ⟨x1, b, c, x2⟩
  | byMove key _ hm ih =>
    obtain ⟨a, b, c, d⟩ := ih
    rw [(move_frame hm).1, move_stack hm]
    refine ⟨a, ?_, c, d⟩
    rcases move_cases a hm with rfl | ⟨cur, w, -, -, hcur, -, -, -, -, -, hmt⟩
    · exact b
    · obtain ⟨nx, nextCell, -, hnc, -, hcc, -, -⟩ := moveTo_spec hmt
      rw [hcc]
      split
      · exact b
      · obtain ⟨y1, y2, -, -⟩ := a.cellAt_bound hnc
        exact ⟨nx, rfl, y1, y2⟩

/-- With a well-formed square grid, the current cell inside it and the boundary walls shown,
`move` raises no TypeError for any key. -/
theorem move_total {n : Nat} {s : State} (hg : GridOK n n s.maze.grid)
    (hcur : ∃ p, s.maze.currentCell = some p ∧ inGrid n n p) (hb : BorderShown n s.maze.grid)
    (key : Key) : ∃ s', move s key = some s' := by
  obtain ⟨cur, hc, hb1, hb2⟩ := hcur
  obtain ⟨c, hcell, hrow, hcol⟩ := hg.cellAt_some hb1 hb2
  have hcell' : cellAt s.maze.grid cur = some c := hcell
  have hto : ∀ nx, inGrid n n nx → ∃ s', moveTo s (some (some nx)) = some s' := by
    intro nx hnx
    obtain ⟨d, hd, -, -⟩ := hg.cellAt_some hnx.1 hnx.2
    have hd' : cellAt s.maze.grid nx = some d := hd
    unfold moveTo
    simp only [hd']
    cases d.isGoal <;> cases d.isRotating <;> simp [gameOver, hc, hcell', hd']
  have hnb : ∀ w, w < 4 → (c.wall w).isShown = false → hasNbr n cur w := by
    intro w hw hs
    by_contra hn
    have := hb cur c w hcell' hw hn
    rw [hs] at this
    cases this
  unfold move
  split
  · exact ⟨_, rfl⟩
  · simp only [hc, hcell', hrow, hcol]
    have hfalse : ∀ {b : Bool}, (!b) = true → b = false := by
      intro b hb; cases b <;> simp at hb ⊢
    cases key with
    | arrowUp =>
      simp only
      split
      · rename_i hw
        have h0 : cur.1 ≠ 0 := hnb 0 (by decide) (hfalse hw)
        rw [if_neg h0, hg.readRef (by omega), if_pos hb2]
        exact hto _ ⟨by show cur.1 - 1 < n; omega, hb2⟩
      · exact ⟨_, rfl⟩
    | arrowRight =>
      simp only
      split
      · rename_i hw
        have h0 : cur.2 + 1 < n := hnb 1 (by decide) (hfalse hw)
        rw [hg.readRef hb1, if_pos h0]
        exact hto _ ⟨hb1, h0⟩
      · exact ⟨_, rfl⟩
    | arrowDown =>
      simp only
      split
      · rename_i hw
        have h0 : cur.1 + 1 < n := hnb 2 (by decide) (hfalse hw)
        rw [hg.readRef h0, if_pos hb2]
        exact hto _ ⟨h0, hb2⟩
      · exact ⟨_, rfl⟩
    | arrowLeft =>
      simp only
      split
      · rename_i hw
        have h0 : cur.2 ≠ 0 := hnb 3 (by decide) (hfalse hw)
        rw [if_neg h0, hg.readRef hb1, if_pos (by omega)]
        exact hto _ ⟨hb1, by show cur.2 - 1 < n; omega⟩
      · exact ⟨_, rfl⟩
    | other => exact ⟨_, rfl⟩

/-- C33. On a square grid, in every state reachable from `setupMaze` by generation steps,
scramble selections, rotation ticks and moves: every wall on the grid's outer boundary has
`isShown = true`; consequently, whenever the current cell's wall on side `w` is not shown, the
neighbour on that side exists and the lookup of the destination (`grid[row - 1][col]`,
`grid[row][col + 1]`, `grid[row + 1][col]` or `grid[row][col - 1]`) yields a cell of the
grid; and `move` raises no TypeError for any key: it either leaves the state alone or finds
the wall on the pressed side not shown and runs the shared body on the destination cell. -/
theorem boundary_walls_stay_shown_on_square_grid {n : Nat} {s : State}
    (h : Reachable n n s) :
    (∀ p w, inGrid n n p → w < 4 → ¬ hasNbr n p w → shownAt s.maze.grid p w = some true) ∧
    (∀ cur w, s.maze.currentCell = some cur → w < 4 →
      shownAt s.maze.grid cur w = some false →
        hasNbr n cur w ∧ inGrid n n (nbrRef cur w) ∧
        readRef s.maze.grid (nbrRef cur w).1 (nbrRef cur w).2 = some (some (nbrRef cur w)) ∧
        ∃ d, cellAt s.maze.grid (nbrRef cur w) = some d) ∧
    ∀ key, ∃ s', move s key = some s' ∧
      (s' = s ∨ ∃ cur w, s.maze.currentCell = some cur ∧ key.wall = some w ∧
        shownAt s.maze.grid cur w = some false ∧
        moveTo s (some (some (nbrRef cur w))) = some s') := by
  obtain ⟨hg, hcur, -, hb⟩ := reachable_border h
  refine ⟨?_, ?_, ?_⟩
  · intro p w hp hw hn
    obtain ⟨c, hc, -, -⟩ := hg.cellAt_some hp.1 hp.2
    have hc' : cellAt s.maze.grid p = some c := hc
    unfold shownAt fieldAt
    rw [hc']
    exact congrArg some (hb p c w hc' hw hn)
  · intro cur w hc hw hs
    obtain ⟨cur', hc', hin⟩ := hcur
    rw [hc] at hc'
    cases Option.some.inj hc'
    obtain ⟨c, hcell, -, -⟩ := hg.cellAt_some hin.1 hin.2
    have hcell' : cellAt s.maze.grid cur = some c := hcell
    have hnb : hasNbr n cur w := by
      by_contra hn
      have := hb cur c w hcell' hw hn
      unfold shownAt fieldAt at hs
      rw [hcell'] at hs
      have hs' : some (c.wall w).isShown = some false := hs
      rw [this] at hs'
      cases hs'
    have hin' := nbrRef_inGrid hin hnb
    obtain ⟨d, hd, -, -⟩ := hg.cellAt_some hin'.1 hin'.2
    refine ⟨hnb, hin', ?_, d, hd⟩
    rw [hg.readRef hin'.1, if_pos hin'.2]
  · intro key
    obtain ⟨s', hm⟩ := move_total hg hcur hb key
    refine ⟨s', hm, ?_⟩
    rcases move_cases hg hm with e | ⟨cur, w, -, -, hc, hk, -, -, -, hs, hmt⟩
    · exact Or.inl e
    · exact Or.inr ⟨cur, w, hc, hk, hs, hmt⟩

theorem boundary_walls_stay_shown_on_square_grid_witness :
    ∃ s, runDraws (initialState 2 2) [1, 0, 0] = some s ∧
    (∀ p w, inGrid 2 2 p → w < 4 → ¬ hasNbr 2 p w → shownAt s.maze.grid p w = some true) ∧
    (∀ cur w, s.maze.currentCell = some cur → w < 4 →
      shownAt s.maze.grid cur w = some false →
        hasNbr 2 cur w ∧ inGrid 2 2 (nbrRef cur w) ∧
        readRef s.maze.grid (nbrRef cur w).1 (nbrRef cur w).2 = some (some (nbrRef cur w)) ∧
        ∃ d, cellAt s.maze.grid (nbrRef cur w) = some d) ∧
    ∀ key, ∃ s', move s key = some s' ∧
      (s' = s ∨ ∃ cur w, s.maze.currentCell = some cur ∧ key.wall = some w ∧
        shownAt s.maze.grid cur w = some false ∧
        moveTo s (some (some (nbrRef cur w))) = some s') := by
  have h : ∃ s1, draw (initialState 2 2) 1 = some s1 ∧ ∃ s2, draw s1 0 = some s2 ∧
      ∃ s3, draw s2 0 = some s3 ∧ runDraws (initialState 2 2) [1, 0, 0] = some s3 := by decide
  obtain ⟨s1, h1, s2, h2, s3, h3, hrun⟩ := h
  have hf : freshState 2 2 = some (initialState 2 2) := freshState_eq (by decide) (by decide)
  exact ⟨s3, hrun, boundary_walls_stay_shown_on_square_grid
    (Reachable.byDraw 0 (Reachable.byDraw 0 (Reachable.byDraw 1 (Reachable.fresh hf) h1) h2) h3)⟩

/-! ## Pushes and pops of the backtracking stack -/

/-- The stack operation recorded for a generation step is the one the step performs. -/
theorem drawOp_of_draw {s s' : State} {rnd : Nat} (h : draw s rnd = some s') :
    (∃ cur next, drawOp s rnd = some (StackOp.push cur next) ∧
        s'.maze.stack = cur :: s.maze.stack ∧ s'.maze.currentCell = some next) ∨
    (∃ cell, drawOp s rnd = some (StackOp.pop cell) ∧ s.maze.stack = cell :: s'.maze.stack) ∨
    (drawOp s rnd = some StackOp.idle ∧ s.maze.stack = [] ∧ s'.maze.stack = []) := by
  unfold draw at h
  unfold drawOp
  split at h
  · cases h
  · rename_i cur hcur
    split at h
    · cases h
    · rename_i grid1 hgrid1
      split at h
      · cases h
      · rename_i this hthis
        split at h
        · cases h
        · rename_i next hnext
          split at h
          · cases h
          · split at h
            · cases h
            · cases Option.some.inj h
              left
              refine ⟨cur, next, ?_, ?_, ?_⟩
              · simp only [hcur, hgrid1, hthis, hnext]
              · rw [finishDraw_maze]
              · rw [finishDraw_maze]
        · rename_i hnext
          split at h
          · rename_i cell rest hst
            cases Option.some.inj h
            right; left
            refine ⟨cell, ?_, ?_⟩
            · simp only [hcur, hgrid1, hthis, hnext, hst]
            · rw [finishDraw_maze]; exact hst
          · rename_i hst
            cases Option.some.inj h
            right; right
            refine ⟨?_, hst, ?_⟩
            · simp only [hcur, hgrid1, hthis, hnext, hst]
            · rw [finishDraw_maze]; exact hst

/-- A generation step from a state with the tree invariant, with its stack operation: a push
of the current cell comes with a cell that was unvisited and is visited afterwards, a pop
takes the top of the stack, and otherwise the stack is empty; pops and idle steps leave the
set of visited cells alone. -/
theorem draw_op_step {R C : Nat} {s : State} (h : TreeInv R C s) (rnd : Nat) :
    ∃ s' op, draw s rnd = some s' ∧ drawOp s rnd = some op ∧ TreeInv R C s' ∧
      (∃ c, s'.maze.currentCell = some c ∧ visitedAt s'.maze.grid c) ∧
      ((∃ p next, op = StackOp.push p next ∧ s'.maze.stack = p :: s.maze.stack ∧
          ¬ visitedAt (markedGrid s.maze) next ∧
          ∀ q, visitedAt (markedGrid s'.maze) q ↔ q = next ∨ visitedAt (markedGrid s.maze) q) ∨
        (∃ cell, op = StackOp.pop cell ∧ s.maze.stack = cell :: s'.maze.stack ∧
          ∀ q, visitedAt (markedGrid s'.maze) q ↔ visitedAt (markedGrid s.maze) q) ∨
        (op = StackOp.idle ∧ s.maze.stack = [] ∧ s'.maze.stack = [] ∧
          ∀ q, visitedAt (markedGrid s'.maze) q ↔ visitedAt (markedGrid s.maze) q)) := by
  obtain ⟨s', hd, ht, hc, hcases⟩ := draw_step h rnd
  have hlen : ∀ {a : Ref} {l l' : List Ref}, l' = a :: l → l'.length = l.length + 1 := by
    intro a l l' e; rw [e]; rfl
  rcases drawOp_of_draw hd with ⟨cur, next, hop, hst, hcur⟩ | ⟨cell, hop, hst⟩ | ⟨hop, hst, hst'⟩
  · refine ⟨s', _, hd, hop, ht, hc, ?_⟩
    rcases hcases with ⟨p, nx, -, hnx, hst2, -, hnv, hV⟩ | ⟨cell, hst2, -, -⟩ | ⟨hst2, hst3, -, -⟩
    · rw [hst] at hst2
      rw [hcur] at hnx
      cases Option.some.inj hnx
      cases List.cons.inj hst2 |>.1
      exact Or.inl ⟨cur, next, rfl, hst, hnv, hV⟩
    · have a := hlen hst
      have b := hlen hst2
      omega
    · rw [hst3] at hst; cases hst
  · refine ⟨s', _, hd, hop, ht, hc, ?_⟩
    rcases hcases with ⟨p, nx, -, -, hst2, -, -, -⟩ | ⟨cell2, hst2, -, hV⟩ | ⟨hst2, -, -, -⟩
    · have a := hlen hst
      have b := hlen hst2
      omega
    · exact Or.inr (Or.inl ⟨cell, rfl, hst, hV⟩)
    · rw [hst2] at hst; cases hst
  · refine ⟨s', _, hd, hop, ht, hc, ?_⟩
    rcases hcases with ⟨p, nx, -, -, hst2, -, -, -⟩ | ⟨cell2, hst2, -, -⟩ | ⟨-, -, -, hV⟩
    · rw [hst'] at hst2; cases hst2
    · rw [hst] at hst2; cases hst2
    · exact Or.inr (Or.inr ⟨rfl, hst, hst', hV⟩)

/-- The recorded run is the run of `generateLoop`; over it, pushes and pops of every cell
balance against the stack, and the forward steps to a cell are the change of its `visited`
status. -/
theorem generateOps_spec {R C : Nat} (rnds : List Nat) : ∀ {s s' : State} {k : Nat},
    TreeInv R C s → generateLoop s rnds = some (s', k) →
    ∃ ops, generateOps s rnds = some (s', ops) ∧ ops.length = k ∧
      (∀ x, pushCount x ops + s.maze.stack.count x = popCount x ops + s'.maze.stack.count x) ∧
      (∀ y, enterCount y ops + (if visitedAt (markedGrid s.maze) y then 1 else 0)
        = (if visitedAt (markedGrid s'.maze) y then 1 else 0)) ∧
      (s.mazeGenerationComplete = false →
        ∃ c, s'.maze.currentCell = some c ∧ visitedAt s'.maze.grid c) := by
  have hdone : ∀ {s s' : State} {k : Nat} {l : List Nat}, s.mazeGenerationComplete = true →
      generateLoop s l = some (s', k) →
      ∃ ops, generateOps s l = some (s', ops) ∧ ops.length = k ∧
      (∀ x, pushCount x ops + s.maze.stack.count x = popCount x ops + s'.maze.stack.count x) ∧
      (∀ y, enterCount y ops + (if visitedAt (markedGrid s.maze) y then 1 else 0)
        = (if visitedAt (markedGrid s'.maze) y then 1 else 0)) ∧
      (s.mazeGenerationComplete = false →
        ∃ c, s'.maze.currentCell = some c ∧ visitedAt s'.maze.grid c) := by
    intro s s' k l hflag hl
    rw [generateLoop_complete hflag] at hl
    cases Option.some.inj hl
    refine ⟨[], ?_, rfl, fun x => rfl, fun y => ?_, fun e => ?_⟩
    · cases l <;> simp only [generateOps, hflag, if_true]
    · simp only [enterCount, Nat.zero_add]
    · rw [hflag] at e; cases e
  induction rnds with
  | nil =>
    intro s s' k _ hl
    by_cases hflag : s.mazeGenerationComplete = true
    · exact hdone hflag hl
    · simp only [generateLoop, hflag] at hl
      cases hl
  | cons r rs ih =>
    intro s s' k hinv hl
    by_cases hflag : s.mazeGenerationComplete = true
    · exact hdone hflag hl
    · obtain ⟨s1, op, hd, hop, hinv1, hc1, hcases⟩ := draw_op_step hinv r
      simp only [generateLoop, hflag, hd] at hl
      cases hrest : generateLoop s1 rs with
      | none => rw [hrest] at hl; cases hl
      | some res =>
        obtain ⟨s2, k2⟩ := res
        rw [hrest] at hl
        cases Option.some.inj hl
        obtain ⟨ops, hops, hlen, hbal, hent, hlast⟩ := ih hinv1 hrest
        have hcur : ∃ c, s2.maze.currentCell = some c ∧ visitedAt s2.maze.grid c := by
          by_cases hflag1 : s1.mazeGenerationComplete = true
          · rw [generateLoop_complete hflag1] at hrest
            cases Option.some.inj hrest
            exact hc1
          · exact hlast (by cases e : s1.mazeGenerationComplete
                            · rfl
                            · exact absurd e hflag1)
        refine ⟨op :: ops, ?_, ?_, ?_, ?_, fun _ => hcur⟩
        · simp only [generateOps, hflag, hop, hd, hops]
          rfl
        · simp only [List.length_cons, hlen]
        · intro x
          have hb := hbal x
          rcases hcases with ⟨p, next, rfl, hst, -, -⟩ | ⟨cell, rfl, hst, -⟩ | ⟨rfl, hs0, hs1, -⟩
          · rw [hst, List.count_cons] at hb
            simp only [pushCount, popCount]
            by_cases e : p = x
            · simp only [e, beq_self_eq_true, if_true] at hb ⊢; omega
            · have e' : (p == x) = false := by simpa using e
              simp only [e, e', if_false, Bool.false_eq_true] at hb ⊢
              omega
          · rw [hst, List.count_cons]
            simp only [pushCount, popCount]
            by_cases e : cell = x
            · simp only [e, beq_self_eq_true, if_true] at hb ⊢; omega
            · have e' : (cell == x) = false := by simpa using e
              simp only [e, e', if_false, Bool.false_eq_true] at hb ⊢
              omega
          · simp only [pushCount, popCount]
            rw [hs1] at hb
            rw [hs0]
            exact hb
        · intro y
          have he := hent y
          rcases hcases with ⟨p, next, rfl, -, hnv, hV⟩ | ⟨cell, rfl, -, hV⟩ | ⟨rfl, -, -, hV⟩
          · simp only [enterCount]
            by_cases e : next = y
            · subst e
              rw [if_pos ((hV next).mpr (Or.inl rfl))] at he
              rw [if_neg hnv, if_pos rfl]
              omega
            · rw [if_neg e]
              have e' : ¬ y = next := fun x => e x.symm
              by_cases hv : visitedAt (markedGrid s.maze) y
              · rw [if_pos ((hV y).mpr (Or.inr hv))] at he
                rw [if_pos hv]
                omega
              · rw [if_neg (fun x => ((hV y).mp x).elim e' hv)] at he
                rw [if_neg hv]
                omega
          · simp only [enterCount]
            rw [← he]
            by_cases hv : visitedAt (markedGrid s.maze) y
            · rw [if_pos hv, if_pos ((hV y).mpr hv)]
            · rw [if_neg hv, if_neg (fun x => hv ((hV y).mp x))]
          · simp only [enterCount]
            rw [← he]
            by_cases hv : visitedAt (markedGrid s.maze) y
            · rw [if_pos hv, if_pos ((hV y).mpr hv)]
            · rw [if_neg hv, if_neg (fun x => hv ((hV y).mp x))]

/-- C31 (corrected). During a generation run to completion (the loop of `Game.setupMaze` on a
freshly set-up `R x C` maze, with at least `2 * R * C` random choices supplied), for every
grid and every sequence of random choices: the run ends with the flag set and the stack
empty; every cell is popped from the backtracking stack exactly as often as it is pushed onto
it, where a push of a cell is recorded once for each forward step taken from it; and every
cell other than the start cell `(0, 0)` in the part of the grid the walk covers (all of it
when `C <= R`, else the first `R` columns) is advanced to by exactly one forward step, the
start cell and the cells outside that part by none. -/
theorem every_cell_is_popped_as_often_as_pushed (R C : Nat) (s0 : State)
    (h : freshState R C = some s0) (rnds : List Nat) (hlen : 2 * R * C ≤ rnds.length) :
    ∃ s ops, generateOps s0 rnds = some (s, ops) ∧
      generateLoop s0 rnds = some (s, ops.length) ∧
      s.mazeGenerationComplete = true ∧ s.maze.stack = [] ∧
      (∀ x, popCount x ops = pushCount x ops) ∧
      ∀ y, enterCount y ops = if y ≠ (0, 0) ∧ inGrid R (min C R) y then 1 else 0 := by
  obtain ⟨hR, hC⟩ := freshState_pos h
  rw [freshState_eq hR hC] at h
  cases Option.some.inj h
  have hinv := initialState_tree hR hC
  have hpos : 1 ≤ R * C := Nat.mul_pos hR hC
  have hvc : 1 ≤ visitedCount R C (markedGrid (initialState R C).maze) := by
    have := hinv.core.count
    omega
  have hm : genMeasure R C (initialState R C) + 1 ≤ 2 * R * C := by
    unfold genMeasure
    have hst : (initialState R C).maze.stack.length = 0 := rfl
    rw [hst, Nat.mul_assoc]
    omega
  obtain ⟨s, k, hloop, hdone, -, hrun⟩ :=
    generateLoop_terminates (2 * R * C) _ rnds hinv hm hlen
  obtain ⟨ops, hops, hl, hbal, hent, hlast⟩ := generateOps_spec rnds hinv hloop
  obtain ⟨s2, hrun2, hwide⟩ := runDraws_wide (rnds.take k) (initialState_wide hR hC)
  rw [hrun] at hrun2
  cases Option.some.inj hrun2
  obtain ⟨hst, hall⟩ := hwide.flag hdone
  obtain ⟨c, hc, hcv⟩ := hlast rfl
  obtain ⟨c', hc', hb1, hb2⟩ := hwide.basic.cur
  rw [hc] at hc'
  cases Option.some.inj hc'
  obtain ⟨cc, hcc, -, -⟩ := hwide.basic.grid.cellAt_some hb1 hb2
  have hV : ∀ q, visitedAt (markedGrid s.maze) q ↔ visitedAt s.maze.grid q := by
    intro q
    rw [markedGrid_eq _ c hc, visitedAt_mark hcc]
    constructor
    · rintro (e | e)
      · rw [e]; exact hcv
      · exact e
    · exact Or.inr
  have hfin : ∀ y, visitedAt (markedGrid s.maze) y ↔ inGrid R (min C R) y := by
    intro y
    constructor
    · intro hy
      refine ⟨?_, hwide.narrow y hy⟩
      have hy' := (hV y).mp hy
      unfold visitedAt fieldAt at hy'
      cases hcell : cellAt s.maze.grid y with
      | none => rw [hcell] at hy'; cases hy'
      | some d => exact (hwide.basic.grid.cellAt_bound hcell).1
    · intro hy
      exact (hV y).mpr (hall y hy)
  have hini : ∀ y, visitedAt (markedGrid (initialState R C).maze) y ↔ y = (0, 0) := by
    intro y
    obtain ⟨c0, hc0, -, -⟩ := hinv.basic.grid.cellAt_some (show 0 < R by omega)
      (show 0 < C by omega)
    rw [markedGrid_eq _ (0, 0) rfl, visitedAt_mark hc0]
    constructor
    · rintro (e | e)
      · exact e
      · exact absurd e (not_visitedAt_freshGrid R C y)
    · exact Or.inl
  refine ⟨s, ops, hops, by rw [hl]; exact hloop, hdone, hst, ?_, ?_⟩
  · intro x
    have hb := hbal x
    rw [hst] at hb
    have h0 : (initialState R C).maze.stack = [] := rfl
    rw [h0] at hb
    simp only [List.count_nil, Nat.add_zero] at hb
    exact hb.symm
  · intro y
    have he := hent y
    have horigin : inGrid R (min C R) (0, 0) := ⟨by show 0 < R; omega, by
      show 0 < min C R
      exact Nat.lt_min.mpr ⟨by omega, by omega⟩⟩
    by_cases e : y = (0, 0)
    · rw [if_pos ((hini y).mpr e), if_pos ((hfin y).mpr (by rw [e]; exact horigin))] at he
      rw [if_neg (fun x => x.1 e)]
      omega
    · rw [if_neg (fun x => e ((hini y).mp x))] at he
      by_cases hy : inGrid R (min C R) y
      · rw [if_pos ((hfin y).mpr hy)] at he
        rw [if_pos ⟨e, hy⟩]
        omega
      · rw [if_neg (fun x => hy ((hfin y).mp x))] at he
        rw [if_neg (fun x => hy x.2)]
        omega

theorem every_cell_is_popped_as_often_as_pushed_witness :
    freshState 3 2 = some (initialState 3 2) ∧
    ∃ s ops, generateOps (initialState 3 2) [0, 1, 0, 0, 0, 0, 0, 0, 0, 0, 0, 0] = some (s, ops) ∧
      generateLoop (initialState 3 2) [0, 1, 0, 0, 0, 0, 0, 0, 0, 0, 0, 0]
        = some (s, ops.length) ∧
      s.mazeGenerationComplete = true ∧ s.maze.stack = [] ∧
      (∀ x, popCount x ops = pushCount x ops) ∧
      ∀ y, enterCount y ops = if y ≠ (0, 0) ∧ inGrid 3 (min 2 3) y then 1 else 0 :=
  ⟨freshState_eq (by decide) (by decide),
    every_cell_is_popped_as_often_as_pushed 3 2 (initialState 3 2)
      (freshState_eq (by decide) (by decide)) [0, 1, 0, 0, 0, 0, 0, 0, 0, 0, 0, 0] (by decide)⟩

/-- On the 3 x 2 maze generated with the choices `0, 1, 0, 0, ...` the run completes, the
cell `(1, 1)` is pushed twice and popped twice, and the cells `(0, 1)` and `(2, 0)` (dead
ends) are never pushed and never popped. -/
theorem dead_end_is_never_pushed_and_branch_cell_twice :
    ∃ r, generateOps (initialState 3 2) [0, 1, 0, 0, 0, 0, 0, 0, 0, 0, 0, 0] = some r ∧
      r.1.mazeGenerationComplete = true ∧
      pushCount (1, 1) r.2 = 2 ∧ popCount (1, 1) r.2 = 2 ∧
      pushCount (0, 1) r.2 = 0 ∧ popCount (0, 1) r.2 = 0 ∧
      pushCount (2, 0) r.2 = 0 ∧ popCount (2, 0) r.2 = 0 := by
  decide

/-! ## A cycle over pairwise different cells -/

theorem chosen_wall (g : Grid) (index : Nat) (c : Cell) (v : Nat) :
    (chosen g index c).wall v = c.wall v := by
  unfold chosen
  split
  · rw [setIsRotating_wall, setWallToRotate_wall]
  · rfl

theorem chosen_turning (g : Grid) {index : Nat} {c : Cell} (h : c.turning index) :
    (chosen g index c).turning index := by
  intro v hv
  rw [chosen_wall]
  by_cases h0 : index = 0
  · subst h0
    obtain ⟨a, b⟩ := h v hv
    refine ⟨a, ?_⟩
    rw [b]
    split <;> split <;> rfl
  · have : chosen g index c = c := by unfold chosen; rw [if_neg h0]
    rw [this]
    exact h v hv

theorem ownStep_eq (g : Grid) (index : Nat) (c : Cell) :
    ownStep g index c =
      (fun c2 => if index > 44 then Cell.setIsRotating false c2 else c2)
        (match (chosen g index c).wallToRotate with
          | some w =>
            if w < 4 then
              if ((chosen g index c).wall w).theta < ((chosen g index c).wall w).maxTheta then
                Cell.advance w (chosen g index c)
              else Cell.setIsRotating false (Cell.finish w (chosen g index c))
            else chosen g index c
          | none => chosen g index c) := by
  unfold ownStep chosen
  split <;> rfl

theorem turning_setIsRotating {k : Nat} {c : Cell} (b : Bool) (h : c.turning k) :
    (Cell.setIsRotating b c).turning k := by
  intro v hv
  rw [setIsRotating_wall]
  exact h v hv

theorem turning_idle {k j : Nat} {c : Cell} (h : c.turning k)
    (hw : ∀ w, c.wallToRotate = some w → ¬ w < 4) : c.turning j := by
  intro v hv
  obtain ⟨a, b⟩ := h v hv
  refine ⟨a, ?_⟩
  rw [b, if_neg (fun e => hw v e hv), if_neg (fun e => hw v e hv)]

/-- The run of the `forEach` body on a cell selected once, in the tick `index` of a cycle
that started at rest: the wall in effect is advanced in the ticks `0..44` and completed in
tick 45, so the flags of the cell change in tick 45 only. -/
theorem ownStep_turning (g : Grid) {index : Nat} (hi : index ≤ 45) {c : Cell}
    (hc : c.turning index) :
    (ownStep g index c).turning (afterTick index) ∧
    (ownStep g index c).wallToRotate = (chosen g index c).wallToRotate ∧
    ∀ v, v < 4 → ((ownStep g index c).wall v).isShown =
      match (chosen g index c).wallToRotate with
      | some w =>
        if w < 4 ∧ index = 45 then
          (if v = w then false else if v = intoWall w then true else (c.wall v).isShown)
        else (c.wall v).isShown
      | none => (c.wall v).isShown := by
  have h1 := chosen_turning g hc
  have hwall := chosen_wall g index c
  rw [ownStep_eq]
  generalize chosen g index c = c1 at h1 hwall
  have hmid : ∀ X : Cell, X = (match c1.wallToRotate with
      | some w =>
        if w < 4 then
          if (c1.wall w).theta < (c1.wall w).maxTheta then Cell.advance w c1
          else Cell.setIsRotating false (Cell.finish w c1)
        else c1
      | none => c1) →
      X.turning (afterTick index) ∧ X.wallToRotate = c1.wallToRotate ∧
      ∀ v, v < 4 → (X.wall v).isShown =
        match c1.wallToRotate with
        | some w =>
          if w < 4 ∧ index = 45 then
            (if v = w then false else if v = intoWall w then true else (c.wall v).isShown)
          else (c.wall v).isShown
        | none => (c.wall v).isShown := by
    intro X hX
    cases hw : c1.wallToRotate with
    | none =>
      rw [hw] at hX
      simp only at hX
      subst hX
      exact ⟨turning_idle h1 (fun w e => by rw [hw] at e; cases e), hw,
        fun v _ => by rw [hwall]⟩
    | some w =>
      rw [hw] at hX
      simp only at hX
      by_cases h4 : w < 4
      · rw [if_pos h4] at hX
        obtain ⟨hmax, hth⟩ := h1 w h4
        rw [if_pos hw] at hth
        by_cases h45 : index = 45
        · subst h45
          rw [if_neg (by rw [hth, hmax]; omega)] at hX
          subst hX
          refine ⟨turning_setIsRotating false ?_, ?_, ?_⟩
          · intro v hv
            obtain ⟨a, b⟩ := h1 v hv
            rw [finish_wall h4 hv]
            have hz : afterTick 45 = 0 := rfl
            rw [hz]
            by_cases e : v = w
            · subst e
              rw [if_pos rfl]
              refine ⟨a, ?_⟩
              show restTheta v = _
              split <;> rfl
            · rw [if_neg e]
              have hne : ¬ c1.wallToRotate = some v := by
                rw [hw]; intro e'; exact e (Option.some.inj e').symm
              rw [if_neg hne] at b
              by_cases e2 : v = intoWall w
              · rw [if_pos e2]
                refine ⟨a, ?_⟩
                show restTheta v = _
                split <;> rfl
              · rw [if_neg e2]
                refine ⟨a, ?_⟩
                rw [b]
                split <;> rfl
          · show (Cell.finish w c1).wallToRotate = _
            rw [(finish_fields w c1).1, hw]
          · intro v hv
            rw [setIsRotating_wall, finish_wall h4 hv]
            simp only [h4, and_self, if_true]
            by_cases e : v = w
            · rw [if_pos e, if_pos e]
            · rw [if_neg e, if_neg e]
              by_cases e2 : v = intoWall w
              · rw [if_pos e2, if_pos e2]
              · rw [if_neg e2, if_neg e2, hwall]
        · rw [if_pos (by rw [hth, hmax]; omega)] at hX
          subst hX
          have haft : afterTick index = index + 1 := by unfold afterTick; rw [if_neg h45]
          refine ⟨?_, ?_, ?_⟩
          · intro v hv
            obtain ⟨a, b⟩ := h1 v hv
            rw [advance_wall h4 hv, (advance_fields w c1).1, haft]
            by_cases e : v = w
            · subst e
              rw [if_pos rfl, if_pos hw]
              refine ⟨a, ?_⟩
              show (c1.wall v).theta + 2 = _
              rw [hth]
              omega
            · rw [if_neg e]
              have hne : ¬ c1.wallToRotate = some v := by
                rw [hw]; intro e'; exact e (Option.some.inj e').symm
              rw [if_neg hne] at b ⊢
              exact ⟨a, b⟩
          · rw [(advance_fields w c1).1, hw]
          · intro v hv
            rw [advance_wall h4 hv]
            simp only [h45, and_false, if_false]
            by_cases e : v = w
            · subst e
              rw [if_pos rfl, ← hwall]
            · rw [if_neg e, hwall]
      · rw [if_neg h4] at hX
        subst hX
        refine ⟨turning_idle h1 (fun w' e => by
            rw [hw] at e; cases Option.some.inj e; exact h4), hw, ?_⟩
        intro v _
        simp only [h4, false_and, if_false]
        rw [hwall]
  obtain ⟨a, b, d⟩ := hmid _ rfl
  refine ⟨?_, ?_, ?_⟩
  · show (if index > 44 then Cell.setIsRotating false _ else _).turning _
    split
    · exact turning_setIsRotating false a
    · exact a
  · show (if index > 44 then Cell.setIsRotating false _ else _).wallToRotate = _
    split
    · exact b
    · exact b
  · intro v hv
    rw [← d v hv]
    show ((if index > 44 then Cell.setIsRotating false _ else _).wall v).isShown = _
    split
    · rw [setIsRotating_wall]
    · rfl

theorem nbrEffect_angles (n : Nat) (p : Ref) (c1 : Cell) (x : Ref) (d : Cell) (v : Nat) :
    ((nbrEffect n p c1 x d).wall v).theta = (d.wall v).theta ∧
      ((nbrEffect n p c1 x d).wall v).maxTheta = (d.wall v).maxTheta := by
  unfold nbrEffect
  cases c1.wallToRotate with
  | none => exact ⟨rfl, rfl⟩
  | some w =>
    dsimp only
    by_cases h4 : w < 4
    · rw [if_pos h4]
      by_cases h1 : x = nbrRef p w
      · rw [if_pos h1]; exact setShown_angles _ _ _ _
      · rw [if_neg h1]
        split
        · exact setShown_angles _ _ _ _
        · exact ⟨rfl, rfl⟩
    · rw [if_neg h4]; exact ⟨rfl, rfl⟩

theorem chosen_valid {n : Nat} {g : Grid} (hg : GridOK n n g) {p : Ref} {c : Cell}
    (hp : cellAt g p = some c) {index : Nat} (hv : index ≠ 0 → validWall n p c.wallToRotate) :
    validWall n p (chosen g index c).wallToRotate ∧
      (index ≠ 0 → (chosen g index c).wallToRotate = c.wallToRotate) := by
  unfold chosen
  by_cases h0 : index = 0
  · rw [if_pos h0]
    refine ⟨?_, fun h => absurd h0 h⟩
    intro w hw _
    exact (select_valid hg hp hw).2.1
  · rw [if_neg h0]
    exact ⟨hv h0, fun _ => rfl⟩

/-- One run of the `forEach` body for a cell that is selected once, in the tick `index` of a
cycle that started at rest, on a well-formed square grid: no TypeError; the cell is one call
further; no other cell changes its angles or its `wallToRotate`; and the `isShown` flags
change as follows: an advancing call (ticks `0..44`) hides the neighbour's copy of the wall
being rotated, the completing call (tick 45) sets the four flags of a completed rotation. -/
theorem rotateCell_turn {n : Nat} {g : Grid} (hg : GridOK n n g) {p : Ref} {c : Cell}
    (hp : cellAt g p = some c) {index : Nat} (hi : index ≤ 45)
    (hv : index ≠ 0 → validWall n p c.wallToRotate) (ht : c.turning index) :
    ∃ g' c', rotateCell index g p = some g' ∧ GridOK n n g' ∧ cellAt g' p = some c' ∧
      c'.turning (afterTick index) ∧ validWall n p c'.wallToRotate ∧
      (index ≠ 0 → c'.wallToRotate = c.wallToRotate) ∧
      (∀ x, x ≠ p → ∀ d, cellAt g x = some d → ∃ d', cellAt g' x = some d' ∧
        d'.wallToRotate = d.wallToRotate ∧ ∀ k, d.turning k → d'.turning k) ∧
      ∀ x v, v < 4 → inGrid n n x → shownAt g' x v =
        match c'.wallToRotate with
        | some w =>
          if w < 4 then
            if index = 45 then shownAfter n p w (shownAt g) x v
            else if x = nbrRef p w ∧ v = facingWall w then some false else shownAt g x v
          else shownAt g x v
        | none => shownAt g x v := by
  obtain ⟨g', hrot, hok, hown, hoth⟩ := rotateCell_spec hg hp index hv
  obtain ⟨t1, t2, t3⟩ := ownStep_turning g hi ht
  obtain ⟨hvalid, hsame⟩ := chosen_valid hg hp hv
  have hc1 := chosen_turning g ht
  refine ⟨g', ownStep g index c, hrot, hok, hown, t1, by rw [t2]; exact hvalid,
    fun h0 => by rw [t2]; exact hsame h0, ?_, ?_⟩
  · intro x hx d hd
    refine ⟨nbrEffect n p (chosen g index c) x d, by rw [hoth x hx, hd]; rfl,
      nbrEffect_wallToRotate _ _ _ _ _, ?_⟩
    intro k hk v hv4
    obtain ⟨a, b⟩ := hk v hv4
    obtain ⟨e1, e2⟩ := nbrEffect_angles n p (chosen g index c) x d v
    rw [e1, e2, nbrEffect_wallToRotate]
    exact ⟨a, b⟩
  · intro x v hv4 hx
    obtain ⟨d, hd0, -, -⟩ := hg.cellAt_some hx.1 hx.2
    have hd : cellAt g x = some d := hd0
    rw [t2]
    have hshown : ∀ (y : Ref) (e : Cell), cellAt g y = some e →
        shownAt g y v = some (e.wall v).isShown := by
      intro y e he; unfold shownAt fieldAt; rw [he]; rfl
    by_cases e : x = p
    · subst e
      rw [hp] at hd
      cases Option.some.inj hd
      have hs' : shownAt g' x v = some ((ownStep g index c).wall v).isShown := by
        unfold shownAt fieldAt; rw [hown]; rfl
      rw [hs', t3 v hv4, hshown x c hp]
      cases hw : (chosen g index c).wallToRotate with
      | none => rfl
      | some w =>
        simp only
        by_cases h4 : w < 4
        · have hnb := hvalid w hw h4
          have hne := nbrRef_ne_self hnb
          rw [if_pos h4]
          by_cases h45 : index = 45
          · rw [if_pos ⟨h4, h45⟩, if_pos h45]
            unfold shownAfter
            by_cases e1 : v = w
            · rw [if_pos e1, if_pos (show x = x ∧ v = w from ⟨rfl, e1⟩)]
            · rw [if_neg e1, if_neg (show ¬ (x = x ∧ v = w) from fun hh => e1 hh.2)]
              by_cases e2 : v = intoWall w
              · rw [if_pos e2, if_pos (show x = x ∧ v = intoWall w from ⟨rfl, e2⟩)]
              · have n2 : ¬ (x = x ∧ v = intoWall w) := fun hh => e2 hh.2
                have n3 : ¬ (x = nbrRef x w ∧ v = facingWall w) := fun hh => hne hh.1.symm
                have n4 : ¬ (hasNbr n x (intoWall w) ∧ x = nbrRef x (intoWall w)
                    ∧ v = facingWall (intoWall w)) :=
                  fun hh => nbrRef_ne_self hh.1 hh.2.1.symm
                rw [if_neg e2, if_neg n2, if_neg n3, if_neg n4, hshown x c hp]
          · rw [if_neg (fun hh => h45 hh.2), if_neg h45,
              if_neg (show ¬ (x = nbrRef x w ∧ v = facingWall w) from fun hh => hne hh.1.symm)]
        · rw [if_neg (fun hh => h4 hh.1), if_neg h4]
    · have hs' : shownAt g' x v
          = some ((nbrEffect n p (chosen g index c) x d).wall v).isShown := by
        unfold shownAt fieldAt; rw [hoth x e, hd]; rfl
      rw [hs', hshown x d hd]
      unfold nbrEffect
      cases hw : (chosen g index c).wallToRotate with
      | none => rfl
      | some w =>
        simp only
        by_cases h4 : w < 4
        · have hnb := hvalid w hw h4
          obtain ⟨hi4, -⟩ := intoWall_lt h4
          obtain ⟨hmax, hth⟩ := hc1 w h4
          rw [if_pos hw] at hth
          rw [if_pos h4, if_pos h4]
          have n1 : ¬ (x = p ∧ v = w) := fun hh => e hh.1
          have n2 : ¬ (x = p ∧ v = intoWall w) := fun hh => e hh.1
          by_cases e1 : x = nbrRef p w
          · rw [if_pos e1, setShown_wall (facingWall_lt h4).1 hv4]
            by_cases e2 : v = facingWall w
            · rw [if_pos e2]
              by_cases h45 : index = 45
              · rw [if_pos h45]
                unfold shownAfter
                rw [if_neg n1, if_neg n2,
                  if_pos (show x = nbrRef p w ∧ v = facingWall w from ⟨e1, e2⟩)]
              · rw [if_neg h45, if_pos (show x = nbrRef p w ∧ v = facingWall w from ⟨e1, e2⟩)]
            · rw [if_neg e2]
              have n3 : ¬ (x = nbrRef p w ∧ v = facingWall w) := fun hh => e2 hh.2
              by_cases h45 : index = 45
              · rw [if_pos h45]
                unfold shownAfter
                have n4 : ¬ (hasNbr n p (intoWall w) ∧ x = nbrRef p (intoWall w)
                    ∧ v = facingWall (intoWall w)) :=
                  fun hh => nbrRef_into_ne h4 hnb hh.1 (hh.2.1.symm.trans e1)
                rw [if_neg n1, if_neg n2, if_neg n3, if_neg n4, hshown x d hd]
              · rw [if_neg h45, if_neg n3]
          · rw [if_neg e1]
            have n3 : ¬ (x = nbrRef p w ∧ v = facingWall w) := fun hh => e1 hh.1
            by_cases h45 : index = 45
            · rw [if_pos h45]
              have hlt : ¬ ((chosen g index c).wall w).theta
                  < ((chosen g index c).wall w).maxTheta := by
                rw [hth, hmax, h45]; omega
              unfold shownAfter
              rw [if_neg n1, if_neg n2, if_neg n3]
              by_cases e2 : x = nbrRef p (intoWall w) ∧ hasNbr n p (intoWall w)
              · rw [if_pos ⟨hlt, e2.1, e2.2⟩, setShown_wall (facingWall_lt hi4).1 hv4]
                by_cases e3 : v = facingWall (intoWall w)
                · rw [if_pos e3, if_pos (show hasNbr n p (intoWall w) ∧
                    x = nbrRef p (intoWall w) ∧ v = facingWall (intoWall w) from
                    ⟨e2.2, e2.1, e3⟩)]
                · have n4 : ¬ (hasNbr n p (intoWall w) ∧ x = nbrRef p (intoWall w)
                      ∧ v = facingWall (intoWall w)) := fun hh => e3 hh.2.2
                  rw [if_neg e3, if_neg n4, hshown x d hd]
              · have n4 : ¬ (hasNbr n p (intoWall w) ∧ x = nbrRef p (intoWall w)
                    ∧ v = facingWall (intoWall w)) := fun hh => e2 ⟨hh.2.1, hh.1⟩
                rw [if_neg (fun hh => e2 ⟨hh.2.1, hh.2.2⟩), if_neg n4, hshown x d hd]
                rfl
            · have hlt : ((chosen g index c).wall w).theta
                  < ((chosen g index c).wall w).maxTheta := by
                rw [hth, hmax]; omega
              rw [if_neg h45, if_neg n3, if_neg (fun hh => hh.1 hlt)]
              rfl
        · rw [if_neg h4, if_neg h4]
          rfl

theorem shownAfter_touched {n : Nat} {p : Ref} {w : Nat} {a : Ref} {b : Nat}
    (h : Touched n p w a b) (old old' : Ref → Nat → Option Bool) :
    shownAfter n p w old a b = shownAfter n p w old' a b := by
  unfold shownAfter
  by_cases c1 : a = p ∧ b = w
  · rw [if_pos c1, if_pos c1]
  · rw [if_neg c1, if_neg c1]
    by_cases c2 : a = p ∧ b = intoWall w
    · rw [if_pos c2, if_pos c2]
    · rw [if_neg c2, if_neg c2]
      by_cases c3 : a = nbrRef p w ∧ b = facingWall w
      · rw [if_pos c3, if_pos c3]
      · rw [if_neg c3, if_neg c3]
        by_cases c4 : hasNbr n p (intoWall w) ∧ a = nbrRef p (intoWall w) ∧
            b = facingWall (intoWall w)
        · rw [if_pos c4, if_pos c4]
        · rcases h with h | h | h | h
          · exact absurd h c1
          · exact absurd h c2
          · exact absurd h c3
          · exact absurd h c4

theorem shownAfter_untouched {n : Nat} {p : Ref} {w : Nat} {a : Ref} {b : Nat}
    (h : ¬ Touched n p w a b) (old : Ref → Nat → Option Bool) :
    shownAfter n p w old a b = old a b := by
  unfold shownAfter
  rw [if_neg (fun c => h (Or.inl c)), if_neg (fun c => h (Or.inr (Or.inl c))),
    if_neg (fun c => h (Or.inr (Or.inr (Or.inl c)))),
    if_neg (fun c => h (Or.inr (Or.inr (Or.inr c))))]

/-- The wall facing a written wall is written too. -/
theorem touched_partner {n : Nat} {p : Ref} {w : Nat} (hw : w < 4) (hnbw : hasNbr n p w)
    {a : Ref} {b : Nat} (hab : hasNbr n a b) (h : Touched n p w a b) :
    Touched n p w (nbrRef a b) (facingWall b) := by
  obtain ⟨hi4, -⟩ := intoWall_lt hw
  rcases h with ⟨rfl, rfl⟩ | ⟨rfl, rfl⟩ | ⟨rfl, rfl⟩ | ⟨hh, rfl, rfl⟩
  · exact Or.inr (Or.inr (Or.inl ⟨rfl, rfl⟩))
  · exact Or.inr (Or.inr (Or.inr ⟨hab, rfl, rfl⟩))
  · exact Or.inl ⟨nbrRef_invol hw hnbw, (facingWall_lt hw).2⟩
  · exact Or.inr (Or.inl ⟨nbrRef_invol hi4 hh, (facingWall_lt hi4).2⟩)

/-- The run of one more cell inside a tick keeps the invariant of the tick. -/
theorem tick_step {n index : Nat} (hi : index ≤ 45) {done todo : List Ref} {p : Ref} {g : Grid}
    (h : TickInv n index done (p :: todo) g) (hin : inGrid n n p) (hpd : p ∉ done)
    (hpt : p ∉ todo) :
    ∃ g', rotateCell index g p = some g' ∧ TickInv n index (done ++ [p]) todo g' := by
  obtain ⟨c, hc0, -, -⟩ := h.grid.cellAt_some hin.1 hin.2
  have hc : cellAt g p = some c := hc0
  have ht := h.todoTurn p (List.mem_cons_self _ _) c hc
  have hv : index ≠ 0 → validWall n p c.wallToRotate :=
    fun h0 => h.todoValid h0 p (List.mem_cons_self _ _) c hc
  obtain ⟨g', c', hrot, hok, hc', t1, v1, wsame, hoth, hshown⟩ :=
    rotateCell_turn h.grid hc hi hv ht
  have hback : ∀ y, y ≠ p → ∀ d', cellAt g' y = some d' →
      ∃ d, cellAt g y = some d ∧ d'.wallToRotate = d.wallToRotate ∧
        ∀ k, d.turning k → d'.turning k := by
    intro y hy d' hd'
    obtain ⟨y1, y2, -, -⟩ := hok.cellAt_bound hd'
    obtain ⟨d, hd0, -, -⟩ := h.grid.cellAt_some y1 y2
    have hd : cellAt g y = some d := hd0
    obtain ⟨d'', hd'', e1, e2⟩ := hoth y hy d hd
    rw [hd'] at hd''
    cases Option.some.inj hd''
    exact ⟨d, hd, e1, e2⟩
  refine ⟨g', hrot, ⟨hok, ?_, ?_, ?_, ?_, ?_, ?_⟩⟩
  · intro y hy d' hd'
    obtain ⟨d, hd, -, e2⟩ := hback y (fun e => hpt (e ▸ hy)) d' hd'
    exact e2 _ (h.todoTurn y (List.mem_cons_of_mem _ hy) d hd)
  · intro y hy d' hd'
    rcases List.mem_append.mp hy with hy | hy
    · obtain ⟨d, hd, -, e2⟩ := hback y (fun e => hpd (e ▸ hy)) d' hd'
      exact e2 _ (h.doneTurn y hy d hd)
    · cases List.mem_singleton.mp hy
      rw [hc'] at hd'
      cases Option.some.inj hd'
      exact t1
  · intro y hyd hyt d' hd'
    have hyp : y ≠ p := fun e => hyd (List.mem_append.mpr (Or.inr (List.mem_singleton.mpr e)))
    obtain ⟨d, hd, -, e2⟩ := hback y hyp d' hd'
    refine e2 _ (h.restTurn y (fun e => hyd (List.mem_append.mpr (Or.inl e))) ?_ d hd)
    intro e
    rcases List.mem_cons.mp e with e | e
    · exact hyp e
    · exact hyt e
  · intro h0 y hy d' hd'
    obtain ⟨d, hd, e1, -⟩ := hback y (fun e => hpt (e ▸ hy)) d' hd'
    rw [e1]
    exact h.todoValid h0 y (List.mem_cons_of_mem _ hy) d hd
  · intro y hy d' hd'
    rcases List.mem_append.mp hy with hy | hy
    · obtain ⟨d, hd, e1, -⟩ := hback y (fun e => hpd (e ▸ hy)) d' hd'
      rw [e1]
      exact h.doneValid y hy d hd
    · cases List.mem_singleton.mp hy
      rw [hc'] at hd'
      cases Option.some.inj hd'
      exact v1
  · intro x v hv4 hx hnb
    have hx' := nbrRef_inGrid hx hnb
    have hv' := (facingWall_lt hv4).1
    have hnb' := hasNbr_back hv4 hx hnb
    have hinv := nbrRef_invol hv4 hnb
    have hff := (facingWall_lt hv4).2
    have hown : ∀ y, y ≠ p → Owns n g y x v → Owns n g' y x v := by
      rintro y hy ⟨cy, w0, hcy, hw0, h40, hnb0, hpos⟩
      obtain ⟨d', hd', hwd, -⟩ := hoth y hy cy hcy
      exact ⟨d', w0, hd', by rw [hwd]; exact hw0, h40, hnb0, hpos⟩
    have carry : shownAt g' x v = shownAt g x v →
        shownAt g' (nbrRef x v) (facingWall v) = shownAt g (nbrRef x v) (facingWall v) →
        (index ≠ 0 → ¬ Owns n g p x v) →
        shownAt g' x v = shownAt g' (nbrRef x v) (facingWall v) ∨
          (index ≠ 0 ∧ ∃ y, y ∈ todo ∧ Owns n g' y x v) ∨
          (index ≠ 45 ∧ ∃ y, y ∈ done ++ [p] ∧ Owns n g' y x v) := by
      intro e1 e2 hnot
      rcases h.pairs x v hv4 hx hnb with ha | ⟨h0, y, hy, ho⟩ | ⟨h45, y, hy, ho⟩
      · left; rw [e1, e2]; exact ha
      · rcases List.mem_cons.mp hy with e | hy
        · subst e; exact absurd ho (hnot h0)
        · exact Or.inr (Or.inl ⟨h0, y, hy, hown y (fun e => hpt (e ▸ hy)) ho⟩)
      · exact Or.inr (Or.inr ⟨h45, y, List.mem_append.mpr (Or.inl hy),
          hown y (fun e => hpd (e ▸ hy)) ho⟩)
    have hsx := hshown x v hv4 hx
    have hsx' := hshown (nbrRef x v) (facingWall v) hv' hx'
    cases hw : c'.wallToRotate with
    | none =>
      rw [hw] at hsx hsx'
      refine carry hsx hsx' ?_
      rintro h0 ⟨cy, w0, hcy, hw0, h40, -⟩
      rw [hc] at hcy
      cases Option.some.inj hcy
      rw [← wsame h0, hw] at hw0
      cases hw0
    | some w =>
      rw [hw] at hsx hsx'
      simp only at hsx hsx'
      by_cases h4 : w < 4
      · rw [if_pos h4] at hsx hsx'
        have hnbw : hasNbr n p w := v1 w hw h4
        have hfw := facingWall_lt h4
        obtain ⟨hi4, -⟩ := intoWall_lt h4
        have hfi := facingWall_lt hi4
        have hP : ∀ a b, (a = p ∧ b = w) ∨ (a = nbrRef p w ∧ b = facingWall w) →
            Owns n g' p a b := fun a b hab => ⟨c', w, hc', hw, h4, hnbw, hab⟩
        have hnotP : ¬ ((x = p ∧ v = w) ∨ (x = nbrRef p w ∧ v = facingWall w)) →
            index ≠ 0 → ¬ Owns n g p x v := by
          rintro hn h0 ⟨cy, w0, hcy, hw0, -, -, hpos⟩
          rw [hc] at hcy
          cases Option.some.inj hcy
          rw [← wsame h0, hw] at hw0
          cases Option.some.inj hw0
          exact hn hpos
        by_cases h45 : index = 45
        · rw [if_pos h45] at hsx hsx'
          by_cases hTx : Touched n p w x v
          · left
            rw [hsx, hsx', shownAfter_touched hTx _ (fun _ _ => none),
              shownAfter_touched (touched_partner h4 hnbw hnb hTx) _ (fun _ _ => none)]
            exact shownAfter_pairsAgree h4 hin hnbw (fun _ _ => none)
              (fun _ _ _ _ _ => rfl) x v hv4 hx hnb
          · have hTx' : ¬ Touched n p w (nbrRef x v) (facingWall v) := by
              intro hh
              have := touched_partner h4 hnbw hnb' hh
              rw [hinv, hff] at this
              exact hTx this
            refine carry (by rw [hsx, shownAfter_untouched hTx])
              (by rw [hsx', shownAfter_untouched hTx']) ?_
            refine hnotP (fun hh => hTx ?_)
            rcases hh with hh | hh
            · exact Or.inl hh
            · exact Or.inr (Or.inr (Or.inl hh))
        · rw [if_neg h45] at hsx hsx'
          by_cases hPx : (x = p ∧ v = w) ∨ (x = nbrRef p w ∧ v = facingWall w)
          · exact Or.inr (Or.inr ⟨h45, p,
              List.mem_append.mpr (Or.inr (List.mem_singleton.mpr rfl)), hP x v hPx⟩)
          · have n1 : ¬ (x = nbrRef p w ∧ v = facingWall w) := fun hh => hPx (Or.inr hh)
            have n2 : ¬ (nbrRef x v = nbrRef p w ∧ facingWall v = facingWall w) := by
              rintro ⟨a1, a2⟩
              apply hPx
              left
              have hvw : v = w := by rw [← hff, a2, hfw.2]
              refine ⟨?_, hvw⟩
              rw [← hinv, a1, a2]
              exact nbrRef_invol h4 hnbw
            rw [if_neg n1] at hsx
            rw [if_neg n2] at hsx'
            exact carry hsx hsx' (hnotP hPx)
      · rw [if_neg h4] at hsx hsx'
        refine carry hsx hsx' ?_
        rintro h0 ⟨cy, w0, hcy, hw0, h40, -⟩
        rw [hc] at hcy
        cases Option.some.inj hcy
        rw [← wsame h0, hw] at hw0
        cases Option.some.inj hw0
        exact h4 h40

/-- A whole tick over pairwise different cells keeps the invariant of the tick. -/
theorem tick_all {n index : Nat} (hi : index ≤ 45) (todo : List Ref) :
    ∀ (done : List Ref) {g : Grid}, TickInv n index done todo g →
      (∀ y, y ∈ todo → inGrid n n y) → (done ++ todo).Nodup →
      ∃ g', rotateCells index todo g = some g' ∧ TickInv n index (done ++ todo) [] g' := by
  induction todo with
  | nil =>
    intro done g h _ _
    refine ⟨g, rfl, ?_⟩
    rw [List.append_nil]
    exact h
  | cons p ps ih =>
    intro done g h hin hnd
    have hnd' : (done ++ [p] ++ ps).Nodup := by
      rw [List.append_assoc, List.singleton_append]; exact hnd
    have hpd : p ∉ done := by
      intro hp
      have := (List.nodup_append.mp hnd).2.2
      exact this hp (List.mem_cons_self _ _)
    have hpt : p ∉ ps := by
      have := (List.nodup_append.mp hnd).2.1
      exact (List.nodup_cons.mp this).1
    obtain ⟨g1, hrot1, h1⟩ := tick_step hi h (hin p (List.mem_cons_self _ _)) hpd hpt
    obtain ⟨g', hrot', h'⟩ := ih (done ++ [p]) h1
      (fun y hy => hin y (List.mem_cons_of_mem _ hy)) hnd'
    refine ⟨g', ?_, ?_⟩
    · simp only [rotateCells, hrot1, hrot']
    · rw [List.append_assoc, List.singleton_append] at h'
      exact h'

/-- The end of one tick is the start of the next. -/
theorem next_tick {n index : Nat} {l : List Ref} {g : Grid} (h : TickInv n index l [] g)
    (hi : index < 45) : TickInv n (index + 1) [] l g := by
  have haft : afterTick index = index + 1 := by
    unfold afterTick; rw [if_neg (by omega)]
  refine ⟨h.grid, ?_, ?_, ?_, ?_, ?_, ?_⟩
  · intro y hy c hc
    rw [← haft]
    exact h.doneTurn y hy c hc
  · intro y hy
    exact absurd hy (List.not_mem_nil y)
  · intro y _ hy c hc
    exact h.restTurn y hy (List.not_mem_nil y) c hc
  · intro _ y hy c hc
    exact h.doneValid y hy c hc
  · intro y hy
    exact absurd hy (List.not_mem_nil y)
  · intro x v hv hx hnb
    rcases h.pairs x v hv hx hnb with ha | ⟨-, y, hy, -⟩ | ⟨-, y, hy, ho⟩
    · exact Or.inl ha
    · exact absurd hy (List.not_mem_nil y)
    · exact Or.inr (Or.inl ⟨by omega, y, hy, ho⟩)

theorem turning_zero_iff (c : Cell) : c.turning 0 ↔ c.atRest := by
  constructor
  · intro h v hv
    obtain ⟨a, b⟩ := h v hv
    refine ⟨?_, a⟩
    rw [b]
    split <;> rfl
  · intro h v hv
    obtain ⟨a, b⟩ := h v hv
    refine ⟨b, ?_⟩
    rw [a]
    split <;> rfl

/-- A symmetric grid with every wall at rest satisfies the invariant at the start of tick 0. -/
theorem first_tick {n : Nat} {g : Grid} (hg : GridOK n n g) (hsym : Symmetric n n g)
    (hrest : ∀ x c, cellAt g x = some c → c.atRest) (l : List Ref) : TickInv n 0 [] l g := by
  refine ⟨hg, ?_, ?_, ?_, ?_, ?_, ?_⟩
  · intro y _ c hc
    exact (turning_zero_iff c).mpr (hrest y c hc)
  · intro y hy
    exact absurd hy (List.not_mem_nil y)
  · intro y _ _ c hc
    exact (turning_zero_iff c).mpr (hrest y c hc)
  · intro h0
    exact absurd rfl h0
  · intro y hy
    exact absurd hy (List.not_mem_nil y)
  · intro x v hv hx hnb
    exact Or.inl ((symmetric_iff_pairsAgree n g).mp hsym x v hv hx hnb)

/-- The ticks of a cycle over pairwise different cells, one after the other. -/
theorem ticks_inv {n : Nat} (m : Maze) (hg : GridOK n n m.grid) (hsym : Symmetric n n m.grid)
    (hrest : ∀ x c, cellAt m.grid x = some c → c.atRest)
    (hin : ∀ y, y ∈ m.cellsToRotate → inGrid n n y) (hnd : m.cellsToRotate.Nodup) :
    ∀ k, k ≤ 45 → ∃ m', rotateTicks (k + 1) m = some m' ∧
      m'.cellsToRotate = m.cellsToRotate ∧ TickInv n k m.cellsToRotate [] m'.grid := by
  intro k
  induction k with
  | zero =>
    intro _
    obtain ⟨g', hrot, h'⟩ := tick_all (Nat.zero_le 45) m.cellsToRotate []
      (first_tick hg hsym hrest m.cellsToRotate) hin (by rw [List.nil_append]; exact hnd)
    rw [List.nil_append] at h'
    refine ⟨{ m with grid := g' }, ?_, rfl, h'⟩
    simp only [rotateTicks, rotateCellWalls, hrot]
  | succ k ih =>
    intro hk
    obtain ⟨m1, hrun, hsel, h1⟩ := ih (by omega)
    obtain ⟨g', hrot, h'⟩ := tick_all hk m.cellsToRotate [] (next_tick h1 (by omega)) hin
      (by rw [List.nil_append]; exact hnd)
    rw [List.nil_append] at h'
    refine ⟨{ m1 with grid := g' }, ?_, hsel, h'⟩
    rw [rotateTicks, hrun]
    simp only [rotateCellWalls, hsel, hrot]

/-- On a well-formed square grid, from a symmetric state with all walls at rest, a cycle over
a selection of pairwise different cells (adjacent ones included) raises no TypeError, and
after the 46 calls `rotateCellWalls(0)`, ..., `rotateCellWalls(45)` the wall state is
symmetric again and every wall is back at its resting angle. -/
theorem cycle_over_different_cells_restores_symmetry {n : Nat} (m : Maze)
    (hg : GridOK n n m.grid) (hsym : Symmetric n n m.grid)
    (hrest : ∀ r, r < n → ∀ c, c < n → ∃ d, cellAt m.grid (r, c) = some d ∧ d.atRest)
    (hin : ∀ y, y ∈ m.cellsToRotate → inGrid n n y) (hnd : m.cellsToRotate.Nodup) :
    ∃ m', rotateTicks 46 m = some m' ∧ Symmetric n n m'.grid ∧
      ∀ x c, cellAt m'.grid x = some c → c.atRest := by
  have hrest' : ∀ x c, cellAt m.grid x = some c → c.atRest := by
    intro x c hc
    obtain ⟨x1, x2, -, -⟩ := hg.cellAt_bound hc
    obtain ⟨d, hd, hr⟩ := hrest x.1 x1 x.2 x2
    have hd' : cellAt m.grid x = some d := hd
    rw [hc] at hd'
    cases Option.some.inj hd'
    exact hr
  obtain ⟨m', hrun, -, h⟩ := ticks_inv m hg hsym hrest' hin hnd 45 (Nat.le_refl 45)
  refine ⟨m', hrun, (symmetric_iff_pairsAgree n m'.grid).mpr ?_, ?_⟩
  · intro x v hv hx hnb
    rcases h.pairs x v hv hx hnb with ha | ⟨-, y, hy, -⟩ | ⟨h45, -⟩
    · exact ha
    · exact absurd hy (List.not_mem_nil y)
    · exact absurd rfl h45
  · intro x c hc
    apply (turning_zero_iff c).mp
    by_cases hx : x ∈ m.cellsToRotate
    · exact h.doneTurn x hx c hc
    · exact h.restTurn x hx (List.not_mem_nil x) c hc

theorem cycle_over_different_cells_restores_symmetry_witness :
    ∃ s r, runDraws (initialState 3 3) [1, 0, 1, 0, 1, 0, 1, 0, 1, 0, 1, 0, 1, 0, 1, 0, 1, 0]
        = some s ∧
      selectCellsToRotate 3 s.maze [(1, 0), (0, 0), (1, 1), (0, 2), (2, 1), (0, 1)] = some r ∧
      r.1.cellsToRotate = [(1, 0), (0, 0), (1, 1), (0, 2), (2, 1), (0, 1)] ∧
      ∃ m', rotateTicks 46 r.1 = some m' ∧ Symmetric 3 3 m'.grid ∧
        ∀ x c, cellAt m'.grid x = some c → c.atRest := by
  have h : ∃ s, runDraws (initialState 3 3)
        [1, 0, 1, 0, 1, 0, 1, 0, 1, 0, 1, 0, 1, 0, 1, 0, 1, 0] = some s ∧
      ∃ r, selectCellsToRotate 3 s.maze [(1, 0), (0, 0), (1, 1), (0, 2), (2, 1), (0, 1)]
          = some r ∧
        r.1.cellsToRotate = [(1, 0), (0, 0), (1, 1), (0, 2), (2, 1), (0, 1)] ∧
        GridOK 3 3 r.1.grid ∧ Symmetric 3 3 r.1.grid ∧
        (∀ r', r' < 3 → ∀ c, c < 3 → ∃ d, cellAt r.1.grid (r', c) = some d ∧ d.atRest) ∧
        (∀ y, y ∈ r.1.cellsToRotate → inGrid 3 3 y) ∧ r.1.cellsToRotate.Nodup := by
    decide
  obtain ⟨s, hs, r, hr, h0, h1, h2, h3, h4, h5⟩ := h
  exact ⟨s, r, hs, hr, h0, cycle_over_different_cells_restores_symmetry r.1 h1 h2 h3 h4 h5⟩

/-! ## A repeated cell next to another selected cell -/

/-- C35 (failing input). The `3 x 3` maze generated with the choices `1, 0, 1, 0, ...` is
symmetric with every wall at rest. `selectCellsToRotate` with the samples `(1,0)`, `(0,0)`,
`(1,0)`, `(0,2)`, `(2,1)`, `(0,1)` accepts all six, the cell `(1,0)` twice. In
`rotateCellWalls(0)` the cell `(1,0)` finds no wall to rotate at its first occurrence; then
`(0,0)` starts its bottom wall and hides the top wall of `(1,0)`; at its second occurrence
`(1,0)` chooses its right wall, which ends the call at `theta = 92`. From then on the wall
is advanced at both occurrences, so it completes in the middle of the cycle and starts
again: after the 46 calls with index `0..45` its `theta` is 180, the maximum angle and not
the resting angle 90, although the wall state is symmetric. -/
theorem repeated_cell_ends_cycle_off_rest :
    ∃ s, runDraws (initialState 3 3) [1, 0, 1, 0, 1, 0, 1, 0, 1, 0, 1, 0, 1, 0, 1, 0, 1, 0]
        = some s ∧
      s.mazeGenerationComplete = true ∧ Symmetric 3 3 s.maze.grid ∧
      (∀ p, p ∈ cells 3 3 → fieldAt s.maze.grid p (fun c => decide c.atRest) = some true) ∧
      fieldAt s.maze.grid (1, 0) (fun c => selectRandomWallToRotate s.maze.grid c)
        = some none ∧
      ∃ r, selectCellsToRotate 3 s.maze [(1, 0), (0, 0), (1, 0), (0, 2), (2, 1), (0, 1)]
          = some r ∧
        r.1.cellsToRotate = [(1, 0), (0, 0), (1, 0), (0, 2), (2, 1), (0, 1)] ∧
        (∃ m1, rotateTicks 1 r.1 = some m1 ∧
          fieldAt m1.grid (1, 0) (fun c => (c.wallToRotate, (c.wall 1).theta))
            = some (some 1, 92)) ∧
        ∃ m', rotateTicks 46 r.1 = some m' ∧ Symmetric 3 3 m'.grid ∧
          fieldAt m'.grid (1, 0) (fun c => ((c.wall 1).theta, (c.wall 1).maxTheta))
            = some (180, 180) ∧
          restTheta 1 = 90 ∧
          fieldAt m'.grid (1, 0) (fun c => decide c.atRest) = some false := by
  have h0 : ∃ s, runDraws (initialState 3 3)
        [1, 0, 1, 0, 1, 0, 1, 0, 1, 0, 1, 0, 1, 0, 1, 0, 1, 0] = some s ∧
      s.mazeGenerationComplete = true ∧ Symmetric 3 3 s.maze.grid ∧
      (∀ p, p ∈ cells 3 3 → fieldAt s.maze.grid p (fun c => decide c.atRest) = some true) ∧
      fieldAt s.maze.grid (1, 0) (fun c => selectRandomWallToRotate s.maze.grid c)
        = some none := by decide
  obtain ⟨s, hs, a1, a2, a3, a4⟩ := h0
  have h1 : ∃ s, runDraws (initialState 3 3)
        [1, 0, 1, 0, 1, 0, 1, 0, 1, 0, 1, 0, 1, 0, 1, 0, 1, 0] = some s ∧
      ∃ r, selectCellsToRotate 3 s.maze [(1, 0), (0, 0), (1, 0), (0, 2), (2, 1), (0, 1)]
          = some r ∧
        r.1.cellsToRotate = [(1, 0), (0, 0), (1, 0), (0, 2), (2, 1), (0, 1)] := by decide
  obtain ⟨s', hs', r, hr, b1⟩ := h1
  rw [hs] at hs'
  cases Option.some.inj hs'
  have h2 : ∃ s, runDraws (initialState 3 3)
        [1, 0, 1, 0, 1, 0, 1, 0, 1, 0, 1, 0, 1, 0, 1, 0, 1, 0] = some s ∧
      ∃ r, selectCellsToRotate 3 s.maze [(1, 0), (0, 0), (1, 0), (0, 2), (2, 1), (0, 1)]
          = some r ∧
        ∃ m1, rotateTicks 1 r.1 = some m1 ∧
          fieldAt m1.grid (1, 0) (fun c => (c.wallToRotate, (c.wall 1).theta))
            = some (some 1, 92) := by decide
  obtain ⟨s', hs', r', hr', c1⟩ := h2
  rw [hs] at hs'
  cases Option.some.inj hs'
  rw [hr] at hr'
  cases Option.some.inj hr'
  have h3 : ∃ s, runDraws (initialState 3 3)
        [1, 0, 1, 0, 1, 0, 1, 0, 1, 0, 1, 0, 1, 0, 1, 0, 1, 0] = some s ∧
      ∃ r, selectCellsToRotate 3 s.maze [(1, 0), (0, 0), (1, 0), (0, 2), (2, 1), (0, 1)]
          = some r ∧
        ∃ m', rotateTicks 46 r.1 = some m' ∧ Symmetric 3 3 m'.grid ∧
          fieldAt m'.grid (1, 0) (fun c => ((c.wall 1).theta, (c.wall 1).maxTheta))
            = some (180, 180) ∧
          restTheta 1 = 90 ∧
          fieldAt m'.grid (1, 0) (fun c => decide c.atRest) = some false := by decide
  obtain ⟨s', hs', r', hr', d1⟩ := h3
  rw [hs] at hs'
  cases Option.some.inj hs'
  rw [hr] at hr'
  cases Option.some.inj hr'
  exact ⟨s, hs, a1, a2, a3, a4, r, hr, b1, c1, d1⟩

/-! ## The cycle of a selected cell without selected neighbours, within any selection -/

/-- One run of the `forEach` body for the cell at `q` on a well-formed square grid, with what
it leaves alone: every wall of another cell `x` whose neighbour behind that wall is not `q`.
A wall pair is written only by the two cells that share it. -/
theorem rotateCell_slot {n : Nat} {g : Grid} (hg : GridOK n n g) {q : Ref} {cq : Cell}
    (hq : cellAt g q = some cq) (index : Nat)
    (hv : index ≠ 0 → validWall n q cq.wallToRotate) :
    ∃ g', rotateCell index g q = some g' ∧ GridOK n n g' ∧
      cellAt g' q = some (ownStep g index cq) ∧
      (∀ x, x ≠ q → cellAt g' x = (cellAt g x).map (nbrEffect n q (chosen g index cq) x)) ∧
      ∀ x v, v < 4 → x ≠ q → nbrRef x v ≠ q → shownAt g' x v = shownAt g x v := by
  obtain ⟨g', hrot, hok, hown, hoth⟩ := rotateCell_spec hg hq index hv
  obtain ⟨hvalid, -⟩ := chosen_valid hg hq hv
  refine ⟨g', hrot, hok, hown, hoth, ?_⟩
  intro x v hv4 hx hn
  unfold shownAt fieldAt
  rw [hoth x hx]
  cases hd : cellAt g x with
  | none => rfl
  | some d =>
    show some ((nbrEffect n q (chosen g index cq) x d).wall v).isShown = some (d.wall v).isShown
    unfold nbrEffect
    cases hw : (chosen g index cq).wallToRotate with
    | none => rfl
    | some w =>
      simp only
      by_cases h4 : w < 4
      · have hnb := hvalid w hw h4
        obtain ⟨hi4, -⟩ := intoWall_lt h4
        rw [if_pos h4]
        by_cases e1 : x = nbrRef q w
        · rw [if_pos e1, setShown_wall (facingWall_lt h4).1 hv4]
          by_cases e2 : v = facingWall w
          · exfalso
            apply hn
            rw [e1, e2]
            exact nbrRef_invol h4 hnb
          · rw [if_neg e2]
        · rw [if_neg e1]
          split
          · rename_i hh
            rw [setShown_wall (facingWall_lt hi4).1 hv4]
            by_cases e2 : v = facingWall (intoWall w)
            · exfalso
              apply hn
              rw [hh.2.1, e2]
              exact nbrRef_invol hi4 hh.2.2
            · rw [if_neg e2]
          · rfl
      · rw [if_neg h4]
        rfl

/-- One tick over any selection, followed at the four walls that face a cell `p` which is
selected at most once and has no selected neighbour: on the neighbour behind wall `u` of `p`
the copy of that wall is changed by the run of `p` only. In the tick `index` of the rotation
of wall `w` of `p`, the copy of `w` is hidden, and in tick 45 the copy of the wall rotated
into is shown. -/
theorem rotateCells_facing {n : Nat} (index : Nat) (hidx : index ≤ 45) {p : Ref}
    (hpin : inGrid n n p) {w : Nat} (hw : w < 4) (c cp : Cell)
    (hth : (c.wall w).theta = restTheta w) (hmax : (c.wall w).maxTheta = restTheta w + 90)
    {u : Nat} (hu : u < 4) (hnbu : hasNbr n p u) (l : List Ref) :
    ∀ {g : Grid}, GridOK n n g → (∀ y, y ∈ l → inGrid n n y) →
      (index ≠ 0 → ∀ y, y ∈ l → ∀ cy, cellAt g y = some cy → validWall n y cy.wallToRotate) →
      (∀ y, y ∈ l → ¬ adjacent y p) → l.count p ≤ 1 →
      (p ∈ l → cellAt g p = some cp ∧ chosen g index cp = Cell.turned w index c) →
      ∃ g', rotateCells index l g = some g' ∧
        shownAt g' (nbrRef p u) (facingWall u) =
          if p ∈ l then
            (if u = w then some false
              else if index = 45 ∧ u = intoWall w then some true
              else shownAt g (nbrRef p u) (facingWall u))
          else shownAt g (nbrRef p u) (facingWall u) := by
  have hxin : inGrid n n (nbrRef p u) := nbrRef_inGrid hpin hnbu
  have hxne : nbrRef p u ≠ p := nbrRef_ne_self hnbu
  have hback : nbrRef (nbrRef p u) (facingWall u) = p := nbrRef_invol hu hnbu
  have hfu := facingWall_lt hu
  obtain ⟨hi4, -⟩ := intoWall_lt hw
  induction l with
  | nil =>
    intro g _ _ _ _ _ _
    exact ⟨g, rfl, by rw [if_neg (List.not_mem_nil p)]⟩
  | cons q ps ih =>
    intro g hg hin hval hiso hcnt hp
    obtain ⟨cq, hq0, -, -⟩ := hg.cellAt_some (hin q (List.mem_cons_self _ _)).1
      (hin q (List.mem_cons_self _ _)).2
    have hq : cellAt g q = some cq := hq0
    have hvq : index ≠ 0 → validWall n q cq.wallToRotate :=
      fun h0 => hval h0 q (List.mem_cons_self _ _) cq hq
    obtain ⟨g1, hrot, hok1, hown, hoth, hslot⟩ := rotateCell_slot hg hq index hvq
    obtain ⟨hvalid, -⟩ := chosen_valid hg hq hvq
    -- the walls set to rotate still have a neighbour behind them
    have hval1 : index ≠ 0 → ∀ y, y ∈ ps → ∀ cy, cellAt g1 y = some cy →
        validWall n y cy.wallToRotate := by
      intro h0 y hy cy hcy
      by_cases e : y = q
      · subst e
        rw [hown] at hcy
        cases Option.some.inj hcy
        rw [ownStep_wallToRotate g h0]
        exact hvq h0
      · rw [hoth y e] at hcy
        cases hd : cellAt g y with
        | none => rw [hd] at hcy; cases hcy
        | some d =>
          rw [hd] at hcy
          cases Option.some.inj hcy
          rw [nbrEffect_wallToRotate]
          exact hval h0 y (List.mem_cons_of_mem _ hy) d hd
    have hlen : g1.length = g.length := by rw [hok1.1, hg.1]
    have hrun : ∀ g', rotateCells index ps g1 = some g' →
        rotateCells index (q :: ps) g = some g' := by
      intro g' h
      simp only [rotateCells, hrot, h]
    by_cases e : q = p
    · subst e
      have hnot : q ∉ ps := by
        intro hmem
        have h1 : 0 < ps.count q := List.count_pos_iff.mpr hmem
        rw [List.count_cons_self] at hcnt
        omega
      obtain ⟨hcp, hch⟩ := hp (List.mem_cons_self _ _)
      rw [hq] at hcp
      cases Option.some.inj hcp
      obtain ⟨g', hrot', hs'⟩ := ih hok1 (fun y hy => hin y (List.mem_cons_of_mem _ hy)) hval1
        (fun y hy => hiso y (List.mem_cons_of_mem _ hy))
        (by have h0 : ps.count q = 0 := List.count_eq_zero_of_not_mem hnot
            omega)
        (fun h => absurd h hnot)
      refine ⟨g', hrun g' hrot', ?_⟩
      rw [hs', if_neg hnot, if_pos (List.mem_cons_self _ _)]
      obtain ⟨d, hd0, -, -⟩ := hg.cellAt_some hxin.1 hxin.2
      have hd : cellAt g (nbrRef q u) = some d := hd0
      have hold : shownAt g (nbrRef q u) (facingWall u) = some (d.wall (facingWall u)).isShown := by
        unfold shownAt fieldAt; rw [hd]; rfl
      have hnew : shownAt g1 (nbrRef q u) (facingWall u)
          = some ((nbrEffect n q (Cell.turned w index c) (nbrRef q u) d).wall
              (facingWall u)).isShown := by
        unfold shownAt fieldAt
        rw [hoth _ hxne, hd, hch]
        rfl
      rw [hnew, nbrEffect_turned hw, hold]
      by_cases e1 : u = w
      · subst e1
        rw [if_pos rfl, if_pos rfl, setShown_wall hfu.1 hfu.1, if_pos rfl]
      · have n1 : nbrRef q u ≠ nbrRef q w := fun hh => e1 (nbrRef_inj hu hw hpin hnbu hh)
        rw [if_neg n1, if_neg e1]
        by_cases e2 : index = 45 ∧ u = intoWall w
        · obtain ⟨e45, rfl⟩ := e2
          have hdone : ¬ (c.wall w).theta + 2 * index < (c.wall w).maxTheta := by
            rw [hth, hmax, e45]; omega
          rw [if_pos ⟨hdone, rfl, hnbu⟩, if_pos ⟨e45, rfl⟩,
            setShown_wall hfu.1 hfu.1, if_pos rfl]
        · rw [if_neg e2]
          have n2 : ¬ (¬ (c.wall w).theta + 2 * index < (c.wall w).maxTheta ∧
              nbrRef q u = nbrRef q (intoWall w) ∧ hasNbr n q (intoWall w)) := by
            rintro ⟨h1, h2, -⟩
            apply e2
            refine ⟨?_, nbrRef_inj hu hi4 hpin hnbu h2⟩
            rw [hth, hmax] at h1
            omega
          rw [if_neg n2]
          rfl
    · have hqp : ¬ adjacent q p := hiso q (List.mem_cons_self _ _)
      have hmem : p ∈ q :: ps ↔ p ∈ ps := by
        rw [List.mem_cons]
        constructor
        · rintro (h | h)
          · exact absurd h.symm e
          · exact h
        · exact Or.inr
      have hp1 : p ∈ ps → cellAt g1 p = some cp ∧ chosen g1 index cp = Cell.turned w index c := by
        intro hps
        obtain ⟨hcp, hch⟩ := hp (hmem.mpr hps)
        constructor
        · rw [hoth p (fun h => e h.symm), hcp, nbrEffect_far hvalid hqp]
          rfl
        · rw [← hch]
          unfold chosen
          rw [select_length hlen]
      obtain ⟨g', hrot', hs'⟩ := ih hok1 (fun y hy => hin y (List.mem_cons_of_mem _ hy)) hval1
        (fun y hy => hiso y (List.mem_cons_of_mem _ hy))
        (by rw [List.count_cons] at hcnt; omega) hp1
      refine ⟨g', hrun g' hrot', ?_⟩
      have hkeep : shownAt g1 (nbrRef p u) (facingWall u)
          = shownAt g (nbrRef p u) (facingWall u) := by
        apply hslot _ _ hfu.1
        · intro hh
          apply hqp
          rw [← hh]
          exact adjacent_symm (nbrRef_adjacent hnbu)
        · rw [hback]
          exact fun h => e h.symm
      rw [hs', hkeep]
      by_cases hps : p ∈ ps
      · rw [if_pos hps, if_pos (hmem.mpr hps)]
      · rw [if_neg hps, if_neg (fun h => hps (hmem.mp h))]

/-- One tick over any selection leaves alone every wall of an unselected cell whose neighbour
behind that wall is unselected too. -/
theorem rotateCells_elsewhere {n : Nat} (index : Nat) (l : List Ref) :
    ∀ {g : Grid}, GridOK n n g → (∀ y, y ∈ l → inGrid n n y) →
      (index ≠ 0 → ∀ y, y ∈ l → ∀ cy, cellAt g y = some cy → validWall n y cy.wallToRotate) →
      ∃ g', rotateCells index l g = some g' ∧
        ∀ x v, v < 4 → x ∉ l → nbrRef x v ∉ l → shownAt g' x v = shownAt g x v := by
  induction l with
  | nil =>
    intro g _ _ _
    exact ⟨g, rfl, fun _ _ _ _ _ => rfl⟩
  | cons q ps ih =>
    intro g hg hin hval
    obtain ⟨cq, hq0, -, -⟩ := hg.cellAt_some (hin q (List.mem_cons_self _ _)).1
      (hin q (List.mem_cons_self _ _)).2
    have hq : cellAt g q = some cq := hq0
    have hvq : index ≠ 0 → validWall n q cq.wallToRotate :=
      fun h0 => hval h0 q (List.mem_cons_self _ _) cq hq
    obtain ⟨g1, hrot, hok1, hown, hoth, hslot⟩ := rotateCell_slot hg hq index hvq
    have hval1 : index ≠ 0 → ∀ y, y ∈ ps → ∀ cy, cellAt g1 y = some cy →
        validWall n y cy.wallToRotate := by
      intro h0 y hy cy hcy
      by_cases e : y = q
      · subst e
        rw [hown] at hcy
        cases Option.some.inj hcy
        rw [ownStep_wallToRotate g h0]
        exact hvq h0
      · rw [hoth y e] at hcy
        cases hd : cellAt g y with
        | none => rw [hd] at hcy; cases hcy
        | some d =>
          rw [hd] at hcy
          cases Option.some.inj hcy
          rw [nbrEffect_wallToRotate]
          exact hval h0 y (List.mem_cons_of_mem _ hy) d hd
    obtain ⟨g', hrot', hs'⟩ := ih hok1 (fun y hy => hin y (List.mem_cons_of_mem _ hy)) hval1
    refine ⟨g', by simp only [rotateCells, hrot, hrot'], ?_⟩
    intro x v hv hx hn
    rw [hs' x v hv (fun h => hx (List.mem_cons_of_mem _ h))
      (fun h => hn (List.mem_cons_of_mem _ h))]
    exact hslot x v hv (fun h => hx (by rw [h]; exact List.mem_cons_self _ _))
      (fun h => hn (by rw [h]; exact List.mem_cons_self _ _))

/-- Any number of ticks over any selection leaves alone every wall of an unselected cell whose
neighbour behind that wall is unselected too. -/
theorem rotateTicks_elsewhere {n : Nat} (m : Maze) (hg : GridOK n n m.grid)
    (hin : ∀ y, y ∈ m.cellsToRotate → inGrid n n y) (k : Nat) :
    ∃ m', rotateTicks k m = some m' ∧
      ∀ x v, v < 4 → x ∉ m.cellsToRotate → nbrRef x v ∉ m.cellsToRotate →
        shownAt m'.grid x v = shownAt m.grid x v := by
  induction k with
  | zero => exact ⟨m, rfl, fun _ _ _ _ _ => rfl⟩
  | succ k ih =>
    obtain ⟨m1, hrun1, hs1⟩ := ih
    obtain ⟨m1', hrun1', hm1, hok1, hval1, -⟩ := rotateTicks_spec m hg hin k
    rw [hrun1] at hrun1'
    cases Option.some.inj hrun1'
    have hsel1 : m1.cellsToRotate = m.cellsToRotate := by rw [hm1]
    obtain ⟨g', hrot, hs'⟩ := rotateCells_elsewhere k m.cellsToRotate hok1 hin
      (fun h0 y hy cy hcy => hval1 h0 y hy cy hcy)
    refine ⟨{ m1 with grid := g' }, ?_, ?_⟩
    · rw [rotateTicks_succ, hrun1]
      simp only [rotateCellWalls, hsel1, hrot]
    · intro x v hv hx hn
      show shownAt g' x v = _
      rw [hs' x v hv hx hn, hs1 x v hv hx hn]

/-- The calls of a cycle over any selection, followed at the walls that face a cell `p` which
is selected once, has no selected neighbour and rotates its wall `w` from rest: after
`k >= 1` calls the neighbour behind `w` has lost its copy of `w`, after all 46 calls the
neighbour on the side rotated into has gained its copy, and the copies on the other sides
are as before. -/
theorem rotateTicks_facing {n : Nat} (m : Maze) (hg : GridOK n n m.grid)
    (hin : ∀ y, y ∈ m.cellsToRotate → inGrid n n y) (p : Ref)
    (hcount : m.cellsToRotate.count p = 1)
    (hfar : ∀ y, y ∈ m.cellsToRotate → ¬ adjacent y p)
    (c : Cell) (hc : cellAt m.grid p = some c) (w : Nat)
    (hsel : selectRandomWallToRotate m.grid c = some w)
    (hth : (c.wall w).theta = restTheta w) (hmax : (c.wall w).maxTheta = restTheta w + 90)
    {u : Nat} (hu : u < 4) (hnbu : hasNbr n p u) :
    ∀ k, k ≤ 46 → ∃ m', rotateTicks k m = some m' ∧
      shownAt m'.grid (nbrRef p u) (facingWall u) =
        if k ≠ 0 ∧ u = w then some false
        else if k = 46 ∧ u = intoWall w then some true
        else shownAt m.grid (nbrRef p u) (facingWall u) := by
  obtain ⟨hw, -, -⟩ := select_flags hsel
  obtain ⟨hp1, hp2, -, -⟩ := hg.cellAt_bound hc
  obtain ⟨hadv, -⟩ := ownTicks_once m.grid hsel hth hmax
  have hmem : p ∈ m.cellsToRotate := List.count_pos_iff.mp (by omega)
  intro k
  induction k with
  | zero =>
    intro _
    exact ⟨m, rfl, by rw [if_neg (fun h => h.1 rfl), if_neg (fun h => by omega)]⟩
  | succ k ih =>
    intro hk
    obtain ⟨m1, hrun1, hs1⟩ := ih (by omega)
    obtain ⟨m1', hrun1', hm1, hok1, hval1, htrack⟩ := rotateTicks_spec m hg hin k
    rw [hrun1] at hrun1'
    cases Option.some.inj hrun1'
    have hcell := htrack p c hc hfar
    rw [hcount] at hcell
    have hsel1 : m1.cellsToRotate = m.cellsToRotate := by rw [hm1]
    have hlen : m1.grid.length = m.grid.length := by rw [hok1.1, hg.1]
    have hch : chosen m1.grid k (ownTicks m.grid 1 k c) = Cell.turned w k c := by
      unfold chosen
      by_cases hk0 : k = 0
      · subst hk0
        rw [if_pos rfl, select_length hlen]
        show Cell.setIsRotating true
          (Cell.setWallToRotate (selectRandomWallToRotate m.grid c) c) = _
        rw [hsel]; rfl
      · rw [if_neg hk0, hadv k (by omega) (by omega)]
    obtain ⟨g', hrot, hs'⟩ := rotateCells_facing k (by omega) ⟨hp1, hp2⟩ hw c
      (ownTicks m.grid 1 k c) hth hmax hu hnbu m.cellsToRotate hok1 hin
      (fun h0 y hy cy hcy => hval1 h0 y hy cy hcy) hfar (by omega)
      (fun _ => ⟨hcell, hch⟩)
    refine ⟨{ m1 with grid := g' }, ?_, ?_⟩
    · rw [rotateTicks_succ, hrun1]
      simp only [rotateCellWalls, hsel1, hrot]
    · show shownAt g' (nbrRef p u) (facingWall u) = _
      rw [hs', if_pos hmem, hs1]
      have hk46 : k ≠ 46 := by omega
      by_cases e1 : u = w
      · simp [e1]
      · by_cases e2 : u = intoWall w
        · by_cases e3 : k = 45
          · simp [e1, e2, e3]
          · have e4 : k + 1 ≠ 46 := by omega
            simp [e1, e3, e4, hk46]
        · simp [e1, e2]

/-! ## A scramble cycle moves passages -/

/-- A complete cycle over any selection of cells of a well-formed square grid: no call raises
a TypeError; the passages between two unselected cells are as they were; and at a cell `p`
that is selected once, has no selected neighbour and rotates its wall `w` from rest, the
passage behind `w` is open, the wall on the side rotated into is shown, and the passages on
the other two sides are as they were. -/
theorem cycle_moves_passages {n : Nat} (m : Maze)
    (hg : GridOK n n m.grid) (hin : ∀ y, y ∈ m.cellsToRotate → inGrid n n y) :
    ∃ m', rotateTicks 46 m = some m' ∧
      (∀ x y, x ∉ m.cellsToRotate → y ∉ m.cellsToRotate →
        (passage m'.grid x y ↔ passage m.grid x y)) ∧
      ∀ p, m.cellsToRotate.count p = 1 → (∀ y, y ∈ m.cellsToRotate → ¬ adjacent y p) →
        ∀ c, cellAt m.grid p = some c → ∀ w, selectRandomWallToRotate m.grid c = some w →
          (c.wall w).theta = restTheta w → (c.wall w).maxTheta = restTheta w + 90 →
            passage m'.grid p (nbrRef p w) ∧
            shownAt m'.grid p (intoWall w) = some true ∧
            ¬ passage m'.grid p (nbrRef p (intoWall w)) ∧
            ∀ u, u < 4 → u ≠ w → u ≠ intoWall w →
              (passage m'.grid p (nbrRef p u) ↔ passage m.grid p (nbrRef p u)) := by
  obtain ⟨m', hrun, -, hok', -, htrack⟩ := rotateTicks_spec m hg hin 46
  refine ⟨m', hrun, ?_, ?_⟩
  · obtain ⟨m'', hrun', hkeep⟩ := rotateTicks_elsewhere m hg hin 46
    rw [hrun] at hrun'
    cases Option.some.inj hrun'
    intro x y hx hy
    rw [passage_iff_shownAt hok', passage_iff_shownAt hg]
    have hside : ∀ v, v < 4 → hasNbr n x v → y = nbrRef x v →
        shownAt m'.grid x v = shownAt m.grid x v ∧
        shownAt m'.grid y (facingWall v) = shownAt m.grid y (facingWall v) := by
      intro v hv hnb e
      constructor
      · exact hkeep x v hv hx (by rw [← e]; exact hy)
      · apply hkeep y _ (facingWall_lt hv).1 hy
        rw [e, nbrRef_invol hv hnb]
        exact hx
    constructor
    · rintro ⟨v, hv, hxin, hnb, e, h3, h4⟩
      obtain ⟨e3, e4⟩ := hside v hv hnb e
      exact ⟨v, hv, hxin, hnb, e, e3 ▸ h3, e4 ▸ h4⟩
    · rintro ⟨v, hv, hxin, hnb, e, h3, h4⟩
      obtain ⟨e3, e4⟩ := hside v hv hnb e
      exact ⟨v, hv, hxin, hnb, e, e3.symm ▸ h3, e4.symm ▸ h4⟩
  intro p hcount hfar c hc w hsel hth hmax
  obtain ⟨hw4, hnb, -, -⟩ := select_valid hg hc hsel
  obtain ⟨hi4, hine⟩ := intoWall_lt hw4
  obtain ⟨hp1, hp2, -, -⟩ := hg.cellAt_bound hc
  have hpin : inGrid n n p := ⟨hp1, hp2⟩
  obtain ⟨-, hfin⟩ := ownTicks_once m.grid hsel hth hmax
  have hcell := htrack p c hc hfar
  rw [hcount, hfin] at hcell
  -- the walls of `p` itself after the cycle
  have hown : ∀ v, v < 4 → shownAt m'.grid p v =
      if v = w then some false else if v = intoWall w then some true
      else shownAt m.grid p v := by
    intro v hv
    unfold shownAt fieldAt
    rw [hcell, hc]
    show some ((Cell.completed w c).wall v).isShown = _
    rw [completed_wall hw4 hv]
    by_cases e1 : v = w
    · rw [if_pos e1, if_pos e1]
    · rw [if_neg e1, if_neg e1]
      by_cases e2 : v = intoWall w
      · rw [if_pos e2, if_pos e2]
      · rw [if_neg e2, if_neg e2]
        rfl
  -- the copies kept by the neighbours
  have hfacing : ∀ u, u < 4 → hasNbr n p u →
      shownAt m'.grid (nbrRef p u) (facingWall u) =
        if u = w then some false else if u = intoWall w then some true
        else shownAt m.grid (nbrRef p u) (facingWall u) := by
    intro u hu hnbu
    obtain ⟨m'', hrun', hs⟩ := rotateTicks_facing m hg hin p hcount hfar c hc w hsel hth hmax
      hu hnbu 46 (Nat.le_refl 46)
    rw [hrun] at hrun'
    cases Option.some.inj hrun'
    rw [hs]
    by_cases e1 : u = w
    · rw [if_pos ⟨by decide, e1⟩, if_pos e1]
    · rw [if_neg (fun h => e1 h.2), if_neg e1]
      by_cases e2 : u = intoWall w
      · rw [if_pos ⟨rfl, e2⟩, if_pos e2]
      · rw [if_neg (fun h => e2 h.2), if_neg e2]
  have hinto : shownAt m'.grid p (intoWall w) = some true := by
    rw [hown _ hi4, if_neg hine, if_pos rfl]
  refine ⟨?_, hinto, ?_, ?_⟩
  · rw [passage_iff_shownAt hok']
    refine ⟨w, hw4, hpin, hnb, rfl, ?_, ?_⟩
    · rw [hown w hw4, if_pos rfl]
    · rw [hfacing w hw4 hnb, if_pos rfl]
  · intro hpass
    rw [passage_iff_shownAt hok'] at hpass
    obtain ⟨v, hv, -, hvnb, e, h3, -⟩ := hpass
    have hv' : v = intoWall w := nbrRef_inj hv hi4 hpin hvnb e.symm
    subst hv'
    rw [hinto] at h3
    cases h3
  · intro u hu e1 e2
    rw [passage_iff_shownAt hok', passage_iff_shownAt hg]
    constructor
    · rintro ⟨v, hv, hx, hvnb, e, h3, h4⟩
      have hv' : v = u := nbrRef_inj hv hu hpin hvnb e.symm
      subst hv'
      rw [hown v hv, if_neg e1, if_neg e2] at h3
      rw [hfacing v hv hvnb, if_neg e1, if_neg e2] at h4
      exact ⟨v, hv, hx, hvnb, rfl, h3, h4⟩
    · rintro ⟨v, hv, hx, hvnb, e, h3, h4⟩
      have hv' : v = u := nbrRef_inj hv hu hpin hvnb e.symm
      subst hv'
      refine ⟨v, hv, hx, hvnb, rfl, ?_, ?_⟩
      · rw [hown v hv, if_neg e1, if_neg e2]; exact h3
      · rw [hfacing v hv hvnb, if_neg e1, if_neg e2]; exact h4

/-- C5 (amended). A scramble cycle moves passages at the selected cells and does not keep the
maze connected by itself. On a well-formed square grid, for every selection made by
`selectCellsToRotate` (which leaves the grid as it is and selects `2 * dimRows` cells), the
46 calls of `rotateCellWalls` (index 0..45) raise no TypeError and afterwards (1) the
passages between two cells that are both unselected are exactly as they were, and (2) for
every cell `p` that is selected once, has no selected orthogonal neighbour, and whose chosen
wall `w` starts at its resting angle: the passage between `p` and its neighbour behind wall
`w` is open, the wall of `p` on the side `w` rotates into is shown, so there is no passage
between `p` and its neighbour on that side, and the passages between `p` and its neighbours
on the other two sides are as they were. Nothing in the cycle looks at whether the cells
still reach one another. -/
theorem scramble_cycle_moves_passages_at_selected_cells {n : Nat} (m0 : Maze)
    (hg : GridOK n n m0.grid) (dimRows : Nat) (ds : List (Nat × Nat)) (m : Maze)
    (ds' : List (Nat × Nat)) (hselect : selectCellsToRotate dimRows m0 ds = some (m, ds')) :
    m.grid = m0.grid ∧ m.cellsToRotate.length = dimRows * 2 ∧
    ∃ m', rotateTicks 46 m = some m' ∧
      (∀ x y, x ∉ m.cellsToRotate → y ∉ m.cellsToRotate →
        (passage m'.grid x y ↔ passage m.grid x y)) ∧
      ∀ p, m.cellsToRotate.count p = 1 → (∀ y, y ∈ m.cellsToRotate → ¬ adjacent y p) →
        ∀ c, cellAt m.grid p = some c → ∀ w, selectRandomWallToRotate m.grid c = some w →
          (c.wall w).theta = restTheta w → (c.wall w).maxTheta = restTheta w + 90 →
            passage m'.grid p (nbrRef p w) ∧
            shownAt m'.grid p (intoWall w) = some true ∧
            ¬ passage m'.grid p (nbrRef p (intoWall w)) ∧
            ∀ u, u < 4 → u ≠ w → u ≠ intoWall w →
              (passage m'.grid p (nbrRef p u) ↔ passage m.grid p (nbrRef p u)) := by
  obtain ⟨e1, -, -, -, -, hlen, hall⟩ := selectCellsToRotate_spec hselect
  have hg' : GridOK n n m.grid := by rw [e1]; exact hg
  exact ⟨e1, hlen, cycle_moves_passages m hg'
    (fun y hy => fieldAt_some_inGrid hg' (hall y hy))⟩

theorem scramble_cycle_moves_passages_at_selected_cells_witness :
    ∃ s r, runDraws (initialState 3 3) (List.replicate 17 0) = some s ∧
      s.mazeGenerationComplete = true ∧
      selectCellsToRotate 3 s.maze ((1, 1) :: List.replicate 5 (0, 0)) = some r ∧
      r.1.cellsToRotate = (1, 1) :: List.replicate 5 (0, 0) ∧
      r.1.grid = s.maze.grid ∧ r.1.cellsToRotate.length = 3 * 2 ∧
      ∃ m', rotateTicks 46 r.1 = some m' ∧
        (∀ x y, x ∉ r.1.cellsToRotate → y ∉ r.1.cellsToRotate →
          (passage m'.grid x y ↔ passage r.1.grid x y)) ∧
        passage m'.grid (1, 1) (nbrRef (1, 1) 1) ∧
        shownAt m'.grid (1, 1) (intoWall 1) = some true ∧
        ¬ passage m'.grid (1, 1) (nbrRef (1, 1) (intoWall 1)) ∧
        ∀ u, u < 4 → u ≠ 1 → u ≠ intoWall 1 →
          (passage m'.grid (1, 1) (nbrRef (1, 1) u) ↔
            passage r.1.grid (1, 1) (nbrRef (1, 1) u)) := by
  have h : ∃ s, runDraws (initialState 3 3) (List.replicate 17 0) = some s ∧
      s.mazeGenerationComplete = true ∧ GridOK 3 3 s.maze.grid ∧
      ∃ r, selectCellsToRotate 3 s.maze ((1, 1) :: List.replicate 5 (0, 0)) = some r ∧
        r.1.cellsToRotate = (1, 1) :: List.replicate 5 (0, 0) ∧
        r.1.cellsToRotate.count (1, 1) = 1 ∧
        (∀ y, y ∈ r.1.cellsToRotate → ¬ adjacent y (1, 1)) ∧
        ∃ c, cellAt r.1.grid (1, 1) = some c ∧ selectRandomWallToRotate r.1.grid c = some 1 ∧
          (c.wall 1).theta = restTheta 1 ∧ (c.wall 1).maxTheta = restTheta 1 + 90 := by
    decide
  obtain ⟨s, hs, hflag, h1, r, hr, h0, h3, h4, c, hc, h5, h6, h7⟩ := h
  obtain ⟨eg, elen, m', hrun, hA, hB⟩ :=
    scramble_cycle_moves_passages_at_selected_cells s.maze h1 3
      ((1, 1) :: List.replicate 5 (0, 0)) r.1 r.2 hr
  exact ⟨s, r, hs, hflag, hr, h0, eg, elen, m', hrun, hA, hB (1, 1) h3 h4 c hc 1 h5 h6 h7⟩

end MazeGame
